import Mathlib

/-!
sakura-signals: a shallow embedding and its verified properties.

The C sources compute over `double` and `int`.  In this development

* `double` is an arbitrary linearly ordered field `F` (exact arithmetic: no
  rounding, no NaN, no infinities; `x / 0 = 0` as in every Lean field).  Every
  definition is computable and can be run at `F := ℚ`; every theorem that is
  stated for all `F` also holds at `F := ℝ`.
  Where a property depends on the rounding of `double`, the functions concerned
  are given a second time, named `..._double`, with the arithmetic as a parameter
  (`DoubleOps`: a rounding applied after every operation, `sqrt`, `log`): at
  `DoubleOps.exact` they are the functions over `F`, at `binary64` they compute
  over `ℚ` with the rounding of IEEE 754 binary64.
* the two libm functions the code calls, `sqrt` and `log`, are not part of the
  repository: they are passed in as a `Libm F` record, and a theorem assumes
  about them only what it states.  `fabs` is the absolute value of `F`.
* `int` is `Int` without overflow (the window sizes of the program are far
  below `2^31`); C's truncating `%` is `Int.tmod`.
* a pointer to a heap object is the object's value, passed in and returned;
  allocation failure is not modelled.
* a function-local `static` variable is an explicit component of the global
  state that the function receives and returns.
-/

namespace Sakura

/-- The libm functions used by the sources (`sqrt`, `log` of `<math.h>`). -/
structure Libm (F : Type) where
  sqrt : F → F
  log : F → F

/-! ## circular_buffer.c -/

/-- `CircularBuffer` of sakura_signals.h; `data` is the malloc-ed array. -/
structure CircularBuffer (F : Type) where
  data : List F
  size : Int
  capacity : Int
  head : Int
  is_full : Bool

variable {F : Type} [LinearOrderedField F]

/-- `create_circular_buffer`: an array of `capacity` cells (their initial
contents are never read through `cb_get`; they are taken to be 0). -/
def create_circular_buffer (capacity : Int) : CircularBuffer F :=
  { data := List.replicate capacity.toNat 0
    size := 0
    capacity := capacity
    head := 0
    is_full := false }

/-- `cb_size`. -/
def cb_size (cb : CircularBuffer F) : Int := cb.size

/-- `cb_push`: write at `head`, then advance `head` (and `size` until full). -/
def cb_push (cb : CircularBuffer F) (value : F) : CircularBuffer F :=
  let data := cb.data.set cb.head.toNat value
  if cb.is_full then
    { cb with data := data, head := (cb.head + 1).tmod cb.capacity }
  else
    let size := cb.size + 1
    { data := data
      size := size
      capacity := cb.capacity
      head := (cb.head + 1).tmod cb.capacity
      is_full := if size = cb.capacity then true else cb.is_full }

/-- `cb_get`: 0 for an index outside `[0, size)`, else the cell counted from
`head` once the buffer is full and from 0 before. -/
def cb_get (cb : CircularBuffer F) (index : Int) : F :=
  if index < 0 ∨ index ≥ cb_size cb then 0
  else
    let actual_index := if cb.is_full then (cb.head + index).tmod cb.capacity else index
    cb.data.getD actual_index.toNat 0

/-- The buffer after pushing `vs` in order into a fresh buffer. -/
def cb_pushes (capacity : Int) (vs : List F) : CircularBuffer F :=
  vs.foldl cb_push (create_circular_buffer capacity)

/-! ## statistics.c

The functions of this section compute in the field `F`, without rounding.
`rolling_mean_double`, `rolling_std_double`, `calculate_z_score_double`,
`calculate_correlation_double` and `linear_regression_slope_double` below are the
same functions with the rounding of `double` after every operation. -/

/-- `rolling_mean`: 0 for an empty window, else the sum of `cb_get cb i`,
`i = 0 .. size-1`, divided by `size`. -/
def rolling_mean (cb : CircularBuffer F) : F :=
  if cb_size cb = 0 then 0
  else
    let size := cb_size cb
    let sum := (List.range size.toNat).foldl (fun sum (i : Nat) => sum + cb_get cb (i : Int)) 0
    sum / (size : F)

/-- `rolling_std`: sample standard deviation (`size - 1` denominator), 0 for
`size ≤ 1`. -/
def rolling_std (M : Libm F) (cb : CircularBuffer F) : F :=
  let size := cb_size cb
  if size ≤ 1 then 0
  else
    let mean := rolling_mean cb
    let sum_sq_diff := (List.range size.toNat).foldl
      (fun sum_sq_diff (i : Nat) =>
        let diff := cb_get cb (i : Int) - mean
        sum_sq_diff + diff * diff) 0
    M.sqrt (sum_sq_diff / ((size - 1 : Int) : F))

/-- `calculate_z_score`. -/
def calculate_z_score (value mean std : F) : F :=
  if std = 0 then 0 else (value - mean) / std

/-- The loop of `calculate_correlation`: the accumulators
`(numerator, sum_sq1, sum_sq2)` after the indices of `idx`. -/
def correlation_sums (cb1 cb2 : CircularBuffer F) (mean1 mean2 : F) (idx : List Nat) :
    F × F × F :=
  idx.foldl
    (fun acc (i : Nat) =>
      let x1 := cb_get cb1 (i : Int) - mean1
      let x2 := cb_get cb2 (i : Int) - mean2
      (acc.1 + x1 * x2, acc.2.1 + x1 * x1, acc.2.2 + x2 * x2)) (0, 0, 0)

/-- `calculate_correlation`: Pearson correlation; 0 for unequal sizes, for fewer
than 2 samples and for a zero denominator. -/
def calculate_correlation (M : Libm F) (cb1 cb2 : CircularBuffer F) : F :=
  let size1 := cb_size cb1
  let size2 := cb_size cb2
  if size1 ≠ size2 ∨ size1 < 2 then 0
  else
    let n := size1
    let mean1 := rolling_mean cb1
    let mean2 := rolling_mean cb2
    let sums := correlation_sums cb1 cb2 mean1 mean2 (List.range n.toNat)
    let numerator := sums.1
    let sum_sq1 := sums.2.1
    let sum_sq2 := sums.2.2
    let denominator := M.sqrt (sum_sq1 * sum_sq2)
    if denominator = 0 then 0 else numerator / denominator

/-- `linear_regression_slope`: least-squares slope of `y` on `x`; 0 for unequal
sizes, fewer than 2 samples, or a denominator of magnitude below `1e-10`. -/
def linear_regression_slope (y x : CircularBuffer F) : F :=
  let n := cb_size x
  if n ≠ cb_size y ∨ n < 2 then 0
  else
    let sums := (List.range n.toNat).foldl
      (fun (acc : F × F × F × F) (i : Nat) =>
        let xi := cb_get x (i : Int)
        let yi := cb_get y (i : Int)
        (acc.1 + xi, acc.2.1 + yi, acc.2.2.1 + xi * yi, acc.2.2.2 + xi * xi)) (0, 0, 0, 0)
    let sum_x := sums.1
    let sum_y := sums.2.1
    let sum_xy := sums.2.2.1
    let sum_x2 := sums.2.2.2
    let denominator := (n : F) * sum_x2 - sum_x * sum_x
    if |denominator| < 1 / 10000000000 then 0
    else ((n : F) * sum_xy - sum_x * sum_y) / denominator

/-- A division that fails on a zero divisor. -/
def checked_div (a b : F) : Option F :=
  if b = 0 then none else some (a / b)

/-- `rolling_mean` with every division checked: `none` if a division by zero
is performed. -/
def rolling_mean_checked (cb : CircularBuffer F) : Option F :=
  if cb_size cb = 0 then some 0
  else
    let size := cb_size cb
    let sum := (List.range size.toNat).foldl (fun sum (i : Nat) => sum + cb_get cb (i : Int)) 0
    checked_div sum (size : F)

/-- `calculate_correlation` with every division checked (the two means and the
final quotient): `none` if a division by zero is performed. -/
def calculate_correlation_checked (M : Libm F) (cb1 cb2 : CircularBuffer F) : Option F :=
  let size1 := cb_size cb1
  let size2 := cb_size cb2
  if size1 ≠ size2 ∨ size1 < 2 then some 0
  else
    let n := size1
    (rolling_mean_checked cb1).bind fun mean1 =>
    (rolling_mean_checked cb2).bind fun mean2 =>
      let sums := correlation_sums cb1 cb2 mean1 mean2 (List.range n.toNat)
      let numerator := sums.1
      let sum_sq1 := sums.2.1
      let sum_sq2 := sums.2.2
      let denominator := M.sqrt (sum_sq1 * sum_sq2)
      if denominator = 0 then some 0 else checked_div numerator denominator

/-! ## cointegration.c

In the field `F`, without rounding; `engle_granger_test_double` below has the
rounding of `double`. -/

/-- `engle_granger_test`.  The buffer `diff_residuals` of the source is filled
but never read, so it does not appear here. -/
def engle_granger_test (M : Libm F) (y x : CircularBuffer F) : F :=
  let n := cb_size x
  if n ≠ cb_size y ∨ n < 10 then 0
  else
    let beta := linear_regression_slope y x
    let mean_x := rolling_mean x
    let mean_y := rolling_mean y
    let alpha := mean_y - beta * mean_x
    let residuals := (List.range n.toNat).foldl
      (fun residuals (i : Nat) =>
        let predicted := alpha + beta * cb_get x (i : Int)
        let residual := cb_get y (i : Int) - predicted
        cb_push residuals residual) (create_circular_buffer n)
    let mean_residual := rolling_mean residuals
    let std_residual := rolling_std M residuals
    if std_residual > 0 then mean_residual / std_residual * M.sqrt (n : F) else 0

/-! ## advanced_cointegration.c

In the field `F`, without rounding (and without NaN: `sqrt` and `log` are total);
`johansen_test_double` below has the rounding of `double` and a result for NaN. -/

/-- `johansen_test`: the simplified trace statistic of the 2x2 sample covariance
of the log returns; 0 for unequal sizes or fewer than 20 samples. -/
def johansen_test (M : Libm F) (price1 price2 : CircularBuffer F) : F :=
  let n := cb_size price1
  if n ≠ cb_size price2 ∨ n < 20 then 0
  else
    let m := (n - 1).toNat
    let ret1 := (List.range m).map (fun (i : Nat) =>
      M.log (cb_get price1 ((i : Int) + 1) / cb_get price1 (i : Int)))
    let ret2 := (List.range m).map (fun (i : Nat) =>
      M.log (cb_get price2 ((i : Int) + 1) / cb_get price2 (i : Int)))
    let sums := (List.range m).foldl
      (fun (acc : F × F) (i : Nat) => (acc.1 + ret1.getD i 0, acc.2 + ret2.getD i 0)) (0, 0)
    let mean1 := sums.1 / ((n - 1 : Int) : F)
    let mean2 := sums.2 / ((n - 1 : Int) : F)
    let cov := (List.range m).foldl
      (fun (acc : F × F × F) (i : Nat) =>
        let d1 := ret1.getD i 0 - mean1
        let d2 := ret2.getD i 0 - mean2
        (acc.1 + d1 * d1, acc.2.1 + d1 * d2, acc.2.2 + d2 * d2)) (0, 0, 0)
    let cov11 := cov.1 / ((n - 2 : Int) : F)
    let cov12 := cov.2.1 / ((n - 2 : Int) : F)
    let cov22 := cov.2.2 / ((n - 2 : Int) : F)
    let det := cov11 * cov22 - cov12 * cov12
    let trace := cov11 + cov22
    let lambda_trace := -(n : F) * M.log (1 - (trace - M.sqrt (trace * trace - 4 * det)) / 2)
    lambda_trace

/-- The loop of `threshold_cointegration_test` over `i = 1 .. n-1` (the list
holds `i - 1`): the accumulators `(sum_y, sum_x, sum_xy, sum_x2, valid_points)`. -/
def threshold_sums (spread : CircularBuffer F) (threshold : F) (idx : List Nat) :
    F × F × F × F × Int :=
  idx.foldl
    (fun (acc : F × F × F × F × Int) (j : Nat) =>
      let y := cb_get spread ((j : Int) + 1)
      let x_prev := cb_get spread (j : Int)
      if |x_prev| > threshold then
        let x := x_prev
        (acc.1 + y, acc.2.1 + x, acc.2.2.1 + x * y, acc.2.2.2.1 + x * x, acc.2.2.2.2 + 1)
      else acc) (0, 0, 0, 0, 0)

/-- `threshold_cointegration_test`: AR slope over the lags of magnitude above
`threshold`; 0 for fewer than 10 samples or fewer than 5 such lags. -/
def threshold_cointegration_test (M : Libm F) (spread : CircularBuffer F) (threshold : F) : F :=
  let n := cb_size spread
  if n < 10 then 0
  else
    let sums := threshold_sums spread threshold (List.range (n - 1).toNat)
    let sum_y := sums.1
    let sum_x := sums.2.1
    let sum_xy := sums.2.2.1
    let sum_x2 := sums.2.2.2.1
    let valid_points := sums.2.2.2.2
    if valid_points < 5 then 0
    else
      let beta := ((valid_points : F) * sum_xy - sum_x * sum_y) /
        ((valid_points : F) * sum_x2 - sum_x * sum_x)
      |beta - 1| * M.sqrt (valid_points : F)

/-- `fractional_cointegration_test`: rescaled-range (Hurst) statistic of the log
price spread; 0 for unequal sizes or fewer than 30 samples. -/
def fractional_cointegration_test (M : Libm F) (price1 price2 : CircularBuffer F) : F :=
  let n := cb_size price1
  if n ≠ cb_size price2 ∨ n < 30 then 0
  else
    let spread := (List.range n.toNat).map (fun (i : Nat) =>
      M.log (cb_get price1 (i : Int)) - M.log (cb_get price2 (i : Int)))
    let mean_spread := (List.range n.toNat).foldl
      (fun mean_spread (i : Nat) => mean_spread + spread.getD i 0) 0 / (n : F)
    let cumsum := (List.range (n - 1).toNat).foldl
      (fun (cumsum : List F) (j : Nat) =>
        cumsum ++ [cumsum.getD j 0 + (spread.getD (j + 1) 0 - mean_spread)])
      [spread.getD 0 0 - mean_spread]
    let mm := (List.range (n - 1).toNat).foldl
      (fun (acc : F × F) (j : Nat) =>
        let max_cumsum := if cumsum.getD (j + 1) 0 > acc.1 then cumsum.getD (j + 1) 0 else acc.1
        let min_cumsum := if cumsum.getD (j + 1) 0 < acc.2 then cumsum.getD (j + 1) 0 else acc.2
        (max_cumsum, min_cumsum)) (cumsum.getD 0 0, cumsum.getD 0 0)
    let range := mm.1 - mm.2
    let std_dev := (List.range n.toNat).foldl
      (fun std_dev (i : Nat) =>
        let dev := spread.getD i 0 - mean_spread
        std_dev + dev * dev) 0
    let std_dev := M.sqrt (std_dev / ((n - 1 : Int) : F))
    let rs_stat := if std_dev > 0 then range / std_dev else 0
    let hurst := if rs_stat > 0 then M.log rs_stat / M.log (n : F) else 1 / 2
    let d_param := hurst - 1 / 2
    |d_param| * M.sqrt (n : F)

/-- `error_correction_test`: slope of the first differences of `price1` on the
lagged spread; 0 for fewer than 15 samples or windows of different sizes.  The
array `diff2` of the source is filled but never read. -/
def error_correction_test (M : Libm F) (price1 price2 spread : CircularBuffer F) : F :=
  let n := cb_size spread
  if n < 15 ∨ cb_size price1 ≠ n ∨ cb_size price2 ≠ n then 0
  else
    let m := (n - 1).toNat
    let diff1 := (List.range m).map (fun (i : Nat) =>
      cb_get price1 ((i : Int) + 1) - cb_get price1 (i : Int))
    let spread_lag := (List.range m).map (fun (i : Nat) => cb_get spread (i : Int))
    let sums := (List.range m).foldl
      (fun (acc : F × F × F × F) (i : Nat) =>
        (acc.1 + diff1.getD i 0, acc.2.1 + spread_lag.getD i 0,
         acc.2.2.1 + spread_lag.getD i 0 * diff1.getD i 0,
         acc.2.2.2 + spread_lag.getD i 0 * spread_lag.getD i 0)) (0, 0, 0, 0)
    let sum_y := sums.1
    let sum_x := sums.2.1
    let sum_xy := sums.2.2.1
    let sum_x2 := sums.2.2.2
    let gamma := (((n - 1 : Int) : F) * sum_xy - sum_x * sum_y) /
      (((n - 1 : Int) : F) * sum_x2 - sum_x * sum_x)
    |gamma| * M.sqrt ((n - 1 : Int) : F)

/-! ## dynamic_hedging.c -/

/-- `calculate_dynamic_hedge_ratio`: OLS beta of the log returns over the last
`lookback` points, clamped to `[0.1, 5.0]`; 1.0 when the windows are unequal,
shorter than `lookback`, or `lookback < 5`. -/
def calculate_dynamic_hedge_ratio (M : Libm F) (price1 price2 : CircularBuffer F)
    (lookback : Int) : F :=
  let size1 := cb_size price1
  let size2 := cb_size price2
  if size1 ≠ size2 ∨ size1 < lookback ∨ lookback < 5 then 1
  else
    let start_idx := size1 - lookback
    let m := (lookback - 1).toNat
    let ret1 := (List.range m).map (fun (i : Nat) =>
      M.log (cb_get price1 (start_idx + (i : Int) + 1) / cb_get price1 (start_idx + (i : Int))))
    let ret2 := (List.range m).map (fun (i : Nat) =>
      M.log (cb_get price2 (start_idx + (i : Int) + 1) / cb_get price2 (start_idx + (i : Int))))
    let sums := (List.range m).foldl
      (fun (acc : F × F) (i : Nat) => (acc.1 + ret1.getD i 0, acc.2 + ret2.getD i 0)) (0, 0)
    let mean_ret1 := sums.1 / ((lookback - 1 : Int) : F)
    let mean_ret2 := sums.2 / ((lookback - 1 : Int) : F)
    let cv := (List.range m).foldl
      (fun (acc : F × F) (i : Nat) =>
        let dev1 := ret1.getD i 0 - mean_ret1
        let dev2 := ret2.getD i 0 - mean_ret2
        (acc.1 + dev1 * dev2, acc.2 + dev2 * dev2)) (0, 0)
    let covariance := cv.1
    let variance2 := cv.2
    let hedge_ratio := if variance2 > 1 / 100000000 then covariance / variance2 else 1
    let hedge_ratio := if hedge_ratio < 1 / 10 then 1 / 10 else hedge_ratio
    let hedge_ratio := if hedge_ratio > 5 then 5 else hedge_ratio
    hedge_ratio

/-- `calculate_half_life`: AR(1) slope `beta` of `spread[t]` on `spread[t-1]`;
for `0 < beta < 1` the value `-log 2 / log beta` clamped to `[1, 100]`, else the
default 20; 20 also for fewer than 10 samples.  The division that gives `beta` is the
one unguarded division of the sources: for a zero denominator the C quotient is NaN
or an infinity and fails `beta > 0 && beta < 1`, and so does the quotient 0 here. -/
def calculate_half_life (M : Libm F) (spread_buffer : CircularBuffer F) : F :=
  let size := cb_size spread_buffer
  if size < 10 then 20
  else
    let n := size - 1
    let sums := (List.range n.toNat).foldl
      (fun (acc : F × F × F × F) (i : Nat) =>
        let y := cb_get spread_buffer ((i : Int) + 1)
        let x := cb_get spread_buffer (i : Int)
        (acc.1 + y, acc.2.1 + x, acc.2.2.1 + x * y, acc.2.2.2 + x * x)) (0, 0, 0, 0)
    let sum_y := sums.1
    let sum_x := sums.2.1
    let sum_xy := sums.2.2.1
    let sum_x2 := sums.2.2.2
    let beta := ((n : F) * sum_xy - sum_x * sum_y) / ((n : F) * sum_x2 - sum_x * sum_x)
    if beta > 0 ∧ beta < 1 then
      let half_life := -M.log 2 / M.log beta
      let half_life := if half_life < 1 then 1 else half_life
      let half_life := if half_life > 100 then 100 else half_life
      half_life
    else 20

/-- The AR(1) slope `beta` that `calculate_half_life` fits (dynamic_hedging.c,
lines 70-84), for a window of at least 10 samples. -/
def calculate_half_life_beta (spread_buffer : CircularBuffer F) : F :=
  let size := cb_size spread_buffer
  let n := size - 1
  let sums := (List.range n.toNat).foldl
    (fun (acc : F × F × F × F) (i : Nat) =>
      let y := cb_get spread_buffer ((i : Int) + 1)
      let x := cb_get spread_buffer (i : Int)
      (acc.1 + y, acc.2.1 + x, acc.2.2.1 + x * y, acc.2.2.2 + x * x)) (0, 0, 0, 0)
  let sum_y := sums.1
  let sum_x := sums.2.1
  let sum_xy := sums.2.2.1
  let sum_x2 := sums.2.2.2
  ((n : F) * sum_xy - sum_x * sum_y) / ((n : F) * sum_x2 - sum_x * sum_x)

/-! ## transaction_costs.c -/

/-- `TransactionCosts` of sakura_signals.h. -/
structure TransactionCosts (F : Type) where
  bid_ask_spread_asset1 : F
  bid_ask_spread_asset2 : F
  market_impact_asset1 : F
  market_impact_asset2 : F
  financing_cost : F
  commission_rate : F
  position_size : F
  slippage_factor : F

/-- `PnLAnalysis` of sakura_signals.h. -/
structure PnLAnalysis (F : Type) where
  theoretical_pnl : F
  net_pnl_after_costs : F
  total_cost : F
  market_impact_cost : F
  spread_cost : F
  financing_cost : F
  is_profitable : Bool

/-- `create_transaction_costs`. -/
def create_transaction_costs (ba_spread1 ba_spread2 impact1 impact2 : F) : TransactionCosts F :=
  { bid_ask_spread_asset1 := ba_spread1
    bid_ask_spread_asset2 := ba_spread2
    market_impact_asset1 := impact1
    market_impact_asset2 := impact2
    financing_cost := 1 / 1000
    commission_rate := 5 / 10000
    position_size := 0
    slippage_factor := 2 / 10000 }

/-- `calculate_pnl_with_costs`. -/
def calculate_pnl_with_costs (M : Libm F) (theoretical_pnl : F) (costs : TransactionCosts F)
    (position_size : F) : PnLAnalysis F :=
  let spread_cost_asset1 := costs.bid_ask_spread_asset1 * position_size
  let spread_cost_asset2 := costs.bid_ask_spread_asset2 * position_size
  let spread_cost := spread_cost_asset1 + spread_cost_asset2
  let impact_cost_asset1 := costs.market_impact_asset1 * M.sqrt position_size
  let impact_cost_asset2 := costs.market_impact_asset2 * M.sqrt position_size
  let market_impact_cost := impact_cost_asset1 + impact_cost_asset2
  let financing_cost := costs.financing_cost * position_size
  let commission := costs.commission_rate * position_size * 2
  let slippage := costs.slippage_factor * position_size * 2
  let total_cost := spread_cost + market_impact_cost + financing_cost + commission + slippage
  let net_pnl_after_costs := theoretical_pnl - total_cost
  { theoretical_pnl := theoretical_pnl
    net_pnl_after_costs := net_pnl_after_costs
    total_cost := total_cost
    market_impact_cost := market_impact_cost
    spread_cost := spread_cost
    financing_cost := financing_cost
    is_profitable := decide (net_pnl_after_costs > 0) }

/-! ## risk_management.c -/

/-- `RiskManager` of sakura_signals.h. -/
structure RiskManager (F : Type) where
  target_volatility : F
  current_volatility : F
  volatility_scalar : F
  position_size : F
  max_position_limit : F
  portfolio_heat : F
  risk_per_trade : F
  sharpe_ratio : F
  max_drawdown : F
  returns_buffer : CircularBuffer F
  volatility_buffer : CircularBuffer F
  volatility_window : Int

/-- `create_risk_manager`. -/
def create_risk_manager (returns_window : Int) (target_vol : F) : RiskManager F :=
  { target_volatility := target_vol
    current_volatility := target_vol
    volatility_scalar := 1
    position_size := 0
    max_position_limit := 1000000
    portfolio_heat := 0
    risk_per_trade := 2 / 100
    sharpe_ratio := 0
    max_drawdown := 0
    returns_buffer := create_circular_buffer returns_window
    volatility_buffer := create_circular_buffer returns_window
    volatility_window := returns_window }

/-- `calculate_volatility_target_size`: the updated manager and the returned
size.  For `account_size ≤ 0` the manager is untouched and 0 is returned. -/
def calculate_volatility_target_size (manager : RiskManager F) (signal_strength account_size : F) :
    RiskManager F × F :=
  if account_size ≤ 0 then (manager, 0)
  else
    let base_position := account_size * manager.risk_per_trade
    let volatility_scalar :=
      if manager.current_volatility > 0 then
        manager.target_volatility / manager.current_volatility
      else 1
    let vol_targeted_size := base_position * volatility_scalar
    let strength_factor := |signal_strength| / 3
    let strength_factor := if strength_factor > 1 then 1 else strength_factor
    let strength_factor := if strength_factor < 1 / 10 then 1 / 10 else strength_factor
    let sized_position := vol_targeted_size * strength_factor
    let sized_position :=
      if sized_position > manager.max_position_limit then manager.max_position_limit
      else sized_position
    let sized_position :=
      if manager.portfolio_heat > 1 / 2 then sized_position * (1 - manager.portfolio_heat)
      else sized_position
    let sized_position :=
      if volatility_scalar > 5 then base_position * 5 * strength_factor
      else if volatility_scalar < 1 / 10 then base_position * (1 / 10) * strength_factor
      else sized_position
    ({ manager with volatility_scalar := volatility_scalar, position_size := sized_position },
      sized_position)

/-! ## regime_detection.c -/

/-- `RegimeDetector` of sakura_signals.h; the arrays are lists of length 3. -/
structure RegimeDetector (F : Type) where
  current_regime : Int
  regime_confidence : F
  regime_probabilities : List F
  transition_matrix : List (List F)
  volatility_buffer : CircularBuffer F
  correlation_buffer : CircularBuffer F
  last_regime_change : Int

/-- `create_regime_detector`. -/
def create_regime_detector (volatility_window : Int) : RegimeDetector F :=
  { current_regime := 0
    regime_confidence := 1
    regime_probabilities := [8 / 10, 15 / 100, 5 / 100]
    transition_matrix :=
      [[95 / 100, 4 / 100, 1 / 100],
       [60 / 100, 30 / 100, 10 / 100],
       [20 / 100, 50 / 100, 30 / 100]]
    volatility_buffer := create_circular_buffer volatility_window
    correlation_buffer := create_circular_buffer volatility_window
    last_regime_change := 0 }

/-- The function-local statics `last_price1`, `last_price2` of `update_regime`
(both initially 0). -/
structure RegimeStatics (F : Type) where
  last_price1 : F
  last_price2 : F

/-- The regime classification and evidence weight of `update_regime`
(regime_detection.c, lines 91-104): the candidate regime and the evidence. -/
def regime_evidence (vol_percentile corr_std : F) : Int × F :=
  let new_regime : Int :=
    if vol_percentile > 95 / 100 ∨ corr_std > 3 / 10 then 2
    else if vol_percentile > 80 / 100 ∨ corr_std > 15 / 100 then 1
    else 0
  let evidence : F :=
    if new_regime = 2 then vol_percentile * 2
    else if new_regime = 1 then vol_percentile * (3 / 2)
    else 1
  (new_regime, evidence)

/-- The Bayes step of `update_regime` (regime_detection.c, lines 106-137): the
transition row of the current regime times the evidence, normalised when the
total is positive, then the argmax, the change counter and the confidence. -/
def regime_posterior_step (detector : RegimeDetector F) (evidence : F) : RegimeDetector F :=
  let row := detector.transition_matrix.getD detector.current_regime.toNat []
  let new_probs := (List.range 3).map (fun (i : Nat) => row.getD i 0 * evidence)
  let total := new_probs.getD 0 0 + new_probs.getD 1 0 + new_probs.getD 2 0
  let regime_probabilities :=
    if total > 0 then (List.range 3).map (fun (i : Nat) => new_probs.getD i 0 / total)
    else detector.regime_probabilities
  let best : Int × F := ([1, 2] : List Nat).foldl
    (fun (acc : Int × F) (i : Nat) =>
      if regime_probabilities.getD i 0 > acc.2 then ((i : Int), regime_probabilities.getD i 0)
      else acc) (0, regime_probabilities.getD 0 0)
  let max_regime := best.1
  let max_prob := best.2
  let detector := { detector with regime_probabilities := regime_probabilities }
  let detector :=
    if max_regime ≠ detector.current_regime then
      { detector with last_regime_change := 0, current_regime := max_regime }
    else
      { detector with last_regime_change := detector.last_regime_change + 1 }
  { detector with regime_confidence := max_prob }

/-- `update_regime`: the new statics and the updated detector. -/
def update_regime (M : Libm F) (st : RegimeStatics F) (detector : RegimeDetector F)
    (price1 price2 correlation : F) : RegimeStatics F × RegimeDetector F :=
  let volatility_buffer :=
    if st.last_price1 > 0 ∧ st.last_price2 > 0 then
      let ret1 := M.log (price1 / st.last_price1)
      let ret2 := M.log (price2 / st.last_price2)
      let combined_vol := M.sqrt (ret1 * ret1 + ret2 * ret2)
      cb_push detector.volatility_buffer combined_vol
    else detector.volatility_buffer
  let correlation_buffer := cb_push detector.correlation_buffer correlation
  let st : RegimeStatics F := { last_price1 := price1, last_price2 := price2 }
  let detector :=
    { detector with volatility_buffer := volatility_buffer,
                    correlation_buffer := correlation_buffer }
  if cb_size detector.volatility_buffer < 10 then (st, detector)
  else
    let current_vol := rolling_mean detector.volatility_buffer
    let vol_size := cb_size detector.volatility_buffer
    let count_below : Int := (List.range vol_size.toNat).foldl
      (fun count_below (i : Nat) =>
        if cb_get detector.volatility_buffer (i : Int) < current_vol then count_below + 1
        else count_below) 0
    let vol_percentile : F := (count_below : F) / (vol_size : F)
    let corr_std := rolling_std M detector.correlation_buffer
    let evidence := (regime_evidence vol_percentile corr_std).2
    (st, regime_posterior_step detector evidence)

/-- The invariant of a detector: the transition matrix is the one written by
`create_regime_detector`, the regime is 0, 1 or 2, and the three probabilities
are non-negative and sum to 1. -/
def RegimeDetector.wf (d : RegimeDetector F) : Prop :=
  d.transition_matrix =
      [[95 / 100, 4 / 100, 1 / 100],
       [60 / 100, 30 / 100, 10 / 100],
       [20 / 100, 50 / 100, 30 / 100]] ∧
  (d.current_regime = 0 ∨ d.current_regime = 1 ∨ d.current_regime = 2) ∧
  ∃ a b c : F, d.regime_probabilities = [a, b, c] ∧ 0 ≤ a ∧ 0 ≤ b ∧ 0 ≤ c ∧ a + b + c = 1

/-- The detector and statics after a sequence of `update_regime` calls with the
ticks `(price1, price2, correlation)`. -/
def update_regime_run (M : Libm F) (st : RegimeStatics F) (detector : RegimeDetector F)
    (ticks : List (F × F × F)) : RegimeStatics F × RegimeDetector F :=
  ticks.foldl (fun s t => update_regime M s.1 s.2 t.1 t.2.1 t.2.2) (st, detector)

/-! ## signals.c: the position state machine -/

/-- `mean_reversion_signal`.  The function-local `static int current_position`
is the first argument; the result is (new value of the static, returned code). -/
def mean_reversion_signal (current_position : Int) (z_score entry_threshold exit_threshold : F) :
    Int × Int :=
  if current_position = 0 then
    if z_score > entry_threshold then (-1, -1)
    else if z_score < -entry_threshold then (1, 1)
    else (current_position, current_position)
  else if current_position = 1 then
    if z_score > -exit_threshold then (0, 0)
    else (current_position, current_position)
  else if current_position = -1 then
    if z_score < exit_threshold then (0, 0)
    else (current_position, current_position)
  else (current_position, current_position)

/-! ## signals.c and demo.c: trackers and the per-tick signal -/

/-- `AttentionLayer` of sakura_signals.h (data only). -/
structure AttentionLayer (F : Type) where
  query_weights : List (List F)
  key_weights : List (List F)
  value_weights : List (List F)
  input_dim : Int
  attention_dim : Int
  sequence_length : Int

/-- `AttentionOutput` of sakura_signals.h (data only). -/
structure AttentionOutput (F : Type) where
  attention_scores : List F
  context_vector : List F
  weighted_features : List F
  sequence_length : Int
  feature_dim : Int

/-- `PairTracker` of sakura_signals.h.  The three buffers every tracker has are
values; a pointer that may be NULL is an `Option`. -/
structure PairTracker (F : Type) where
  price_buffer1 : CircularBuffer F
  price_buffer2 : CircularBuffer F
  spread_buffer : CircularBuffer F
  hedge_ratio_buffer : Option (CircularBuffer F)
  volatility1_buffer : Option (CircularBuffer F)
  volatility2_buffer : Option (CircularBuffer F)
  temporal_attention : Option (AttentionLayer F)
  attention_cache : Option (AttentionOutput F)
  regime_detector : Option (RegimeDetector F)
  transaction_costs : TransactionCosts F
  risk_manager : Option (RiskManager F)
  mean_spread : F
  std_spread : F
  correlation : F
  attention_enhanced_zscore : F
  current_hedge_ratio : F
  dynamic_entry_threshold : F
  dynamic_exit_threshold : F
  window_size : Int
  use_attention : Bool
  use_regime_detection : Bool
  use_dynamic_hedging : Bool
  use_transaction_costs : Bool
  last_update_micro : Int

/-- `PairSignal` of sakura_signals.h (the two symbol strings are left out). -/
structure PairSignal (F : Type) where
  spread : F
  z_score : F
  correlation : F
  cointegration_stat : F
  hedge_ratio : F
  dynamic_threshold_entry : F
  dynamic_threshold_exit : F
  signal : Int
  regime : Int
  pnl_analysis : PnLAnalysis F
  position_size : F
  timestamp_micro : Int

/-- `create_pair_tracker` of demo.c.  The source sets the three buffers,
`window_size`, `mean_spread`, `std_spread`, `correlation`,
`attention_enhanced_zscore`, `use_attention`, `temporal_attention` and
`attention_cache`; the other fields of the `malloc`-ed record are indeterminate
in C and are NULL, 0 and false here. -/
def create_pair_tracker (window_size : Int) : PairTracker F :=
  { price_buffer1 := create_circular_buffer window_size
    price_buffer2 := create_circular_buffer window_size
    spread_buffer := create_circular_buffer window_size
    hedge_ratio_buffer := none
    volatility1_buffer := none
    volatility2_buffer := none
    temporal_attention := none
    attention_cache := none
    regime_detector := none
    transaction_costs :=
      { bid_ask_spread_asset1 := 0, bid_ask_spread_asset2 := 0, market_impact_asset1 := 0,
        market_impact_asset2 := 0, financing_cost := 0, commission_rate := 0,
        position_size := 0, slippage_factor := 0 }
    risk_manager := none
    mean_spread := 0
    std_spread := 0
    correlation := 0
    attention_enhanced_zscore := 0
    current_hedge_ratio := 0
    dynamic_entry_threshold := 0
    dynamic_exit_threshold := 0
    window_size := window_size
    use_attention := false
    use_regime_detection := false
    use_dynamic_hedging := false
    use_transaction_costs := false
    last_update_micro := 0 }

/-- The zero-initialised `PairSignal signal = {0}`. -/
def PairSignal.zero : PairSignal F :=
  { spread := 0, z_score := 0, correlation := 0, cointegration_stat := 0, hedge_ratio := 0,
    dynamic_threshold_entry := 0, dynamic_threshold_exit := 0, signal := 0, regime := 0,
    pnl_analysis :=
      { theoretical_pnl := 0, net_pnl_after_costs := 0, total_cost := 0,
        market_impact_cost := 0, spread_cost := 0, financing_cost := 0, is_profitable := false }
    position_size := 0, timestamp_micro := 0 }

/-- `generate_pairs_signal`.  The first argument is the `static`
`current_position` of `mean_reversion_signal`, the only place where a held
position is stored; the result is its new value, the updated tracker and the
signal record. -/
def generate_pairs_signal (M : Libm F) (current_position : Int) (tracker : PairTracker F)
    (current_price1 current_price2 : F) : Int × PairTracker F × PairSignal F :=
  let price_buffer1 := cb_push tracker.price_buffer1 current_price1
  let price_buffer2 := cb_push tracker.price_buffer2 current_price2
  let current_spread := M.log current_price1 - M.log current_price2
  let spread_buffer := cb_push tracker.spread_buffer current_spread
  let mean_spread := rolling_mean spread_buffer
  let std_spread := rolling_std M spread_buffer
  let correlation := calculate_correlation M price_buffer1 price_buffer2
  let z_score := calculate_z_score current_spread mean_spread std_spread
  let r := mean_reversion_signal current_position z_score 2 (1 / 2)
  let trade_signal := r.2
  let cointegration_stat :=
    if cb_size price_buffer1 ≥ 20 then engle_granger_test M price_buffer1 price_buffer2 else 0
  (r.1,
   { tracker with price_buffer1 := price_buffer1, price_buffer2 := price_buffer2,
                  spread_buffer := spread_buffer, mean_spread := mean_spread,
                  std_spread := std_spread, correlation := correlation },
   { (PairSignal.zero : PairSignal F) with
       spread := current_spread, z_score := z_score, correlation := correlation,
       signal := trade_signal, cointegration_stat := cointegration_stat })

/-- A sequence of `generate_pairs_signal` calls on one tracker, in program order:
the static position is threaded from call to call; the result is its final
value, the final tracker and the signal codes returned, oldest first. -/
def generate_pairs_signal_run (M : Libm F) (current_position : Int) (tracker : PairTracker F)
    (ticks : List (F × F)) : Int × PairTracker F × List Int :=
  ticks.foldl
    (fun s t =>
      let r := generate_pairs_signal M s.1 s.2.1 t.1 t.2
      (r.1, r.2.1, s.2.2 ++ [r.2.2.signal]))
    (current_position, tracker, [])

/-! ## cointegration.c: the decision rule -/

/-- `test_cointegration`: reject the null iff the statistic is below the
critical value. -/
def test_cointegration (test_stat critical_value : F) : Bool :=
  decide (test_stat < critical_value)

/-! ## regime_detection.c: the parts of `update_regime` by name -/

/-- The detector after the two pushes of `update_regime` (regime_detection.c,
lines 58-70): the combined volatility when both last prices are positive, and
the correlation. -/
def regime_push_buffers (M : Libm F) (st : RegimeStatics F) (detector : RegimeDetector F)
    (price1 price2 correlation : F) : RegimeDetector F :=
  { detector with
    volatility_buffer :=
      if st.last_price1 > 0 ∧ st.last_price2 > 0 then
        cb_push detector.volatility_buffer
          (M.sqrt (M.log (price1 / st.last_price1) * M.log (price1 / st.last_price1) +
            M.log (price2 / st.last_price2) * M.log (price2 / st.last_price2)))
      else detector.volatility_buffer
    correlation_buffer := cb_push detector.correlation_buffer correlation }

/-- The percentile rank computed by `update_regime` (regime_detection.c, lines
75-86): the share of buffered volatilities strictly below their mean. -/
def regime_vol_percentile (volatility_buffer : CircularBuffer F) : F :=
  let current_vol := rolling_mean volatility_buffer
  let vol_size := cb_size volatility_buffer
  let count_below : Int := (List.range vol_size.toNat).foldl
    (fun count_below (i : Nat) =>
      if cb_get volatility_buffer (i : Int) < current_vol then count_below + 1
      else count_below) 0
  (count_below : F) / (vol_size : F)

/-! ## simd_optimizations.c

In the field `F`, without rounding; `simd_rolling_mean_double`,
`simd_rolling_std_double` and `simd_correlation_double` below have the rounding of
`double` in each lane. -/

/-- `simd_rolling_mean`.  `avx` tells whether the file is compiled with AVX2
(`SIMD_AVAILABLE`): then, for `size ≥ 4`, four lanes accumulate the elements
`4b, 4b+1, 4b+2, 4b+3` of each full block, the lanes are added, and the
remaining elements are added one by one. -/
def simd_rolling_mean (avx : Bool) (data : List F) (size : Int) : F :=
  if size ≤ 0 then 0
  else if avx = true ∧ size ≥ 4 then
    let blocks := size.toNat / 4
    let sum_vec := (List.range blocks).foldl
      (fun (v : F × F × F × F) (b : Nat) =>
        (v.1 + data.getD (4 * b) 0, v.2.1 + data.getD (4 * b + 1) 0,
         v.2.2.1 + data.getD (4 * b + 2) 0, v.2.2.2 + data.getD (4 * b + 3) 0)) (0, 0, 0, 0)
    let sum := sum_vec.1 + sum_vec.2.1 + sum_vec.2.2.1 + sum_vec.2.2.2
    let sum := (List.range (size.toNat - 4 * blocks)).foldl
      (fun sum (j : Nat) => sum + data.getD (4 * blocks + j) 0) sum
    sum / (size : F)
  else
    let sum := (List.range size.toNat).foldl (fun sum (i : Nat) => sum + data.getD i 0) 0
    sum / (size : F)

/-- `simd_rolling_std`. -/
def simd_rolling_std (avx : Bool) (M : Libm F) (data : List F) (size : Int) : F :=
  if size ≤ 1 then 0
  else
    let mean := simd_rolling_mean avx data size
    if avx = true ∧ size ≥ 4 then
      let blocks := size.toNat / 4
      let sum_sq_vec := (List.range blocks).foldl
        (fun (v : F × F × F × F) (b : Nat) =>
          (v.1 + (data.getD (4 * b) 0 - mean) * (data.getD (4 * b) 0 - mean),
           v.2.1 + (data.getD (4 * b + 1) 0 - mean) * (data.getD (4 * b + 1) 0 - mean),
           v.2.2.1 + (data.getD (4 * b + 2) 0 - mean) * (data.getD (4 * b + 2) 0 - mean),
           v.2.2.2 + (data.getD (4 * b + 3) 0 - mean) * (data.getD (4 * b + 3) 0 - mean)))
        (0, 0, 0, 0)
      let sum_sq := sum_sq_vec.1 + sum_sq_vec.2.1 + sum_sq_vec.2.2.1 + sum_sq_vec.2.2.2
      let sum_sq := (List.range (size.toNat - 4 * blocks)).foldl
        (fun sum_sq (j : Nat) =>
          let diff := data.getD (4 * blocks + j) 0 - mean
          sum_sq + diff * diff) sum_sq
      M.sqrt (sum_sq / ((size - 1 : Int) : F))
    else
      let sum_sq := (List.range size.toNat).foldl
        (fun sum_sq (i : Nat) =>
          let diff := data.getD i 0 - mean
          sum_sq + diff * diff) 0
      M.sqrt (sum_sq / ((size - 1 : Int) : F))

/-- `simd_correlation`.  Note the guard `denominator > 0`, where
`calculate_correlation` has `denominator == 0.0`. -/
def simd_correlation (avx : Bool) (M : Libm F) (data1 data2 : List F) (size : Int) : F :=
  if size < 2 then 0
  else
    let mean1 := simd_rolling_mean avx data1 size
    let mean2 := simd_rolling_mean avx data2 size
    if avx = true ∧ size ≥ 4 then
      let blocks := size.toNat / 4
      let vecs := (List.range blocks).foldl
        (fun (v : (F × F × F × F) × (F × F × F × F) × (F × F × F × F)) (b : Nat) =>
          let x0 := data1.getD (4 * b) 0 - mean1
          let x1 := data1.getD (4 * b + 1) 0 - mean1
          let x2 := data1.getD (4 * b + 2) 0 - mean1
          let x3 := data1.getD (4 * b + 3) 0 - mean1
          let y0 := data2.getD (4 * b) 0 - mean2
          let y1 := data2.getD (4 * b + 1) 0 - mean2
          let y2 := data2.getD (4 * b + 2) 0 - mean2
          let y3 := data2.getD (4 * b + 3) 0 - mean2
          ((v.1.1 + x0 * y0, v.1.2.1 + x1 * y1, v.1.2.2.1 + x2 * y2, v.1.2.2.2 + x3 * y3),
           (v.2.1.1 + x0 * x0, v.2.1.2.1 + x1 * x1, v.2.1.2.2.1 + x2 * x2,
            v.2.1.2.2.2 + x3 * x3),
           (v.2.2.1 + y0 * y0, v.2.2.2.1 + y1 * y1, v.2.2.2.2.1 + y2 * y2,
            v.2.2.2.2.2 + y3 * y3)))
        ((0, 0, 0, 0), (0, 0, 0, 0), (0, 0, 0, 0))
      let sum_xy := vecs.1.1 + vecs.1.2.1 + vecs.1.2.2.1 + vecs.1.2.2.2
      let sum_x2 := vecs.2.1.1 + vecs.2.1.2.1 + vecs.2.1.2.2.1 + vecs.2.1.2.2.2
      let sum_y2 := vecs.2.2.1 + vecs.2.2.2.1 + vecs.2.2.2.2.1 + vecs.2.2.2.2.2
      let sums := (List.range (size.toNat - 4 * blocks)).foldl
        (fun (acc : F × F × F) (j : Nat) =>
          let x_diff := data1.getD (4 * blocks + j) 0 - mean1
          let y_diff := data2.getD (4 * blocks + j) 0 - mean2
          (acc.1 + x_diff * y_diff, acc.2.1 + x_diff * x_diff, acc.2.2 + y_diff * y_diff))
        (sum_xy, sum_x2, sum_y2)
      let denominator := M.sqrt (sums.2.1 * sums.2.2)
      if denominator > 0 then sums.1 / denominator else 0
    else
      let sums := (List.range size.toNat).foldl
        (fun (acc : F × F × F) (i : Nat) =>
          let x_diff := data1.getD i 0 - mean1
          let y_diff := data2.getD i 0 - mean2
          (acc.1 + x_diff * y_diff, acc.2.1 + x_diff * x_diff, acc.2.2 + y_diff * y_diff))
        (0, 0, 0)
      let denominator := M.sqrt (sums.2.1 * sums.2.2)
      if denominator > 0 then sums.1 / denominator else 0

/-- The contiguous copy `temp_data[i] = cb_get(cb, i)`, `i < size`, that the
`simd_cb_*` functions make of a window. -/
def cb_to_array (cb : CircularBuffer F) (size : Int) : List F :=
  (List.range size.toNat).map (fun (i : Nat) => cb_get cb (i : Int))

/-- `simd_cb_rolling_mean`. -/
def simd_cb_rolling_mean (avx : Bool) (cb : CircularBuffer F) : F :=
  if cb_size cb = 0 then 0
  else
    let size := cb_size cb
    simd_rolling_mean avx (cb_to_array cb size) size

/-- `simd_cb_rolling_std`. -/
def simd_cb_rolling_std (avx : Bool) (M : Libm F) (cb : CircularBuffer F) : F :=
  if cb_size cb ≤ 1 then 0
  else
    let size := cb_size cb
    simd_rolling_std avx M (cb_to_array cb size) size

/-- `simd_cb_correlation`. -/
def simd_cb_correlation (avx : Bool) (M : Libm F) (cb1 cb2 : CircularBuffer F) : F :=
  let size1 := cb_size cb1
  let size2 := cb_size cb2
  if size1 ≠ size2 ∨ size1 < 2 then 0
  else simd_correlation avx M (cb_to_array cb1 size1) (cb_to_array cb2 size1) size1

/-! ## cointegration.c: the residual window -/

/-- The residual window built by `engle_granger_test` (cointegration.c, lines
10-22) for a slope `beta`: the values `y[i] - (alpha + beta * x[i])`, with
`alpha = mean_y - beta * mean_x`, pushed into a fresh buffer of capacity
`n = cb_size x`. -/
def engle_granger_residuals (y x : CircularBuffer F) (beta : F) : CircularBuffer F :=
  let n := cb_size x
  let mean_x := rolling_mean x
  let mean_y := rolling_mean y
  let alpha := mean_y - beta * mean_x
  (List.range n.toNat).foldl
    (fun residuals (i : Nat) =>
      let predicted := alpha + beta * cb_get x (i : Int)
      let residual := cb_get y (i : Int) - predicted
      cb_push residuals residual) (create_circular_buffer n)

/-! ## risk_management.c: the volatility estimate and the regime-adjusted target -/

/-- `update_volatility_estimate`.  The function-local `static double prev_vol`
(initially 0) is the first argument; the result is its new value and the
updated manager. -/
def update_volatility_estimate (M : Libm F) (prev_vol : F) (manager : RiskManager F)
    (trade_return : F) : F × RiskManager F :=
  let manager := { manager with returns_buffer := cb_push manager.returns_buffer trade_return }
  let squared_return := trade_return * trade_return
  let manager :=
    { manager with volatility_buffer := cb_push manager.volatility_buffer squared_return }
  let size := cb_size manager.volatility_buffer
  if size < 5 then (prev_vol, manager)
  else
    let variance := rolling_mean manager.volatility_buffer
    let current_volatility := M.sqrt (variance * 252)
    let decay_factor : F := 94 / 100
    let current_volatility :=
      if prev_vol > 0 then decay_factor * prev_vol + (1 - decay_factor) * current_volatility
      else current_volatility
    (current_volatility, { manager with current_volatility := current_volatility })

/-- `calculate_regime_adjusted_target_vol` for a manager that exists. -/
def calculate_regime_adjusted_target_vol (manager : RiskManager F) (regime : Int) : F :=
  let base_target := manager.target_volatility
  if regime = 0 then base_target
  else if regime = 1 then base_target * (75 / 100)
  else if regime = 2 then base_target * (1 / 2)
  else base_target

/-! ## dynamic_hedging.c: the dynamic thresholds -/

/-- `update_dynamic_thresholds`.  The two threshold fields are carried as local
values and written back at the end.  A regime outside 0, 1, 2 matches no case of
the `switch`, which then leaves both thresholds as they were. -/
def update_dynamic_thresholds (M : Libm F) (tracker : PairTracker F) (volatility_factor : F) :
    PairTracker F :=
  let base_entry : F := 2
  let base_exit : F := 1 / 2
  let thresholds : F × F :=
    match tracker.regime_detector with
    | some detector =>
      if detector.current_regime = 0 then
        (base_entry * volatility_factor, base_exit * volatility_factor)
      else if detector.current_regime = 1 then
        (base_entry * (3 / 2) * volatility_factor, base_exit * (12 / 10) * volatility_factor)
      else if detector.current_regime = 2 then
        (base_entry * (5 / 2) * volatility_factor, base_exit * 2 * volatility_factor)
      else (tracker.dynamic_entry_threshold, tracker.dynamic_exit_threshold)
    | none => (base_entry * volatility_factor, base_exit * volatility_factor)
  let thresholds : F × F :=
    if cb_size tracker.spread_buffer > 10 then
      let half_life := calculate_half_life M tracker.spread_buffer
      let hl_factor := 20 / half_life
      (thresholds.1 * hl_factor, thresholds.2 * hl_factor)
    else thresholds
  let dynamic_entry_threshold := if thresholds.1 < 1 / 2 then 1 / 2 else thresholds.1
  let dynamic_exit_threshold := if thresholds.2 < 1 / 10 then 1 / 10 else thresholds.2
  { tracker with dynamic_entry_threshold := dynamic_entry_threshold,
                 dynamic_exit_threshold := dynamic_exit_threshold }

/-! ## demo.c and signals.c: the enhanced tracker and its per-tick signal -/

/-- `create_enhanced_pair_tracker` of demo.c.  The attention layer and cache made
by `create_attention_layer(1, 2, window_size)` (random weights) and
`create_attention_output(window_size, 2)` are the last two arguments.  With
`use_all_features` the source sets every field but `last_update_micro`; without
it the flags, thresholds and sub-managers stay as `create_pair_tracker` left
them, indeterminate in C. -/
def create_enhanced_pair_tracker (window_size : Int) (use_all_features : Bool)
    (attention_layer : Option (AttentionLayer F)) (attention_output : Option (AttentionOutput F)) :
    PairTracker F :=
  let tracker : PairTracker F := create_pair_tracker window_size
  let tracker :=
    { tracker with hedge_ratio_buffer := some (create_circular_buffer window_size),
                   volatility1_buffer := some (create_circular_buffer window_size),
                   volatility2_buffer := some (create_circular_buffer window_size) }
  if use_all_features = true then
    { tracker with
      temporal_attention := attention_layer
      attention_cache := attention_output
      use_attention := true
      regime_detector := some (create_regime_detector (window_size.tdiv 2))
      use_regime_detection := true
      risk_manager := some (create_risk_manager window_size (15 / 100))
      use_dynamic_hedging := true
      use_transaction_costs := true
      transaction_costs := create_transaction_costs (1 / 1000) (1 / 1000) (5 / 10000) (5 / 10000)
      dynamic_entry_threshold := 2
      dynamic_exit_threshold := 1 / 2
      current_hedge_ratio := 1 }
  else tracker

/-- The function-local statics that one call of `generate_enhanced_pairs_signal`
reads and writes: `current_position` of `mean_reversion_signal`, `last_price1`
and `last_price2` of `update_regime`, `prev_vol` of `update_volatility_estimate`. -/
structure SignalStatics (F : Type) where
  current_position : Int
  regime : RegimeStatics F
  prev_vol : F

/-- The hedge-ratio step of `generate_enhanced_pairs_signal` (signals.c, lines
151-158), after the two price pushes: the new `current_hedge_ratio` and
`hedge_ratio_buffer`.  `none` is the push through a NULL `hedge_ratio_buffer`. -/
def enhanced_hedge_ratio_step (M : Libm F) (tracker : PairTracker F) :
    Option (F × Option (CircularBuffer F)) :=
  if tracker.use_dynamic_hedging = true ∧ cb_size tracker.price_buffer1 ≥ 20 then
    let current_hedge_ratio :=
      calculate_dynamic_hedge_ratio M tracker.price_buffer1 tracker.price_buffer2 20
    match tracker.hedge_ratio_buffer with
    | some hedge_ratio_buffer =>
      some (current_hedge_ratio, some (cb_push hedge_ratio_buffer current_hedge_ratio))
    | none => none
  else some (1, tracker.hedge_ratio_buffer)

/-- The squared log returns pushed by `generate_enhanced_pairs_signal` (signals.c,
lines 165-170): the new `volatility1_buffer` and `volatility2_buffer`.  `none` is
the push through a NULL volatility buffer. -/
def enhanced_volatility_step (M : Libm F) (tracker : PairTracker F) (price1 price2 : F) :
    Option (Option (CircularBuffer F) × Option (CircularBuffer F)) :=
  if cb_size tracker.price_buffer1 ≥ 2 then
    let ret1 := M.log (price1 / cb_get tracker.price_buffer1 (cb_size tracker.price_buffer1 - 2))
    let ret2 := M.log (price2 / cb_get tracker.price_buffer2 (cb_size tracker.price_buffer2 - 2))
    match tracker.volatility1_buffer, tracker.volatility2_buffer with
    | some volatility1_buffer, some volatility2_buffer =>
      some (some (cb_push volatility1_buffer (ret1 * ret1)),
        some (cb_push volatility2_buffer (ret2 * ret2)))
    | _, _ => none
  else some (tracker.volatility1_buffer, tracker.volatility2_buffer)

/-- The regime step of `generate_enhanced_pairs_signal` (signals.c, lines 178-180):
the new statics of `update_regime` and the new `regime_detector`. -/
def enhanced_regime_step (M : Libm F) (st : RegimeStatics F) (tracker : PairTracker F)
    (price1 price2 : F) : RegimeStatics F × Option (RegimeDetector F) :=
  match tracker.regime_detector with
  | some detector =>
    if tracker.use_regime_detection = true then
      let r := update_regime M st detector price1 price2 tracker.correlation
      (r.1, some r.2)
    else (st, tracker.regime_detector)
  | none => (st, tracker.regime_detector)

/-- The volatility factor of `generate_enhanced_pairs_signal` (signals.c, lines
183-188).  `none` is the read through a NULL volatility buffer. -/
def enhanced_vol_factor (M : Libm F) (tracker : PairTracker F) : Option F :=
  match tracker.volatility1_buffer with
  | none => none
  | some volatility1_buffer =>
    if cb_size volatility1_buffer > 5 then
      match tracker.volatility2_buffer with
      | none => none
      | some volatility2_buffer =>
        let vol1 := M.sqrt (rolling_mean volatility1_buffer)
        let vol2 := M.sqrt (rolling_mean volatility2_buffer)
        some ((vol1 + vol2) / (2 / 100))
    else some 1

/-- The attention blend of `generate_enhanced_pairs_signal` (signals.c, lines
195-205): the z-score used from here on and the new `attention_enhanced_zscore`.
The scorer `calculate_attention_enhanced_zscore` of attention.c is the first
argument. -/
def enhanced_attention_step (attention_zscore : CircularBuffer F → AttentionLayer F → F)
    (tracker : PairTracker F) (z_score : F) : F × F :=
  match tracker.temporal_attention with
  | some temporal_attention =>
    if tracker.use_attention = true ∧ cb_size tracker.spread_buffer ≥ 10 then
      let attention_enhanced_zscore := attention_zscore tracker.spread_buffer temporal_attention
      let blend_factor : F := 7 / 10
      (blend_factor * attention_enhanced_zscore + (1 - blend_factor) * z_score,
        attention_enhanced_zscore)
    else (z_score, z_score)
  | none => (z_score, z_score)

/-- The position sizing of `generate_enhanced_pairs_signal` (signals.c, lines
210-227): the position size, the new `prev_vol` of `update_volatility_estimate`
and the new `risk_manager`. -/
def enhanced_sizing_step (M : Libm F) (prev_vol : F) (tracker : PairTracker F)
    (current_spread z_score : F) : F × F × Option (RiskManager F) :=
  match tracker.risk_manager with
  | none => (10000, prev_vol, none)
  | some risk_manager =>
    let risk_manager : RiskManager F :=
      match tracker.regime_detector with
      | some detector =>
        { risk_manager with target_volatility :=
            calculate_regime_adjusted_target_vol risk_manager detector.current_regime }
      | none => risk_manager
    let sized := calculate_volatility_target_size risk_manager |z_score| 1000000
    let risk_manager := sized.1
    let position_size := sized.2
    if cb_size tracker.spread_buffer > 1 then
      let recent_return :=
        (current_spread - cb_get tracker.spread_buffer (cb_size tracker.spread_buffer - 2))
          / position_size
      let updated := update_volatility_estimate M prev_vol risk_manager recent_return
      (position_size, updated.1, some updated.2)
    else (position_size, prev_vol, some risk_manager)

/-- The zero-initialised `PnLAnalysis pnl_analysis = {0}`. -/
def PnLAnalysis.zero : PnLAnalysis F :=
  { theoretical_pnl := 0, net_pnl_after_costs := 0, total_cost := 0, market_impact_cost := 0,
    spread_cost := 0, financing_cost := 0, is_profitable := false }

/-- The cost check of `generate_enhanced_pairs_signal` (signals.c, lines 230-243):
the PnL analysis, the signal after the veto and the new `transaction_costs`. -/
def enhanced_cost_step (M : Libm F) (tracker : PairTracker F)
    (z_score position_size bid1 ask1 bid2 ask2 : F) (trade_signal : Int) :
    PnLAnalysis F × Int × TransactionCosts F :=
  if tracker.use_transaction_costs = true then
    let transaction_costs : TransactionCosts F :=
      { tracker.transaction_costs with
        bid_ask_spread_asset1 := ask1 - bid1
        bid_ask_spread_asset2 := ask2 - bid2 }
    let theoretical_pnl := |z_score| * (3 / 10) * position_size
    let pnl_analysis := calculate_pnl_with_costs M theoretical_pnl transaction_costs position_size
    (pnl_analysis, if pnl_analysis.is_profitable = false then 0 else trade_signal,
      transaction_costs)
  else (PnLAnalysis.zero, trade_signal, tracker.transaction_costs)

/-- `generate_enhanced_pairs_signal`.  `avx` is the build flag of
simd_optimizations.c, `attention_zscore` the scorer of attention.c, `st` the
function-local statics; the result is the new statics, the updated tracker and
the signal record, or `none` when the call dereferences a NULL buffer. -/
def generate_enhanced_pairs_signal (avx : Bool) (M : Libm F)
    (attention_zscore : CircularBuffer F → AttentionLayer F → F)
    (st : SignalStatics F) (tracker : PairTracker F)
    (price1 price2 bid1 ask1 bid2 ask2 : F) (timestamp_micro : Int) :
    Option (SignalStatics F × PairTracker F × PairSignal F) :=
  let tracker : PairTracker F :=
    { tracker with price_buffer1 := cb_push tracker.price_buffer1 price1,
                   price_buffer2 := cb_push tracker.price_buffer2 price2 }
  match enhanced_hedge_ratio_step M tracker with
  | none => none
  | some hedge =>
    let tracker : PairTracker F :=
      { tracker with current_hedge_ratio := hedge.1, hedge_ratio_buffer := hedge.2 }
    let current_spread := price1 - tracker.current_hedge_ratio * price2
    let tracker : PairTracker F :=
      { tracker with spread_buffer := cb_push tracker.spread_buffer current_spread }
    match enhanced_volatility_step M tracker price1 price2 with
    | none => none
    | some volatility =>
      let tracker : PairTracker F :=
        { tracker with volatility1_buffer := volatility.1, volatility2_buffer := volatility.2 }
      let tracker : PairTracker F :=
        { tracker with
          mean_spread := simd_cb_rolling_mean avx tracker.spread_buffer
          std_spread := simd_cb_rolling_std avx M tracker.spread_buffer
          correlation := simd_cb_correlation avx M tracker.price_buffer1 tracker.price_buffer2 }
      let regime := enhanced_regime_step M st.regime tracker price1 price2
      let tracker : PairTracker F := { tracker with regime_detector := regime.2 }
      match enhanced_vol_factor M tracker with
      | none => none
      | some vol_factor =>
        let tracker : PairTracker F := update_dynamic_thresholds M tracker vol_factor
        let z_score := calculate_z_score current_spread tracker.mean_spread tracker.std_spread
        let attention := enhanced_attention_step attention_zscore tracker z_score
        let z_score := attention.1
        let tracker : PairTracker F := { tracker with attention_enhanced_zscore := attention.2 }
        let position := mean_reversion_signal st.current_position z_score
          tracker.dynamic_entry_threshold tracker.dynamic_exit_threshold
        let sizing := enhanced_sizing_step M st.prev_vol tracker current_spread z_score
        let position_size := sizing.1
        let tracker : PairTracker F := { tracker with risk_manager := sizing.2.2 }
        let cost := enhanced_cost_step M tracker z_score position_size bid1 ask1 bid2 ask2
          position.2
        let tracker : PairTracker F := { tracker with transaction_costs := cost.2.2 }
        let signal : PairSignal F :=
          { (PairSignal.zero : PairSignal F) with
            spread := current_spread
            z_score := z_score
            correlation := tracker.correlation
            hedge_ratio := tracker.current_hedge_ratio
            dynamic_threshold_entry := tracker.dynamic_entry_threshold
            dynamic_threshold_exit := tracker.dynamic_exit_threshold
            signal := cost.2.1
            position_size := position_size
            pnl_analysis := cost.1
            timestamp_micro := timestamp_micro
            regime :=
              match tracker.regime_detector with
              | some detector => detector.current_regime
              | none => 0
            cointegration_stat :=
              if cb_size tracker.price_buffer1 ≥ 30 then
                johansen_test M tracker.price_buffer1 tracker.price_buffer2
              else 0 }
        some ({ current_position := position.1, regime := regime.1, prev_vol := sizing.2.1 },
          { tracker with last_update_micro := timestamp_micro }, signal)

/-! ## signals.c: sequences of calls of the state machine -/

/-- The held position after a sequence of `mean_reversion_signal` calls
`(z_score, entry_threshold, exit_threshold)`, in program order, from the given
value of the static `current_position`. -/
def mean_reversion_signal_run (current_position : Int) (calls : List (F × F × F)) : Int :=
  calls.foldl (fun position c => (mean_reversion_signal position c.1 c.2.1 c.2.2).1)
    current_position

/-! ## advanced_cointegration.c: the covariance entries -/

/-- The sample covariance entries `(cov11, cov12, cov22)` of the log returns that
`johansen_test` computes (advanced_cointegration.c, lines 19-49), for windows past
its guard. -/
def johansen_cov (M : Libm F) (price1 price2 : CircularBuffer F) : F × F × F :=
  let n := cb_size price1
  let m := (n - 1).toNat
  let ret1 := (List.range m).map (fun (i : Nat) =>
    M.log (cb_get price1 ((i : Int) + 1) / cb_get price1 (i : Int)))
  let ret2 := (List.range m).map (fun (i : Nat) =>
    M.log (cb_get price2 ((i : Int) + 1) / cb_get price2 (i : Int)))
  let sums := (List.range m).foldl
    (fun (acc : F × F) (i : Nat) => (acc.1 + ret1.getD i 0, acc.2 + ret2.getD i 0)) (0, 0)
  let mean1 := sums.1 / ((n - 1 : Int) : F)
  let mean2 := sums.2 / ((n - 1 : Int) : F)
  let cov := (List.range m).foldl
    (fun (acc : F × F × F) (i : Nat) =>
      let d1 := ret1.getD i 0 - mean1
      let d2 := ret2.getD i 0 - mean2
      (acc.1 + d1 * d1, acc.2.1 + d1 * d2, acc.2.2 + d2 * d2)) (0, 0, 0)
  (cov.1 / ((n - 2 : Int) : F), cov.2.1 / ((n - 2 : Int) : F), cov.2.2 / ((n - 2 : Int) : F))

/-! ## risk_management.c: portfolio risk -/

/-- The drawdown loop of `update_portfolio_risk` (risk_management.c, lines
143-155): the accumulators `(peak, max_dd, cumulative)` after the indices of
`idx`, from `peak = -99999.0`, `max_dd = 0.0`, `cumulative = 0.0`. -/
def drawdown_loop (returns_buffer : CircularBuffer F) (idx : List Nat) : F × F × F :=
  idx.foldl
    (fun (acc : F × F × F) (i : Nat) =>
      let cumulative := acc.2.2 + cb_get returns_buffer (i : Int)
      let peak := if cumulative > acc.1 then cumulative else acc.1
      let drawdown := peak - cumulative
      let max_dd := if drawdown > acc.2.1 then drawdown else acc.2.1
      (peak, max_dd, cumulative)) (-99999, 0, 0)

/-- `update_portfolio_risk`. -/
def update_portfolio_risk (M : Libm F) (manager : RiskManager F) (trade_return : F) :
    RiskManager F :=
  let manager := { manager with returns_buffer := cb_push manager.returns_buffer trade_return }
  let size := cb_size manager.returns_buffer
  if size < 10 then manager
  else
    let mean_return := rolling_mean manager.returns_buffer
    let std_return := rolling_std M manager.returns_buffer
    let sharpe_ratio :=
      if std_return > 0 then mean_return / std_return * M.sqrt 252 else manager.sharpe_ratio
    let max_dd := (drawdown_loop manager.returns_buffer (List.range size.toNat)).2.1
    let recent_vol := rolling_std M manager.returns_buffer
    let portfolio_heat := recent_vol * 10
    let portfolio_heat := if portfolio_heat > 1 then 1 else portfolio_heat
    { manager with sharpe_ratio := sharpe_ratio, max_drawdown := max_dd,
                   portfolio_heat := portfolio_heat }

/-- One call on a risk manager: `update_portfolio_risk` or
`update_volatility_estimate`, with its `trade_return`. -/
inductive RiskCall (F : Type) where
  | portfolio_risk (trade_return : F)
  | volatility_estimate (trade_return : F)

/-- The `trade_return` argument of a call. -/
def RiskCall.trade_return : RiskCall F → F
  | RiskCall.portfolio_risk trade_return => trade_return
  | RiskCall.volatility_estimate trade_return => trade_return

/-- A sequence of calls on one manager, in program order: the `static prev_vol` of
`update_volatility_estimate` is threaded from call to call; the result is its
final value and the final manager. -/
def risk_manager_run (M : Libm F) (prev_vol : F) (manager : RiskManager F)
    (calls : List (RiskCall F)) : F × RiskManager F :=
  calls.foldl
    (fun s c =>
      match c with
      | RiskCall.portfolio_risk trade_return => (s.1, update_portfolio_risk M s.2 trade_return)
      | RiskCall.volatility_estimate trade_return =>
        update_volatility_estimate M s.1 s.2 trade_return)
    (prev_vol, manager)

/-- The maximum drawdown of a return history in the words of the specification:
the largest value, over the positions `i` of the history, of the maximum running
cumulative sum up to `i` minus the running cumulative sum at `i`. -/
def max_drawdown_spec (returns : List F) : F :=
  let cumulative : Nat → F := fun (i : Nat) => (returns.take (i + 1)).sum
  let peak : Nat → F := fun (i : Nat) =>
    ((List.range (i + 1)).map cumulative).foldl max (cumulative 0)
  ((List.range returns.length).map (fun (i : Nat) => peak i - cumulative i)).foldl max
    (peak 0 - cumulative 0)

/-! ## signals.c: sequences of enhanced ticks -/

/-- The statics and the tracker after a sequence of `generate_enhanced_pairs_signal`
calls `(price1, price2, bid1, ask1, bid2, ask2, timestamp_micro)` in program
order; `none` when one of the calls dereferences a NULL buffer. -/
def generate_enhanced_pairs_signal_run (avx : Bool) (M : Libm F)
    (attention_zscore : CircularBuffer F → AttentionLayer F → F)
    (st : SignalStatics F) (tracker : PairTracker F)
    (ticks : List (F × F × F × F × F × F × Int)) :
    Option (SignalStatics F × PairTracker F) :=
  ticks.foldl
    (fun (s : Option (SignalStatics F × PairTracker F)) tk =>
      match s with
      | none => none
      | some s =>
        match generate_enhanced_pairs_signal avx M attention_zscore s.1 s.2 tk.1 tk.2.1
            tk.2.2.1 tk.2.2.2.1 tk.2.2.2.2.1 tk.2.2.2.2.2.1 tk.2.2.2.2.2.2 with
        | none => none
        | some r => some (r.1, r.2.1))
    (some (st, tracker))

/-- What is known of the statics and of an all-features tracker of window 20
after `k` ticks with both prices 1: the position is Flat, `k` prices and `k`
zero spreads are buffered, the volatility windows of the tracker and of the risk
manager hold at most `k - 1` samples, the detector is in regime 0 with at most
`k` volatilities, the manager still has its initial volatilities, heat and
limits, and the cost check is on with non-negative cost parameters. -/
def flat_warmup (k : Nat) (st : SignalStatics F) (t : PairTracker F) : Prop :=
  st.current_position = 0 ∧
  t.price_buffer1 = cb_pushes 20 (List.replicate k 1) ∧
  t.spread_buffer = cb_pushes 20 (List.replicate k 0) ∧
  (∃ hb : CircularBuffer F, t.hedge_ratio_buffer = some hb) ∧
  (∃ v1 : CircularBuffer F, t.volatility1_buffer = some v1 ∧ cb_size v1 ≤ ((k - 1 : Nat) : Int)) ∧
  (∃ v2 : CircularBuffer F, t.volatility2_buffer = some v2) ∧
  (∃ d : RegimeDetector F, t.regime_detector = some d ∧ d.current_regime = 0 ∧
    cb_size d.volatility_buffer ≤ (k : Int)) ∧
  (∃ m : RiskManager F, t.risk_manager = some m ∧
    m.target_volatility = 15 / 100 ∧ m.current_volatility = 15 / 100 ∧
    m.portfolio_heat = 0 ∧ m.risk_per_trade = 2 / 100 ∧ m.max_position_limit = 1000000 ∧
    cb_size m.volatility_buffer ≤ ((k - 1 : Nat) : Int)) ∧
  t.use_transaction_costs = true ∧
  0 ≤ t.transaction_costs.market_impact_asset1 ∧
  0 ≤ t.transaction_costs.market_impact_asset2 ∧
  0 ≤ t.transaction_costs.financing_cost ∧
  0 ≤ t.transaction_costs.commission_rate ∧
  0 ≤ t.transaction_costs.slippage_factor

/-! ## The type `double`: binary64 arithmetic -/

/-- The arithmetic of the C type `double` as the functions of this section use it.
A finite `double` is a rational number; `round` maps the exact result of a `+`,
`-`, `*` or `/` to the `double` the machine returns, `sqrt` and `log` are the
library functions on `double`s.  Every operation is rounded on its own, as the
source is written: no fused multiply-add and no wider intermediate format. -/
structure DoubleOps (F : Type) where
  round : F → F
  sqrt : F → F
  log : F → F

/-- Arithmetic without rounding, with the square root and logarithm of a `Libm`:
the arithmetic of the definitions above. -/
def DoubleOps.exact (M : Libm F) : DoubleOps F :=
  { round := fun x => x, sqrt := M.sqrt, log := M.log }

/-- Floor of the base-2 logarithm of a positive natural number, by repeated
halving (at most `fuel` times). -/
def log2_fuel : Nat → Nat → Nat
  | 0, _ => 0
  | fuel + 1, n => if n < 2 then 0 else log2_fuel fuel (n / 2) + 1

/-- Floor of the base-2 logarithm of a positive natural number. -/
def ilog2 (n : Nat) : Nat := log2_fuel n n

/-- The power `2 ^ k` for an integer `k`. -/
def pow2 (k : Int) : ℚ :=
  if 0 ≤ k then ((2 ^ k.toNat : Nat) : ℚ) else 1 / ((2 ^ (-k).toNat : Nat) : ℚ)

/-- The binary exponent of a non-zero rational `x`: the integer `e` with
`2 ^ e ≤ |x| < 2 ^ (e + 1)`. -/
def binade (x : ℚ) : Int :=
  let e : Int := (ilog2 x.num.natAbs : Int) - (ilog2 x.den : Int)
  if pow2 e ≤ |x| then e else e - 1

/-- The integer nearest to `y`, the even one of the two when `y` lies halfway. -/
def round_half_even (y : ℚ) : Int :=
  let f := Int.floor y
  if y - f < 1 / 2 then f
  else if 1 / 2 < y - f then f + 1
  else if f % 2 = 0 then f else f + 1

/-- Rounding to the nearest number with a 53-bit significand, ties to even: the
rounding of IEEE 754 binary64 in its default mode.  The exponent is not bounded:
overflow to infinity and the subnormal numbers below `2 ^ (-1022)` are outside
this model. -/
def round64 (x : ℚ) : ℚ :=
  if x = 0 then 0
  else ((round_half_even (x * pow2 (52 - binade x)) : Int) : ℚ) / pow2 (52 - binade x)

/-- The integer square root `⌊√n⌋`, found bit by bit from bit `b` down. -/
def isqrt_bits (n : Nat) : Nat → Nat → Nat
  | 0, r => if (r + 1) * (r + 1) ≤ n then r + 1 else r
  | b + 1, r =>
    isqrt_bits n b (if (r + 2 ^ (b + 1)) * (r + 2 ^ (b + 1)) ≤ n then r + 2 ^ (b + 1) else r)

/-- The integer square root `⌊√n⌋`. -/
def isqrt (n : Nat) : Nat := isqrt_bits n (ilog2 n / 2 + 1) 0

/-- The correctly rounded square root of binary64 (IEEE 754 requires it of
`sqrt`): for `x > 0` the argument is scaled by a power of 4 so that
`t = ⌊√(x * 4 ^ j)⌋` has 54 bits; an even `t` is the rounded significand, an odd `t`
lies halfway between two of them and the square root is above it unless
`x * 4 ^ j = t * t`.  For `x ≤ 0` the value is 0 (the C function returns NaN for
`x < 0`, which is not a rational; the functions below test the sign first where
the argument can be negative). -/
def sqrt64 (x : ℚ) : ℚ :=
  if x ≤ 0 then 0
  else
    let j : Int := 53 - binade x / 2
    let y : ℚ := x * pow2 (2 * j)
    let t : Nat := isqrt (Int.floor y).toNat
    let m : Nat :=
      if t % 2 = 0 then t
      else if ((t * t : Nat) : ℚ) = y then (if (t + 1) % 4 = 0 then t + 1 else t - 1)
      else t + 1
    (m : ℚ) / pow2 j

/-- The values the C library's `log` returns at the four arguments the Johansen
evaluation below passes to it (the ratios of consecutive prices of the cycle
10, 11, 12.1, 11); each is the `double` nearest to the natural logarithm.  At
every other argument this table has no entry and gives 0. -/
def log64 (x : ℚ) : ℚ :=
  if x = 8188362958855447 / 9007199254740992 then -6867822244021961 / 72057594037927936
  else if x = 1023545369856931 / 1125899906842624 then -107309722562843 / 1125899906842624
  else if x = 4953959590107545 / 4503599627370496 then 3433911122010975 / 36028797018963968
  else if x = 2476979795053773 / 2251799813685248 then 1716955561005491 / 18014398509481984
  else 0

/-- The arithmetic of binary64: round to nearest, ties to even, after every
operation, and the correctly rounded square root. -/
def binary64 : DoubleOps ℚ :=
  { round := round64, sqrt := sqrt64, log := log64 }

/-! ## statistics.c in `double` arithmetic -/

/-- `rolling_mean` with the result of every `+=` and of the division rounded. -/
def rolling_mean_double (D : DoubleOps F) (cb : CircularBuffer F) : F :=
  if cb_size cb = 0 then 0
  else
    let size := cb_size cb
    let sum := (List.range size.toNat).foldl
      (fun sum (i : Nat) => D.round (sum + cb_get cb (i : Int))) 0
    D.round (sum / (size : F))

/-- `rolling_std` with every operation rounded. -/
def rolling_std_double (D : DoubleOps F) (cb : CircularBuffer F) : F :=
  let size := cb_size cb
  if size ≤ 1 then 0
  else
    let mean := rolling_mean_double D cb
    let sum_sq_diff := (List.range size.toNat).foldl
      (fun sum_sq_diff (i : Nat) =>
        let diff := D.round (cb_get cb (i : Int) - mean)
        D.round (sum_sq_diff + D.round (diff * diff))) 0
    D.sqrt (D.round (sum_sq_diff / ((size - 1 : Int) : F)))

/-- `calculate_z_score` with every operation rounded. -/
def calculate_z_score_double (D : DoubleOps F) (value mean std : F) : F :=
  if std = 0 then 0 else D.round (D.round (value - mean) / std)

/-- The loop of `calculate_correlation` with every operation rounded. -/
def correlation_sums_double (D : DoubleOps F) (cb1 cb2 : CircularBuffer F) (mean1 mean2 : F)
    (idx : List Nat) : F × F × F :=
  idx.foldl
    (fun acc (i : Nat) =>
      let x1 := D.round (cb_get cb1 (i : Int) - mean1)
      let x2 := D.round (cb_get cb2 (i : Int) - mean2)
      (D.round (acc.1 + D.round (x1 * x2)), D.round (acc.2.1 + D.round (x1 * x1)),
        D.round (acc.2.2 + D.round (x2 * x2)))) (0, 0, 0)

/-- `calculate_correlation` with every operation rounded. -/
def calculate_correlation_double (D : DoubleOps F) (cb1 cb2 : CircularBuffer F) : F :=
  let size1 := cb_size cb1
  let size2 := cb_size cb2
  if size1 ≠ size2 ∨ size1 < 2 then 0
  else
    let n := size1
    let mean1 := rolling_mean_double D cb1
    let mean2 := rolling_mean_double D cb2
    let sums := correlation_sums_double D cb1 cb2 mean1 mean2 (List.range n.toNat)
    let numerator := sums.1
    let sum_sq1 := sums.2.1
    let sum_sq2 := sums.2.2
    let denominator := D.sqrt (D.round (sum_sq1 * sum_sq2))
    if denominator = 0 then 0 else D.round (numerator / denominator)

/-- `linear_regression_slope` with every operation rounded; `1e-10` is the
`double` nearest to it. -/
def linear_regression_slope_double (D : DoubleOps F) (y x : CircularBuffer F) : F :=
  let n := cb_size x
  if n ≠ cb_size y ∨ n < 2 then 0
  else
    let sums := (List.range n.toNat).foldl
      (fun (acc : F × F × F × F) (i : Nat) =>
        let xi := cb_get x (i : Int)
        let yi := cb_get y (i : Int)
        (D.round (acc.1 + xi), D.round (acc.2.1 + yi), D.round (acc.2.2.1 + D.round (xi * yi)),
          D.round (acc.2.2.2 + D.round (xi * xi)))) (0, 0, 0, 0)
    let sum_x := sums.1
    let sum_y := sums.2.1
    let sum_xy := sums.2.2.1
    let sum_x2 := sums.2.2.2
    let denominator := D.round (D.round ((n : F) * sum_x2) - D.round (sum_x * sum_x))
    if |denominator| < D.round (1 / 10000000000) then 0
    else D.round (D.round (D.round ((n : F) * sum_xy) - D.round (sum_x * sum_y)) / denominator)

/-! ## simd_optimizations.c in `double` arithmetic -/

/-- `simd_rolling_mean` with every operation rounded: with AVX2 and `size ≥ 4`
each of the four lanes is a `double` accumulator. -/
def simd_rolling_mean_double (avx : Bool) (D : DoubleOps F) (data : List F) (size : Int) : F :=
  if size ≤ 0 then 0
  else if avx = true ∧ size ≥ 4 then
    let blocks := size.toNat / 4
    let sum_vec := (List.range blocks).foldl
      (fun (v : F × F × F × F) (b : Nat) =>
        (D.round (v.1 + data.getD (4 * b) 0), D.round (v.2.1 + data.getD (4 * b + 1) 0),
         D.round (v.2.2.1 + data.getD (4 * b + 2) 0),
         D.round (v.2.2.2 + data.getD (4 * b + 3) 0))) (0, 0, 0, 0)
    let sum := D.round (D.round (D.round (sum_vec.1 + sum_vec.2.1) + sum_vec.2.2.1)
      + sum_vec.2.2.2)
    let sum := (List.range (size.toNat - 4 * blocks)).foldl
      (fun sum (j : Nat) => D.round (sum + data.getD (4 * blocks + j) 0)) sum
    D.round (sum / (size : F))
  else
    let sum := (List.range size.toNat).foldl
      (fun sum (i : Nat) => D.round (sum + data.getD i 0)) 0
    D.round (sum / (size : F))

/-- `simd_rolling_std` with every operation rounded. -/
def simd_rolling_std_double (avx : Bool) (D : DoubleOps F) (data : List F) (size : Int) : F :=
  if size ≤ 1 then 0
  else
    let mean := simd_rolling_mean_double avx D data size
    if avx = true ∧ size ≥ 4 then
      let blocks := size.toNat / 4
      let sum_sq_vec := (List.range blocks).foldl
        (fun (v : F × F × F × F) (b : Nat) =>
          let d0 := D.round (data.getD (4 * b) 0 - mean)
          let d1 := D.round (data.getD (4 * b + 1) 0 - mean)
          let d2 := D.round (data.getD (4 * b + 2) 0 - mean)
          let d3 := D.round (data.getD (4 * b + 3) 0 - mean)
          (D.round (v.1 + D.round (d0 * d0)), D.round (v.2.1 + D.round (d1 * d1)),
           D.round (v.2.2.1 + D.round (d2 * d2)), D.round (v.2.2.2 + D.round (d3 * d3))))
        (0, 0, 0, 0)
      let sum_sq := D.round (D.round (D.round (sum_sq_vec.1 + sum_sq_vec.2.1)
        + sum_sq_vec.2.2.1) + sum_sq_vec.2.2.2)
      let sum_sq := (List.range (size.toNat - 4 * blocks)).foldl
        (fun sum_sq (j : Nat) =>
          let diff := D.round (data.getD (4 * blocks + j) 0 - mean)
          D.round (sum_sq + D.round (diff * diff))) sum_sq
      D.sqrt (D.round (sum_sq / ((size - 1 : Int) : F)))
    else
      let sum_sq := (List.range size.toNat).foldl
        (fun sum_sq (i : Nat) =>
          let diff := D.round (data.getD i 0 - mean)
          D.round (sum_sq + D.round (diff * diff))) 0
      D.sqrt (D.round (sum_sq / ((size - 1 : Int) : F)))

/-- `simd_correlation` with every operation rounded. -/
def simd_correlation_double (avx : Bool) (D : DoubleOps F) (data1 data2 : List F) (size : Int) :
    F :=
  if size < 2 then 0
  else
    let mean1 := simd_rolling_mean_double avx D data1 size
    let mean2 := simd_rolling_mean_double avx D data2 size
    if avx = true ∧ size ≥ 4 then
      let blocks := size.toNat / 4
      let vecs := (List.range blocks).foldl
        (fun (v : (F × F × F × F) × (F × F × F × F) × (F × F × F × F)) (b : Nat) =>
          let x0 := D.round (data1.getD (4 * b) 0 - mean1)
          let x1 := D.round (data1.getD (4 * b + 1) 0 - mean1)
          let x2 := D.round (data1.getD (4 * b + 2) 0 - mean1)
          let x3 := D.round (data1.getD (4 * b + 3) 0 - mean1)
          let y0 := D.round (data2.getD (4 * b) 0 - mean2)
          let y1 := D.round (data2.getD (4 * b + 1) 0 - mean2)
          let y2 := D.round (data2.getD (4 * b + 2) 0 - mean2)
          let y3 := D.round (data2.getD (4 * b + 3) 0 - mean2)
          ((D.round (v.1.1 + D.round (x0 * y0)), D.round (v.1.2.1 + D.round (x1 * y1)),
            D.round (v.1.2.2.1 + D.round (x2 * y2)), D.round (v.1.2.2.2 + D.round (x3 * y3))),
           (D.round (v.2.1.1 + D.round (x0 * x0)), D.round (v.2.1.2.1 + D.round (x1 * x1)),
            D.round (v.2.1.2.2.1 + D.round (x2 * x2)),
            D.round (v.2.1.2.2.2 + D.round (x3 * x3))),
           (D.round (v.2.2.1 + D.round (y0 * y0)), D.round (v.2.2.2.1 + D.round (y1 * y1)),
            D.round (v.2.2.2.2.1 + D.round (y2 * y2)),
            D.round (v.2.2.2.2.2 + D.round (y3 * y3)))))
        ((0, 0, 0, 0), (0, 0, 0, 0), (0, 0, 0, 0))
      let sum_xy := D.round (D.round (D.round (vecs.1.1 + vecs.1.2.1) + vecs.1.2.2.1)
        + vecs.1.2.2.2)
      let sum_x2 := D.round (D.round (D.round (vecs.2.1.1 + vecs.2.1.2.1) + vecs.2.1.2.2.1)
        + vecs.2.1.2.2.2)
      let sum_y2 := D.round (D.round (D.round (vecs.2.2.1 + vecs.2.2.2.1) + vecs.2.2.2.2.1)
        + vecs.2.2.2.2.2)
      let sums := (List.range (size.toNat - 4 * blocks)).foldl
        (fun (acc : F × F × F) (j : Nat) =>
          let x_diff := D.round (data1.getD (4 * blocks + j) 0 - mean1)
          let y_diff := D.round (data2.getD (4 * blocks + j) 0 - mean2)
          (D.round (acc.1 + D.round (x_diff * y_diff)),
            D.round (acc.2.1 + D.round (x_diff * x_diff)),
            D.round (acc.2.2 + D.round (y_diff * y_diff))))
        (sum_xy, sum_x2, sum_y2)
      let denominator := D.sqrt (D.round (sums.2.1 * sums.2.2))
      if denominator > 0 then D.round (sums.1 / denominator) else 0
    else
      let sums := (List.range size.toNat).foldl
        (fun (acc : F × F × F) (i : Nat) =>
          let x_diff := D.round (data1.getD i 0 - mean1)
          let y_diff := D.round (data2.getD i 0 - mean2)
          (D.round (acc.1 + D.round (x_diff * y_diff)),
            D.round (acc.2.1 + D.round (x_diff * x_diff)),
            D.round (acc.2.2 + D.round (y_diff * y_diff))))
        (0, 0, 0)
      let denominator := D.sqrt (D.round (sums.2.1 * sums.2.2))
      if denominator > 0 then D.round (sums.1 / denominator) else 0

/-- `simd_cb_rolling_mean` in `double` arithmetic. -/
def simd_cb_rolling_mean_double (avx : Bool) (D : DoubleOps F) (cb : CircularBuffer F) : F :=
  if cb_size cb = 0 then 0
  else
    let size := cb_size cb
    simd_rolling_mean_double avx D (cb_to_array cb size) size

/-- `simd_cb_rolling_std` in `double` arithmetic. -/
def simd_cb_rolling_std_double (avx : Bool) (D : DoubleOps F) (cb : CircularBuffer F) : F :=
  if cb_size cb ≤ 1 then 0
  else
    let size := cb_size cb
    simd_rolling_std_double avx D (cb_to_array cb size) size

/-- `simd_cb_correlation` in `double` arithmetic. -/
def simd_cb_correlation_double (avx : Bool) (D : DoubleOps F) (cb1 cb2 : CircularBuffer F) : F :=
  let size1 := cb_size cb1
  let size2 := cb_size cb2
  if size1 ≠ size2 ∨ size1 < 2 then 0
  else simd_correlation_double avx D (cb_to_array cb1 size1) (cb_to_array cb2 size1) size1

/-! ## cointegration.c and advanced_cointegration.c in `double` arithmetic -/

/-- `engle_granger_test` with every operation rounded. -/
def engle_granger_test_double (D : DoubleOps F) (y x : CircularBuffer F) : F :=
  let n := cb_size x
  if n ≠ cb_size y ∨ n < 10 then 0
  else
    let beta := linear_regression_slope_double D y x
    let mean_x := rolling_mean_double D x
    let mean_y := rolling_mean_double D y
    let alpha := D.round (mean_y - D.round (beta * mean_x))
    let residuals := (List.range n.toNat).foldl
      (fun residuals (i : Nat) =>
        let predicted := D.round (alpha + D.round (beta * cb_get x (i : Int)))
        let residual := D.round (cb_get y (i : Int) - predicted)
        cb_push residuals residual) (create_circular_buffer n)
    let mean_residual := rolling_mean_double D residuals
    let std_residual := rolling_std_double D residuals
    if std_residual > 0 then
      D.round (D.round (mean_residual / std_residual) * D.sqrt (n : F))
    else 0

/-- The covariance entries, determinant, trace and discriminant
`trace * trace - 4 * det` that `johansen_test` computes, every operation
rounded: `(cov11, cov12, cov22, det, trace, discriminant)`. -/
def johansen_discriminant_double (D : DoubleOps F) (price1 price2 : CircularBuffer F) :
    F × F × F × F × F × F :=
  let n := cb_size price1
  let m := (n - 1).toNat
  let ret1 := (List.range m).map (fun (i : Nat) =>
    D.log (D.round (cb_get price1 ((i : Int) + 1) / cb_get price1 (i : Int))))
  let ret2 := (List.range m).map (fun (i : Nat) =>
    D.log (D.round (cb_get price2 ((i : Int) + 1) / cb_get price2 (i : Int))))
  let sums := (List.range m).foldl
    (fun (acc : F × F) (i : Nat) =>
      (D.round (acc.1 + ret1.getD i 0), D.round (acc.2 + ret2.getD i 0))) (0, 0)
  let mean1 := D.round (sums.1 / ((n - 1 : Int) : F))
  let mean2 := D.round (sums.2 / ((n - 1 : Int) : F))
  let cov := (List.range m).foldl
    (fun (acc : F × F × F) (i : Nat) =>
      let d1 := D.round (ret1.getD i 0 - mean1)
      let d2 := D.round (ret2.getD i 0 - mean2)
      (D.round (acc.1 + D.round (d1 * d1)), D.round (acc.2.1 + D.round (d1 * d2)),
        D.round (acc.2.2 + D.round (d2 * d2)))) (0, 0, 0)
  let cov11 := D.round (cov.1 / ((n - 2 : Int) : F))
  let cov12 := D.round (cov.2.1 / ((n - 2 : Int) : F))
  let cov22 := D.round (cov.2.2 / ((n - 2 : Int) : F))
  let det := D.round (D.round (cov11 * cov22) - D.round (cov12 * cov12))
  let trace := D.round (cov11 + cov22)
  (cov11, cov12, cov22, det, trace,
    D.round (D.round (trace * trace) - D.round (4 * det)))

/-- `johansen_test` with every operation rounded.  `none` stands for a result
that is not a finite number: `sqrt` of a negative discriminant is NaN and so is
everything computed from it, and `log` of an argument `≤ 0` is NaN or infinite. -/
def johansen_test_double (D : DoubleOps F) (price1 price2 : CircularBuffer F) : Option F :=
  let n := cb_size price1
  if n ≠ cb_size price2 ∨ n < 20 then some 0
  else
    let r := johansen_discriminant_double D price1 price2
    let trace := r.2.2.2.2.1
    let discriminant := r.2.2.2.2.2
    if discriminant < 0 then none
    else
      let argument := D.round (1 - D.round (D.round (trace - D.sqrt discriminant) / 2))
      if argument ≤ 0 then none
      else some (D.round (-(n : F) * D.log argument))

/-! ## Theorems -/

set_option linter.unusedSectionVars false

/-- C1: `mean_reversion_signal` is the three-state position machine.  The returned
code always equals the new held position.  From Flat (0): `z > entry` gives Short
(-1), else `z < -entry` gives Long (+1), else Flat is kept (the guards are tried in
this order; for `entry ≥ 0` they exclude each other, so the order is immaterial).
From Long (+1): `z > -exit` gives Flat, otherwise Long is held.  From Short (-1):
`z < exit` gives Flat, otherwise Short is held. -/
theorem mean_reversion_signal_machine (pos : Int) (z entry exit : F) :
    (mean_reversion_signal pos z entry exit).2 = (mean_reversion_signal pos z entry exit).1 ∧
    (mean_reversion_signal 0 z entry exit).1 =
      (if z > entry then -1 else if z < -entry then 1 else 0) ∧
    ((0 : F) ≤ entry → z < -entry → (mean_reversion_signal 0 z entry exit).1 = 1) ∧
    (mean_reversion_signal 1 z entry exit).1 = (if z > -exit then 0 else 1) ∧
    (mean_reversion_signal (-1) z entry exit).1 = (if z < exit then 0 else -1) := by
  refine ⟨?_, ?_, ?_, ?_, ?_⟩
  · unfold mean_reversion_signal
    split_ifs <;> rfl
  · simp only [mean_reversion_signal, if_true]
    split_ifs <;> rfl
  · intro h0 hz
    have hne : ¬ z > entry := by
      intro h
      linarith
    simp [mean_reversion_signal, hne, hz]
  · have h10 : ¬ ((1 : Int) = 0) := by decide
    simp only [mean_reversion_signal, h10, if_false, if_true]
    split_ifs <;> rfl
  · have h10 : ¬ ((-1 : Int) = 0) := by decide
    have h11 : ¬ ((-1 : Int) = 1) := by decide
    simp only [mean_reversion_signal, h10, h11, if_false, if_true]
    split_ifs <;> rfl

/-! ### The ring buffer -/

theorem cb_push_capacity (cb : CircularBuffer F) (v : F) :
    (cb_push cb v).capacity = cb.capacity := by
  unfold cb_push; split_ifs <;> rfl

theorem cb_push_data (cb : CircularBuffer F) (v : F) :
    (cb_push cb v).data = cb.data.set cb.head.toNat v := by
  unfold cb_push; split_ifs <;> rfl

theorem cb_push_head (cb : CircularBuffer F) (v : F) :
    (cb_push cb v).head = (cb.head + 1).tmod cb.capacity := by
  unfold cb_push; split_ifs <;> rfl

theorem cb_push_size (cb : CircularBuffer F) (v : F) :
    (cb_push cb v).size = if cb.is_full then cb.size else cb.size + 1 := by
  unfold cb_push; split_ifs <;> rfl

theorem cb_push_is_full (cb : CircularBuffer F) (v : F) :
    (cb_push cb v).is_full = (cb.is_full || decide (cb.size + 1 = cb.capacity)) := by
  unfold cb_push
  cases h : cb.is_full <;> simp

theorem cb_pushes_snoc (c : Int) (vs : List F) (v : F) :
    cb_pushes c (vs ++ [v]) = cb_push (cb_pushes c vs) v := by
  simp [cb_pushes, List.foldl_append]

theorem mod_ne_of_lt (j n k : Nat) (h1 : j < n) (h2 : n < j + k) : j % k ≠ n % k := by
  intro h
  have hd : k ∣ n - j := (Nat.modEq_iff_dvd' (le_of_lt h1)).mp h
  have := Nat.le_of_dvd (by omega) hd
  omega

theorem cb_pushes_inv (k : Nat) (hk : 1 ≤ k) (vs : List F) :
    (cb_pushes (k : Int) vs).capacity = (k : Int) ∧
    (cb_pushes (k : Int) vs).data.length = k ∧
    (cb_pushes (k : Int) vs).size = ((min vs.length k : Nat) : Int) ∧
    (cb_pushes (k : Int) vs).head = ((vs.length % k : Nat) : Int) ∧
    (cb_pushes (k : Int) vs).is_full = decide (k ≤ vs.length) ∧
    ∀ j, j < vs.length → vs.length ≤ j + k →
      (cb_pushes (k : Int) vs).data[j % k]? = vs[j]? := by
  induction vs using List.reverseRecOn with
  | nil =>
    simp [cb_pushes, create_circular_buffer]
    omega
  | append_singleton vs v ih =>
    obtain ⟨hcap, hlen, hsize, hhead, hfull, hdata⟩ := ih
    rw [cb_pushes_snoc, cb_push_capacity, cb_push_data, cb_push_head, cb_push_size,
      cb_push_is_full]
    have hmodlt : vs.length % k < k := Nat.mod_lt _ (by omega)
    have hl : (vs ++ [v]).length = vs.length + 1 := by simp
    rw [hl]
    refine ⟨hcap, by simpa using hlen, ?_, ?_, ?_, ?_⟩
    · rw [hfull, hsize]
      by_cases hf : k ≤ vs.length
      · simp [hf]; omega
      · simp [hf]; omega
    · rw [hhead, hcap, Int.tmod_eq_emod (by omega) (by omega)]
      push_cast
      exact Int.emod_add_emod _ _ _
    · rw [hfull, hsize, hcap]
      by_cases hf : k ≤ vs.length
      · simp [hf]; omega
      · have h1 : min vs.length k = vs.length := by omega
        rw [h1]
        simp [hf]
        constructor <;> intro h <;> omega
    · intro j hj hjk
      rw [hhead, Int.toNat_ofNat, List.getElem?_set]
      by_cases hjn : j = vs.length
      · subst hjn
        simp [hlen, hmodlt]
      · have hlt : j < vs.length := by omega
        have hne : vs.length % k ≠ j % k := fun h => mod_ne_of_lt j vs.length k hlt (by omega) h.symm
        rw [if_neg hne, hdata j hlt (by omega), List.getElem?_append_left hlt]

/-- Reading index `i` of the window after the pushes `vs`, capacity `k ≥ 1`. -/
theorem cb_pushes_get (k : Nat) (hk : 1 ≤ k) (vs : List F) (i : Nat)
    (hi : i < min vs.length k) :
    some (cb_get (cb_pushes (k : Int) vs) (i : Int)) = vs[vs.length - min vs.length k + i]? := by
  obtain ⟨hcap, hlen, hsize, hhead, hfull, hdata⟩ := cb_pushes_inv k hk vs
  have hn : ¬ ((i : Int) < 0 ∨ (i : Int) ≥ cb_size (cb_pushes (k : Int) vs)) := by
    rw [cb_size, hsize]
    omega
  rw [cb_get, if_neg hn, hfull, hhead, hcap]
  by_cases hf : k ≤ vs.length
  · have hm : min vs.length k = k := by omega
    have hidx : ((((vs.length % k : Nat) : Int) + (i : Int)).tmod (k : Int)).toNat
        = (vs.length - k + i) % k := by
      rw [Int.tmod_eq_emod (by omega) (by omega)]
      have : (((vs.length % k : Nat) : Int) + (i : Int)) % (k : Int)
          = (((vs.length - k + i) % k : Nat) : Int) := by
        push_cast [Nat.cast_sub hf]
        rw [Int.emod_add_emod]
        have : (vs.length : Int) - k + i = (vs.length + i) + (k : Int) * (-1) := by ring
        rw [this, Int.add_mul_emod_self_left]
      rw [this, Int.toNat_ofNat]
    simp only [hf, decide_True, if_true, hidx, hm]
    have := hdata (vs.length - k + i) (by omega) (by omega)
    rw [List.getD_eq_getElem?_getD]
    rw [← this]
    have hlt : (vs.length - k + i) % k < (cb_pushes (k : Int) vs).data.length := by
      rw [hlen]; exact Nat.mod_lt _ (by omega)
    simp [List.getElem?_eq_getElem hlt]
  · have hm : min vs.length k = vs.length := by omega
    simp only [hf, decide_False, Bool.false_eq_true, if_false, Int.toNat_ofNat, hm]
    have := hdata i (by omega) (by omega)
    rw [Nat.mod_eq_of_lt (by omega)] at this
    have hlt : i < (cb_pushes (k : Int) vs).data.length := by
      rw [hlen]; omega
    have hidx : vs.length - vs.length + i = i := by omega
    rw [List.getD_eq_getElem?_getD, hidx, ← this]
    simp [List.getElem?_eq_getElem hlt]

/-- C3: for a capacity `c ≥ 1`, after pushing `v_1 .. v_n` into a fresh buffer,
`cb_size` is `min n c` and `cb_get i`, for `0 ≤ i < min n c`, is the pushed value
number `n - min n c + i + 1` (the list index `n - min n c + i`): the window holds the
last `min n c` pushed values in push order, oldest first. -/
theorem cb_window_last_values (c : Int) (hc : 1 ≤ c) (vs : List F) :
    cb_size (cb_pushes c vs) = min (vs.length : Int) c ∧
    ∀ i : Nat, (i : Int) < min (vs.length : Int) c →
      some (cb_get (cb_pushes c vs) (i : Int))
        = vs[vs.length - (min (vs.length : Int) c).toNat + i]? := by
  obtain ⟨k, rfl⟩ : ∃ k : Nat, c = (k : Int) := ⟨c.toNat, by omega⟩
  have hk : 1 ≤ k := by omega
  have hmin : min (vs.length : Int) (k : Int) = ((min vs.length k : Nat) : Int) := by
    push_cast; rfl
  rw [hmin]
  refine ⟨(cb_pushes_inv k hk vs).2.2.1, ?_⟩
  intro i hi
  rw [Int.toNat_ofNat]
  exact cb_pushes_get k hk vs i (by omega)

theorem cb_window_last_values_witness :
    cb_size (cb_pushes 3 ([10, 20, 30, 40] : List ℚ)) = 3 ∧
    cb_get (cb_pushes 3 ([10, 20, 30, 40] : List ℚ)) 0 = 20 ∧
    cb_get (cb_pushes 3 ([10, 20, 30, 40] : List ℚ)) 2 = 40 := by
  have h := cb_window_last_values (3 : Int) (by decide) ([10, 20, 30, 40] : List ℚ)
  refine ⟨by simpa using h.1, ?_, ?_⟩
  · simpa using h.2 0 (by simp)
  · simpa using h.2 2 (by simp)

/-- C4: every buffer reached from `create_circular_buffer c`, `c ≥ 1`, by pushes has
`0 ≤ size ≤ capacity`, `0 ≤ head < capacity` and `is_full` iff `size = capacity`; and a
push of `v` on a full buffer keeps `size = capacity`, moves the old element at index
`i + 1` to index `i` for every `i < capacity - 1`, and puts `v` at index
`capacity - 1` (the oldest element is the one evicted). -/
theorem cb_ring_invariant (c : Int) (hc : 1 ≤ c) (vs : List F) (v : F) :
    (0 ≤ (cb_pushes c vs).size ∧ (cb_pushes c vs).size ≤ (cb_pushes c vs).capacity) ∧
    (0 ≤ (cb_pushes c vs).head ∧ (cb_pushes c vs).head < (cb_pushes c vs).capacity) ∧
    ((cb_pushes c vs).is_full = true ↔ (cb_pushes c vs).size = (cb_pushes c vs).capacity) ∧
    ((cb_pushes c vs).is_full = true →
      (cb_push (cb_pushes c vs) v).size = (cb_pushes c vs).capacity ∧
      (∀ i : Int, 0 ≤ i → i < (cb_pushes c vs).capacity - 1 →
        cb_get (cb_push (cb_pushes c vs) v) i = cb_get (cb_pushes c vs) (i + 1)) ∧
      cb_get (cb_push (cb_pushes c vs) v) ((cb_pushes c vs).capacity - 1) = v) := by
  obtain ⟨k, rfl⟩ : ∃ k : Nat, c = (k : Int) := ⟨c.toNat, by omega⟩
  have hk : 1 ≤ k := by omega
  obtain ⟨hcap, hlen, hsize, hhead, hfull, hdata⟩ := cb_pushes_inv k hk vs
  have hmodlt : vs.length % k < k := Nat.mod_lt _ (by omega)
  refine ⟨?_, ?_, ?_, ?_⟩
  · rw [hsize, hcap]; omega
  · rw [hhead, hcap]; omega
  · rw [hfull, hsize, hcap]
    simp only [decide_eq_true_eq]
    omega
  · intro hf
    rw [hfull] at hf
    have hkn : k ≤ vs.length := by simpa using hf
    have hl : (vs ++ [v]).length = vs.length + 1 := by simp
    have hget := cb_pushes_get k hk (vs ++ [v])
    rw [cb_pushes_snoc, hl] at hget
    have hm1 : min (vs.length + 1) k = k := by omega
    have hm : min vs.length k = k := by omega
    rw [hm1] at hget
    refine ⟨?_, ?_, ?_⟩
    · rw [cb_push_size, hfull, hsize, hcap]
      simp [hkn]
    · intro i hi0 hi1
      rw [hcap] at hi1
      obtain ⟨j, rfl⟩ : ∃ j : Nat, i = (j : Int) := ⟨i.toNat, by omega⟩
      have h1 := hget j (by omega)
      have h2 := cb_pushes_get k hk vs (j + 1) (by omega)
      rw [hm] at h2
      have hidx : vs.length + 1 - k + j = vs.length - k + (j + 1) := by omega
      rw [hidx, List.getElem?_append_left (by omega), ← h2] at h1
      simpa using h1
    · rw [hcap]
      have h1 := hget (k - 1) (by omega)
      have hidx : vs.length + 1 - k + (k - 1) = vs.length := by omega
      rw [hidx] at h1
      have hc1 : ((k - 1 : Nat) : Int) = (k : Int) - 1 := by omega
      rw [hc1] at h1
      simpa using h1

theorem cb_ring_invariant_witness :
    (cb_pushes 3 ([10, 20, 30] : List ℚ)).is_full = true ∧
    cb_get (cb_push (cb_pushes 3 ([10, 20, 30] : List ℚ)) 40) 0 = 20 ∧
    cb_get (cb_push (cb_pushes 3 ([10, 20, 30] : List ℚ)) 40) 2 = 40 := by
  have h := cb_ring_invariant (3 : Int) (by decide) ([10, 20, 30] : List ℚ) 40
  have hf : (cb_pushes 3 ([10, 20, 30] : List ℚ)).is_full = true := by decide
  obtain ⟨-, h1, h2⟩ := h.2.2.2 hf
  refine ⟨hf, ?_, h2⟩
  rw [h1 0 (by decide) (by decide)]
  decide

/-! ### Two trackers, one static position -/

theorem foldl_range_congr {β : Type} (f g : β → Nat → β) (n : Nat)
    (h : ∀ b i, i < n → f b i = g b i) (b0 : β) :
    (List.range n).foldl f b0 = (List.range n).foldl g b0 := by
  induction n with
  | zero => rfl
  | succ n ih =>
    rw [List.range_succ, List.foldl_append, List.foldl_append,
      ih (fun b i hi => h b i (Nat.lt_succ_of_lt hi))]
    simp only [List.foldl_cons, List.foldl_nil]
    exact h _ n (Nat.lt_succ_self n)

/-- A window that is not yet over-full reads back the pushed values. -/
theorem cb_pushes_small (c : Int) (vs : List F) (h1 : 1 ≤ c) (hc : (vs.length : Int) ≤ c) :
    cb_size (cb_pushes c vs) = (vs.length : Int) ∧
    ∀ i : Nat, i < vs.length → cb_get (cb_pushes c vs) (i : Int) = vs.getD i 0 := by
  obtain ⟨k, rfl⟩ : ∃ k : Nat, c = (k : Int) := ⟨c.toNat, by omega⟩
  have hk : 1 ≤ k := by omega
  have hn : vs.length ≤ k := by omega
  have hm : min vs.length k = vs.length := by omega
  refine ⟨?_, ?_⟩
  · rw [cb_size, (cb_pushes_inv k hk vs).2.2.1, hm]
  · intro i hi
    have := cb_pushes_get k hk vs i (by omega)
    rw [hm, Nat.sub_self, Nat.zero_add] at this
    rw [List.getD_eq_getElem?_getD, ← this]
    rfl

theorem rolling_mean_pushes (c : Int) (vs : List F) (h1 : 1 ≤ c) (hc : (vs.length : Int) ≤ c) :
    rolling_mean (cb_pushes c vs) =
      if vs.length = 0 then 0
      else (List.range vs.length).foldl (fun s (i : Nat) => s + vs.getD i 0) 0
        / (vs.length : F) := by
  obtain ⟨hsize, hget⟩ := cb_pushes_small c vs h1 hc
  unfold rolling_mean
  simp only [hsize, Int.toNat_ofNat, Nat.cast_eq_zero, Int.cast_natCast]
  split_ifs with h0
  · rfl
  · rw [foldl_range_congr _ (fun s (i : Nat) => s + vs.getD i 0) vs.length
      (fun b i hi => by rw [hget i hi])]

theorem rolling_std_pushes (M : Libm F) (c : Int) (vs : List F) (h1 : 1 ≤ c)
    (hc : (vs.length : Int) ≤ c) :
    rolling_std M (cb_pushes c vs) =
      if vs.length ≤ 1 then 0
      else M.sqrt ((List.range vs.length).foldl
          (fun s (i : Nat) =>
            s + (vs.getD i 0 - rolling_mean (cb_pushes c vs))
              * (vs.getD i 0 - rolling_mean (cb_pushes c vs))) 0
        / ((vs.length : F) - 1)) := by
  obtain ⟨hsize, hget⟩ := cb_pushes_small c vs h1 hc
  unfold rolling_std
  simp only [hsize, Int.toNat_ofNat, Nat.cast_le_one, Int.cast_sub, Int.cast_natCast,
    Int.cast_one]
  split_ifs with h0
  · rfl
  · rw [foldl_range_congr _ (fun s (i : Nat) =>
            s + (vs.getD i 0 - rolling_mean (cb_pushes c vs))
              * (vs.getD i 0 - rolling_mean (cb_pushes c vs))) vs.length
      (fun b i hi => by rw [hget i hi])]

theorem generate_pairs_signal_position (M : Libm F) (pos : Int) (t : PairTracker F) (p1 p2 : F) :
    (generate_pairs_signal M pos t p1 p2).1 =
      (mean_reversion_signal pos
        (calculate_z_score (M.log p1 - M.log p2)
          (rolling_mean (cb_push t.spread_buffer (M.log p1 - M.log p2)))
          (rolling_std M (cb_push t.spread_buffer (M.log p1 - M.log p2)))) 2 (1 / 2)).1 := rfl

theorem generate_pairs_signal_signal (M : Libm F) (pos : Int) (t : PairTracker F) (p1 p2 : F) :
    (generate_pairs_signal M pos t p1 p2).2.2.signal =
      (mean_reversion_signal pos
        (calculate_z_score (M.log p1 - M.log p2)
          (rolling_mean (cb_push t.spread_buffer (M.log p1 - M.log p2)))
          (rolling_std M (cb_push t.spread_buffer (M.log p1 - M.log p2)))) 2 (1 / 2)).2 := rfl

theorem generate_pairs_signal_spread_buffer (M : Libm F) (pos : Int) (t : PairTracker F)
    (p1 p2 : F) :
    (generate_pairs_signal M pos t p1 p2).2.1.spread_buffer =
      cb_push t.spread_buffer (M.log p1 - M.log p2) := rfl

/-- A tick whose spread is 0 on a window of zeros has z-score 0. -/
theorem z_score_zero_window (M : Libm F) (c : Int) (n : Nat) (h1 : 1 ≤ c) (hc : (n : Int) < c) :
    calculate_z_score (0 : F)
      (rolling_mean (cb_push (cb_pushes c (List.replicate n (0 : F))) 0))
      (rolling_std M (cb_push (cb_pushes c (List.replicate n (0 : F))) 0)) = 0 := by
  have hm : rolling_mean (cb_push (cb_pushes c (List.replicate n (0 : F))) 0) = 0 := by
    rw [← cb_pushes_snoc, rolling_mean_pushes c _ h1 (by simp; omega)]
    split_ifs
    · rfl
    · have : ∀ m : Nat, (List.range m).foldl
          (fun s (i : Nat) => s + (List.replicate n (0 : F) ++ [0]).getD i 0) 0 = 0 := by
        intro m
        induction m with
        | zero => rfl
        | succ m ih =>
          rw [List.range_succ, List.foldl_append, ih]
          have hrep : List.replicate n (0 : F) ++ [0] = List.replicate (n + 1) 0 := by
            rw [List.replicate_succ']
          simp only [hrep, List.getD_eq_getElem?_getD, List.getElem?_replicate, List.foldl_cons,
            List.foldl_nil, zero_add]
          split_ifs <;> rfl
      rw [this, zero_div]
  rw [hm]
  unfold calculate_z_score
  split_ifs <;> simp

/-- A `(1, 1)` tick (spread `log 1 - log 1 = 0`) on a tracker whose spread window holds
only zeros leaves the position Flat and returns 0. -/
theorem zero_tick (M : Libm F) (hlog1 : M.log 1 = 0) (t : PairTracker F) (n : Nat)
    (hn : n < 20) (ht : t.spread_buffer = cb_pushes 20 (List.replicate n (0 : F))) :
    (generate_pairs_signal M 0 t 1 1).1 = 0 ∧
    (generate_pairs_signal M 0 t 1 1).2.2.signal = 0 ∧
    (generate_pairs_signal M 0 t 1 1).2.1.spread_buffer
      = cb_pushes 20 (List.replicate (n + 1) (0 : F)) := by
  have hz := z_score_zero_window M 20 n (by norm_num) (by omega)
  refine ⟨?_, ?_, ?_⟩
  · rw [generate_pairs_signal_position, hlog1, sub_self, ht, hz]
    norm_num [mean_reversion_signal]
  · rw [generate_pairs_signal_signal, hlog1, sub_self, ht, hz]
    norm_num [mean_reversion_signal]
  · rw [generate_pairs_signal_spread_buffer, hlog1, sub_self, ht, ← cb_pushes_snoc,
      List.replicate_succ']

theorem z_score_jump6 (M : Libm F)
    (hsqrt : ∀ x : F, 0 < x → 0 < M.sqrt x ∧ M.sqrt x * M.sqrt x = x) (L : F) (hL : 0 < L) :
    2 < calculate_z_score L (rolling_mean (cb_pushes 20 [0, 0, 0, 0, 0, L]))
      (rolling_std M (cb_pushes 20 [0, 0, 0, 0, 0, L])) := by
  have hr : List.range 6 = [0, 1, 2, 3, 4, 5] := rfl
  have hm : rolling_mean (cb_pushes 20 [0, 0, 0, 0, 0, L]) = L / 6 := by
    rw [rolling_mean_pushes 20 _ (by norm_num) (by norm_num)]
    simp [hr]
  have hs : rolling_std M (cb_pushes 20 [0, 0, 0, 0, 0, L]) = M.sqrt (L * L / 6) := by
    rw [rolling_std_pushes M 20 _ (by norm_num) (by norm_num), hm]
    simp only [List.length_cons, List.length_nil, hr, List.foldl_cons, List.foldl_nil,
      List.getD_cons_zero, List.getD_cons_succ]
    norm_num
    congr 1
    ring
  obtain ⟨hpos, hsq⟩ := hsqrt (L * L / 6) (by positivity)
  rw [hm, hs]
  unfold calculate_z_score
  rw [if_neg (ne_of_gt hpos), lt_div_iff₀ hpos]
  nlinarith

theorem z_score_jump2 (M : Libm F)
    (hsqrt : ∀ x : F, 0 < x → 0 < M.sqrt x ∧ M.sqrt x * M.sqrt x = x) (L : F) (hL : 0 < L) :
    1 / 2 ≤ calculate_z_score L (rolling_mean (cb_pushes 20 [0, L]))
      (rolling_std M (cb_pushes 20 [0, L])) ∧
    calculate_z_score L (rolling_mean (cb_pushes 20 [0, L]))
      (rolling_std M (cb_pushes 20 [0, L])) ≤ 2 := by
  have hr : List.range 2 = [0, 1] := rfl
  have hm : rolling_mean (cb_pushes 20 [0, L]) = L / 2 := by
    rw [rolling_mean_pushes 20 _ (by norm_num) (by norm_num)]
    simp [hr]
  have hs : rolling_std M (cb_pushes 20 [0, L]) = M.sqrt (L * L / 2) := by
    rw [rolling_std_pushes M 20 _ (by norm_num) (by norm_num), hm]
    simp only [List.length_cons, List.length_nil, hr, List.foldl_cons, List.foldl_nil,
      List.getD_cons_zero, List.getD_cons_succ]
    norm_num
    congr 1
    ring
  obtain ⟨hpos, hsq⟩ := hsqrt (L * L / 2) (by positivity)
  rw [hm, hs]
  unfold calculate_z_score
  rw [if_neg (ne_of_gt hpos), le_div_iff₀ hpos, div_le_iff₀ hpos]
  constructor <;> nlinarith

theorem zero_ticks_run (M : Libm F) (hlog1 : M.log 1 = 0) (m : Nat) :
    ∀ (t : PairTracker F) (n : Nat) (sigs : List Int), n + m ≤ 20 →
      t.spread_buffer = cb_pushes 20 (List.replicate n (0 : F)) →
      ∃ t' : PairTracker F,
        t'.spread_buffer = cb_pushes 20 (List.replicate (n + m) (0 : F)) ∧
        (List.replicate m ((1 : F), (1 : F))).foldl
          (fun (s : Int × PairTracker F × List Int) (tk : F × F) =>
            ((generate_pairs_signal M s.1 s.2.1 tk.1 tk.2).1,
             (generate_pairs_signal M s.1 s.2.1 tk.1 tk.2).2.1,
             s.2.2 ++ [(generate_pairs_signal M s.1 s.2.1 tk.1 tk.2).2.2.signal]))
          (0, t, sigs) = (0, t', sigs ++ List.replicate m 0) := by
  induction m with
  | zero =>
    intro t n sigs _ ht
    exact ⟨t, ht, by simp⟩
  | succ m ih =>
    intro t n sigs hn ht
    obtain ⟨h1, h2, h3⟩ := zero_tick M hlog1 t n (by omega) ht
    obtain ⟨t', ht', hrun⟩ := ih (generate_pairs_signal M 0 t 1 1).2.1 (n + 1) (sigs ++ [0])
      (by omega) h3
    refine ⟨t', by rw [ht']; congr 2; omega, ?_⟩
    rw [List.replicate_succ, List.foldl_cons]
    simp only [h1, h2]
    rw [hrun, List.append_assoc]
    rfl

/-- The shared static position, for any libm with `log 1 = 0 < log 2` and a positive
square root: tracker B ticks `(1, 1)`; tracker A ticks `(1, 1)` five times and then
`(2, 1)`, which opens Short; B's next tick `(2, 1)` returns -1 (Short held), while
without A's ticks it returns 0. -/
theorem shared_position_scenario (M : Libm F) (hlog1 : M.log 1 = 0) (hlog2 : 0 < M.log 2)
    (hsqrt : ∀ x : F, 0 < x → 0 < M.sqrt x ∧ M.sqrt x * M.sqrt x = x) :
    (generate_pairs_signal M 0 (create_pair_tracker 20) 1 1).1 = 0 ∧
    (generate_pairs_signal_run M 0 (create_pair_tracker 20)
      [(1, 1), (1, 1), (1, 1), (1, 1), (1, 1), (2, 1)]).1 = -1 ∧
    (generate_pairs_signal M (-1)
      (generate_pairs_signal M 0 (create_pair_tracker 20) 1 1).2.1 2 1).2.2.signal = -1 ∧
    (generate_pairs_signal M 0
      (generate_pairs_signal M 0 (create_pair_tracker 20) 1 1).2.1 2 1).2.2.signal = 0 := by
  have h0 : (create_pair_tracker 20 : PairTracker F).spread_buffer
      = cb_pushes 20 (List.replicate 0 (0 : F)) := rfl
  obtain ⟨hB1, -, hB3⟩ := zero_tick M hlog1 (create_pair_tracker 20) 0 (by norm_num) h0
  have hz2 := z_score_jump2 M hsqrt (M.log 2) hlog2
  have hbuf2 : cb_push (cb_pushes 20 (List.replicate (0 + 1) (0 : F))) (M.log 2 - M.log 1)
      = cb_pushes 20 [0, M.log 2] := by
    rw [hlog1, sub_zero, ← cb_pushes_snoc]
    rfl
  refine ⟨hB1, ?_, ?_, ?_⟩
  · obtain ⟨t5, ht5, hrun⟩ := zero_ticks_run M hlog1 5 (create_pair_tracker 20) 0 []
      (by norm_num) h0
    have hz6 := z_score_jump6 M hsqrt (M.log 2) hlog2
    have hbuf6 : cb_push (cb_pushes 20 (List.replicate (0 + 5) (0 : F))) (M.log 2 - M.log 1)
        = cb_pushes 20 [0, 0, 0, 0, 0, M.log 2] := by
      rw [hlog1, sub_zero, ← cb_pushes_snoc]
      rfl
    have hsplit : ([(1, 1), (1, 1), (1, 1), (1, 1), (1, 1), (2, 1)] : List (F × F))
        = List.replicate 5 ((1 : F), (1 : F)) ++ [(2, 1)] := rfl
    rw [generate_pairs_signal_run, hsplit, List.foldl_append, hrun]
    simp only [List.foldl_cons, List.foldl_nil]
    rw [generate_pairs_signal_position, ht5, hbuf6]
    simp only [hlog1, sub_zero]
    simp [mean_reversion_signal, hz6]
  · rw [generate_pairs_signal_signal, hB3, hbuf2]
    simp only [hlog1, sub_zero]
    have hnot : ¬ (calculate_z_score (M.log 2) (rolling_mean (cb_pushes 20 [0, M.log 2]))
        (rolling_std M (cb_pushes 20 [0, M.log 2])) < 1 / 2) := not_lt.mpr hz2.1
    rw [one_div] at hnot
    simp [mean_reversion_signal, hnot]
  · rw [generate_pairs_signal_signal, hB3, hbuf2]
    simp only [hlog1, sub_zero]
    have hnot : ¬ (calculate_z_score (M.log 2) (rolling_mean (cb_pushes 20 [0, M.log 2]))
        (rolling_std M (cb_pushes 20 [0, M.log 2])) > 2) := not_lt.mpr hz2.2
    have hnot2 : ¬ (calculate_z_score (M.log 2) (rolling_mean (cb_pushes 20 [0, M.log 2]))
        (rolling_std M (cb_pushes 20 [0, M.log 2])) < -2) := by
      intro h
      linarith [hz2.1]
    simp [mean_reversion_signal, hnot, hnot2]

/-- C2, evaluated on the code with the real `sqrt` and `log`: two trackers A and B made
by `create_pair_tracker 20`, calls in program order with the one static position
threaded through.  B ticks `(1, 1)`; A ticks `(1, 1)` five times and `(2, 1)` once,
after which the static position is -1; B's next tick `(2, 1)` then returns -1, while the
same tick on the same tracker B without A's ticks in between returns 0. -/
theorem position_shared_across_trackers :
    (generate_pairs_signal_run (⟨Real.sqrt, Real.log⟩ : Libm ℝ)
      (generate_pairs_signal (⟨Real.sqrt, Real.log⟩ : Libm ℝ) 0 (create_pair_tracker 20) 1 1).1
      (create_pair_tracker 20) [(1, 1), (1, 1), (1, 1), (1, 1), (1, 1), (2, 1)]).1 = -1 ∧
    (generate_pairs_signal (⟨Real.sqrt, Real.log⟩ : Libm ℝ)
      (generate_pairs_signal_run (⟨Real.sqrt, Real.log⟩ : Libm ℝ)
        (generate_pairs_signal (⟨Real.sqrt, Real.log⟩ : Libm ℝ) 0
          (create_pair_tracker 20) 1 1).1
        (create_pair_tracker 20) [(1, 1), (1, 1), (1, 1), (1, 1), (1, 1), (2, 1)]).1
      (generate_pairs_signal (⟨Real.sqrt, Real.log⟩ : Libm ℝ) 0
        (create_pair_tracker 20) 1 1).2.1 2 1).2.2.signal = -1 ∧
    (generate_pairs_signal (⟨Real.sqrt, Real.log⟩ : Libm ℝ)
      (generate_pairs_signal (⟨Real.sqrt, Real.log⟩ : Libm ℝ) 0 (create_pair_tracker 20) 1 1).1
      (generate_pairs_signal (⟨Real.sqrt, Real.log⟩ : Libm ℝ) 0
        (create_pair_tracker 20) 1 1).2.1 2 1).2.2.signal = 0 := by
  obtain ⟨h1, h2, h3, h4⟩ := shared_position_scenario (⟨Real.sqrt, Real.log⟩ : Libm ℝ)
    Real.log_one (Real.log_pos one_lt_two)
    (fun x hx => ⟨Real.sqrt_pos.mpr hx, Real.mul_self_sqrt (le_of_lt hx)⟩)
  rw [h1, h2]
  exact ⟨rfl, h3, h4⟩

/-! ### Position sizing -/

/-- C5, evaluated on the code: for the manager of `create_risk_manager 20 0.15` with
`current_volatility = 0.01`, signal strength 3 and account size 1,000,000,000 the raw
volatility scalar is 15 > 5, the clamp branch recomputes the size as
`base * 5 * strength = 100,000,000`, and this value, above `max_position_limit =
1,000,000`, is returned and stored. -/
theorem volatility_target_size_exceeds_limit :
    (calculate_volatility_target_size
      ({ (create_risk_manager 20 (15 / 100) : RiskManager ℚ) with current_volatility := 1 / 100 })
      3 1000000000).2 = 100000000 ∧
    (calculate_volatility_target_size
      ({ (create_risk_manager 20 (15 / 100) : RiskManager ℚ) with current_volatility := 1 / 100 })
      3 1000000000).1.position_size = 100000000 ∧
    (calculate_volatility_target_size
      ({ (create_risk_manager 20 (15 / 100) : RiskManager ℚ) with current_volatility := 1 / 100 })
      3 1000000000).1.max_position_limit = 1000000 := by
  norm_num [calculate_volatility_target_size, create_risk_manager]

/-- When the raw volatility scalar is inside `[0.1, 5]`, the limit is non-negative and the
heat is at most 1, the sized position does not exceed `max_position_limit`. -/
theorem volatility_target_size_le_limit_of_scalar_in_range (manager : RiskManager F)
    (signal_strength account_size : F)
    (hlim : 0 ≤ manager.max_position_limit) (hheat : manager.portfolio_heat ≤ 1)
    (hlo : 1 / 10 ≤ (calculate_volatility_target_size manager signal_strength
      account_size).1.volatility_scalar)
    (hhi : (calculate_volatility_target_size manager signal_strength
      account_size).1.volatility_scalar ≤ 5)
    (hacc : 0 < account_size) :
    (calculate_volatility_target_size manager signal_strength account_size).2
      ≤ manager.max_position_limit := by
  unfold calculate_volatility_target_size at hlo hhi ⊢
  simp only [] at hlo hhi ⊢
  rw [if_neg (not_le.mpr hacc)] at hlo hhi ⊢
  simp only [] at hlo hhi ⊢
  rw [if_neg (not_lt.mpr hhi), if_neg (not_lt.mpr hlo)]
  generalize (account_size * manager.risk_per_trade *
    (if manager.current_volatility > 0 then manager.target_volatility / manager.current_volatility
      else 1) * _) = x
  by_cases hx : x > manager.max_position_limit
  · rw [if_pos hx]
    split_ifs with hh
    · nlinarith
    · exact le_refl _
  · rw [if_neg hx]
    split_ifs with hh
    · push_neg at hx
      by_cases hx0 : 0 ≤ x
      · nlinarith
      · nlinarith
    · exact not_lt.mp hx

/-! ### The regime detector -/

theorem argmax3_range (a b c : F) :
    (([1, 2] : List Nat).foldl
      (fun (acc : Int × F) (i : Nat) =>
        if [a, b, c].getD i 0 > acc.2 then ((i : Int), [a, b, c].getD i 0) else acc)
      (0, [a, b, c].getD 0 0)).1 = 0 ∨
    (([1, 2] : List Nat).foldl
      (fun (acc : Int × F) (i : Nat) =>
        if [a, b, c].getD i 0 > acc.2 then ((i : Int), [a, b, c].getD i 0) else acc)
      (0, [a, b, c].getD 0 0)).1 = 1 ∨
    (([1, 2] : List Nat).foldl
      (fun (acc : Int × F) (i : Nat) =>
        if [a, b, c].getD i 0 > acc.2 then ((i : Int), [a, b, c].getD i 0) else acc)
      (0, [a, b, c].getD 0 0)).1 = 2 := by
  simp only [List.foldl_cons, List.foldl_nil, List.getD_cons_zero, List.getD_cons_succ]
  split_ifs <;> simp

theorem regime_posterior_step_wf (d : RegimeDetector F) (e : F) (h : d.wf) :
    (regime_posterior_step d e).wf := by
  obtain ⟨hT, hcur, a, b, c, hp, ha, hb, hc, hsum⟩ := h
  -- the probabilities written by the step
  have hprob : ∃ a' b' c' : F,
      (if ((List.range 3).map (fun (i : Nat) =>
              (d.transition_matrix.getD d.current_regime.toNat []).getD i 0 * e)).getD 0 0 +
            ((List.range 3).map (fun (i : Nat) =>
              (d.transition_matrix.getD d.current_regime.toNat []).getD i 0 * e)).getD 1 0 +
            ((List.range 3).map (fun (i : Nat) =>
              (d.transition_matrix.getD d.current_regime.toNat []).getD i 0 * e)).getD 2 0 > 0
        then (List.range 3).map (fun (i : Nat) =>
          ((List.range 3).map (fun (i : Nat) =>
              (d.transition_matrix.getD d.current_regime.toNat []).getD i 0 * e)).getD i 0 /
            (((List.range 3).map (fun (i : Nat) =>
              (d.transition_matrix.getD d.current_regime.toNat []).getD i 0 * e)).getD 0 0 +
            ((List.range 3).map (fun (i : Nat) =>
              (d.transition_matrix.getD d.current_regime.toNat []).getD i 0 * e)).getD 1 0 +
            ((List.range 3).map (fun (i : Nat) =>
              (d.transition_matrix.getD d.current_regime.toNat []).getD i 0 * e)).getD 2 0))
        else d.regime_probabilities) = [a', b', c'] ∧
      0 ≤ a' ∧ 0 ≤ b' ∧ 0 ≤ c' ∧ a' + b' + c' = 1 := by
    have hr : List.range 3 = [0, 1, 2] := rfl
    rw [hT, hr]
    rcases hcur with h0 | h0 | h0 <;> rw [h0] <;>
      simp only [Int.toNat_zero, Int.toNat_one, List.getD_cons_zero, List.getD_cons_succ,
        List.map_cons, List.map_nil, show (2 : Int).toNat = 2 from rfl]
    all_goals
      split_ifs with ht
      · have hte : (95 / 100 * e + 4 / 100 * e + 1 / 100 * e = e) ∧
            (60 / 100 * e + 30 / 100 * e + 10 / 100 * e = e) ∧
            (20 / 100 * e + 50 / 100 * e + 30 / 100 * e = e) := by
          refine ⟨by ring, by ring, by ring⟩
        simp only [hte.1, hte.2.1, hte.2.2] at ht ⊢
        refine ⟨_, _, _, rfl, ?_, ?_, ?_, ?_⟩
        · positivity
        · positivity
        · positivity
        · field_simp
          ring
      · exact ⟨a, b, c, hp, ha, hb, hc, hsum⟩
  obtain ⟨a', b', c', hp', ha', hb', hc', hsum'⟩ := hprob
  unfold regime_posterior_step
  simp only []
  rw [hp']
  refine ⟨?_, ?_, ?_⟩
  · split_ifs <;> exact hT
  · have := argmax3_range a' b' c'
    split_ifs with hm
    · exact this
    · exact hcur
  · refine ⟨a', b', c', ?_, ha', hb', hc', hsum'⟩
    split_ifs <;> rfl

theorem create_regime_detector_wf (w : Int) : (create_regime_detector w : RegimeDetector F).wf := by
  refine ⟨rfl, Or.inl rfl, 8 / 10, 15 / 100, 5 / 100, rfl, ?_, ?_, ?_, ?_⟩ <;> norm_num

theorem update_regime_wf (M : Libm F) (st : RegimeStatics F) (d : RegimeDetector F)
    (price1 price2 correlation : F) (h : d.wf) :
    (update_regime M st d price1 price2 correlation).2.wf := by
  unfold update_regime
  simp only []
  split_ifs
  · exact h
  · exact regime_posterior_step_wf _ _ h
  · exact h
  · exact regime_posterior_step_wf _ _ h

theorem update_regime_run_wf (M : Libm F) (ticks : List (F × F × F)) (st : RegimeStatics F)
    (d : RegimeDetector F) (h : d.wf) : (update_regime_run M st d ticks).2.wf := by
  induction ticks generalizing st d with
  | nil => exact h
  | cons t ts ih =>
    simp only [update_regime_run, List.foldl_cons] at ih ⊢
    exact ih _ _ (update_regime_wf M st d t.1 t.2.1 t.2.2 h)

/-- C6: for a detector made by `create_regime_detector` and after every sequence of
`update_regime` calls (any prices, correlations, libm and initial statics), the three
`regime_probabilities` are non-negative and sum to 1 and `current_regime` is 0, 1 or
2; the initial prior is `[0.8, 0.15, 0.05]`. -/
theorem regime_probabilities_distribution (M : Libm F) (w : Int) (st : RegimeStatics F)
    (ticks : List (F × F × F)) :
    (∃ a b c : F,
      (update_regime_run M st (create_regime_detector w) ticks).2.regime_probabilities
        = [a, b, c] ∧ 0 ≤ a ∧ 0 ≤ b ∧ 0 ≤ c ∧ a + b + c = 1) ∧
    ((update_regime_run M st (create_regime_detector w) ticks).2.current_regime = 0 ∨
     (update_regime_run M st (create_regime_detector w) ticks).2.current_regime = 1 ∨
     (update_regime_run M st (create_regime_detector w) ticks).2.current_regime = 2) ∧
    (create_regime_detector w : RegimeDetector F).regime_probabilities
      = [8 / 10, 15 / 100, 5 / 100] := by
  have h := update_regime_run_wf M ticks st (create_regime_detector w)
    (create_regime_detector_wf w)
  exact ⟨h.2.2, h.2.1, rfl⟩

/-! ### Hedge ratio, half-life, costs and correlation -/

theorem clamp_bounds (x lo hi : F) (h : lo ≤ hi) :
    lo ≤ (if (if x < lo then lo else x) > hi then hi else (if x < lo then lo else x)) ∧
    (if (if x < lo then lo else x) > hi then hi else (if x < lo then lo else x)) ≤ hi := by
  split_ifs <;> constructor <;> linarith

/-- C7: `calculate_dynamic_hedge_ratio` returns a value in `[0.1, 5.0]` for every pair
of windows, every lookback and every libm (the fallback 1.0 included). -/
theorem hedge_ratio_in_bounds (M : Libm F) (price1 price2 : CircularBuffer F) (lookback : Int) :
    (1 : F) / 10 ≤ calculate_dynamic_hedge_ratio M price1 price2 lookback ∧
    calculate_dynamic_hedge_ratio M price1 price2 lookback ≤ 5 := by
  unfold calculate_dynamic_hedge_ratio
  simp only []
  by_cases h : cb_size price1 ≠ cb_size price2 ∨ cb_size price1 < lookback ∨ lookback < 5
  · rw [if_pos h]
    norm_num
  · rw [if_neg h]
    exact clamp_bounds _ _ _ (by norm_num)

theorem half_life_branch_bounds (beta h : F) :
    (1 : F) ≤ (if beta > 0 ∧ beta < 1 then
        (if (if h < 1 then 1 else h) > 100 then 100 else (if h < 1 then 1 else h)) else 20) ∧
    (if beta > 0 ∧ beta < 1 then
        (if (if h < 1 then 1 else h) > 100 then 100 else (if h < 1 then 1 else h)) else 20)
      ≤ 100 := by
  by_cases hb : beta > 0 ∧ beta < 1
  · rw [if_pos hb]
    exact clamp_bounds h 1 100 (by norm_num)
  · rw [if_neg hb]
    norm_num

/-- C8: `calculate_half_life` returns a value in `[1, 100]` for every window and every
libm (the default 20.0 included). -/
theorem half_life_in_bounds (M : Libm F) (spread_buffer : CircularBuffer F) :
    (1 : F) ≤ calculate_half_life M spread_buffer ∧
    calculate_half_life M spread_buffer ≤ 100 := by
  unfold calculate_half_life
  simp only []
  by_cases h : cb_size spread_buffer < 10
  · rw [if_pos h]
    norm_num
  · rw [if_neg h]
    exact half_life_branch_bounds _ _

/-- C9: with a position size `≥ 0`, all seven cost parameters `≥ 0` and a libm whose
`sqrt` of the size is `≥ 0`, `calculate_pnl_with_costs` has `total_cost ≥ 0` and
`net_pnl_after_costs ≤ theoretical_pnl`. -/
theorem pnl_net_le_theoretical (M : Libm F) (theoretical_pnl : F) (costs : TransactionCosts F)
    (position_size : F)
    (hsqrt : 0 ≤ M.sqrt position_size)
    (hsize : 0 ≤ position_size)
    (hs1 : 0 ≤ costs.bid_ask_spread_asset1) (hs2 : 0 ≤ costs.bid_ask_spread_asset2)
    (hi1 : 0 ≤ costs.market_impact_asset1) (hi2 : 0 ≤ costs.market_impact_asset2)
    (hfin : 0 ≤ costs.financing_cost) (hcom : 0 ≤ costs.commission_rate)
    (hslip : 0 ≤ costs.slippage_factor) :
    0 ≤ (calculate_pnl_with_costs M theoretical_pnl costs position_size).total_cost ∧
    (calculate_pnl_with_costs M theoretical_pnl costs position_size).net_pnl_after_costs
      ≤ theoretical_pnl := by
  have h : 0 ≤ (calculate_pnl_with_costs M theoretical_pnl costs position_size).total_cost := by
    simp only [calculate_pnl_with_costs]
    have := mul_nonneg hs1 hsize
    have := mul_nonneg hs2 hsize
    have := mul_nonneg hi1 hsqrt
    have := mul_nonneg hi2 hsqrt
    have := mul_nonneg hfin hsize
    have := mul_nonneg hcom hsize
    have := mul_nonneg hslip hsize
    linarith
  refine ⟨h, ?_⟩
  have e : (calculate_pnl_with_costs M theoretical_pnl costs position_size).net_pnl_after_costs
      = theoretical_pnl
        - (calculate_pnl_with_costs M theoretical_pnl costs position_size).total_cost := rfl
  rw [e]
  linarith

theorem pnl_net_le_theoretical_witness :
    (calculate_pnl_with_costs (⟨Real.sqrt, Real.log⟩ : Libm ℝ) 3000
        (create_transaction_costs (1 / 1000) (1 / 1000) (5 / 10000) (5 / 10000))
        10000).net_pnl_after_costs ≤ 3000 :=
  (pnl_net_le_theoretical (⟨Real.sqrt, Real.log⟩ : Libm ℝ) 3000
    (create_transaction_costs (1 / 1000) (1 / 1000) (5 / 10000) (5 / 10000)) 10000
    (Real.sqrt_nonneg _) (by norm_num)
    (by norm_num [create_transaction_costs]) (by norm_num [create_transaction_costs])
    (by norm_num [create_transaction_costs]) (by norm_num [create_transaction_costs])
    (by norm_num [create_transaction_costs]) (by norm_num [create_transaction_costs])
    (by norm_num [create_transaction_costs])).2

theorem correlation_sums_swap (cb1 cb2 : CircularBuffer F) (mean1 mean2 : F) (idx : List Nat) :
    correlation_sums cb2 cb1 mean2 mean1 idx =
      ((correlation_sums cb1 cb2 mean1 mean2 idx).1,
       (correlation_sums cb1 cb2 mean1 mean2 idx).2.2,
       (correlation_sums cb1 cb2 mean1 mean2 idx).2.1) := by
  induction idx using List.reverseRecOn with
  | nil => simp [correlation_sums]
  | append_singleton idx i ih =>
    simp only [correlation_sums, List.foldl_append, List.foldl_cons, List.foldl_nil] at ih ⊢
    rw [ih]
    simp only [mul_comm]

/-- C10: `calculate_correlation` is symmetric in its two windows (for all windows, in
particular for those of equal size `≥ 2`). -/
theorem correlation_symmetric (M : Libm F) (cb1 cb2 : CircularBuffer F) :
    calculate_correlation M cb1 cb2 = calculate_correlation M cb2 cb1 := by
  unfold calculate_correlation
  simp only []
  by_cases h : cb_size cb1 ≠ cb_size cb2 ∨ cb_size cb1 < 2
  · have h' : cb_size cb2 ≠ cb_size cb1 ∨ cb_size cb2 < 2 := by
      rcases h with h | h
      · exact Or.inl (fun e => h e.symm)
      · by_cases e : cb_size cb2 = cb_size cb1
        · exact Or.inr (by omega)
        · exact Or.inl e
    rw [if_pos h, if_pos h']
  · have h' : ¬ (cb_size cb2 ≠ cb_size cb1 ∨ cb_size cb2 < 2) := by
      intro h'
      apply h
      rcases h' with h' | h'
      · exact Or.inl (fun e => h' e.symm)
      · by_cases e : cb_size cb1 = cb_size cb2
        · exact Or.inr (by omega)
        · exact Or.inl e
    have e : cb_size cb2 = cb_size cb1 := by
      by_contra e
      exact h (Or.inl (fun e' => e e'.symm))
    rw [if_neg h, if_neg h', e, correlation_sums_swap cb1 cb2]
    simp only [mul_comm]

/-! ### Loops as sums -/

theorem foldl_range_sum (f : Nat → F) (n : Nat) (a : F) :
    (List.range n).foldl (fun s (i : Nat) => s + f i) a = a + ∑ i in Finset.range n, f i := by
  induction n with
  | zero => simp
  | succ n ih =>
    rw [List.range_succ, List.foldl_append, ih, Finset.sum_range_succ]
    simp only [List.foldl_cons, List.foldl_nil]
    ring

theorem foldl_range_sum3 (f g h : Nat → F) (n : Nat) :
    (List.range n).foldl
      (fun (acc : F × F × F) (i : Nat) => (acc.1 + f i, acc.2.1 + g i, acc.2.2 + h i))
      (0, 0, 0)
    = (∑ i in Finset.range n, f i, ∑ i in Finset.range n, g i, ∑ i in Finset.range n, h i) := by
  induction n with
  | zero => simp
  | succ n ih =>
    rw [List.range_succ, List.foldl_append, ih]
    simp only [List.foldl_cons, List.foldl_nil, Finset.sum_range_succ]

theorem foldl_range_sum4 (f g h k : Nat → F) (n : Nat) :
    (List.range n).foldl
      (fun (acc : F × F × F × F) (i : Nat) =>
        (acc.1 + f i, acc.2.1 + g i, acc.2.2.1 + h i, acc.2.2.2 + k i))
      (0, 0, 0, 0)
    = (∑ i in Finset.range n, f i, ∑ i in Finset.range n, g i, ∑ i in Finset.range n, h i,
       ∑ i in Finset.range n, k i) := by
  induction n with
  | zero => simp
  | succ n ih =>
    rw [List.range_succ, List.foldl_append, ih]
    simp only [List.foldl_cons, List.foldl_nil, Finset.sum_range_succ]

/-- `rolling_mean` as a sum over the window. -/
theorem rolling_mean_eq_sum (cb : CircularBuffer F) :
    rolling_mean cb =
      if cb_size cb = 0 then 0
      else (∑ i in Finset.range (cb_size cb).toNat, cb_get cb (i : Int)) / (cb_size cb : F) := by
  unfold rolling_mean
  simp only []
  rw [foldl_range_sum (fun i => cb_get cb (i : Int)), zero_add]

/-- The three accumulators of `calculate_correlation` as sums. -/
theorem correlation_sums_eq (cb1 cb2 : CircularBuffer F) (mean1 mean2 : F) (n : Nat) :
    correlation_sums cb1 cb2 mean1 mean2 (List.range n) =
      (∑ i in Finset.range n, (cb_get cb1 (i : Int) - mean1) * (cb_get cb2 (i : Int) - mean2),
       ∑ i in Finset.range n, (cb_get cb1 (i : Int) - mean1) * (cb_get cb1 (i : Int) - mean1),
       ∑ i in Finset.range n, (cb_get cb2 (i : Int) - mean2) * (cb_get cb2 (i : Int) - mean2)) := by
  unfold correlation_sums
  exact foldl_range_sum3 _ _ _ n

/-- Centred cross products: `n Σ (f - mean f)(g - mean g) = n Σ f g - Σ f Σ g`. -/
theorem sum_centered_mul (f g : Nat → F) (n : Nat) (hn : 0 < n) :
    (n : F) * ∑ i in Finset.range n,
        (f i - (∑ j in Finset.range n, f j) / (n : F)) *
        (g i - (∑ j in Finset.range n, g j) / (n : F))
      = (n : F) * ∑ i in Finset.range n, f i * g i
        - (∑ i in Finset.range n, f i) * (∑ i in Finset.range n, g i) := by
  have hn' : (n : F) ≠ 0 := by exact_mod_cast (Nat.pos_iff_ne_zero.mp hn)
  have e : ∀ i, (f i - (∑ j in Finset.range n, f j) / (n : F)) *
        (g i - (∑ j in Finset.range n, g j) / (n : F))
      = f i * g i - f i * ((∑ j in Finset.range n, g j) / (n : F))
        - (∑ j in Finset.range n, f j) / (n : F) * g i
        + (∑ j in Finset.range n, f j) / (n : F) * ((∑ j in Finset.range n, g j) / (n : F)) := by
    intro i; ring
  simp only [e, Finset.sum_add_distrib, Finset.sum_sub_distrib, ← Finset.sum_mul,
    ← Finset.mul_sum, Finset.sum_const, Finset.card_range, nsmul_eq_mul]
  field_simp
  ring

/-- A sum of squares of deviations is 0 only if every deviation is 0. -/
theorem sum_sq_dev_eq_zero (f : Nat → F) (m : F) (n : Nat)
    (h : ∑ i in Finset.range n, (f i - m) * (f i - m) = 0) : ∀ i, i < n → f i = m := by
  intro i hi
  have h0 := (Finset.sum_eq_zero_iff_of_nonneg
    (fun j _ => mul_self_nonneg (f j - m))).mp h i (Finset.mem_range.mpr hi)
  have := mul_self_eq_zero.mp h0
  linarith

theorem sum_sq_dev_nonneg (f : Nat → F) (m : F) (n : Nat) :
    0 ≤ ∑ i in Finset.range n, (f i - m) * (f i - m) :=
  Finset.sum_nonneg (fun j _ => mul_self_nonneg (f j - m))

/-- Two different values in the window make the sum of squared deviations positive. -/
theorem sum_sq_dev_pos (f : Nat → F) (m : F) (n : Nat) (i j : Nat) (hi : i < n) (hj : j < n)
    (hne : f i ≠ f j) : 0 < ∑ k in Finset.range n, (f k - m) * (f k - m) := by
  rcases (sum_sq_dev_nonneg f m n).lt_or_eq with h | h
  · exact h
  · exfalso
    have hall := sum_sq_dev_eq_zero f m n h.symm
    exact hne ((hall i hi).trans (hall j hj).symm)

/-! ### Correlation of a window with itself and with its negation -/

/-- C11: for a libm whose `sqrt` inverts squaring on non-negative numbers, a window `A`
of size `≥ 2` that holds two different values has `calculate_correlation A A = 1`. -/
theorem correlation_self_eq_one (M : Libm F) (A : CircularBuffer F)
    (hsqrt : ∀ x : F, 0 ≤ x → M.sqrt (x * x) = x)
    (hsize : 2 ≤ cb_size A)
    (hvar : ∃ i j : Nat, (i : Int) < cb_size A ∧ (j : Int) < cb_size A ∧
      cb_get A (i : Int) ≠ cb_get A (j : Int)) :
    calculate_correlation M A A = 1 := by
  obtain ⟨i, j, hi, hj, hne⟩ := hvar
  have hpos := sum_sq_dev_pos (fun k => cb_get A (k : Int)) (rolling_mean A) (cb_size A).toNat
    i j (by omega) (by omega) hne
  unfold calculate_correlation
  simp only []
  rw [if_neg (by omega), correlation_sums_eq]
  simp only []
  rw [hsqrt _ (le_of_lt hpos), if_neg (ne_of_gt hpos), div_self (ne_of_gt hpos)]

theorem rolling_mean_neg (A B : CircularBuffer F) (hsz : cb_size B = cb_size A)
    (hneg : ∀ i : Nat, (i : Int) < cb_size A → cb_get B (i : Int) = -cb_get A (i : Int)) :
    rolling_mean B = -rolling_mean A := by
  rw [rolling_mean_eq_sum, rolling_mean_eq_sum, hsz]
  split_ifs with h0
  · simp
  · rw [Finset.sum_congr rfl (fun i hi => hneg i (by
      have := Finset.mem_range.mp hi
      omega)), Finset.sum_neg_distrib, neg_div]

/-- C12: for a libm whose `sqrt` inverts squaring on non-negative numbers, windows `A`
and `B` of the same size `≥ 2` with `B[i] = -A[i]` for every `i` and `A` not constant
have `calculate_correlation A B = -1`. -/
theorem correlation_negated_eq_neg_one (M : Libm F) (A B : CircularBuffer F)
    (hsqrt : ∀ x : F, 0 ≤ x → M.sqrt (x * x) = x)
    (hsize : 2 ≤ cb_size A) (hsz : cb_size B = cb_size A)
    (hneg : ∀ i : Nat, (i : Int) < cb_size A → cb_get B (i : Int) = -cb_get A (i : Int))
    (hvar : ∃ i j : Nat, (i : Int) < cb_size A ∧ (j : Int) < cb_size A ∧
      cb_get A (i : Int) ≠ cb_get A (j : Int)) :
    calculate_correlation M A B = -1 := by
  obtain ⟨i, j, hi, hj, hne⟩ := hvar
  have hpos := sum_sq_dev_pos (fun k => cb_get A (k : Int)) (rolling_mean A) (cb_size A).toNat
    i j (by omega) (by omega) hne
  have hx : ∀ k ∈ Finset.range (cb_size A).toNat,
      cb_get B (k : Int) - rolling_mean B = -(cb_get A (k : Int) - rolling_mean A) := by
    intro k hk
    have := Finset.mem_range.mp hk
    rw [hneg k (by omega), rolling_mean_neg A B hsz hneg]
    ring
  unfold calculate_correlation
  simp only []
  rw [if_neg (by omega), correlation_sums_eq]
  simp only []
  have h1 : ∑ k in Finset.range (cb_size A).toNat,
        (cb_get A (k : Int) - rolling_mean A) * (cb_get B (k : Int) - rolling_mean B)
      = -∑ k in Finset.range (cb_size A).toNat,
        (cb_get A (k : Int) - rolling_mean A) * (cb_get A (k : Int) - rolling_mean A) := by
    rw [← Finset.sum_neg_distrib]
    exact Finset.sum_congr rfl (fun k hk => by rw [hx k hk]; ring)
  have h2 : ∑ k in Finset.range (cb_size A).toNat,
        (cb_get B (k : Int) - rolling_mean B) * (cb_get B (k : Int) - rolling_mean B)
      = ∑ k in Finset.range (cb_size A).toNat,
        (cb_get A (k : Int) - rolling_mean A) * (cb_get A (k : Int) - rolling_mean A) :=
    Finset.sum_congr rfl (fun k hk => by rw [hx k hk]; ring)
  rw [h1, h2, hsqrt _ (le_of_lt hpos), if_neg (ne_of_gt hpos), neg_div,
    div_self (ne_of_gt hpos)]

theorem correlation_self_eq_one_witness :
    calculate_correlation (⟨Real.sqrt, Real.log⟩ : Libm ℝ)
      (cb_pushes 5 [1, 2, 4]) (cb_pushes 5 [1, 2, 4]) = 1 := by
  obtain ⟨hs, hg⟩ := cb_pushes_small (5 : Int) ([1, 2, 4] : List ℝ) (by norm_num) (by norm_num)
  have h0 := hg 0 (by norm_num)
  have h1 := hg 1 (by norm_num)
  refine correlation_self_eq_one _ _ (fun x hx => Real.sqrt_mul_self hx) ?_ ⟨0, 1, ?_, ?_, ?_⟩
  · rw [hs]; norm_num
  · rw [hs]; norm_num
  · rw [hs]; norm_num
  · rw [h0, h1]; norm_num

theorem correlation_negated_eq_neg_one_witness :
    calculate_correlation (⟨Real.sqrt, Real.log⟩ : Libm ℝ)
      (cb_pushes 5 [1, 2, 4]) (cb_pushes 5 [-1, -2, -4]) = -1 := by
  obtain ⟨hs, hg⟩ := cb_pushes_small (5 : Int) ([1, 2, 4] : List ℝ) (by norm_num) (by norm_num)
  obtain ⟨hs', hg'⟩ := cb_pushes_small (5 : Int) ([-1, -2, -4] : List ℝ) (by norm_num)
    (by norm_num)
  have h0 := hg 0 (by norm_num)
  have h1 := hg 1 (by norm_num)
  refine correlation_negated_eq_neg_one _ _ _ (fun x hx => Real.sqrt_mul_self hx) ?_ ?_ ?_
    ⟨0, 1, ?_, ?_, ?_⟩
  · rw [hs]; norm_num
  · rw [hs, hs']; rfl
  · intro i hi
    rw [hs] at hi
    have hi3 : i < 3 := by
      simp only [List.length_cons, List.length_nil] at hi
      omega
    rw [hg i (by simpa using hi3), hg' i (by simpa using hi3)]
    interval_cases i <;> norm_num
  · rw [hs]; norm_num
  · rw [hs]; norm_num
  · rw [h0, h1]; norm_num

/-! ### A window filled with one value -/

theorem cb_pushes_replicate (c : Int) (hc : 1 ≤ c) (k : F) (n : Nat) :
    cb_size (cb_pushes c (List.replicate n k)) = min (n : Int) c ∧
    ∀ i : Nat, (i : Int) < min (n : Int) c →
      cb_get (cb_pushes c (List.replicate n k)) (i : Int) = k := by
  obtain ⟨m, rfl⟩ : ∃ m : Nat, c = (m : Int) := ⟨c.toNat, by omega⟩
  have hm : 1 ≤ m := by omega
  have hsz := (cb_pushes_inv m hm (List.replicate n k)).2.2.1
  rw [List.length_replicate] at hsz
  refine ⟨by rw [cb_size, hsz]; push_cast; rfl, ?_⟩
  intro i hi
  have hi' : i < min n m := by omega
  have h := cb_pushes_get m hm (List.replicate n k) i (by simpa using hi')
  rw [List.length_replicate, List.getElem?_replicate, if_pos (by omega)] at h
  exact Option.some.inj h

/-- In exact arithmetic: for a capacity `c ≥ 1`, a value `k` and `n ≥ 1`, after `k` has
been pushed `n` times into a fresh window, `rolling_mean` is `k`, `rolling_std` is 0
(for a `sqrt` with `sqrt 0 = 0`) and `calculate_z_score k mean std` is 0.  The proof
divides the exact sum `n * k` by `n`; with rounded sums the statement fails, see the
evaluations in binary64 arithmetic below. -/
theorem constant_window_statistics (M : Libm F) (c : Int) (hc : 1 ≤ c) (k : F) (n : Nat)
    (hn : 1 ≤ n) (hs0 : M.sqrt 0 = 0) :
    rolling_mean (cb_pushes c (List.replicate n k)) = k ∧
    rolling_std M (cb_pushes c (List.replicate n k)) = 0 ∧
    calculate_z_score k (rolling_mean (cb_pushes c (List.replicate n k)))
      (rolling_std M (cb_pushes c (List.replicate n k))) = 0 := by
  obtain ⟨hsz, hget⟩ := cb_pushes_replicate c hc k n
  have hpos : 1 ≤ min (n : Int) c := by omega
  have hmean : rolling_mean (cb_pushes c (List.replicate n k)) = k := by
    rw [rolling_mean_eq_sum, hsz, if_neg (by omega)]
    rw [Finset.sum_congr rfl (fun i hi => hget i (by
      have := Finset.mem_range.mp hi
      omega)), Finset.sum_const, Finset.card_range, nsmul_eq_mul]
    have hcast : (((min (n : Int) c).toNat : Nat) : F) = ((min (n : Int) c : Int) : F) := by
      rw [← Int.cast_natCast, Int.toNat_of_nonneg (by omega)]
    rw [hcast]
    have hne : ((min (n : Int) c : Int) : F) ≠ 0 := by
      have : (0 : Int) < min (n : Int) c := by omega
      exact_mod_cast (ne_of_gt this)
    field_simp
  have hstd : rolling_std M (cb_pushes c (List.replicate n k)) = 0 := by
    unfold rolling_std
    simp only []
    split_ifs with h1
    · rfl
    · rw [hmean, foldl_range_congr _ (fun s (_ : Nat) => s) _ (fun b i hi => by
        rw [hget i (by rw [hsz] at hi; omega)]
        ring)]
      have hz : ∀ m : Nat, (List.range m).foldl (fun (s : F) (_ : Nat) => s) 0 = 0 := by
        intro m
        induction m with
        | zero => rfl
        | succ m ih => rw [List.range_succ, List.foldl_append, ih]; rfl
      rw [hz, zero_div, hs0]
  refine ⟨hmean, hstd, ?_⟩
  rw [hmean, hstd]
  simp [calculate_z_score]

/-! ### Half-life of an exact AR(1) window -/

theorem calculate_half_life_eq (M : Libm F) (sb : CircularBuffer F) :
    calculate_half_life M sb =
      if cb_size sb < 10 then 20
      else if calculate_half_life_beta sb > 0 ∧ calculate_half_life_beta sb < 1 then
        (if (if -M.log 2 / M.log (calculate_half_life_beta sb) < 1 then 1
              else -M.log 2 / M.log (calculate_half_life_beta sb)) > 100 then 100
         else (if -M.log 2 / M.log (calculate_half_life_beta sb) < 1 then 1
              else -M.log 2 / M.log (calculate_half_life_beta sb)))
      else 20 := rfl

theorem clamp_eq_min_max (x lo hi : F) (h : lo ≤ hi) :
    (if (if x < lo then lo else x) > hi then hi else (if x < lo then lo else x))
      = min (max x lo) hi := by
  by_cases h1 : x < lo
  · rw [if_pos h1, if_neg (not_lt.mpr h), max_eq_right (le_of_lt h1), min_eq_left h]
  · rw [if_neg h1, max_eq_left (not_lt.mp h1)]
    by_cases h2 : x > hi
    · rw [if_pos h2, min_eq_right (le_of_lt h2)]
    · rw [if_neg h2, min_eq_left (not_lt.mp h2)]

theorem half_life_beta_ar1 (sb : CircularBuffer F) (β : F)
    (hsize : 10 ≤ cb_size sb) (hβ1 : β ≠ 1)
    (hs0 : cb_get sb 0 ≠ 0)
    (har : ∀ i : Nat, (i : Int) + 1 < cb_size sb →
      cb_get sb ((i : Int) + 1) = β * cb_get sb (i : Int)) :
    calculate_half_life_beta sb = β := by
  obtain ⟨N, hN⟩ : ∃ N : Nat, cb_size sb - 1 = (N : Int) := ⟨(cb_size sb - 1).toNat, by omega⟩
  have hN2 : 2 ≤ N := by omega
  unfold calculate_half_life_beta
  simp only []
  rw [hN, Int.toNat_ofNat, Int.cast_natCast,
    foldl_range_sum4 (fun i => cb_get sb ((i : Int) + 1)) (fun i => cb_get sb (i : Int))
      (fun i => cb_get sb (i : Int) * cb_get sb ((i : Int) + 1))
      (fun i => cb_get sb (i : Int) * cb_get sb (i : Int))]
  simp only []
  have hy : ∑ i in Finset.range N, cb_get sb ((i : Int) + 1)
      = β * ∑ i in Finset.range N, cb_get sb (i : Int) := by
    rw [Finset.mul_sum]
    exact Finset.sum_congr rfl (fun i hi => har i (by
      have := Finset.mem_range.mp hi
      omega))
  have hxy : ∑ i in Finset.range N, cb_get sb (i : Int) * cb_get sb ((i : Int) + 1)
      = β * ∑ i in Finset.range N, cb_get sb (i : Int) * cb_get sb (i : Int) := by
    rw [Finset.mul_sum]
    exact Finset.sum_congr rfl (fun i hi => by
      rw [har i (by
        have := Finset.mem_range.mp hi
        omega)]
      ring)
  have hne : cb_get sb ((0 : Nat) : Int) ≠ cb_get sb ((1 : Nat) : Int) := by
    have h1 := har 0 (by omega)
    simp only [Nat.cast_zero, zero_add, Nat.cast_one] at h1 ⊢
    rw [h1]
    intro h
    have : (1 - β) * cb_get sb 0 = 0 := by linear_combination h
    rcases mul_eq_zero.mp this with h' | h'
    · exact hβ1 (by linarith)
    · exact hs0 h'
  have hpos := sum_sq_dev_pos (fun i => cb_get sb (i : Int))
    ((∑ j in Finset.range N, cb_get sb (j : Int)) / (N : F)) N 0 1 (by omega) (by omega) hne
  have hD := sum_centered_mul (fun i => cb_get sb (i : Int)) (fun i => cb_get sb (i : Int)) N
    (by omega)
  have hNpos : (0 : F) < (N : F) := by exact_mod_cast (by omega : 0 < N)
  have hDpos : 0 < (N : F) * ∑ i in Finset.range N, cb_get sb (i : Int) * cb_get sb (i : Int)
      - (∑ i in Finset.range N, cb_get sb (i : Int)) * (∑ i in Finset.range N, cb_get sb (i : Int)) := by
    rw [← hD]
    exact mul_pos hNpos hpos
  rw [hy, hxy, div_eq_iff (ne_of_gt hDpos)]
  ring

/-- C14: for a window of at least 10 samples with `s[t+1] = β * s[t]`, `0 < β < 1` and
`s[0] ≠ 0`, the slope fitted by `calculate_half_life` is exactly `β` and the function
returns `-log 2 / log β` clamped to `[1, 100]`; for `β = 1/2` and a libm with
`log (1/2) = -log 2 ≠ 0` the result is 1. -/
theorem half_life_exact_ar1 (M : Libm F) (sb : CircularBuffer F) (β : F)
    (hsize : 10 ≤ cb_size sb) (hβ0 : 0 < β) (hβ1 : β < 1)
    (hs0 : cb_get sb 0 ≠ 0)
    (har : ∀ i : Nat, (i : Int) + 1 < cb_size sb →
      cb_get sb ((i : Int) + 1) = β * cb_get sb (i : Int)) :
    calculate_half_life_beta sb = β ∧
    calculate_half_life M sb = min (max (-M.log 2 / M.log β) 1) 100 ∧
    (β = 1 / 2 → M.log (1 / 2) = -M.log 2 → M.log 2 ≠ 0 → calculate_half_life M sb = 1) := by
  have hb := half_life_beta_ar1 sb β hsize (ne_of_lt hβ1) hs0 har
  have hval : calculate_half_life M sb = min (max (-M.log 2 / M.log β) 1) 100 := by
    rw [calculate_half_life_eq, if_neg (by omega), hb, if_pos ⟨hβ0, hβ1⟩]
    exact clamp_eq_min_max _ 1 100 (by norm_num)
  refine ⟨hb, hval, ?_⟩
  intro hhalf hlog hlog2
  rw [hval, hhalf, hlog, neg_div_neg_eq, div_self hlog2]
  norm_num

theorem half_life_exact_ar1_witness :
    calculate_half_life_beta (cb_pushes 20 ([512, 256, 128, 64, 32, 16, 8, 4, 2, 1] : List ℝ))
      = 1 / 2 ∧
    calculate_half_life (⟨Real.sqrt, Real.log⟩ : Libm ℝ)
      (cb_pushes 20 ([512, 256, 128, 64, 32, 16, 8, 4, 2, 1] : List ℝ)) = 1 := by
  obtain ⟨hs, hg⟩ := cb_pushes_small (20 : Int)
    ([512, 256, 128, 64, 32, 16, 8, 4, 2, 1] : List ℝ) (by norm_num) (by norm_num)
  have h := half_life_exact_ar1 (⟨Real.sqrt, Real.log⟩ : Libm ℝ)
    (cb_pushes 20 ([512, 256, 128, 64, 32, 16, 8, 4, 2, 1] : List ℝ)) (1 / 2)
    (by rw [hs]; norm_num) (by norm_num) (by norm_num)
    (by
      have h0 := hg 0 (by norm_num)
      simp only [Nat.cast_zero] at h0
      rw [h0]
      norm_num)
    (by
      intro i hi
      rw [hs] at hi
      simp only [List.length_cons, List.length_nil] at hi
      have hi9 : i < 9 := by omega
      have h1 := hg (i + 1) (by simp only [List.length_cons, List.length_nil]; omega)
      have h2 := hg i (by simp only [List.length_cons, List.length_nil]; omega)
      rw [Nat.cast_add, Nat.cast_one] at h1
      rw [h1, h2]
      interval_cases i <;> norm_num)
  have hlog : Real.log (1 / 2) = -Real.log 2 := by rw [one_div, Real.log_inv]
  exact ⟨h.1, h.2.2 rfl hlog (ne_of_gt (Real.log_pos one_lt_two))⟩

/-! ### The Bayes step under a Crisis candidate -/

/-- From regime Normal, any positive evidence gives back the Normal row of the transition
matrix as posterior, and the regime stays Normal. -/
theorem regime_posterior_step_normal (d : RegimeDetector F) (e : F) (he : 0 < e)
    (hT : d.transition_matrix =
      [[95 / 100, 4 / 100, 1 / 100], [60 / 100, 30 / 100, 10 / 100],
       [20 / 100, 50 / 100, 30 / 100]])
    (hcur : d.current_regime = 0) :
    (regime_posterior_step d e).regime_probabilities = [95 / 100, 4 / 100, 1 / 100] ∧
    (regime_posterior_step d e).current_regime = 0 := by
  have hr : List.range 3 = [0, 1, 2] := rfl
  have hsum : (95 / 100 * e + 4 / 100 * e + 1 / 100 * e : F) = e := by ring
  have he0 : e ≠ 0 := ne_of_gt he
  have h1 : (95 / 100 * e / e : F) = 95 / 100 := mul_div_cancel_right₀ _ he0
  have h2 : (4 / 100 * e / e : F) = 4 / 100 := mul_div_cancel_right₀ _ he0
  have h3 : (1 / 100 * e / e : F) = 1 / 100 := mul_div_cancel_right₀ _ he0
  have hne : ¬ ((4 : F) / 100 > 95 / 100) := by norm_num
  have hne2 : ¬ ((1 : F) / 100 > 95 / 100) := by norm_num
  unfold regime_posterior_step
  simp only [hT, hcur, hr, Int.toNat_zero, List.getD_cons_zero, List.getD_cons_succ,
    List.map_cons, List.map_nil, hsum, he, if_true, h1, h2, h3, List.foldl_cons,
    List.foldl_nil, hne, hne2, if_false, ne_eq, not_true_eq_false]
  exact ⟨trivial, trivial⟩

/-- C15, evaluated on the code: with `vol_percentile = 1` and `corr_std = 0` the
candidate regime is Crisis (2) and the evidence weight is 2, and the Bayes step on a
fresh detector (regime Normal) writes the posterior `[0.95, 0.04, 0.01]`, which is the
Normal row of the transition matrix and not a shift toward the Crisis row
`[0.20, 0.50, 0.30]`; the regime stays Normal (0). -/
theorem crisis_candidate_posterior_is_normal_row :
    regime_evidence (1 : ℚ) 0 = (2, 2) ∧
    (regime_posterior_step (create_regime_detector 10 : RegimeDetector ℚ)
      (regime_evidence (1 : ℚ) 0).2).regime_probabilities = [95 / 100, 4 / 100, 1 / 100] ∧
    (regime_posterior_step (create_regime_detector 10 : RegimeDetector ℚ)
      (regime_evidence (1 : ℚ) 0).2).current_regime = 0 ∧
    (create_regime_detector 10 : RegimeDetector ℚ).transition_matrix.getD 2 []
      = [20 / 100, 50 / 100, 30 / 100] := by
  have hev : regime_evidence (1 : ℚ) 0 = (2, 2) := by
    norm_num [regime_evidence]
  have h := regime_posterior_step_normal (create_regime_detector 10 : RegimeDetector ℚ) 2
    (by norm_num) rfl rfl
  rw [hev]
  exact ⟨rfl, h.1, h.2, rfl⟩

/-! ### Nominal position sizing and the cost decomposition -/

theorem strength_clamp_eq (x : F) :
    (if (if x > 1 then 1 else x) < 1 / 10 then 1 / 10 else (if x > 1 then 1 else x))
      = max (1 / 10) (min x 1) := by
  by_cases h1 : x > 1
  · rw [if_pos h1, min_eq_right (le_of_lt h1), if_neg (by norm_num), max_eq_right (by norm_num)]
  · rw [if_neg h1, min_eq_left (not_lt.mp h1)]
    by_cases h2 : x < 1 / 10
    · rw [if_pos h2, max_eq_left (le_of_lt h2)]
    · rw [if_neg h2, max_eq_right (not_lt.mp h2)]

/-- C16: with `current_volatility > 0`, `account_size > 0`, the raw scalar
`target / current` in `[0.1, 5]`, `portfolio_heat ≤ 0.5` and the product not above
`max_position_limit`, `calculate_volatility_target_size` returns
`account_size * risk_per_trade * (target / current) * clamp(|strength| / 3, 0.1, 1)`,
stores it in `position_size` and stores the scalar in `volatility_scalar`. -/
theorem volatility_target_size_nominal (manager : RiskManager F) (signal_strength account_size : F)
    (hcv : 0 < manager.current_volatility) (hacc : 0 < account_size)
    (hlo : 1 / 10 ≤ manager.target_volatility / manager.current_volatility)
    (hhi : manager.target_volatility / manager.current_volatility ≤ 5)
    (hheat : manager.portfolio_heat ≤ 1 / 2)
    (hlim : account_size * manager.risk_per_trade *
        (manager.target_volatility / manager.current_volatility) *
        max (1 / 10) (min (|signal_strength| / 3) 1) ≤ manager.max_position_limit) :
    (calculate_volatility_target_size manager signal_strength account_size).2 =
      account_size * manager.risk_per_trade *
        (manager.target_volatility / manager.current_volatility) *
        max (1 / 10) (min (|signal_strength| / 3) 1) ∧
    (calculate_volatility_target_size manager signal_strength account_size).1.position_size =
      account_size * manager.risk_per_trade *
        (manager.target_volatility / manager.current_volatility) *
        max (1 / 10) (min (|signal_strength| / 3) 1) ∧
    (calculate_volatility_target_size manager signal_strength account_size).1.volatility_scalar =
      manager.target_volatility / manager.current_volatility := by
  have hval : calculate_volatility_target_size manager signal_strength account_size =
      ({ manager with
          volatility_scalar := manager.target_volatility / manager.current_volatility,
          position_size := account_size * manager.risk_per_trade *
            (manager.target_volatility / manager.current_volatility) *
            max (1 / 10) (min (|signal_strength| / 3) 1) },
        account_size * manager.risk_per_trade *
          (manager.target_volatility / manager.current_volatility) *
          max (1 / 10) (min (|signal_strength| / 3) 1)) := by
    unfold calculate_volatility_target_size
    simp only []
    rw [if_neg (not_le.mpr hacc), if_pos hcv, strength_clamp_eq, if_neg (not_lt.mpr hlim),
      if_neg (not_lt.mpr hheat), if_neg (not_lt.mpr hhi), if_neg (not_lt.mpr hlo)]
  rw [hval]
  exact ⟨rfl, rfl, rfl⟩

theorem volatility_target_size_nominal_witness :
    (calculate_volatility_target_size (create_risk_manager 20 (15 / 100) : RiskManager ℚ)
      3 1000000).2 = 20000 := by
  have h := volatility_target_size_nominal (create_risk_manager 20 (15 / 100) : RiskManager ℚ)
    3 1000000 (by norm_num [create_risk_manager]) (by norm_num)
    (by norm_num [create_risk_manager]) (by norm_num [create_risk_manager])
    (by norm_num [create_risk_manager])
    (by norm_num [create_risk_manager, abs_of_pos])
  rw [h.1]
  norm_num [create_risk_manager, abs_of_pos]

/-- C17: the fields returned by `calculate_pnl_with_costs`: spread cost, market impact
cost (square-root law), financing cost, total cost (with commission and slippage
charged twice), net PnL, and `is_profitable` exactly when the net PnL is positive. -/
theorem pnl_decomposition (M : Libm F) (theoretical_pnl : F) (costs : TransactionCosts F)
    (position_size : F) :
    (calculate_pnl_with_costs M theoretical_pnl costs position_size).spread_cost =
      (costs.bid_ask_spread_asset1 + costs.bid_ask_spread_asset2) * position_size ∧
    (calculate_pnl_with_costs M theoretical_pnl costs position_size).market_impact_cost =
      (costs.market_impact_asset1 + costs.market_impact_asset2) * M.sqrt position_size ∧
    (calculate_pnl_with_costs M theoretical_pnl costs position_size).financing_cost =
      costs.financing_cost * position_size ∧
    (calculate_pnl_with_costs M theoretical_pnl costs position_size).total_cost =
      (calculate_pnl_with_costs M theoretical_pnl costs position_size).spread_cost +
      (calculate_pnl_with_costs M theoretical_pnl costs position_size).market_impact_cost +
      (calculate_pnl_with_costs M theoretical_pnl costs position_size).financing_cost +
      (costs.commission_rate + costs.slippage_factor) * position_size * 2 ∧
    (calculate_pnl_with_costs M theoretical_pnl costs position_size).net_pnl_after_costs =
      theoretical_pnl -
        (calculate_pnl_with_costs M theoretical_pnl costs position_size).total_cost ∧
    ((calculate_pnl_with_costs M theoretical_pnl costs position_size).is_profitable = true ↔
      (calculate_pnl_with_costs M theoretical_pnl costs position_size).net_pnl_after_costs > 0) ∧
    (calculate_pnl_with_costs M theoretical_pnl costs position_size).theoretical_pnl =
      theoretical_pnl := by
  refine ⟨?_, ?_, rfl, ?_, rfl, ?_, rfl⟩
  · simp only [calculate_pnl_with_costs]
    ring
  · simp only [calculate_pnl_with_costs]
    ring
  · simp only [calculate_pnl_with_costs]
    ring
  · simp only [calculate_pnl_with_costs, decide_eq_true_eq]

/-! ### The least-squares slope -/

/-- The counter `valid_points` of `threshold_cointegration_test` is the number of lags
whose magnitude exceeds the threshold. -/
theorem threshold_sums_valid_points (spread : CircularBuffer F) (threshold : F) (idx : List Nat) :
    (threshold_sums spread threshold idx).2.2.2.2 =
      ((idx.filter (fun (j : Nat) => decide (|cb_get spread (j : Int)| > threshold))).length : Int) := by
  induction idx using List.reverseRecOn with
  | nil => rfl
  | append_singleton idx j ih =>
    unfold threshold_sums at ih ⊢
    rw [List.foldl_append, List.filter_append, List.length_append]
    simp only [List.foldl_cons, List.foldl_nil]
    by_cases h : |cb_get spread (j : Int)| > threshold
    · rw [if_pos h]
      simp only [ih, List.filter_cons, h, decide_True, if_true, List.filter_nil,
        List.length_singleton]
      push_cast
      rfl
    · rw [if_neg h]
      simp only [ih, List.filter_cons, h, decide_False, List.filter_nil, List.length_nil]
      simp

/-- C19: each cointegration estimator returns 0 below its minimum sample count:
`engle_granger_test` for `n < 10`, `johansen_test` for `n < 20`,
`threshold_cointegration_test` for `n < 10` and when fewer than 5 lags exceed the
threshold in magnitude, `fractional_cointegration_test` for `n < 30`,
`error_correction_test` for `n < 15`; the estimators over two or three windows also
return 0 when the windows differ in size. -/
theorem cointegration_tests_insufficient_samples (M : Libm F) :
    (∀ y x : CircularBuffer F, (cb_size x ≠ cb_size y ∨ cb_size x < 10) →
      engle_granger_test M y x = 0) ∧
    (∀ price1 price2 : CircularBuffer F,
      (cb_size price1 ≠ cb_size price2 ∨ cb_size price1 < 20) →
      johansen_test M price1 price2 = 0) ∧
    (∀ (spread : CircularBuffer F) (threshold : F), cb_size spread < 10 →
      threshold_cointegration_test M spread threshold = 0) ∧
    (∀ (spread : CircularBuffer F) (threshold : F),
      ((List.range (cb_size spread - 1).toNat).filter
        (fun (j : Nat) => decide (|cb_get spread (j : Int)| > threshold))).length < 5 →
      threshold_cointegration_test M spread threshold = 0) ∧
    (∀ price1 price2 : CircularBuffer F,
      (cb_size price1 ≠ cb_size price2 ∨ cb_size price1 < 30) →
      fractional_cointegration_test M price1 price2 = 0) ∧
    (∀ price1 price2 spread : CircularBuffer F,
      (cb_size spread < 15 ∨ cb_size price1 ≠ cb_size spread ∨ cb_size price2 ≠ cb_size spread) →
      error_correction_test M price1 price2 spread = 0) := by
  refine ⟨?_, ?_, ?_, ?_, ?_, ?_⟩
  · intro y x h
    unfold engle_granger_test
    simp only []
    rw [if_pos h]
  · intro price1 price2 h
    unfold johansen_test
    simp only []
    rw [if_pos h]
  · intro spread threshold h
    unfold threshold_cointegration_test
    simp only []
    rw [if_pos h]
  · intro spread threshold h
    unfold threshold_cointegration_test
    simp only []
    by_cases hn : cb_size spread < 10
    · rw [if_pos hn]
    · rw [if_neg hn, threshold_sums_valid_points, if_pos (by exact_mod_cast h)]
  · intro price1 price2 h
    unfold fractional_cointegration_test
    simp only []
    rw [if_pos h]
  · intro price1 price2 spread h
    unfold error_correction_test
    simp only []
    rw [if_pos h]

/-! ### Degenerate cases of the correlation -/

/-- The mean of a window all of whose elements are `v` is `v`. -/
theorem rolling_mean_const (cb : CircularBuffer F) (v : F) (h1 : 1 ≤ cb_size cb)
    (hv : ∀ i : Nat, (i : Int) < cb_size cb → cb_get cb (i : Int) = v) :
    rolling_mean cb = v := by
  rw [rolling_mean_eq_sum, if_neg (by omega)]
  rw [Finset.sum_congr rfl (fun i hi => hv i (by
    have := Finset.mem_range.mp hi
    omega)), Finset.sum_const, Finset.card_range, nsmul_eq_mul]
  have hcast : (((cb_size cb).toNat : Nat) : F) = ((cb_size cb : Int) : F) := by
    rw [← Int.cast_natCast, Int.toNat_of_nonneg (by omega)]
  rw [hcast]
  have hne : ((cb_size cb : Int) : F) ≠ 0 := by
    have : (0 : Int) < cb_size cb := by omega
    exact_mod_cast (ne_of_gt this)
  field_simp

theorem rolling_mean_checked_eq (cb : CircularBuffer F) :
    rolling_mean_checked cb = some (rolling_mean cb) := by
  unfold rolling_mean_checked rolling_mean
  simp only []
  by_cases h : cb_size cb = 0
  · rw [if_pos h, if_pos h]
  · rw [if_neg h, if_neg h, checked_div, if_neg (by exact_mod_cast h)]

/-- In exact arithmetic: `calculate_correlation` is 0 when the windows differ in size,
when their size is below 2, and (for a `sqrt` with `sqrt 0 = 0`) when all elements of
either window are equal; and no division by zero is performed: the variant with
every division checked never fails and returns the same value.  The zero-variance
case rests on the exact mean of a constant window; with rounded sums it fails, see
the evaluations in binary64 arithmetic below. -/
theorem correlation_degenerate_cases (M : Libm F) (cb1 cb2 : CircularBuffer F) :
    (cb_size cb1 ≠ cb_size cb2 → calculate_correlation M cb1 cb2 = 0) ∧
    (cb_size cb1 < 2 → calculate_correlation M cb1 cb2 = 0) ∧
    (M.sqrt 0 = 0 →
      ((∃ v : F, ∀ i : Nat, (i : Int) < cb_size cb1 → cb_get cb1 (i : Int) = v) ∨
       (∃ v : F, ∀ i : Nat, (i : Int) < cb_size cb2 → cb_get cb2 (i : Int) = v)) →
      calculate_correlation M cb1 cb2 = 0) ∧
    calculate_correlation_checked M cb1 cb2 = some (calculate_correlation M cb1 cb2) := by
  refine ⟨?_, ?_, ?_, ?_⟩
  · intro h
    unfold calculate_correlation
    simp only []
    rw [if_pos (Or.inl h)]
  · intro h
    unfold calculate_correlation
    simp only []
    rw [if_pos (Or.inr h)]
  · intro hs0 hconst
    unfold calculate_correlation
    simp only []
    by_cases hg : cb_size cb1 ≠ cb_size cb2 ∨ cb_size cb1 < 2
    · rw [if_pos hg]
    · rw [if_neg hg, correlation_sums_eq]
      simp only []
      have hsz : cb_size cb2 = cb_size cb1 := by omega
      have hzero : (∑ i in Finset.range (cb_size cb1).toNat,
            (cb_get cb1 (i : Int) - rolling_mean cb1) * (cb_get cb1 (i : Int) - rolling_mean cb1))
          * (∑ i in Finset.range (cb_size cb1).toNat,
            (cb_get cb2 (i : Int) - rolling_mean cb2) * (cb_get cb2 (i : Int) - rolling_mean cb2))
          = 0 := by
        rcases hconst with ⟨v, hv⟩ | ⟨v, hv⟩
        · have hm := rolling_mean_const cb1 v (by omega) hv
          have : ∑ i in Finset.range (cb_size cb1).toNat,
              (cb_get cb1 (i : Int) - rolling_mean cb1) * (cb_get cb1 (i : Int) - rolling_mean cb1)
              = 0 :=
            Finset.sum_eq_zero (fun i hi => by
              have := Finset.mem_range.mp hi
              rw [hv i (by omega), hm, sub_self, mul_zero])
          rw [this, zero_mul]
        · have hm := rolling_mean_const cb2 v (by omega) hv
          have : ∑ i in Finset.range (cb_size cb1).toNat,
              (cb_get cb2 (i : Int) - rolling_mean cb2) * (cb_get cb2 (i : Int) - rolling_mean cb2)
              = 0 :=
            Finset.sum_eq_zero (fun i hi => by
              have := Finset.mem_range.mp hi
              rw [hv i (by omega), hm, sub_self, mul_zero])
          rw [this, mul_zero]
      rw [hzero, hs0, if_pos rfl]
  · unfold calculate_correlation_checked calculate_correlation
    simp only []
    by_cases hg : cb_size cb1 ≠ cb_size cb2 ∨ cb_size cb1 < 2
    · rw [if_pos hg, if_pos hg]
    · rw [if_neg hg, if_neg hg, rolling_mean_checked_eq, rolling_mean_checked_eq]
      simp only [Option.some_bind]
      split_ifs with hd
      · rfl
      · rw [checked_div, if_neg hd]

/-! ### The update of the regime detector, step by step -/

theorem update_regime_eq (M : Libm F) (st : RegimeStatics F) (d : RegimeDetector F)
    (p1 p2 c : F) :
    update_regime M st d p1 p2 c =
      if cb_size (regime_push_buffers M st d p1 p2 c).volatility_buffer < 10 then
        (⟨p1, p2⟩, regime_push_buffers M st d p1 p2 c)
      else
        (⟨p1, p2⟩, regime_posterior_step (regime_push_buffers M st d p1 p2 c)
          (regime_evidence
            (regime_vol_percentile (regime_push_buffers M st d p1 p2 c).volatility_buffer)
            (rolling_std M (regime_push_buffers M st d p1 p2 c).correlation_buffer)).2) := rfl

/-- The argmax loop over three probabilities: the lowest index attaining the maximum,
and the maximum. -/
theorem argmax3_spec (a b c : F) :
    ∃ k : Nat, k < 3 ∧
      (([1, 2] : List Nat).foldl
        (fun (acc : Int × F) (i : Nat) =>
          if [a, b, c].getD i 0 > acc.2 then ((i : Int), [a, b, c].getD i 0) else acc)
        (0, [a, b, c].getD 0 0)) = ((k : Int), [a, b, c].getD k 0) ∧
      (∀ i : Nat, i < 3 → [a, b, c].getD i 0 ≤ [a, b, c].getD k 0) ∧
      (∀ i : Nat, i < k → [a, b, c].getD i 0 < [a, b, c].getD k 0) := by
  simp only [List.foldl_cons, List.foldl_nil, List.getD_cons_zero, List.getD_cons_succ]
  by_cases h1 : b > a
  · by_cases h2 : c > b
    · refine ⟨2, by norm_num, ?_, ?_, ?_⟩
      · simp [h1, h2]
      · intro i hi
        interval_cases i <;> simp <;> linarith
      · intro i hi
        interval_cases i <;> simp <;> linarith
    · refine ⟨1, by norm_num, ?_, ?_, ?_⟩
      · simp [h1, h2]
      · intro i hi
        interval_cases i <;> simp <;> linarith
      · intro i hi
        have hi0 : i = 0 := by omega
        subst hi0
        simpa using h1
  · by_cases h2 : c > a
    · refine ⟨2, by norm_num, ?_, ?_, ?_⟩
      · simp [h1, h2]
      · intro i hi
        interval_cases i <;> simp <;> linarith
      · intro i hi
        interval_cases i <;> simp <;> linarith
    · refine ⟨0, by norm_num, ?_, ?_, ?_⟩
      · simp [h1, h2]
      · intro i hi
        interval_cases i <;> simp <;> linarith
      · intro i hi
        omega

/-- The probabilities written by the Bayes step, as the code computes them. -/
theorem regime_posterior_step_probs_raw (d : RegimeDetector F) (e : F) :
    (regime_posterior_step d e).regime_probabilities =
      (if ((List.range 3).map (fun (i : Nat) =>
              (d.transition_matrix.getD d.current_regime.toNat []).getD i 0 * e)).getD 0 0 +
            ((List.range 3).map (fun (i : Nat) =>
              (d.transition_matrix.getD d.current_regime.toNat []).getD i 0 * e)).getD 1 0 +
            ((List.range 3).map (fun (i : Nat) =>
              (d.transition_matrix.getD d.current_regime.toNat []).getD i 0 * e)).getD 2 0 > 0
        then (List.range 3).map (fun (i : Nat) =>
          ((List.range 3).map (fun (i : Nat) =>
              (d.transition_matrix.getD d.current_regime.toNat []).getD i 0 * e)).getD i 0 /
            (((List.range 3).map (fun (i : Nat) =>
              (d.transition_matrix.getD d.current_regime.toNat []).getD i 0 * e)).getD 0 0 +
            ((List.range 3).map (fun (i : Nat) =>
              (d.transition_matrix.getD d.current_regime.toNat []).getD i 0 * e)).getD 1 0 +
            ((List.range 3).map (fun (i : Nat) =>
              (d.transition_matrix.getD d.current_regime.toNat []).getD i 0 * e)).getD 2 0))
        else d.regime_probabilities) := by
  unfold regime_posterior_step
  simp only []
  split_ifs <;> rfl

/-- The fields written by the Bayes step, in terms of the probabilities it writes. -/
theorem regime_posterior_step_fields (d : RegimeDetector F) (e : F) :
    (regime_posterior_step d e).current_regime =
      (if (([1, 2] : List Nat).foldl
            (fun (acc : Int × F) (i : Nat) =>
              if (regime_posterior_step d e).regime_probabilities.getD i 0 > acc.2 then
                ((i : Int), (regime_posterior_step d e).regime_probabilities.getD i 0)
              else acc)
            (0, (regime_posterior_step d e).regime_probabilities.getD 0 0)).1 ≠ d.current_regime
        then (([1, 2] : List Nat).foldl
            (fun (acc : Int × F) (i : Nat) =>
              if (regime_posterior_step d e).regime_probabilities.getD i 0 > acc.2 then
                ((i : Int), (regime_posterior_step d e).regime_probabilities.getD i 0)
              else acc)
            (0, (regime_posterior_step d e).regime_probabilities.getD 0 0)).1
        else d.current_regime) ∧
    (regime_posterior_step d e).last_regime_change =
      (if (([1, 2] : List Nat).foldl
            (fun (acc : Int × F) (i : Nat) =>
              if (regime_posterior_step d e).regime_probabilities.getD i 0 > acc.2 then
                ((i : Int), (regime_posterior_step d e).regime_probabilities.getD i 0)
              else acc)
            (0, (regime_posterior_step d e).regime_probabilities.getD 0 0)).1 ≠ d.current_regime
        then 0 else d.last_regime_change + 1) ∧
    (regime_posterior_step d e).regime_confidence =
      (([1, 2] : List Nat).foldl
        (fun (acc : Int × F) (i : Nat) =>
          if (regime_posterior_step d e).regime_probabilities.getD i 0 > acc.2 then
            ((i : Int), (regime_posterior_step d e).regime_probabilities.getD i 0)
          else acc)
        (0, (regime_posterior_step d e).regime_probabilities.getD 0 0)).2 ∧
    (regime_posterior_step d e).transition_matrix = d.transition_matrix ∧
    (regime_posterior_step d e).volatility_buffer = d.volatility_buffer ∧
    (regime_posterior_step d e).correlation_buffer = d.correlation_buffer := by
  rw [regime_posterior_step_probs_raw]
  unfold regime_posterior_step
  simp only []
  refine ⟨?_, ?_, ?_, ?_, ?_, ?_⟩ <;> first | trivial | rfl | (split_ifs <;> rfl)

/-- The probabilities written by the Bayes step of a well-formed detector: the
transition row of the current regime when the evidence is positive (the evidence
cancels), the old probabilities otherwise. -/
theorem regime_posterior_step_probs (d : RegimeDetector F) (e : F) (hwf : d.wf) :
    (regime_posterior_step d e).regime_probabilities =
      if e > 0 then d.transition_matrix.getD d.current_regime.toNat []
      else d.regime_probabilities := by
  obtain ⟨hT, hcur, -⟩ := hwf
  have hr : List.range 3 = [0, 1, 2] := rfl
  have h1 : (95 / 100 * e + 4 / 100 * e + 1 / 100 * e : F) = e := by ring
  have h2 : (60 / 100 * e + 30 / 100 * e + 10 / 100 * e : F) = e := by ring
  have h3 : (20 / 100 * e + 50 / 100 * e + 30 / 100 * e : F) = e := by ring
  rw [regime_posterior_step_probs_raw]
  by_cases he : e > 0
  · have he0 : e ≠ 0 := ne_of_gt he
    rcases hcur with h0 | h0 | h0 <;>
      simp only [hT, h0, hr, Int.toNat_zero, Int.toNat_one, show (2 : Int).toNat = 2 from rfl,
        List.getD_cons_zero, List.getD_cons_succ, List.map_cons, List.map_nil, h1, h2, h3, he,
        if_true, mul_div_cancel_right₀ _ he0]
  · rcases hcur with h0 | h0 | h0 <;>
      simp only [hT, h0, hr, Int.toNat_zero, Int.toNat_one, show (2 : Int).toNat = 2 from rfl,
        List.getD_cons_zero, List.getD_cons_succ, List.map_cons, List.map_nil, h1, h2, h3, he,
        if_false]

/-! ### The regime never leaves Normal -/

theorem regime_posterior_step_stays_normal (d : RegimeDetector F) (e : F) (hwf : d.wf)
    (hcur : d.current_regime = 0)
    (hp : d.regime_probabilities = [8 / 10, 15 / 100, 5 / 100] ∨
      d.regime_probabilities = [95 / 100, 4 / 100, 1 / 100]) :
    (regime_posterior_step d e).current_regime = 0 ∧
    ((regime_posterior_step d e).regime_probabilities = [8 / 10, 15 / 100, 5 / 100] ∨
      (regime_posterior_step d e).regime_probabilities = [95 / 100, 4 / 100, 1 / 100]) := by
  have hT := hwf.1
  have hprobs := regime_posterior_step_probs d e hwf
  rw [hcur, hT] at hprobs
  simp only [Int.toNat_zero, List.getD_cons_zero] at hprobs
  have hp2 : (regime_posterior_step d e).regime_probabilities = [8 / 10, 15 / 100, 5 / 100] ∨
      (regime_posterior_step d e).regime_probabilities = [95 / 100, 4 / 100, 1 / 100] := by
    rw [hprobs]
    split_ifs
    · exact Or.inr rfl
    · exact hp
  refine ⟨?_, hp2⟩
  rw [(regime_posterior_step_fields d e).1, hcur]
  rcases hp2 with h | h <;> rw [h] <;>
    norm_num [List.foldl_cons, List.foldl_nil, List.getD_cons_zero, List.getD_cons_succ]

theorem update_regime_stays_normal (M : Libm F) (st : RegimeStatics F) (d : RegimeDetector F)
    (p1 p2 c : F) (hwf : d.wf) (hcur : d.current_regime = 0)
    (hp : d.regime_probabilities = [8 / 10, 15 / 100, 5 / 100] ∨
      d.regime_probabilities = [95 / 100, 4 / 100, 1 / 100]) :
    (update_regime M st d p1 p2 c).2.current_regime = 0 ∧
    ((update_regime M st d p1 p2 c).2.regime_probabilities = [8 / 10, 15 / 100, 5 / 100] ∨
      (update_regime M st d p1 p2 c).2.regime_probabilities = [95 / 100, 4 / 100, 1 / 100]) := by
  rw [update_regime_eq]
  split_ifs
  · exact ⟨hcur, hp⟩
  · exact regime_posterior_step_stays_normal _ _ hwf hcur hp

/-- C25: for every sequence of `update_regime` calls on a detector made by
`create_regime_detector` (any window, any initial statics, any prices and
correlations, any `sqrt`/`log`), `current_regime` stays 0 (Normal), and the
probabilities are always either the initial prior or the Normal row of the
transition matrix. -/
theorem regime_never_leaves_normal (M : Libm F) (w : Int) (st : RegimeStatics F)
    (ticks : List (F × F × F)) :
    (update_regime_run M st (create_regime_detector w) ticks).2.current_regime = 0 ∧
    ((update_regime_run M st (create_regime_detector w) ticks).2.regime_probabilities
        = [8 / 10, 15 / 100, 5 / 100] ∨
      (update_regime_run M st (create_regime_detector w) ticks).2.regime_probabilities
        = [95 / 100, 4 / 100, 1 / 100]) := by
  have key : ∀ (ticks : List (F × F × F)) (st : RegimeStatics F) (d : RegimeDetector F),
      d.wf → d.current_regime = 0 →
      (d.regime_probabilities = [8 / 10, 15 / 100, 5 / 100] ∨
        d.regime_probabilities = [95 / 100, 4 / 100, 1 / 100]) →
      (update_regime_run M st d ticks).2.current_regime = 0 ∧
      ((update_regime_run M st d ticks).2.regime_probabilities = [8 / 10, 15 / 100, 5 / 100] ∨
        (update_regime_run M st d ticks).2.regime_probabilities
          = [95 / 100, 4 / 100, 1 / 100]) := by
    intro ticks
    induction ticks with
    | nil =>
      intro st d _ hcur hp
      exact ⟨hcur, hp⟩
    | cons t ts ih =>
      intro st d hwf hcur hp
      simp only [update_regime_run, List.foldl_cons] at ih ⊢
      have h := update_regime_stays_normal M st d t.1 t.2.1 t.2.2 hwf hcur hp
      exact ih _ _ (update_regime_wf M st d t.1 t.2.1 t.2.2 hwf) h.1 h.2
  exact key ticks st _ (create_regime_detector_wf w) rfl (Or.inl rfl)

/-! ### What one update writes -/

theorem regime_detector_eq_of_fields (a b : RegimeDetector F)
    (h1 : a.current_regime = b.current_regime) (h2 : a.regime_confidence = b.regime_confidence)
    (h3 : a.regime_probabilities = b.regime_probabilities)
    (h4 : a.transition_matrix = b.transition_matrix)
    (h5 : a.volatility_buffer = b.volatility_buffer)
    (h6 : a.correlation_buffer = b.correlation_buffer)
    (h7 : a.last_regime_change = b.last_regime_change) : a = b := by
  cases a
  cases b
  simp only [RegimeDetector.mk.injEq]
  exact ⟨h1, h2, h3, h4, h5, h6, h7⟩

/-- The Bayes step gives the same detector for any two positive evidence weights. -/
theorem regime_posterior_step_indep (d : RegimeDetector F) (e1 e2 : F) (hwf : d.wf)
    (h1 : 0 < e1) (h2 : 0 < e2) : regime_posterior_step d e1 = regime_posterior_step d e2 := by
  have hp : (regime_posterior_step d e1).regime_probabilities
      = (regime_posterior_step d e2).regime_probabilities := by
    rw [regime_posterior_step_probs d e1 hwf, regime_posterior_step_probs d e2 hwf, if_pos h1,
      if_pos h2]
  obtain ⟨a1, a2, a3, a4, a5, a6⟩ := regime_posterior_step_fields d e1
  obtain ⟨b1, b2, b3, b4, b5, b6⟩ := regime_posterior_step_fields d e2
  rw [hp] at a1 a2 a3
  exact regime_detector_eq_of_fields _ _ (a1.trans b1.symm) (a3.trans b3.symm) hp
    (a4.trans b4.symm) (a5.trans b5.symm) (a6.trans b6.symm) (a2.trans b2.symm)

/-- C30: for a detector satisfying the invariant, whenever the evidence weight
is positive the Bayes step writes exactly the transition row of the current
regime, and the whole resulting detector (probabilities, regime, confidence,
counter) is the same for every positive evidence weight; hence an `update_regime`
call that reaches the Bayes step with a positive evidence writes that row and
equals the step taken with evidence 1, whatever the volatility percentile, the
correlation deviation and the candidate regime are. -/
theorem posterior_equals_current_row (M : Libm F) (st : RegimeStatics F) (d : RegimeDetector F)
    (p1 p2 c : F) (hwf : d.wf) :
    (∀ e : F, 0 < e →
      (regime_posterior_step d e).regime_probabilities
        = d.transition_matrix.getD d.current_regime.toNat [] ∧
      ∀ e2 : F, 0 < e2 → regime_posterior_step d e2 = regime_posterior_step d e) ∧
    (10 ≤ cb_size (regime_push_buffers M st d p1 p2 c).volatility_buffer →
      0 < (regime_evidence
          (regime_vol_percentile (regime_push_buffers M st d p1 p2 c).volatility_buffer)
          (rolling_std M (regime_push_buffers M st d p1 p2 c).correlation_buffer)).2 →
      (update_regime M st d p1 p2 c).2.regime_probabilities
        = d.transition_matrix.getD d.current_regime.toNat [] ∧
      (update_regime M st d p1 p2 c).2
        = regime_posterior_step (regime_push_buffers M st d p1 p2 c) 1) := by
  refine ⟨?_, ?_⟩
  · intro e he
    refine ⟨?_, fun e2 he2 => regime_posterior_step_indep d e2 e hwf he2 he⟩
    rw [regime_posterior_step_probs d e hwf, if_pos he]
  · intro hsize he
    have hwfD : (regime_push_buffers M st d p1 p2 c).wf := hwf
    rw [update_regime_eq, if_neg (by omega)]
    refine ⟨?_, regime_posterior_step_indep _ _ _ hwfD he (by norm_num)⟩
    simp only []
    rw [regime_posterior_step_probs _ _ hwfD, if_pos he]
    rfl

theorem posterior_equals_current_row_witness :
    (regime_posterior_step (create_regime_detector 10 : RegimeDetector ℝ) 2).regime_probabilities
      = [95 / 100, 4 / 100, 1 / 100] :=
  ((posterior_equals_current_row (⟨Real.sqrt, Real.log⟩ : Libm ℝ) ⟨0, 0⟩
    (create_regime_detector 10) 100 50 (1 / 2) (create_regime_detector_wf 10)).1 2
    (by norm_num)).1

theorem count_below_nonneg (cb : CircularBuffer F) (m : F) (n : Nat) :
    (0 : Int) ≤ (List.range n).foldl
      (fun (count_below : Int) (i : Nat) =>
        if cb_get cb (i : Int) < m then count_below + 1 else count_below) 0 := by
  induction n with
  | zero => exact le_refl _
  | succ n ih =>
    rw [List.range_succ, List.foldl_append]
    simp only [List.foldl_cons, List.foldl_nil]
    split_ifs <;> omega

theorem regime_vol_percentile_nonneg (vb : CircularBuffer F) (h : 0 ≤ cb_size vb) :
    0 ≤ regime_vol_percentile vb := by
  unfold regime_vol_percentile
  simp only []
  apply div_nonneg
  · exact_mod_cast count_below_nonneg vb (rolling_mean vb) (cb_size vb).toNat
  · exact_mod_cast h

/-- The candidate regime and the evidence weight. -/
theorem regime_evidence_spec (vp cs : F) :
    ((regime_evidence vp cs).1 = 2 ↔ (vp > 95 / 100 ∨ cs > 3 / 10)) ∧
    ((regime_evidence vp cs).1 = 1 ↔
      (¬ (vp > 95 / 100 ∨ cs > 3 / 10) ∧ (vp > 80 / 100 ∨ cs > 15 / 100))) ∧
    ((regime_evidence vp cs).1 = 0 ↔
      (¬ (vp > 95 / 100 ∨ cs > 3 / 10) ∧ ¬ (vp > 80 / 100 ∨ cs > 15 / 100))) ∧
    (((regime_evidence vp cs).1 = 2 ∧ (regime_evidence vp cs).2 = 2 * vp) ∨
     ((regime_evidence vp cs).1 = 1 ∧ (regime_evidence vp cs).2 = 3 / 2 * vp) ∨
     ((regime_evidence vp cs).1 = 0 ∧ (regime_evidence vp cs).2 = 1)) := by
  by_cases h1 : vp > 95 / 100 ∨ cs > 3 / 10
  · have hv : regime_evidence vp cs = (2, vp * 2) := by
      unfold regime_evidence
      simp only [h1, if_true]
    rw [hv]
    refine ⟨?_, ?_, ?_, Or.inl ⟨rfl, mul_comm _ _⟩⟩
    · exact ⟨fun _ => h1, fun _ => rfl⟩
    · exact ⟨fun h => by simp at h, fun h => absurd h1 h.1⟩
    · exact ⟨fun h => by simp at h, fun h => absurd h1 h.1⟩
  · by_cases h2 : vp > 80 / 100 ∨ cs > 15 / 100
    · have hv : regime_evidence vp cs = (1, vp * (3 / 2)) := by
        unfold regime_evidence
        simp only [h1, h2, if_true, if_false]
        rfl
      rw [hv]
      refine ⟨?_, ?_, ?_, Or.inr (Or.inl ⟨rfl, mul_comm _ _⟩)⟩
      · exact ⟨fun h => by simp at h, fun h => absurd h h1⟩
      · exact ⟨fun _ => ⟨h1, h2⟩, fun _ => rfl⟩
      · exact ⟨fun h => by simp at h, fun h => absurd h2 h.2⟩
    · have hv : regime_evidence vp cs = (0, 1) := by
        unfold regime_evidence
        simp only [h1, h2, if_false]
        rfl
      rw [hv]
      refine ⟨?_, ?_, ?_, Or.inr (Or.inr ⟨rfl, rfl⟩)⟩
      · exact ⟨fun h => by simp at h, fun h => absurd h h1⟩
      · exact ⟨fun h => by simp at h, fun h => absurd h.2 h2⟩
      · exact ⟨fun _ => ⟨h1, h2⟩, fun _ => rfl⟩

/-- The probabilities written by the Bayes step, with the total spelled out. -/
theorem regime_posterior_step_probs_total (d : RegimeDetector F) (e : F) :
    (regime_posterior_step d e).regime_probabilities =
      (if (d.transition_matrix.getD d.current_regime.toNat []).getD 0 0 * e +
            (d.transition_matrix.getD d.current_regime.toNat []).getD 1 0 * e +
            (d.transition_matrix.getD d.current_regime.toNat []).getD 2 0 * e > 0
        then
          [(d.transition_matrix.getD d.current_regime.toNat []).getD 0 0 * e /
            ((d.transition_matrix.getD d.current_regime.toNat []).getD 0 0 * e +
              (d.transition_matrix.getD d.current_regime.toNat []).getD 1 0 * e +
              (d.transition_matrix.getD d.current_regime.toNat []).getD 2 0 * e),
           (d.transition_matrix.getD d.current_regime.toNat []).getD 1 0 * e /
            ((d.transition_matrix.getD d.current_regime.toNat []).getD 0 0 * e +
              (d.transition_matrix.getD d.current_regime.toNat []).getD 1 0 * e +
              (d.transition_matrix.getD d.current_regime.toNat []).getD 2 0 * e),
           (d.transition_matrix.getD d.current_regime.toNat []).getD 2 0 * e /
            ((d.transition_matrix.getD d.current_regime.toNat []).getD 0 0 * e +
              (d.transition_matrix.getD d.current_regime.toNat []).getD 1 0 * e +
              (d.transition_matrix.getD d.current_regime.toNat []).getD 2 0 * e)]
        else d.regime_probabilities) := by
  rw [regime_posterior_step_probs_raw]
  have hr : List.range 3 = [0, 1, 2] := rfl
  simp only [hr, List.map_cons, List.map_nil, List.getD_cons_zero, List.getD_cons_succ]

/-- The regime, confidence and change counter written by the Bayes step when the
probabilities it writes are three numbers: the lowest index of the maximum, the
maximum, and the counter reset on a change. -/
theorem regime_posterior_step_argmax (d : RegimeDetector F) (e : F)
    (hl : ∃ a b c : F, (regime_posterior_step d e).regime_probabilities = [a, b, c]) :
    ∃ k : Nat, k < 3 ∧ (regime_posterior_step d e).current_regime = (k : Int) ∧
      (∀ i : Nat, i < 3 → (regime_posterior_step d e).regime_probabilities.getD i 0
        ≤ (regime_posterior_step d e).regime_probabilities.getD k 0) ∧
      (∀ i : Nat, i < k → (regime_posterior_step d e).regime_probabilities.getD i 0
        < (regime_posterior_step d e).regime_probabilities.getD k 0) ∧
      (regime_posterior_step d e).regime_confidence
        = (regime_posterior_step d e).regime_probabilities.getD k 0 ∧
      (regime_posterior_step d e).last_regime_change
        = (if (k : Int) = d.current_regime then d.last_regime_change + 1 else 0) := by
  obtain ⟨a, b, c, habc⟩ := hl
  obtain ⟨f1, f2, f3, -, -, -⟩ := regime_posterior_step_fields d e
  obtain ⟨k, hk, hfold, hmax, hlow⟩ := argmax3_spec a b c
  rw [habc] at f1 f2 f3 ⊢
  rw [hfold] at f1 f2 f3
  simp only [] at f1 f2 f3
  refine ⟨k, hk, ?_, hmax, hlow, f3, ?_⟩
  · rw [f1]
    split_ifs with h
    · rfl
    · exact (not_not.mp h).symm
  · rw [f2]
    by_cases h : (k : Int) = d.current_regime
    · rw [if_neg (not_not.mpr h), if_pos h]
    · rw [if_pos h, if_neg h]

/-- C29: for a detector satisfying the invariant, with `D` the detector after the
two pushes, `e` the evidence weight (2 x percentile for a Crisis candidate,
1.5 x percentile for Stress, 1 for Normal), `row` the transition row of the regime
before the call and `total` the sum of `row[j] * e`: with fewer than 10 volatility
samples the regime, probabilities, counter and confidence are unchanged; with at
least 10 the probabilities become `row[i] * e / total` when `total` is not 0 and
stay unchanged when it is 0, the regime becomes the lowest index attaining the
maximal probability, the confidence is that maximum, and the counter is
incremented when the regime is the same and reset to 0 when it changed. -/
theorem update_regime_posterior (M : Libm F) (st : RegimeStatics F) (d : RegimeDetector F)
    (p1 p2 c : F) (hwf : d.wf) :
    let D := regime_push_buffers M st d p1 p2 c
    let vp := regime_vol_percentile D.volatility_buffer
    let cand := (regime_evidence vp (rolling_std M D.correlation_buffer)).1
    let e := (regime_evidence vp (rolling_std M D.correlation_buffer)).2
    let row := d.transition_matrix.getD d.current_regime.toNat []
    let total := row.getD 0 0 * e + row.getD 1 0 * e + row.getD 2 0 * e
    let R := (update_regime M st d p1 p2 c).2
    (cb_size D.volatility_buffer < 10 →
      R.current_regime = d.current_regime ∧ R.regime_probabilities = d.regime_probabilities ∧
      R.last_regime_change = d.last_regime_change ∧
      R.regime_confidence = d.regime_confidence) ∧
    (10 ≤ cb_size D.volatility_buffer →
      (e = if cand = 2 then 2 * vp else if cand = 1 then 3 / 2 * vp else 1) ∧
      (total ≠ 0 → R.regime_probabilities =
        [row.getD 0 0 * e / total, row.getD 1 0 * e / total, row.getD 2 0 * e / total]) ∧
      (total = 0 → R.regime_probabilities = d.regime_probabilities) ∧
      ∃ k : Nat, k < 3 ∧ R.current_regime = (k : Int) ∧
        (∀ i : Nat, i < 3 → R.regime_probabilities.getD i 0 ≤ R.regime_probabilities.getD k 0) ∧
        (∀ i : Nat, i < k → R.regime_probabilities.getD i 0 < R.regime_probabilities.getD k 0) ∧
        R.regime_confidence = R.regime_probabilities.getD k 0 ∧
        R.last_regime_change
          = (if (k : Int) = d.current_regime then d.last_regime_change + 1 else 0)) := by
  intro D vp cand e row total R
  have hR : R = (update_regime M st d p1 p2 c).2 := rfl
  rw [update_regime_eq] at hR
  refine ⟨?_, ?_⟩
  · intro hlt
    rw [if_pos hlt] at hR
    rw [hR]
    exact ⟨rfl, rfl, rfl, rfl⟩
  · intro hge
    rw [if_neg (not_lt.mpr hge)] at hR
    have hR2 : R = regime_posterior_step D e := hR
    have hvp : 0 ≤ vp := regime_vol_percentile_nonneg _ (by omega)
    obtain ⟨-, -, -, hev⟩ := regime_evidence_spec vp (rolling_std M D.correlation_buffer)
    have he : e = if cand = 2 then 2 * vp else if cand = 1 then 3 / 2 * vp else 1 := by
      rcases hev with ⟨h1, h2⟩ | ⟨h1, h2⟩ | ⟨h1, h2⟩
      · have hc : cand = 2 := h1
        rw [if_pos hc]
        exact h2
      · have hc : cand = 1 := h1
        rw [if_neg (by rw [hc]; decide), if_pos hc]
        exact h2
      · have hc : cand = 0 := h1
        rw [if_neg (by rw [hc]; decide), if_neg (by rw [hc]; decide)]
        exact h2
    have he0 : 0 ≤ e := by
      rw [he]
      split_ifs
      · linarith
      · linarith
      · exact zero_le_one
    have htot : total = e := by
      obtain ⟨hT, hcur, -⟩ := hwf
      show (d.transition_matrix.getD d.current_regime.toNat []).getD 0 0 * e +
        (d.transition_matrix.getD d.current_regime.toNat []).getD 1 0 * e +
        (d.transition_matrix.getD d.current_regime.toNat []).getD 2 0 * e = e
      rcases hcur with h0 | h0 | h0 <;>
        simp only [hT, h0, Int.toNat_zero, Int.toNat_one, show (2 : Int).toNat = 2 from rfl,
          List.getD_cons_zero, List.getD_cons_succ] <;> ring
    have hprobs := regime_posterior_step_probs_total D e
    rw [← hR2] at hprobs
    have hl : ∃ a b c : F, R.regime_probabilities = [a, b, c] := by
      rw [hprobs]
      split_ifs
      · exact ⟨_, _, _, rfl⟩
      · obtain ⟨-, -, a, b, c, h, -⟩ := hwf
        exact ⟨a, b, c, h⟩
    refine ⟨he, ?_, ?_, ?_⟩
    · intro hne
      have hpos : total > 0 := lt_of_le_of_ne (htot ▸ he0) (Ne.symm hne)
      rw [hprobs]
      exact if_pos hpos
    · intro h0
      rw [hprobs]
      exact if_neg (by show ¬ total > 0; rw [h0]; exact lt_irrefl _)
    · rw [hR2] at hl ⊢
      exact regime_posterior_step_argmax D e hl

theorem update_regime_posterior_witness :
    (update_regime (⟨Real.sqrt, Real.log⟩ : Libm ℝ) ⟨0, 0⟩
        (create_regime_detector 10 : RegimeDetector ℝ) 100 50 (1 / 2)).2.regime_probabilities
      = [8 / 10, 15 / 100, 5 / 100] :=
  ((update_regime_posterior (⟨Real.sqrt, Real.log⟩ : Libm ℝ) ⟨0, 0⟩
    (create_regime_detector 10) 100 50 (1 / 2) (create_regime_detector_wf 10)).1
    (by simp [regime_push_buffers, create_regime_detector, create_circular_buffer, cb_size])).2.1

/-! ### Reads outside and inside the window -/

/-- C23: for every buffer and every index `i < 0` or `i ≥ cb_size`, `cb_get` returns
0; for a buffer reached by pushes into a fresh buffer of capacity `c ≥ 1` and
`0 ≤ i < cb_size`, the value returned is a cell of the data array and one of the
pushed values.  `cb_get` writes nothing: it is a function of the buffer that
returns the value only, so the window is the same before and after the call. -/
theorem cb_get_out_of_range_and_stored (cb : CircularBuffer F) (c : Int) (hc : 1 ≤ c)
    (vs : List F) :
    (∀ i : Int, i < 0 ∨ i ≥ cb_size cb → cb_get cb i = 0) ∧
    (∀ i : Int, 0 ≤ i → i < cb_size (cb_pushes c vs) →
      cb_get (cb_pushes c vs) i ∈ (cb_pushes c vs).data ∧ cb_get (cb_pushes c vs) i ∈ vs) := by
  refine ⟨fun i hi => by rw [cb_get, if_pos hi], ?_⟩
  intro i hi0 hi
  obtain ⟨k, rfl⟩ : ∃ k : Nat, c = (k : Int) := ⟨c.toNat, by omega⟩
  have hk : 1 ≤ k := by omega
  obtain ⟨n, rfl⟩ : ∃ n : Nat, i = (n : Int) := ⟨i.toNat, by omega⟩
  obtain ⟨-, -, hsize, -, -, hdata⟩ := cb_pushes_inv k hk vs
  rw [cb_size, hsize] at hi
  have hn : n < min vs.length k := by omega
  have hget := cb_pushes_get k hk vs n hn
  have hj : vs.length - min vs.length k + n < vs.length := by omega
  have hd := hdata (vs.length - min vs.length k + n) hj (by omega)
  rw [← hget] at hd
  exact ⟨List.getElem?_mem hd, List.getElem?_mem hget.symm⟩

theorem cb_get_out_of_range_and_stored_witness :
    cb_get (cb_pushes 3 ([10, 20, 30, 40] : List ℚ)) 3 = 0 ∧
    cb_get (cb_pushes 3 ([10, 20, 30, 40] : List ℚ)) (-1) = 0 ∧
    cb_get (cb_pushes 3 ([10, 20, 30, 40] : List ℚ)) 1 ∈ ([10, 20, 30, 40] : List ℚ) :=
  ⟨(cb_get_out_of_range_and_stored (cb_pushes 3 ([10, 20, 30, 40] : List ℚ)) 3 (by decide)
      ([10, 20, 30, 40] : List ℚ)).1 3 (Or.inr (by decide)),
   (cb_get_out_of_range_and_stored (cb_pushes 3 ([10, 20, 30, 40] : List ℚ)) 3 (by decide)
      ([10, 20, 30, 40] : List ℚ)).1 (-1) (Or.inl (by decide)),
   ((cb_get_out_of_range_and_stored (cb_pushes 3 ([10, 20, 30, 40] : List ℚ)) 3 (by decide)
      ([10, 20, 30, 40] : List ℚ)).2 1 (by decide) (by decide)).2⟩

/-! ### The hedge ratio: fallback and the points it reads -/

/-- `calculate_dynamic_hedge_ratio` past its guard, as a function of the two lists of
log returns. -/
theorem hedge_ratio_eq_of_returns (M : Libm F) (p1 p2 q1 q2 : CircularBuffer F) (lookback : Int)
    (hs1 : cb_size q1 = cb_size p1) (hs2 : cb_size q2 = cb_size p2)
    (h1 : (List.range (lookback - 1).toNat).map (fun (i : Nat) =>
        M.log (cb_get q1 (cb_size p1 - lookback + (i : Int) + 1) /
          cb_get q1 (cb_size p1 - lookback + (i : Int)))) =
      (List.range (lookback - 1).toNat).map (fun (i : Nat) =>
        M.log (cb_get p1 (cb_size p1 - lookback + (i : Int) + 1) /
          cb_get p1 (cb_size p1 - lookback + (i : Int)))))
    (h2 : (List.range (lookback - 1).toNat).map (fun (i : Nat) =>
        M.log (cb_get q2 (cb_size p1 - lookback + (i : Int) + 1) /
          cb_get q2 (cb_size p1 - lookback + (i : Int)))) =
      (List.range (lookback - 1).toNat).map (fun (i : Nat) =>
        M.log (cb_get p2 (cb_size p1 - lookback + (i : Int) + 1) /
          cb_get p2 (cb_size p1 - lookback + (i : Int))))) :
    calculate_dynamic_hedge_ratio M q1 q2 lookback
      = calculate_dynamic_hedge_ratio M p1 p2 lookback := by
  unfold calculate_dynamic_hedge_ratio
  simp only [hs1, hs2, h1, h2]

/-- C21: `calculate_dynamic_hedge_ratio` returns 1 whenever either window holds
fewer than `lookback` samples, `lookback < 5` or the two sizes differ; and its
result depends only on the sizes and on the last `lookback` points of each window:
two pairs of windows of the same sizes that agree on the indices
`size - lookback .. size - 1` give the same ratio. -/
theorem hedge_ratio_fallback_and_window (M : Libm F) (p1 p2 q1 q2 : CircularBuffer F)
    (lookback : Int) :
    ((cb_size p1 < lookback ∨ cb_size p2 < lookback ∨ lookback < 5 ∨ cb_size p1 ≠ cb_size p2) →
      calculate_dynamic_hedge_ratio M p1 p2 lookback = 1) ∧
    (cb_size q1 = cb_size p1 → cb_size q2 = cb_size p2 →
      (∀ j : Int, cb_size p1 - lookback ≤ j → j < cb_size p1 → cb_get q1 j = cb_get p1 j) →
      (∀ j : Int, cb_size p2 - lookback ≤ j → j < cb_size p2 → cb_get q2 j = cb_get p2 j) →
      calculate_dynamic_hedge_ratio M q1 q2 lookback
        = calculate_dynamic_hedge_ratio M p1 p2 lookback) := by
  refine ⟨?_, ?_⟩
  · intro h
    have hg : cb_size p1 ≠ cb_size p2 ∨ cb_size p1 < lookback ∨ lookback < 5 := by
      by_cases hne : cb_size p1 = cb_size p2
      · rcases h with h | h | h | h
        · exact Or.inr (Or.inl h)
        · exact Or.inr (Or.inl (hne ▸ h))
        · exact Or.inr (Or.inr h)
        · exact absurd hne h
      · exact Or.inl hne
    unfold calculate_dynamic_hedge_ratio
    simp only []
    rw [if_pos hg]
  · intro hs1 hs2 hq1 hq2
    by_cases hg : cb_size p1 ≠ cb_size p2 ∨ cb_size p1 < lookback ∨ lookback < 5
    · have hgq : cb_size q1 ≠ cb_size q2 ∨ cb_size q1 < lookback ∨ lookback < 5 := by
        rw [hs1, hs2]
        exact hg
      unfold calculate_dynamic_hedge_ratio
      simp only []
      rw [if_pos hg, if_pos hgq]
    · push_neg at hg
      obtain ⟨hsz, hlb, h5⟩ := hg
      apply hedge_ratio_eq_of_returns M p1 p2 q1 q2 lookback hs1 hs2
      · apply List.map_congr_left
        intro i hi
        rw [List.mem_range] at hi
        rw [hq1 _ (by omega) (by omega), hq1 _ (by omega) (by omega)]
      · apply List.map_congr_left
        intro i hi
        rw [List.mem_range] at hi
        rw [hq2 _ (by omega) (by omega), hq2 _ (by omega) (by omega)]

/-! ### The half-life as a function of the fitted slope -/

theorem engle_granger_test_eq (M : Libm F) (y x : CircularBuffer F) :
    engle_granger_test M y x =
      if cb_size x ≠ cb_size y ∨ cb_size x < 10 then 0
      else if rolling_std M (engle_granger_residuals y x (linear_regression_slope y x)) > 0 then
        rolling_mean (engle_granger_residuals y x (linear_regression_slope y x)) /
          rolling_std M (engle_granger_residuals y x (linear_regression_slope y x)) *
          M.sqrt ((cb_size x : Int) : F)
      else 0 := rfl

/-- A loop of pushes is the buffer of the pushed list. -/
theorem foldl_push_eq_cb_pushes (c : Int) (g : Nat → F) (n : Nat) :
    (List.range n).foldl (fun (r : CircularBuffer F) (i : Nat) => cb_push r (g i))
        (create_circular_buffer c)
      = cb_pushes c ((List.range n).map g) := by
  unfold cb_pushes
  rw [List.foldl_map]

/-- The residuals of a regression line through the point of means sum to zero, so
their window has mean 0, whatever the slope is. -/
theorem engle_granger_residuals_mean (y x : CircularBuffer F) (beta : F)
    (hsz : cb_size x = cb_size y) (hn : 1 ≤ cb_size x) :
    rolling_mean (engle_granger_residuals y x beta) = 0 := by
  obtain ⟨N, hN⟩ : ∃ N : Nat, cb_size x = (N : Int) := ⟨(cb_size x).toNat, by omega⟩
  have hN1 : 1 ≤ N := by omega
  have hNF : (N : F) ≠ 0 := by exact_mod_cast (by omega : N ≠ 0)
  have hmx := rolling_mean_eq_sum x
  have hmy := rolling_mean_eq_sum y
  rw [← hsz] at hmy
  rw [hN, if_neg (by omega), Int.toNat_ofNat, Int.cast_natCast] at hmx hmy
  unfold engle_granger_residuals
  simp only []
  rw [hN, Int.toNat_ofNat,
    foldl_push_eq_cb_pushes (N : Int)
      (fun i => cb_get y (i : Int)
        - (rolling_mean y - beta * rolling_mean x + beta * cb_get x (i : Int))) N,
    rolling_mean_pushes _ _ (by omega) (by simp)]
  simp only [List.length_map, List.length_range]
  rw [if_neg (by omega),
    foldl_range_congr _ (fun s (i : Nat) => s + (cb_get y (i : Int)
        - (rolling_mean y - beta * rolling_mean x + beta * cb_get x (i : Int)))) N
      (fun b i hi => by
        rw [List.getD_eq_getElem _ _ (by simpa using hi)]
        simp),
    foldl_range_sum, zero_add]
  simp only [Finset.sum_sub_distrib, Finset.sum_add_distrib, Finset.sum_const, Finset.card_range,
    nsmul_eq_mul, ← Finset.mul_sum]
  rw [hmx, hmy]
  field_simp

/-- In exact arithmetic: for equal-size windows with at least 10 samples the residual
window that `engle_granger_test` builds has mean 0 whatever the slope is (the
intercept is `mean_y - beta * mean_x`); hence `engle_granger_test` over the field
`F` is 0 on every input, and `test_cointegration` does not reject with that value
at a critical value that is negative or 0. -/
theorem engle_granger_statistic_is_zero (M : Libm F) (y x : CircularBuffer F) :
    (∀ beta : F, cb_size x = cb_size y → 10 ≤ cb_size x →
      rolling_mean (engle_granger_residuals y x beta) = 0) ∧
    engle_granger_test M y x = 0 ∧
    (∀ critical_value : F, critical_value ≤ 0 →
      test_cointegration (engle_granger_test M y x) critical_value = false) := by
  have h1 : ∀ beta : F, cb_size x = cb_size y → 10 ≤ cb_size x →
      rolling_mean (engle_granger_residuals y x beta) = 0 :=
    fun beta hsz hn => engle_granger_residuals_mean y x beta hsz (by omega)
  have h2 : engle_granger_test M y x = 0 := by
    rw [engle_granger_test_eq]
    split_ifs with hg hs
    · rfl
    · push_neg at hg
      rw [h1 _ hg.1 hg.2, zero_div, zero_mul]
    · rfl
  refine ⟨h1, h2, ?_⟩
  intro cv hcv
  rw [h2]
  unfold test_cointegration
  exact decide_eq_false (not_lt.mpr hcv)

/-! ### The clamp branch of the position sizing -/

/-- C27, evaluated on the code: for the manager of `create_risk_manager 20 0.15` with
`current_volatility = 0.01` the raw scalar is 15 > 5; at signal strength 3 and
account size -100 the guard `account_size <= 0` returns 0, whereas
`base * clamp(scalar, 0.1, 5) * strength` is `-100 * 0.02 * 5 * 1 = -10`. -/
theorem volatility_target_size_clamp_negative_account :
    (15 / 100 : ℚ) / (1 / 100) > 5 ∧
    (calculate_volatility_target_size
      ({ (create_risk_manager 20 (15 / 100) : RiskManager ℚ) with current_volatility := 1 / 100 })
      3 (-100)).2 = 0 ∧
    (-100 : ℚ) * (create_risk_manager 20 (15 / 100) : RiskManager ℚ).risk_per_trade
      * min (max ((15 / 100 : ℚ) / (1 / 100)) (1 / 10)) 5 * max (1 / 10) (min (|3| / 3) 1) = -10 := by
  refine ⟨by norm_num, ?_, ?_⟩
  · norm_num [calculate_volatility_target_size, create_risk_manager]
  · norm_num [create_risk_manager, abs_of_pos]

/-- C27 (amended): when the scalar of the code (`target / current` for
`current_volatility > 0`, else 1) exceeds 5 or is below 0.1: for
`account_size ≤ 0` the function returns 0 and leaves the manager as it is; for
`account_size > 0` the current volatility is positive, the size returned and stored
is `account_size * risk_per_trade * clamp(target / current, 0.1, 5) *
clamp(|strength| / 3, 0.1, 1)`, whatever the portfolio heat and the position limit
are, and the stored scalar is the raw `target / current`. -/
theorem volatility_target_size_clamp_overrides (manager : RiskManager F)
    (signal_strength account_size : F)
    (hv : (if manager.current_volatility > 0 then
            manager.target_volatility / manager.current_volatility else 1) > 5 ∨
          (if manager.current_volatility > 0 then
            manager.target_volatility / manager.current_volatility else 1) < 1 / 10) :
    (account_size ≤ 0 →
      calculate_volatility_target_size manager signal_strength account_size = (manager, 0)) ∧
    (0 < account_size →
      0 < manager.current_volatility ∧
      (calculate_volatility_target_size manager signal_strength account_size).2 =
        account_size * manager.risk_per_trade *
          min (max (manager.target_volatility / manager.current_volatility) (1 / 10)) 5 *
          max (1 / 10) (min (|signal_strength| / 3) 1) ∧
      (calculate_volatility_target_size manager signal_strength account_size).1.position_size =
        account_size * manager.risk_per_trade *
          min (max (manager.target_volatility / manager.current_volatility) (1 / 10)) 5 *
          max (1 / 10) (min (|signal_strength| / 3) 1) ∧
      (calculate_volatility_target_size manager signal_strength account_size).1.volatility_scalar =
        manager.target_volatility / manager.current_volatility) := by
  refine ⟨?_, ?_⟩
  · intro h
    unfold calculate_volatility_target_size
    rw [if_pos h]
  · intro hacc
    have hcv : 0 < manager.current_volatility := by
      by_contra hc
      rw [if_neg hc] at hv
      rcases hv with h | h
      · norm_num at h
      · norm_num at h
    rw [if_pos hcv] at hv
    refine ⟨hcv, ?_⟩
    have hval : calculate_volatility_target_size manager signal_strength account_size =
        ({ manager with
            volatility_scalar := manager.target_volatility / manager.current_volatility,
            position_size := account_size * manager.risk_per_trade *
              min (max (manager.target_volatility / manager.current_volatility) (1 / 10)) 5 *
              max (1 / 10) (min (|signal_strength| / 3) 1) },
          account_size * manager.risk_per_trade *
            min (max (manager.target_volatility / manager.current_volatility) (1 / 10)) 5 *
            max (1 / 10) (min (|signal_strength| / 3) 1)) := by
      unfold calculate_volatility_target_size
      simp only []
      rw [if_neg (not_le.mpr hacc), if_pos hcv, strength_clamp_eq]
      rcases hv with h | h
      · have hm : min (max (manager.target_volatility / manager.current_volatility) (1 / 10)) 5
            = 5 := by
          rw [min_eq_right (le_trans (le_of_lt h) (le_max_left _ _))]
        rw [if_pos h, hm]
      · have h5 : ¬ manager.target_volatility / manager.current_volatility > 5 := by
          intro h'
          linarith
        have hm : min (max (manager.target_volatility / manager.current_volatility) (1 / 10)) 5
            = 1 / 10 := by
          rw [max_eq_right (le_of_lt h), min_eq_left (by norm_num)]
        rw [if_neg h5, if_pos h, hm]
    rw [hval]
    exact ⟨rfl, rfl, rfl⟩

theorem volatility_target_size_clamp_overrides_witness :
    (calculate_volatility_target_size
      ({ (create_risk_manager 20 (15 / 100) : RiskManager ℚ) with
          current_volatility := 1 / 100, portfolio_heat := 9 / 10 })
      3 1000).2 = 100 := by
  have h := (volatility_target_size_clamp_overrides
    ({ (create_risk_manager 20 (15 / 100) : RiskManager ℚ) with
        current_volatility := 1 / 100, portfolio_heat := 9 / 10 })
    3 1000 (Or.inl (by norm_num [create_risk_manager]))).2 (by norm_num)
  rw [h.2.1]
  norm_num [create_risk_manager, abs_of_pos]

/-! ### The vectorised statistics -/

/-- Four lanes over `b` blocks add up to the sum of the first `4 b` terms. -/
theorem sum_lanes (f : Nat → F) (b : Nat) :
    ∑ k in Finset.range b, f (4 * k) + ∑ k in Finset.range b, f (4 * k + 1)
      + ∑ k in Finset.range b, f (4 * k + 2) + ∑ k in Finset.range b, f (4 * k + 3)
      = ∑ i in Finset.range (4 * b), f i := by
  induction b with
  | zero => simp
  | succ b ih =>
    have e : 4 * (b + 1) = 4 * b + 1 + 1 + 1 + 1 := by ring
    rw [e]
    simp only [Finset.sum_range_succ]
    rw [← ih]
    ring

/-- Blocks of four followed by the remaining terms cover `0 .. n-1`. -/
theorem sum_lanes_rest (f : Nat → F) (n : Nat) :
    ∑ k in Finset.range (n / 4), f (4 * k) + ∑ k in Finset.range (n / 4), f (4 * k + 1)
      + ∑ k in Finset.range (n / 4), f (4 * k + 2) + ∑ k in Finset.range (n / 4), f (4 * k + 3)
      + ∑ j in Finset.range (n - 4 * (n / 4)), f (4 * (n / 4) + j)
      = ∑ i in Finset.range n, f i := by
  rw [sum_lanes, ← Finset.sum_range_add]
  congr 2
  omega

/-- The vector loop and the tail loop of the AVX2 path, for one accumulated term. -/
theorem simd_loop_sum (f : Nat → F) (n : Nat) :
    (List.range (n - 4 * (n / 4))).foldl (fun s (j : Nat) => s + f (4 * (n / 4) + j))
      (((List.range (n / 4)).foldl
          (fun (v : F × F × F × F) (b : Nat) =>
            (v.1 + f (4 * b), v.2.1 + f (4 * b + 1), v.2.2.1 + f (4 * b + 2),
             v.2.2.2 + f (4 * b + 3))) (0, 0, 0, 0)).1 +
        ((List.range (n / 4)).foldl
          (fun (v : F × F × F × F) (b : Nat) =>
            (v.1 + f (4 * b), v.2.1 + f (4 * b + 1), v.2.2.1 + f (4 * b + 2),
             v.2.2.2 + f (4 * b + 3))) (0, 0, 0, 0)).2.1 +
        ((List.range (n / 4)).foldl
          (fun (v : F × F × F × F) (b : Nat) =>
            (v.1 + f (4 * b), v.2.1 + f (4 * b + 1), v.2.2.1 + f (4 * b + 2),
             v.2.2.2 + f (4 * b + 3))) (0, 0, 0, 0)).2.2.1 +
        ((List.range (n / 4)).foldl
          (fun (v : F × F × F × F) (b : Nat) =>
            (v.1 + f (4 * b), v.2.1 + f (4 * b + 1), v.2.2.1 + f (4 * b + 2),
             v.2.2.2 + f (4 * b + 3))) (0, 0, 0, 0)).2.2.2)
      = ∑ i in Finset.range n, f i := by
  rw [foldl_range_sum4 (fun b => f (4 * b)) (fun b => f (4 * b + 1)) (fun b => f (4 * b + 2))
    (fun b => f (4 * b + 3)), foldl_range_sum (fun j => f (4 * (n / 4) + j))]
  exact sum_lanes_rest f n

/-- `simd_rolling_mean` as a sum, for both builds. -/
theorem simd_rolling_mean_eq_sum (avx : Bool) (data : List F) (size : Int) :
    simd_rolling_mean avx data size =
      if size ≤ 0 then 0
      else (∑ i in Finset.range size.toNat, data.getD i 0) / (size : F) := by
  unfold simd_rolling_mean
  simp only []
  split_ifs with h0 h4
  · rfl
  · rw [simd_loop_sum (fun i => data.getD i 0)]
  · rw [foldl_range_sum (fun i => data.getD i 0), zero_add]

/-- `simd_rolling_std` as a sum, for both builds. -/
theorem simd_rolling_std_eq_sum (avx : Bool) (M : Libm F) (data : List F) (size : Int) :
    simd_rolling_std avx M data size =
      if size ≤ 1 then 0
      else M.sqrt ((∑ i in Finset.range size.toNat,
          (data.getD i 0 - simd_rolling_mean avx data size) *
          (data.getD i 0 - simd_rolling_mean avx data size)) / ((size - 1 : Int) : F)) := by
  unfold simd_rolling_std
  simp only []
  split_ifs with h0 h4
  · rfl
  · rw [simd_loop_sum (fun i => (data.getD i 0 - simd_rolling_mean avx data size) *
      (data.getD i 0 - simd_rolling_mean avx data size))]
  · rw [foldl_range_sum (fun i => (data.getD i 0 - simd_rolling_mean avx data size) *
      (data.getD i 0 - simd_rolling_mean avx data size)), zero_add]

theorem foldl_range_sum3_init (f g h : Nat → F) (n : Nat) (a b c : F) :
    (List.range n).foldl
      (fun (acc : F × F × F) (i : Nat) => (acc.1 + f i, acc.2.1 + g i, acc.2.2 + h i))
      (a, b, c)
    = (a + ∑ i in Finset.range n, f i, b + ∑ i in Finset.range n, g i,
       c + ∑ i in Finset.range n, h i) := by
  induction n with
  | zero => simp
  | succ n ih =>
    rw [List.range_succ, List.foldl_append, ih]
    simp only [List.foldl_cons, List.foldl_nil, Finset.sum_range_succ, add_assoc]

/-- The three vector accumulators of `simd_correlation` after `n` blocks. -/
theorem foldl_range_lanes3 (f g h : Nat → F) (n : Nat) :
    (List.range n).foldl
      (fun (v : (F × F × F × F) × (F × F × F × F) × (F × F × F × F)) (b : Nat) =>
        ((v.1.1 + f (4 * b), v.1.2.1 + f (4 * b + 1), v.1.2.2.1 + f (4 * b + 2),
          v.1.2.2.2 + f (4 * b + 3)),
         (v.2.1.1 + g (4 * b), v.2.1.2.1 + g (4 * b + 1), v.2.1.2.2.1 + g (4 * b + 2),
          v.2.1.2.2.2 + g (4 * b + 3)),
         (v.2.2.1 + h (4 * b), v.2.2.2.1 + h (4 * b + 1), v.2.2.2.2.1 + h (4 * b + 2),
          v.2.2.2.2.2 + h (4 * b + 3))))
      ((0, 0, 0, 0), (0, 0, 0, 0), (0, 0, 0, 0))
    = ((∑ k in Finset.range n, f (4 * k), ∑ k in Finset.range n, f (4 * k + 1),
        ∑ k in Finset.range n, f (4 * k + 2), ∑ k in Finset.range n, f (4 * k + 3)),
       (∑ k in Finset.range n, g (4 * k), ∑ k in Finset.range n, g (4 * k + 1),
        ∑ k in Finset.range n, g (4 * k + 2), ∑ k in Finset.range n, g (4 * k + 3)),
       (∑ k in Finset.range n, h (4 * k), ∑ k in Finset.range n, h (4 * k + 1),
        ∑ k in Finset.range n, h (4 * k + 2), ∑ k in Finset.range n, h (4 * k + 3))) := by
  induction n with
  | zero => simp
  | succ n ih =>
    rw [List.range_succ, List.foldl_append, ih]
    simp only [List.foldl_cons, List.foldl_nil, Finset.sum_range_succ]

/-- `simd_correlation` as sums, for both builds. -/
theorem simd_correlation_eq_sum (avx : Bool) (M : Libm F) (data1 data2 : List F) (size : Int) :
    simd_correlation avx M data1 data2 size =
      if size < 2 then 0
      else if M.sqrt
          ((∑ i in Finset.range size.toNat,
            (data1.getD i 0 - simd_rolling_mean avx data1 size) *
            (data1.getD i 0 - simd_rolling_mean avx data1 size)) *
           (∑ i in Finset.range size.toNat,
            (data2.getD i 0 - simd_rolling_mean avx data2 size) *
            (data2.getD i 0 - simd_rolling_mean avx data2 size))) > 0 then
        (∑ i in Finset.range size.toNat,
          (data1.getD i 0 - simd_rolling_mean avx data1 size) *
          (data2.getD i 0 - simd_rolling_mean avx data2 size)) /
        M.sqrt
          ((∑ i in Finset.range size.toNat,
            (data1.getD i 0 - simd_rolling_mean avx data1 size) *
            (data1.getD i 0 - simd_rolling_mean avx data1 size)) *
           (∑ i in Finset.range size.toNat,
            (data2.getD i 0 - simd_rolling_mean avx data2 size) *
            (data2.getD i 0 - simd_rolling_mean avx data2 size)))
      else 0 := by
  unfold simd_correlation
  simp only []
  by_cases h2 : size < 2
  · rw [if_pos h2, if_pos h2]
  · rw [if_neg h2, if_neg h2]
    by_cases h4 : avx = true ∧ size ≥ 4
    · rw [if_pos h4,
        foldl_range_lanes3
          (fun i => (data1.getD i 0 - simd_rolling_mean avx data1 size) *
            (data2.getD i 0 - simd_rolling_mean avx data2 size))
          (fun i => (data1.getD i 0 - simd_rolling_mean avx data1 size) *
            (data1.getD i 0 - simd_rolling_mean avx data1 size))
          (fun i => (data2.getD i 0 - simd_rolling_mean avx data2 size) *
            (data2.getD i 0 - simd_rolling_mean avx data2 size)),
        foldl_range_sum3_init
          (fun j => (data1.getD (4 * (size.toNat / 4) + j) 0 - simd_rolling_mean avx data1 size) *
            (data2.getD (4 * (size.toNat / 4) + j) 0 - simd_rolling_mean avx data2 size))
          (fun j => (data1.getD (4 * (size.toNat / 4) + j) 0 - simd_rolling_mean avx data1 size) *
            (data1.getD (4 * (size.toNat / 4) + j) 0 - simd_rolling_mean avx data1 size))
          (fun j => (data2.getD (4 * (size.toNat / 4) + j) 0 - simd_rolling_mean avx data2 size) *
            (data2.getD (4 * (size.toNat / 4) + j) 0 - simd_rolling_mean avx data2 size))]
      simp only []
      rw [sum_lanes_rest
          (fun i => (data1.getD i 0 - simd_rolling_mean avx data1 size) *
            (data2.getD i 0 - simd_rolling_mean avx data2 size)),
        sum_lanes_rest
          (fun i => (data1.getD i 0 - simd_rolling_mean avx data1 size) *
            (data1.getD i 0 - simd_rolling_mean avx data1 size)),
        sum_lanes_rest
          (fun i => (data2.getD i 0 - simd_rolling_mean avx data2 size) *
            (data2.getD i 0 - simd_rolling_mean avx data2 size))]
    · rw [if_neg h4,
        foldl_range_sum3
          (fun i => (data1.getD i 0 - simd_rolling_mean avx data1 size) *
            (data2.getD i 0 - simd_rolling_mean avx data2 size))
          (fun i => (data1.getD i 0 - simd_rolling_mean avx data1 size) *
            (data1.getD i 0 - simd_rolling_mean avx data1 size))
          (fun i => (data2.getD i 0 - simd_rolling_mean avx data2 size) *
            (data2.getD i 0 - simd_rolling_mean avx data2 size))]

/-- The contiguous copy holds the window: its cell `i` is `cb_get cb i`. -/
theorem cb_to_array_getD (cb : CircularBuffer F) (size : Int) (i : Nat) (hi : i < size.toNat) :
    (cb_to_array cb size).getD i 0 = cb_get cb (i : Int) := by
  unfold cb_to_array
  rw [List.getD_eq_getElem _ _ (by simpa using hi)]
  simp

/-- The vectorised mean of the contiguous copy is the scalar mean of the window. -/
theorem simd_rolling_mean_cb (avx : Bool) (cb : CircularBuffer F) :
    simd_rolling_mean avx (cb_to_array cb (cb_size cb)) (cb_size cb) = rolling_mean cb := by
  rw [simd_rolling_mean_eq_sum, rolling_mean_eq_sum]
  by_cases h0 : cb_size cb = 0
  · rw [if_pos h0, if_pos (le_of_eq h0)]
  · rw [if_neg h0]
    by_cases h1 : cb_size cb ≤ 0
    · rw [if_pos h1]
      have ht : (cb_size cb).toNat = 0 := by omega
      rw [ht, Finset.sum_range_zero, zero_div]
    · rw [if_neg h1]
      congr 1
      exact Finset.sum_congr rfl (fun i hi =>
        cb_to_array_getD cb _ i (Finset.mem_range.mp hi))

/-- `rolling_std` as a sum over the window. -/
theorem rolling_std_eq_sum (M : Libm F) (cb : CircularBuffer F) :
    rolling_std M cb =
      if cb_size cb ≤ 1 then 0
      else M.sqrt ((∑ i in Finset.range (cb_size cb).toNat,
          (cb_get cb (i : Int) - rolling_mean cb) * (cb_get cb (i : Int) - rolling_mean cb))
        / ((cb_size cb - 1 : Int) : F)) := by
  unfold rolling_std
  simp only []
  rw [foldl_range_sum (fun i => (cb_get cb (i : Int) - rolling_mean cb) *
    (cb_get cb (i : Int) - rolling_mean cb)), zero_add]

/-- In exact arithmetic and for both builds (with and without AVX2),
`simd_cb_rolling_mean` equals `rolling_mean` and `simd_cb_rolling_std` equals
`rolling_std` on every window, and `simd_cb_correlation` equals
`calculate_correlation` on every pair of windows when `sqrt` never returns a
negative number (the vectorised path tests `denominator > 0`, the scalar path
`denominator == 0`).  No size or variance is assumed, so the empty window, the
windows of size at most 1, unequal sizes and zero variance are included.  The
equalities re-associate exact sums; with rounded sums the two paths differ, see the
evaluations in binary64 arithmetic below. -/
theorem simd_equivalent_to_scalar (avx : Bool) (M : Libm F) (cb cb1 cb2 : CircularBuffer F) :
    simd_cb_rolling_mean avx cb = rolling_mean cb ∧
    simd_cb_rolling_std avx M cb = rolling_std M cb ∧
    ((∀ x : F, 0 ≤ M.sqrt x) →
      simd_cb_correlation avx M cb1 cb2 = calculate_correlation M cb1 cb2) := by
  refine ⟨?_, ?_, ?_⟩
  · unfold simd_cb_rolling_mean
    simp only []
    split_ifs with h0
    · rw [rolling_mean_eq_sum, if_pos h0]
    · exact simd_rolling_mean_cb avx cb
  · unfold simd_cb_rolling_std
    simp only []
    rw [rolling_std_eq_sum, simd_rolling_std_eq_sum, simd_rolling_mean_cb]
    split_ifs with h1
    · rfl
    · congr 2
      exact Finset.sum_congr rfl (fun i hi => by
        rw [cb_to_array_getD cb _ i (Finset.mem_range.mp hi)])
  · intro hsqrt
    unfold simd_cb_correlation calculate_correlation
    simp only []
    by_cases hg : cb_size cb1 ≠ cb_size cb2 ∨ cb_size cb1 < 2
    · rw [if_pos hg, if_pos hg]
    · rw [if_neg hg, if_neg hg]
      push_neg at hg
      obtain ⟨hsz, h2⟩ := hg
      have hm2 : simd_rolling_mean avx (cb_to_array cb2 (cb_size cb1)) (cb_size cb1)
          = rolling_mean cb2 := by
        rw [hsz]
        exact simd_rolling_mean_cb avx cb2
      rw [simd_correlation_eq_sum, if_neg (by omega), simd_rolling_mean_cb, hm2,
        correlation_sums_eq]
      simp only []
      have e1 : ∑ i in Finset.range (cb_size cb1).toNat,
          ((cb_to_array cb1 (cb_size cb1)).getD i 0 - rolling_mean cb1) *
          ((cb_to_array cb1 (cb_size cb1)).getD i 0 - rolling_mean cb1)
          = ∑ i in Finset.range (cb_size cb1).toNat,
          (cb_get cb1 (i : Int) - rolling_mean cb1) * (cb_get cb1 (i : Int) - rolling_mean cb1) :=
        Finset.sum_congr rfl (fun i hi => by
          rw [cb_to_array_getD cb1 _ i (Finset.mem_range.mp hi)])
      have e2 : ∑ i in Finset.range (cb_size cb1).toNat,
          ((cb_to_array cb2 (cb_size cb1)).getD i 0 - rolling_mean cb2) *
          ((cb_to_array cb2 (cb_size cb1)).getD i 0 - rolling_mean cb2)
          = ∑ i in Finset.range (cb_size cb1).toNat,
          (cb_get cb2 (i : Int) - rolling_mean cb2) * (cb_get cb2 (i : Int) - rolling_mean cb2) :=
        Finset.sum_congr rfl (fun i hi => by
          rw [cb_to_array_getD cb2 _ i (Finset.mem_range.mp hi)])
      have e3 : ∑ i in Finset.range (cb_size cb1).toNat,
          ((cb_to_array cb1 (cb_size cb1)).getD i 0 - rolling_mean cb1) *
          ((cb_to_array cb2 (cb_size cb1)).getD i 0 - rolling_mean cb2)
          = ∑ i in Finset.range (cb_size cb1).toNat,
          (cb_get cb1 (i : Int) - rolling_mean cb1) * (cb_get cb2 (i : Int) - rolling_mean cb2) :=
        Finset.sum_congr rfl (fun i hi => by
          rw [cb_to_array_getD cb1 _ i (Finset.mem_range.mp hi),
            cb_to_array_getD cb2 _ i (Finset.mem_range.mp hi)])
      rw [e1, e2, e3]
      by_cases hd : M.sqrt
          ((∑ i in Finset.range (cb_size cb1).toNat,
            (cb_get cb1 (i : Int) - rolling_mean cb1) * (cb_get cb1 (i : Int) - rolling_mean cb1)) *
           (∑ i in Finset.range (cb_size cb1).toNat,
            (cb_get cb2 (i : Int) - rolling_mean cb2) * (cb_get cb2 (i : Int) - rolling_mean cb2)))
          = 0
      · rw [if_pos hd, if_neg (by rw [hd]; exact lt_irrefl _)]
      · rw [if_neg hd, if_pos (lt_of_le_of_ne (hsqrt _) (Ne.symm hd))]

/-! ### The enhanced per-tick signal -/

theorem enhanced_hedge_ratio_step_eq (M : Libm F) (t : PairTracker F) (hb : CircularBuffer F)
    (hhb : t.hedge_ratio_buffer = some hb) :
    enhanced_hedge_ratio_step M t =
      some (if t.use_dynamic_hedging = true ∧ cb_size t.price_buffer1 ≥ 20 then
        (calculate_dynamic_hedge_ratio M t.price_buffer1 t.price_buffer2 20,
          some (cb_push hb (calculate_dynamic_hedge_ratio M t.price_buffer1 t.price_buffer2 20)))
      else (1, some hb)) := by
  unfold enhanced_hedge_ratio_step
  simp only [hhb]
  split_ifs <;> rfl

theorem enhanced_volatility_step_eq (M : Libm F) (t : PairTracker F) (price1 price2 : F)
    (v1 v2 : CircularBuffer F) (hv1 : t.volatility1_buffer = some v1)
    (hv2 : t.volatility2_buffer = some v2) :
    enhanced_volatility_step M t price1 price2 =
      some (if cb_size t.price_buffer1 ≥ 2 then
        (some (cb_push v1
            (M.log (price1 / cb_get t.price_buffer1 (cb_size t.price_buffer1 - 2)) *
              M.log (price1 / cb_get t.price_buffer1 (cb_size t.price_buffer1 - 2)))),
          some (cb_push v2
            (M.log (price2 / cb_get t.price_buffer2 (cb_size t.price_buffer2 - 2)) *
              M.log (price2 / cb_get t.price_buffer2 (cb_size t.price_buffer2 - 2)))))
      else (some v1, some v2)) := by
  unfold enhanced_volatility_step
  simp only [hv1, hv2]
  split_ifs <;> rfl

theorem enhanced_vol_factor_eq (M : Libm F) (t : PairTracker F)
    (v1 v2 : CircularBuffer F) (hv1 : t.volatility1_buffer = some v1)
    (hv2 : t.volatility2_buffer = some v2) :
    enhanced_vol_factor M t =
      some (if cb_size v1 > 5 then
        (M.sqrt (rolling_mean v1) + M.sqrt (rolling_mean v2)) / (2 / 100) else 1) := by
  unfold enhanced_vol_factor
  simp only [hv1, hv2]
  split_ifs <;> rfl

theorem update_dynamic_thresholds_frame (M : Libm F) (t : PairTracker F) (vf : F) :
    update_dynamic_thresholds M t vf =
      { t with
        dynamic_entry_threshold := (update_dynamic_thresholds M t vf).dynamic_entry_threshold
        dynamic_exit_threshold := (update_dynamic_thresholds M t vf).dynamic_exit_threshold } :=
  rfl

/-- One enhanced tick on a tracker that has its hedge-ratio and volatility buffers
returns a result; the hedge ratio is 1 unless dynamic hedging is on and at least
20 prices are buffered, and the spread pushed and reported is
`price1 - hedge_ratio * price2`. -/
theorem generate_enhanced_pairs_signal_spread (avx : Bool) (M : Libm F)
    (attention_zscore : CircularBuffer F → AttentionLayer F → F)
    (st : SignalStatics F) (tracker : PairTracker F)
    (price1 price2 bid1 ask1 bid2 ask2 : F) (timestamp_micro : Int)
    (hb v1 v2 : CircularBuffer F) (hhb : tracker.hedge_ratio_buffer = some hb)
    (hv1 : tracker.volatility1_buffer = some v1) (hv2 : tracker.volatility2_buffer = some v2) :
    ∃ r : SignalStatics F × PairTracker F × PairSignal F,
      generate_enhanced_pairs_signal avx M attention_zscore st tracker price1 price2
        bid1 ask1 bid2 ask2 timestamp_micro = some r ∧
      r.2.2.hedge_ratio =
        (if tracker.use_dynamic_hedging = true ∧
            cb_size (cb_push tracker.price_buffer1 price1) ≥ 20 then
          calculate_dynamic_hedge_ratio M (cb_push tracker.price_buffer1 price1)
            (cb_push tracker.price_buffer2 price2) 20
        else 1) ∧
      r.2.2.spread = price1 - r.2.2.hedge_ratio * price2 ∧
      r.2.1.current_hedge_ratio = r.2.2.hedge_ratio ∧
      r.2.1.spread_buffer = cb_push tracker.spread_buffer r.2.2.spread := by
  unfold generate_enhanced_pairs_signal
  simp only []
  rw [enhanced_hedge_ratio_step_eq M _ hb]
  swap
  · exact hhb
  simp only []
  rw [enhanced_volatility_step_eq M _ price1 price2 v1 v2]
  rotate_left
  · exact hv1
  · exact hv2
  simp only []
  by_cases hsz : cb_size (cb_push tracker.price_buffer1 price1) ≥ 2
  · rw [if_pos hsz]
    simp only []
    rw [enhanced_vol_factor_eq M _ _ _ rfl rfl]
    simp only []
    exact ⟨_, rfl, apply_ite Prod.fst _ _ _, rfl, rfl, rfl⟩
  · rw [if_neg hsz]
    simp only []
    rw [enhanced_vol_factor_eq M _ _ _ rfl rfl]
    simp only []
    exact ⟨_, rfl, apply_ite Prod.fst _ _ _, rfl, rfl, rfl⟩

/-- The spread of the enhanced orchestrator as the code computes it: on a tracker
that has its hedge-ratio and volatility buffers,
`generate_enhanced_pairs_signal` returns a result; when dynamic hedging is
disabled or fewer than 20 prices are buffered after the push of this tick, the
hedge ratio is 1 and the spread reported and pushed is `price1 - 1 * price2`; when
it is enabled and at least 20 prices are buffered, the hedge ratio is
`calculate_dynamic_hedge_ratio` of the two updated price windows with lookback 20
and the spread reported and pushed is `price1 - hedge_ratio * price2`. -/
theorem enhanced_spread_is_price_difference (avx : Bool) (M : Libm F)
    (attention_zscore : CircularBuffer F → AttentionLayer F → F)
    (st : SignalStatics F) (tracker : PairTracker F)
    (price1 price2 bid1 ask1 bid2 ask2 : F) (timestamp_micro : Int)
    (hb v1 v2 : CircularBuffer F) (hhb : tracker.hedge_ratio_buffer = some hb)
    (hv1 : tracker.volatility1_buffer = some v1) (hv2 : tracker.volatility2_buffer = some v2) :
    ∃ r : SignalStatics F × PairTracker F × PairSignal F,
      generate_enhanced_pairs_signal avx M attention_zscore st tracker price1 price2
        bid1 ask1 bid2 ask2 timestamp_micro = some r ∧
      ((tracker.use_dynamic_hedging = false ∨
          cb_size (cb_push tracker.price_buffer1 price1) < 20) →
        r.2.2.hedge_ratio = 1 ∧ r.2.2.spread = price1 - 1 * price2 ∧
        r.2.1.spread_buffer = cb_push tracker.spread_buffer (price1 - 1 * price2)) ∧
      ((tracker.use_dynamic_hedging = true ∧
          20 ≤ cb_size (cb_push tracker.price_buffer1 price1)) →
        r.2.2.hedge_ratio = calculate_dynamic_hedge_ratio M (cb_push tracker.price_buffer1 price1)
          (cb_push tracker.price_buffer2 price2) 20 ∧
        r.2.2.spread = price1 - calculate_dynamic_hedge_ratio M
          (cb_push tracker.price_buffer1 price1) (cb_push tracker.price_buffer2 price2) 20
            * price2 ∧
        r.2.1.spread_buffer = cb_push tracker.spread_buffer
          (price1 - calculate_dynamic_hedge_ratio M (cb_push tracker.price_buffer1 price1)
            (cb_push tracker.price_buffer2 price2) 20 * price2)) := by
  obtain ⟨r, hr, h1, h2, -, h4⟩ := generate_enhanced_pairs_signal_spread avx M attention_zscore
    st tracker price1 price2 bid1 ask1 bid2 ask2 timestamp_micro hb v1 v2 hhb hv1 hv2
  refine ⟨r, hr, ?_, ?_⟩
  · intro hoff
    have hn : ¬ (tracker.use_dynamic_hedging = true ∧
        cb_size (cb_push tracker.price_buffer1 price1) ≥ 20) := by
      rintro ⟨ha, hb2⟩
      rcases hoff with h | h
      · rw [ha] at h
        exact Bool.noConfusion h
      · exact absurd hb2 (not_le.mpr h)
    rw [if_neg hn] at h1
    have hs : r.2.2.spread = price1 - 1 * price2 := by rw [h2, h1]
    exact ⟨h1, hs, by rw [h4, hs]⟩
  · intro hon
    rw [if_pos hon] at h1
    have hs : r.2.2.spread = price1 - calculate_dynamic_hedge_ratio M
        (cb_push tracker.price_buffer1 price1) (cb_push tracker.price_buffer2 price2) 20
          * price2 := by rw [h2, h1]
    exact ⟨h1, hs, by rw [h4, hs]⟩

/-! ### The positions the state machine can hold -/

/-- One call from a position in `{-1, 0, 1}`: the new position is in `{-1, 0, 1}`, from
`1` it is `1` or `0`, from `-1` it is `-1` or `0`. -/
theorem mean_reversion_signal_step (p : Int) (z e x : F) (hp : p = -1 ∨ p = 0 ∨ p = 1) :
    ((mean_reversion_signal p z e x).1 = -1 ∨ (mean_reversion_signal p z e x).1 = 0 ∨
      (mean_reversion_signal p z e x).1 = 1) ∧
    (p = 1 → (mean_reversion_signal p z e x).1 = 1 ∨ (mean_reversion_signal p z e x).1 = 0) ∧
    (p = -1 → (mean_reversion_signal p z e x).1 = -1 ∨ (mean_reversion_signal p z e x).1 = 0) := by
  rcases hp with h | h | h <;> subst h <;> unfold mean_reversion_signal <;>
    simp only [show ¬ ((-1 : Int) = 0) by decide, show ¬ ((-1 : Int) = 1) by decide,
      show ¬ ((1 : Int) = 0) by decide, show ¬ ((1 : Int) = -1) by decide,
      show ¬ ((0 : Int) = 1) by decide, show ¬ ((0 : Int) = -1) by decide, if_true, if_false] <;>
    split_ifs <;> simp

theorem mean_reversion_signal_run_range (calls : List (F × F × F)) (p : Int)
    (hp : p = -1 ∨ p = 0 ∨ p = 1) :
    mean_reversion_signal_run p calls = -1 ∨ mean_reversion_signal_run p calls = 0 ∨
      mean_reversion_signal_run p calls = 1 := by
  induction calls generalizing p with
  | nil => exact hp
  | cons c cs ih =>
    exact ih _ (mean_reversion_signal_step p c.1 c.2.1 c.2.2 hp).1

/-- C35: after every sequence of `mean_reversion_signal` calls with any z-scores and
thresholds, starting from the initial static 0, the held position is -1, 0 or 1, and
so is the position after one more call with any arguments; from 1 the next position
is 1 or 0 and from -1 it is -1 or 0, so no call moves between Long and Short. -/
theorem position_never_flips (calls : List (F × F × F)) (z e x : F) :
    (mean_reversion_signal_run 0 calls = -1 ∨ mean_reversion_signal_run 0 calls = 0 ∨
      mean_reversion_signal_run 0 calls = 1) ∧
    ((mean_reversion_signal (mean_reversion_signal_run 0 calls) z e x).1 = -1 ∨
      (mean_reversion_signal (mean_reversion_signal_run 0 calls) z e x).1 = 0 ∨
      (mean_reversion_signal (mean_reversion_signal_run 0 calls) z e x).1 = 1) ∧
    (mean_reversion_signal_run 0 calls = 1 →
      (mean_reversion_signal (mean_reversion_signal_run 0 calls) z e x).1 = 1 ∨
      (mean_reversion_signal (mean_reversion_signal_run 0 calls) z e x).1 = 0) ∧
    (mean_reversion_signal_run 0 calls = -1 →
      (mean_reversion_signal (mean_reversion_signal_run 0 calls) z e x).1 = -1 ∨
      (mean_reversion_signal (mean_reversion_signal_run 0 calls) z e x).1 = 0) := by
  have hp := mean_reversion_signal_run_range calls (0 : Int) (Or.inr (Or.inl rfl))
  exact ⟨hp, mean_reversion_signal_step _ z e x hp⟩

/-! ### The dynamic thresholds -/

theorem floor_eq_max (x lo : F) : (if x < lo then lo else x) = max lo x := by
  by_cases h : x < lo
  · rw [if_pos h, max_eq_left (le_of_lt h)]
  · rw [if_neg h, max_eq_right (not_lt.mp h)]

/-- The two thresholds written by `update_dynamic_thresholds`, with the regime
multipliers as a pair and the floors as maxima. -/
theorem update_dynamic_thresholds_eq (M : Libm F) (tracker : PairTracker F) (v : F) :
    (update_dynamic_thresholds M tracker v).dynamic_entry_threshold =
      max (1 / 2)
        ((match tracker.regime_detector with
          | some detector =>
            if detector.current_regime = 0 then (2 * v, 1 / 2 * v)
            else if detector.current_regime = 1 then (2 * (3 / 2) * v, 1 / 2 * (12 / 10) * v)
            else if detector.current_regime = 2 then (2 * (5 / 2) * v, 1 / 2 * 2 * v)
            else (tracker.dynamic_entry_threshold, tracker.dynamic_exit_threshold)
          | none => (2 * v, 1 / 2 * v)).1 *
          (if cb_size tracker.spread_buffer > 10 then
            20 / calculate_half_life M tracker.spread_buffer else 1)) ∧
    (update_dynamic_thresholds M tracker v).dynamic_exit_threshold =
      max (1 / 10)
        ((match tracker.regime_detector with
          | some detector =>
            if detector.current_regime = 0 then (2 * v, 1 / 2 * v)
            else if detector.current_regime = 1 then (2 * (3 / 2) * v, 1 / 2 * (12 / 10) * v)
            else if detector.current_regime = 2 then (2 * (5 / 2) * v, 1 / 2 * 2 * v)
            else (tracker.dynamic_entry_threshold, tracker.dynamic_exit_threshold)
          | none => (2 * v, 1 / 2 * v)).2 *
          (if cb_size tracker.spread_buffer > 10 then
            20 / calculate_half_life M tracker.spread_buffer else 1)) := by
  unfold update_dynamic_thresholds
  simp only []
  rw [floor_eq_max, floor_eq_max]
  by_cases h : cb_size tracker.spread_buffer > 10
  · simp only [if_pos h]
    constructor <;> first | rfl | trivial
  · simp only [if_neg h, mul_one]
    constructor <;> first | rfl | trivial

/-- C33: with `h = 20 / calculate_half_life` of the spread window when it holds more
than 10 samples and `h = 1` otherwise, `update_dynamic_thresholds` writes
`entry = max 0.5 (2 * m_e * v * h)` and `exit = max 0.1 (0.5 * m_x * v * h)` with
`(m_e, m_x) = (1, 1)` without detector or in regime 0, `(1.5, 1.2)` in regime 1 and
`(2.5, 2.0)` in regime 2; and after every call `entry ≥ 0.5` and `exit ≥ 0.1`. -/
theorem dynamic_thresholds_formula (M : Libm F) (tracker : PairTracker F) (v : F) :
    ((tracker.regime_detector = none ∨
        (∃ d : RegimeDetector F, tracker.regime_detector = some d ∧ d.current_regime = 0)) →
      (update_dynamic_thresholds M tracker v).dynamic_entry_threshold =
        max (1 / 2) (2 * 1 * v * (if cb_size tracker.spread_buffer > 10 then
          20 / calculate_half_life M tracker.spread_buffer else 1)) ∧
      (update_dynamic_thresholds M tracker v).dynamic_exit_threshold =
        max (1 / 10) (1 / 2 * 1 * v * (if cb_size tracker.spread_buffer > 10 then
          20 / calculate_half_life M tracker.spread_buffer else 1))) ∧
    ((∃ d : RegimeDetector F, tracker.regime_detector = some d ∧ d.current_regime = 1) →
      (update_dynamic_thresholds M tracker v).dynamic_entry_threshold =
        max (1 / 2) (2 * (3 / 2) * v * (if cb_size tracker.spread_buffer > 10 then
          20 / calculate_half_life M tracker.spread_buffer else 1)) ∧
      (update_dynamic_thresholds M tracker v).dynamic_exit_threshold =
        max (1 / 10) (1 / 2 * (12 / 10) * v * (if cb_size tracker.spread_buffer > 10 then
          20 / calculate_half_life M tracker.spread_buffer else 1))) ∧
    ((∃ d : RegimeDetector F, tracker.regime_detector = some d ∧ d.current_regime = 2) →
      (update_dynamic_thresholds M tracker v).dynamic_entry_threshold =
        max (1 / 2) (2 * (5 / 2) * v * (if cb_size tracker.spread_buffer > 10 then
          20 / calculate_half_life M tracker.spread_buffer else 1)) ∧
      (update_dynamic_thresholds M tracker v).dynamic_exit_threshold =
        max (1 / 10) (1 / 2 * 2 * v * (if cb_size tracker.spread_buffer > 10 then
          20 / calculate_half_life M tracker.spread_buffer else 1))) ∧
    1 / 2 ≤ (update_dynamic_thresholds M tracker v).dynamic_entry_threshold ∧
    1 / 10 ≤ (update_dynamic_thresholds M tracker v).dynamic_exit_threshold := by
  obtain ⟨he, hx⟩ := update_dynamic_thresholds_eq M tracker v
  refine ⟨?_, ?_, ?_, ?_, ?_⟩
  · rintro (h | ⟨d, h, h0⟩)
    · rw [he, hx, h]
      constructor <;> simp only [mul_one]
    · rw [he, hx, h]
      constructor <;> simp only [h0, if_true, mul_one]
  · rintro ⟨d, h, h1⟩
    rw [he, hx, h]
    constructor <;> simp only [h1, show ¬ ((1 : Int) = 0) by decide, if_true, if_false]
  · rintro ⟨d, h, h2⟩
    rw [he, hx, h]
    constructor <;>
      simp only [h2, show ¬ ((2 : Int) = 0) by decide, show ¬ ((2 : Int) = 1) by decide,
        if_true, if_false]
  · rw [he]
    exact le_max_left _ _
  · rw [hx]
    exact le_max_left _ _

theorem calculate_half_life_ge_one (M : Libm F) (sb : CircularBuffer F) :
    (1 : F) ≤ calculate_half_life M sb := by
  rw [calculate_half_life_eq]
  by_cases h : cb_size sb < 10
  · rw [if_pos h]
    norm_num
  · rw [if_neg h]
    exact (half_life_branch_bounds _ _).1

/-- The half-life factor of `update_dynamic_thresholds` is positive. -/
theorem half_life_factor_pos (M : Libm F) (sb : CircularBuffer F) :
    (0 : F) < (if cb_size sb > 10 then 20 / calculate_half_life M sb else 1) := by
  split_ifs
  · exact div_pos (by norm_num) (lt_of_lt_of_le zero_lt_one (calculate_half_life_ge_one M sb))
  · exact zero_lt_one

/-- A floored exit value stays below the floored entry value when the raw exit is
below the raw entry or both are 0. -/
theorem floored_exit_lt_entry (a b w : F) (hab : w = 0 ∨ b * w < a * w) :
    max (1 / 10) (b * w) < max (1 / 2) (a * w) := by
  rcases hab with h0 | h
  · rw [h0, mul_zero, mul_zero, max_eq_left (by norm_num), max_eq_left (by norm_num)]
    norm_num
  · rcases le_total (b * w) (1 / 10) with hb | hb
    · rw [max_eq_left hb]
      exact lt_of_lt_of_le (by norm_num) (le_max_left _ _)
    · rw [max_eq_right hb]
      exact lt_of_lt_of_le h (le_max_right _ _)

/-- C34: for a tracker without detector or with a regime in `{0, 1, 2}` and a
volatility factor `≥ 0`, after `update_dynamic_thresholds` the exit threshold is
strictly below the entry threshold; hence, with these thresholds, a z-score on which
the state machine opens Short from Flat keeps Short when evaluated from Short, and
one on which it opens Long keeps Long when evaluated from Long. -/
theorem entry_threshold_above_exit (M : Libm F) (tracker : PairTracker F) (v : F)
    (hreg : tracker.regime_detector = none ∨
      ∃ d : RegimeDetector F, tracker.regime_detector = some d ∧
        (d.current_regime = 0 ∨ d.current_regime = 1 ∨ d.current_regime = 2))
    (hv : 0 ≤ v) :
    (update_dynamic_thresholds M tracker v).dynamic_exit_threshold
      < (update_dynamic_thresholds M tracker v).dynamic_entry_threshold ∧
    (∀ z : F,
      (mean_reversion_signal 0 z (update_dynamic_thresholds M tracker v).dynamic_entry_threshold
        (update_dynamic_thresholds M tracker v).dynamic_exit_threshold).1 = -1 →
      mean_reversion_signal (-1) z
        (update_dynamic_thresholds M tracker v).dynamic_entry_threshold
        (update_dynamic_thresholds M tracker v).dynamic_exit_threshold = (-1, -1)) ∧
    (∀ z : F,
      (mean_reversion_signal 0 z (update_dynamic_thresholds M tracker v).dynamic_entry_threshold
        (update_dynamic_thresholds M tracker v).dynamic_exit_threshold).1 = 1 →
      mean_reversion_signal 1 z
        (update_dynamic_thresholds M tracker v).dynamic_entry_threshold
        (update_dynamic_thresholds M tracker v).dynamic_exit_threshold = (1, 1)) := by
  have hlt : (update_dynamic_thresholds M tracker v).dynamic_exit_threshold
      < (update_dynamic_thresholds M tracker v).dynamic_entry_threshold := by
    obtain ⟨he, hx⟩ := update_dynamic_thresholds_eq M tracker v
    have hh := half_life_factor_pos M tracker.spread_buffer
    rw [he, hx]
    generalize (if cb_size tracker.spread_buffer > 10 then
      20 / calculate_half_life M tracker.spread_buffer else 1) = h at hh ⊢
    have key : ∀ a b : F, 0 < a → b < a →
        max (1 / 10) (b * v * h) < max (1 / 2) (a * v * h) := by
      intro a b ha hba
      rw [mul_assoc, mul_assoc]
      apply floored_exit_lt_entry a b (v * h)
      rcases hv.lt_or_eq with hv0 | hv0
      · exact Or.inr (mul_lt_mul_of_pos_right hba (mul_pos hv0 hh))
      · exact Or.inl (by rw [← hv0, zero_mul])
    rcases hreg with h | ⟨d, h, h0 | h1 | h2⟩
    · rw [h]
      exact key 2 (1 / 2) (by norm_num) (by norm_num)
    · rw [h]
      simp only [h0, if_true]
      exact key 2 (1 / 2) (by norm_num) (by norm_num)
    · rw [h]
      simp only [h1, show ¬ ((1 : Int) = 0) by decide, if_true, if_false]
      exact key (2 * (3 / 2)) (1 / 2 * (12 / 10)) (by norm_num) (by norm_num)
    · rw [h]
      simp only [h2, show ¬ ((2 : Int) = 0) by decide, show ¬ ((2 : Int) = 1) by decide,
        if_true, if_false]
      exact key (2 * (5 / 2)) (1 / 2 * 2) (by norm_num) (by norm_num)
  have hx0 : (0 : F) < (update_dynamic_thresholds M tracker v).dynamic_exit_threshold := by
    rw [(update_dynamic_thresholds_eq M tracker v).2]
    exact lt_of_lt_of_le (by norm_num) (le_max_left _ _)
  refine ⟨hlt, ?_, ?_⟩
  · intro z hz
    generalize (update_dynamic_thresholds M tracker v).dynamic_entry_threshold = e at hlt hz ⊢
    generalize (update_dynamic_thresholds M tracker v).dynamic_exit_threshold = x at hlt hx0 hz ⊢
    unfold mean_reversion_signal at hz ⊢
    simp only [show ¬ ((-1 : Int) = 0) by decide, show ¬ ((-1 : Int) = 1) by decide, if_true,
      if_false] at hz ⊢
    by_cases h1 : z > e
    · rw [if_neg (by linarith)]
    · rw [if_neg h1] at hz
      split_ifs at hz
  · intro z hz
    generalize (update_dynamic_thresholds M tracker v).dynamic_entry_threshold = e at hlt hz ⊢
    generalize (update_dynamic_thresholds M tracker v).dynamic_exit_threshold = x at hlt hx0 hz ⊢
    unfold mean_reversion_signal at hz ⊢
    simp only [show ¬ ((1 : Int) = 0) by decide, if_true, if_false] at hz ⊢
    by_cases h1 : z > e
    · rw [if_pos h1] at hz
      simp at hz
    · rw [if_neg h1] at hz
      by_cases h2 : z < -e
      · rw [if_neg (by linarith)]
      · rw [if_neg h2] at hz
        simp at hz

theorem entry_threshold_above_exit_witness :
    (update_dynamic_thresholds (⟨Real.sqrt, Real.log⟩ : Libm ℝ) (create_pair_tracker 20) 1).dynamic_exit_threshold
      < (update_dynamic_thresholds (⟨Real.sqrt, Real.log⟩ : Libm ℝ)
          (create_pair_tracker 20) 1).dynamic_entry_threshold :=
  (entry_threshold_above_exit (⟨Real.sqrt, Real.log⟩ : Libm ℝ) (create_pair_tracker 20) 1
    (Or.inl rfl) zero_le_one).1

/-! ### The range of the correlation -/

/-- Cauchy-Schwarz for the three accumulators of a correlation. -/
theorem sum_cross_sq_le (f g : Nat → F) (n : Nat) :
    (∑ i in Finset.range n, f i * g i) * (∑ i in Finset.range n, f i * g i)
      ≤ (∑ i in Finset.range n, f i * f i) * (∑ i in Finset.range n, g i * g i) := by
  have h := Finset.sum_mul_sq_le_sq_mul_sq (Finset.range n) f g
  simp only [pow_two] at h
  exact h

/-- A quotient `a / d` with `a * a ≤ d * d` and `0 < d` lies in `[-1, 1]`. -/
theorem quotient_in_unit_interval (a d : F) (hd : 0 < d) (h : a * a ≤ d * d) :
    -1 ≤ a / d ∧ a / d ≤ 1 := by
  have h1 : a ≤ d := by nlinarith
  have h2 : -d ≤ a := by nlinarith
  refine ⟨?_, ?_⟩
  · rw [le_div_iff₀ hd]
    linarith
  · rw [div_le_one hd]
    exact h1

/-- In exact arithmetic, with a `sqrt` that is the exact non-negative square root
of every non-negative number, `calculate_correlation` is in `[-1, 1]` for every two
windows:
0 in the guarded cases, and otherwise the quotient of the cross sum by the root of
the product of the two square sums, bounded by the Cauchy-Schwarz inequality. -/
theorem correlation_in_unit_interval (M : Libm F)
    (hsqrt : ∀ x : F, 0 ≤ x → 0 ≤ M.sqrt x ∧ M.sqrt x * M.sqrt x = x)
    (cb1 cb2 : CircularBuffer F) :
    -1 ≤ calculate_correlation M cb1 cb2 ∧ calculate_correlation M cb1 cb2 ≤ 1 := by
  unfold calculate_correlation
  simp only []
  split_ifs with hg hd
  · norm_num
  · norm_num
  · rw [correlation_sums_eq] at hd ⊢
    simp only [] at hd ⊢
    have hnn : 0 ≤ (∑ i in Finset.range (cb_size cb1).toNat,
          (cb_get cb1 (i : Int) - rolling_mean cb1) * (cb_get cb1 (i : Int) - rolling_mean cb1)) *
        (∑ i in Finset.range (cb_size cb1).toNat,
          (cb_get cb2 (i : Int) - rolling_mean cb2) * (cb_get cb2 (i : Int) - rolling_mean cb2)) :=
      mul_nonneg (sum_sq_dev_nonneg _ _ _) (sum_sq_dev_nonneg _ _ _)
    obtain ⟨h0, hsq⟩ := hsqrt _ hnn
    apply quotient_in_unit_interval _ _ (lt_of_le_of_ne h0 (Ne.symm hd))
    rw [hsq]
    exact sum_cross_sq_le (fun i => cb_get cb1 (i : Int) - rolling_mean cb1)
      (fun i => cb_get cb2 (i : Int) - rolling_mean cb2) _

/-! ### The Johansen statistic -/

theorem johansen_test_eq (M : Libm F) (price1 price2 : CircularBuffer F) :
    johansen_test M price1 price2 =
      if cb_size price1 ≠ cb_size price2 ∨ cb_size price1 < 20 then 0
      else -(cb_size price1 : F) * M.log (1 -
        ((johansen_cov M price1 price2).1 + (johansen_cov M price1 price2).2.2 -
          M.sqrt (((johansen_cov M price1 price2).1 + (johansen_cov M price1 price2).2.2) *
              ((johansen_cov M price1 price2).1 + (johansen_cov M price1 price2).2.2) -
            4 * ((johansen_cov M price1 price2).1 * (johansen_cov M price1 price2).2.2 -
              (johansen_cov M price1 price2).2.1 * (johansen_cov M price1 price2).2.1))) / 2) :=
  rfl

/-- The covariance entries are sums of squares and cross products over a positive
divisor: the matrix is positive semidefinite. -/
theorem johansen_cov_psd (M : Libm F) (price1 price2 : CircularBuffer F)
    (hn : 3 ≤ cb_size price1) :
    0 ≤ (johansen_cov M price1 price2).1 ∧ 0 ≤ (johansen_cov M price1 price2).2.2 ∧
    (johansen_cov M price1 price2).2.1 * (johansen_cov M price1 price2).2.1
      ≤ (johansen_cov M price1 price2).1 * (johansen_cov M price1 price2).2.2 := by
  have hk : (0 : F) < ((cb_size price1 - 2 : Int) : F) := by
    exact_mod_cast (by omega : (0 : Int) < cb_size price1 - 2)
  unfold johansen_cov
  simp only []
  generalize ((List.range (cb_size price1 - 1).toNat).map (fun (i : Nat) =>
    M.log (cb_get price1 ((i : Int) + 1) / cb_get price1 (i : Int)))) = ret1
  generalize ((List.range (cb_size price1 - 1).toNat).map (fun (i : Nat) =>
    M.log (cb_get price2 ((i : Int) + 1) / cb_get price2 (i : Int)))) = ret2
  generalize ((List.range (cb_size price1 - 1).toNat).foldl
    (fun (acc : F × F) (i : Nat) => (acc.1 + ret1.getD i 0, acc.2 + ret2.getD i 0)) (0, 0)) = sums
  rw [foldl_range_sum3
    (fun i => (ret1.getD i 0 - sums.1 / ((cb_size price1 - 1 : Int) : F)) *
      (ret1.getD i 0 - sums.1 / ((cb_size price1 - 1 : Int) : F)))
    (fun i => (ret1.getD i 0 - sums.1 / ((cb_size price1 - 1 : Int) : F)) *
      (ret2.getD i 0 - sums.2 / ((cb_size price1 - 1 : Int) : F)))
    (fun i => (ret2.getD i 0 - sums.2 / ((cb_size price1 - 1 : Int) : F)) *
      (ret2.getD i 0 - sums.2 / ((cb_size price1 - 1 : Int) : F)))]
  simp only []
  have hcs := sum_cross_sq_le
    (fun i => ret1.getD i 0 - sums.1 / ((cb_size price1 - 1 : Int) : F))
    (fun i => ret2.getD i 0 - sums.2 / ((cb_size price1 - 1 : Int) : F))
    (cb_size price1 - 1).toNat
  simp only [] at hcs
  refine ⟨div_nonneg (Finset.sum_nonneg (fun i _ => mul_self_nonneg _)) (le_of_lt hk),
    div_nonneg (Finset.sum_nonneg (fun i _ => mul_self_nonneg _)) (le_of_lt hk), ?_⟩
  rw [div_mul_div_comm, div_mul_div_comm]
  exact div_le_div_of_nonneg_right hcs (le_of_lt (mul_pos hk hk))

/-- The two eigenvalues of a symmetric positive semidefinite 2x2 matrix `[[a, b], [b, c]]`
by the quadratic formula. -/
theorem eigenvalues_2x2 (M : Libm F)
    (hsqrt : ∀ x : F, 0 ≤ x → 0 ≤ M.sqrt x ∧ M.sqrt x * M.sqrt x = x)
    (a b c : F) (ha : 0 ≤ a) (hc : 0 ≤ c) (hdet : b * b ≤ a * c) :
    (a + c) * (a + c) - 4 * (a * c - b * b) = (a - c) * (a - c) + 4 * (b * b) ∧
    0 ≤ (a + c) * (a + c) - 4 * (a * c - b * b) ∧
    (a - (a + c - M.sqrt ((a + c) * (a + c) - 4 * (a * c - b * b))) / 2) *
        (c - (a + c - M.sqrt ((a + c) * (a + c) - 4 * (a * c - b * b))) / 2) - b * b = 0 ∧
    (a - (a + c + M.sqrt ((a + c) * (a + c) - 4 * (a * c - b * b))) / 2) *
        (c - (a + c + M.sqrt ((a + c) * (a + c) - 4 * (a * c - b * b))) / 2) - b * b = 0 ∧
    (a + c - M.sqrt ((a + c) * (a + c) - 4 * (a * c - b * b))) / 2
      ≤ (a + c + M.sqrt ((a + c) * (a + c) - 4 * (a * c - b * b))) / 2 ∧
    0 ≤ (a + c - M.sqrt ((a + c) * (a + c) - 4 * (a * c - b * b))) / 2 := by
  have hdisc : (a + c) * (a + c) - 4 * (a * c - b * b) = (a - c) * (a - c) + 4 * (b * b) := by
    ring
  have hnn : 0 ≤ (a + c) * (a + c) - 4 * (a * c - b * b) := by
    rw [hdisc]
    nlinarith [mul_self_nonneg (a - c), mul_self_nonneg b]
  obtain ⟨hs0, hsq⟩ := hsqrt _ hnn
  generalize M.sqrt ((a + c) * (a + c) - 4 * (a * c - b * b)) = s at hs0 hsq ⊢
  refine ⟨hdisc, hnn, ?_, ?_, ?_, ?_⟩
  · linear_combination (1 / 4 : F) * hsq
  · linear_combination (1 / 4 : F) * hsq
  · linarith
  · have hle : s ≤ a + c := by nlinarith
    linarith

/-- In exact arithmetic: for equal-size windows with `n ≥ 20`, a `sqrt` that is the
exact non-negative square root of every non-negative number and a `log` that is
`≤ 0` on `(0, 1]`: with
`c11, c12, c22` the covariance entries that `johansen_test` computes, the
discriminant `trace^2 - 4 det` equals `(c11 - c22)^2 + 4 c12^2` and is `≥ 0`; the
term `(trace - sqrt disc) / 2` and `(trace + sqrt disc) / 2` are the two roots of the
characteristic polynomial `(c11 - x)(c22 - x) - c12^2`, the first is the smaller one
and is `≥ 0`; the statistic returned is `-n * log (1 - term)`, and it is `≥ 0`
whenever the term is below 1. -/
theorem johansen_statistic_nonneg (M : Libm F)
    (hsqrt : ∀ x : F, 0 ≤ x → 0 ≤ M.sqrt x ∧ M.sqrt x * M.sqrt x = x)
    (hlog : ∀ x : F, 0 < x → x ≤ 1 → M.log x ≤ 0)
    (price1 price2 : CircularBuffer F) (hsz : cb_size price1 = cb_size price2)
    (hn : 20 ≤ cb_size price1) :
    let c11 := (johansen_cov M price1 price2).1
    let c12 := (johansen_cov M price1 price2).2.1
    let c22 := (johansen_cov M price1 price2).2.2
    let trace := c11 + c22
    let det := c11 * c22 - c12 * c12
    let disc := trace * trace - 4 * det
    let lam := (trace - M.sqrt disc) / 2
    let mu := (trace + M.sqrt disc) / 2
    disc = (c11 - c22) * (c11 - c22) + 4 * (c12 * c12) ∧ 0 ≤ disc ∧
    (c11 - lam) * (c22 - lam) - c12 * c12 = 0 ∧
    (c11 - mu) * (c22 - mu) - c12 * c12 = 0 ∧
    lam ≤ mu ∧ 0 ≤ lam ∧
    johansen_test M price1 price2 = -(cb_size price1 : F) * M.log (1 - lam) ∧
    (lam < 1 → 0 ≤ johansen_test M price1 price2) := by
  intro c11 c12 c22 trace det disc lam mu
  obtain ⟨h11, h22, hdet⟩ := johansen_cov_psd M price1 price2 (by omega)
  obtain ⟨e1, e2, e3, e4, e5, e6⟩ := eigenvalues_2x2 M hsqrt c11 c12 c22 h11 h22 hdet
  have hval : johansen_test M price1 price2 = -(cb_size price1 : F) * M.log (1 - lam) := by
    rw [johansen_test_eq, if_neg (by
      rintro (h | h)
      · exact h hsz
      · omega)]
  refine ⟨e1, e2, e3, e4, e5, e6, hval, ?_⟩
  intro hlt
  rw [hval]
  have e6l : 0 ≤ lam := e6
  have hl := hlog (1 - lam) (by linarith) (by linarith)
  have hnF : (0 : F) ≤ (cb_size price1 : F) := by
    exact_mod_cast (by omega : (0 : Int) ≤ cb_size price1)
  rw [neg_mul]
  exact neg_nonneg.mpr (mul_nonpos_of_nonneg_of_nonpos hnF hl)

/-! ### Portfolio risk: drawdown and heat -/

/-- A run with one more call at the end. -/
theorem risk_manager_run_snoc (M : Libm F) (prev_vol : F) (manager : RiskManager F)
    (calls : List (RiskCall F)) (c : RiskCall F) :
    risk_manager_run M prev_vol manager (calls ++ [c]) =
      (match c with
      | RiskCall.portfolio_risk trade_return =>
        ((risk_manager_run M prev_vol manager calls).1,
          update_portfolio_risk M (risk_manager_run M prev_vol manager calls).2 trade_return)
      | RiskCall.volatility_estimate trade_return =>
        update_volatility_estimate M (risk_manager_run M prev_vol manager calls).1
          (risk_manager_run M prev_vol manager calls).2 trade_return) := by
  unfold risk_manager_run
  rw [List.foldl_append]
  rfl

theorem update_portfolio_risk_returns_buffer (M : Libm F) (m : RiskManager F) (r : F) :
    (update_portfolio_risk M m r).returns_buffer = cb_push m.returns_buffer r := by
  unfold update_portfolio_risk
  simp only []
  split_ifs <;> rfl

theorem update_volatility_estimate_returns_buffer (M : Libm F) (pv : F) (m : RiskManager F)
    (r : F) :
    (update_volatility_estimate M pv m r).2.returns_buffer = cb_push m.returns_buffer r := by
  unfold update_volatility_estimate
  simp only []
  split_ifs <;> rfl

/-- Both update functions push the return: after a run the returns buffer has
received the returns of all calls, in order. -/
theorem risk_manager_run_returns_buffer (M : Libm F) (calls : List (RiskCall F)) (pv : F)
    (m : RiskManager F) :
    (risk_manager_run M pv m calls).2.returns_buffer
      = (calls.map RiskCall.trade_return).foldl cb_push m.returns_buffer := by
  induction calls generalizing pv m with
  | nil => rfl
  | cons c cs ih =>
    unfold risk_manager_run at ih ⊢
    rw [List.foldl_cons, List.map_cons, List.foldl_cons]
    cases c with
    | portfolio_risk r =>
      simp only []
      rw [ih, update_portfolio_risk_returns_buffer]
      rfl
    | volatility_estimate r =>
      simp only []
      rw [ih, update_volatility_estimate_returns_buffer]
      rfl

/-- What `update_portfolio_risk` writes once 10 returns are buffered. -/
theorem update_portfolio_risk_full (M : Libm F) (m : RiskManager F) (r : F)
    (h : 10 ≤ cb_size (cb_push m.returns_buffer r)) :
    (update_portfolio_risk M m r).max_drawdown =
      (drawdown_loop (cb_push m.returns_buffer r)
        (List.range (cb_size (cb_push m.returns_buffer r)).toNat)).2.1 ∧
    (update_portfolio_risk M m r).portfolio_heat =
      (if rolling_std M (cb_push m.returns_buffer r) * 10 > 1 then 1
        else rolling_std M (cb_push m.returns_buffer r) * 10) := by
  unfold update_portfolio_risk
  simp only []
  rw [if_neg (not_lt.mpr h)]
  exact ⟨rfl, rfl⟩

/-- The drawdown loop over a window that holds the pushed list. -/
theorem drawdown_loop_pushes (c : Int) (rs : List F) (h1 : 1 ≤ c) (hc : (rs.length : Int) ≤ c) :
    drawdown_loop (cb_pushes c rs) (List.range rs.length) =
      (List.range rs.length).foldl
        (fun (acc : F × F × F) (i : Nat) =>
          ((if acc.2.2 + rs.getD i 0 > acc.1 then acc.2.2 + rs.getD i 0 else acc.1),
           (if (if acc.2.2 + rs.getD i 0 > acc.1 then acc.2.2 + rs.getD i 0 else acc.1)
                - (acc.2.2 + rs.getD i 0) > acc.2.1 then
              (if acc.2.2 + rs.getD i 0 > acc.1 then acc.2.2 + rs.getD i 0 else acc.1)
                - (acc.2.2 + rs.getD i 0)
            else acc.2.1),
           acc.2.2 + rs.getD i 0)) (-99999, 0, 0) := by
  obtain ⟨-, hget⟩ := cb_pushes_small c rs h1 hc
  unfold drawdown_loop
  refine foldl_range_congr _ _ rs.length (fun b i hi => ?_) _
  simp only []
  rw [hget i hi]

/-- C36, evaluated on the code: on the manager of `create_risk_manager 20 0.15`, after
`update_portfolio_risk` with the return -100000 and then nine times with the return
0, the ten returns are buffered and `max_drawdown` is 1, whereas every running
cumulative sum of this history is -100000, so that the largest peak-to-date minus
cumulative sum is 0: the peak starts at the constant -99999 and is never replaced. -/
theorem max_drawdown_sentinel_peak :
    (risk_manager_run (⟨Real.sqrt, Real.log⟩ : Libm ℝ) 0 (create_risk_manager 20 (15 / 100))
      (RiskCall.portfolio_risk (-100000) ::
        List.replicate 9 (RiskCall.portfolio_risk 0))).2.returns_buffer
      = cb_pushes 20 ([-100000, 0, 0, 0, 0, 0, 0, 0, 0, 0] : List ℝ) ∧
    (risk_manager_run (⟨Real.sqrt, Real.log⟩ : Libm ℝ) 0 (create_risk_manager 20 (15 / 100))
      (RiskCall.portfolio_risk (-100000) ::
        List.replicate 9 (RiskCall.portfolio_risk 0))).2.max_drawdown = 1 ∧
    max_drawdown_spec ([-100000, 0, 0, 0, 0, 0, 0, 0, 0, 0] : List ℝ) = 0 := by
  have hsplit : (RiskCall.portfolio_risk (-100000 : ℝ) ::
      List.replicate 9 (RiskCall.portfolio_risk 0))
      = (RiskCall.portfolio_risk (-100000 : ℝ) ::
        List.replicate 8 (RiskCall.portfolio_risk 0)) ++ [RiskCall.portfolio_risk 0] := rfl
  have h9 := risk_manager_run_returns_buffer (⟨Real.sqrt, Real.log⟩ : Libm ℝ)
    (RiskCall.portfolio_risk (-100000 : ℝ) :: List.replicate 8 (RiskCall.portfolio_risk 0)) 0
    (create_risk_manager 20 (15 / 100))
  have h10 : cb_push (risk_manager_run (⟨Real.sqrt, Real.log⟩ : Libm ℝ) 0
      (create_risk_manager 20 (15 / 100)) (RiskCall.portfolio_risk (-100000 : ℝ) ::
        List.replicate 8 (RiskCall.portfolio_risk 0))).2.returns_buffer 0
      = cb_pushes 20 ([-100000, 0, 0, 0, 0, 0, 0, 0, 0, 0] : List ℝ) := by
    rw [h9]
    rfl
  have hsize : cb_size (cb_pushes 20 ([-100000, 0, 0, 0, 0, 0, 0, 0, 0, 0] : List ℝ)) = 10 := by
    have h := (cb_pushes_small (20 : Int) ([-100000, 0, 0, 0, 0, 0, 0, 0, 0, 0] : List ℝ)
      (by norm_num) (by norm_num)).1
    simpa using h
  rw [hsplit, risk_manager_run_snoc]
  simp only []
  refine ⟨?_, ?_, ?_⟩
  · rw [update_portfolio_risk_returns_buffer, h10]
  · rw [(update_portfolio_risk_full _ _ _ (by rw [h10, hsize])).1, h10, hsize]
    have hl := drawdown_loop_pushes (20 : Int) ([-100000, 0, 0, 0, 0, 0, 0, 0, 0, 0] : List ℝ)
      (by norm_num) (by norm_num)
    simp only [List.length_cons, List.length_nil] at hl
    rw [show (10 : Int).toNat = 0 + 1 + 1 + 1 + 1 + 1 + 1 + 1 + 1 + 1 + 1 from rfl, hl]
    norm_num [List.range_succ]
  · norm_num [max_drawdown_spec, List.range_succ]

/-! ### The smoothing state of the volatility estimate -/

/-- `update_volatility_estimate` below five squared returns: only the two buffers
change, and the static keeps its value. -/
theorem update_volatility_estimate_small (M : Libm F) (pv : F) (m : RiskManager F) (r : F)
    (h : cb_size (cb_push m.volatility_buffer (r * r)) < 5) :
    update_volatility_estimate M pv m r =
      (pv, { m with returns_buffer := cb_push m.returns_buffer r,
                    volatility_buffer := cb_push m.volatility_buffer (r * r) }) := by
  unfold update_volatility_estimate
  simp only []
  rw [if_pos h]

/-- `update_volatility_estimate` from five squared returns on: the estimate written
to the manager and to the static. -/
theorem update_volatility_estimate_full (M : Libm F) (pv : F) (m : RiskManager F) (r : F)
    (h : 5 ≤ cb_size (cb_push m.volatility_buffer (r * r))) :
    (update_volatility_estimate M pv m r).1 =
      (if pv > 0 then
        94 / 100 * pv + (1 - 94 / 100) *
          M.sqrt (rolling_mean (cb_push m.volatility_buffer (r * r)) * 252)
      else M.sqrt (rolling_mean (cb_push m.volatility_buffer (r * r)) * 252)) ∧
    (update_volatility_estimate M pv m r).2.current_volatility =
      (update_volatility_estimate M pv m r).1 := by
  unfold update_volatility_estimate
  simp only []
  rw [if_neg (not_lt.mpr h)]
  exact ⟨rfl, rfl⟩

/-- Up to four equal returns on a manager with a fresh volatility buffer of capacity
20: the static is untouched and the buffer holds the squares. -/
theorem volatility_run_small (M : Libm F) (pv : F) (m : RiskManager F) (r : F) (k : Nat)
    (hk : k ≤ 4) (hm : m.volatility_buffer = create_circular_buffer 20) :
    (risk_manager_run M pv m (List.replicate k (RiskCall.volatility_estimate r))).1 = pv ∧
    (risk_manager_run M pv m
      (List.replicate k (RiskCall.volatility_estimate r))).2.volatility_buffer
        = cb_pushes 20 (List.replicate k (r * r)) := by
  induction k with
  | zero => exact ⟨rfl, hm⟩
  | succ k ih =>
    obtain ⟨h1, h2⟩ := ih (by omega)
    rw [List.replicate_succ', risk_manager_run_snoc]
    simp only []
    have hsz : cb_size (cb_push (risk_manager_run M pv m
        (List.replicate k (RiskCall.volatility_estimate r))).2.volatility_buffer (r * r)) < 5 := by
      rw [h2, ← cb_pushes_snoc, ← List.replicate_succ',
        (cb_pushes_replicate 20 (by norm_num) (r * r) (k + 1)).1]
      have : ((k + 1 : Nat) : Int) ≤ 5 - 1 := by omega
      exact lt_of_le_of_lt (min_le_left _ _) (by omega)
    rw [update_volatility_estimate_small M _ _ r hsz]
    refine ⟨h1, ?_⟩
    simp only []
    rw [h2, ← cb_pushes_snoc, ← List.replicate_succ']

/-- Five equal returns on a manager with a fresh volatility buffer of capacity 20:
the estimate and the static after the fifth call. -/
theorem volatility_run_five (M : Libm F) (pv : F) (m : RiskManager F) (r : F)
    (hm : m.volatility_buffer = create_circular_buffer 20) :
    (risk_manager_run M pv m (List.replicate 5 (RiskCall.volatility_estimate r))).1 =
      (if pv > 0 then 94 / 100 * pv + (1 - 94 / 100) * M.sqrt (r * r * 252)
        else M.sqrt (r * r * 252)) ∧
    (risk_manager_run M pv m
      (List.replicate 5 (RiskCall.volatility_estimate r))).2.current_volatility =
      (if pv > 0 then 94 / 100 * pv + (1 - 94 / 100) * M.sqrt (r * r * 252)
        else M.sqrt (r * r * 252)) := by
  obtain ⟨h1, h2⟩ := volatility_run_small M pv m r 4 (le_refl 4) hm
  have hbuf : cb_push (risk_manager_run M pv m
      (List.replicate 4 (RiskCall.volatility_estimate r))).2.volatility_buffer (r * r)
      = cb_pushes 20 (List.replicate 5 (r * r)) := by
    rw [h2, ← cb_pushes_snoc, ← List.replicate_succ']
  obtain ⟨hs, hg⟩ := cb_pushes_replicate (20 : Int) (by norm_num) (r * r) 5
  have hs5 : cb_size (cb_pushes 20 (List.replicate 5 (r * r))) = 5 := by
    rw [hs]
    norm_num
  have hmean : rolling_mean (cb_pushes 20 (List.replicate 5 (r * r))) = r * r :=
    rolling_mean_const _ _ (by rw [hs5]; norm_num) (fun i hi => hg i (by rw [← hs]; exact hi))
  rw [show (5 : Nat) = 4 + 1 from rfl, List.replicate_succ', risk_manager_run_snoc]
  simp only []
  obtain ⟨e1, e2⟩ := update_volatility_estimate_full M
    (risk_manager_run M pv m (List.replicate 4 (RiskCall.volatility_estimate r))).1
    (risk_manager_run M pv m (List.replicate 4 (RiskCall.volatility_estimate r))).2 r
    (by rw [hbuf, hs5])
  rw [e2, e1, hbuf, hmean, h1]
  exact ⟨rfl, rfl⟩

/-- C37, evaluated on the code: two managers of `create_risk_manager 20 0.15`, in program
order: five calls of `update_volatility_estimate` on the first with the return 0.1,
then five calls on the second with the return 0.  The second manager's first
estimate is `0.94 * sqrt (0.1 * 0.1 * 252)`, positive, smoothed against the static
`prev_vol` written by the calls on the first manager; the same five calls on the
second manager alone (static still 0) give the unsmoothed `sqrt 0 = 0`. -/
theorem smoothing_state_is_shared :
    (risk_manager_run (⟨Real.sqrt, Real.log⟩ : Libm ℝ)
        (risk_manager_run (⟨Real.sqrt, Real.log⟩ : Libm ℝ) 0 (create_risk_manager 20 (15 / 100))
          (List.replicate 5 (RiskCall.volatility_estimate (1 / 10)))).1
        (create_risk_manager 20 (15 / 100))
        (List.replicate 5 (RiskCall.volatility_estimate 0))).2.current_volatility
      = 94 / 100 * Real.sqrt (1 / 10 * (1 / 10) * 252) ∧
    0 < (94 / 100 : ℝ) * Real.sqrt (1 / 10 * (1 / 10) * 252) ∧
    (risk_manager_run (⟨Real.sqrt, Real.log⟩ : Libm ℝ) 0 (create_risk_manager 20 (15 / 100))
        (List.replicate 5 (RiskCall.volatility_estimate 0))).2.current_volatility = 0 := by
  have hpos : 0 < Real.sqrt (1 / 10 * (1 / 10) * 252) := Real.sqrt_pos.mpr (by norm_num)
  have hA := (volatility_run_five (⟨Real.sqrt, Real.log⟩ : Libm ℝ) 0
    (create_risk_manager 20 (15 / 100)) (1 / 10) rfl).1
  rw [if_neg (lt_irrefl _)] at hA
  have hB := (volatility_run_five (⟨Real.sqrt, Real.log⟩ : Libm ℝ)
    (Real.sqrt (1 / 10 * (1 / 10) * 252)) (create_risk_manager 20 (15 / 100)) 0 rfl).2
  rw [if_pos hpos] at hB
  have hB0 := (volatility_run_five (⟨Real.sqrt, Real.log⟩ : Libm ℝ) 0
    (create_risk_manager 20 (15 / 100)) 0 rfl).2
  rw [if_neg (lt_irrefl _)] at hB0
  refine ⟨?_, mul_pos (by norm_num) hpos, ?_⟩
  · rw [hA, hB]
    norm_num
  · rw [hB0]
    norm_num

/-! ### The portfolio heat -/

theorem update_volatility_estimate_heat (M : Libm F) (pv : F) (m : RiskManager F) (r : F) :
    (update_volatility_estimate M pv m r).2.portfolio_heat = m.portfolio_heat := by
  unfold update_volatility_estimate
  simp only []
  split_ifs <;> rfl

theorem rolling_std_nonneg (M : Libm F) (hsqrt : ∀ x : F, 0 ≤ M.sqrt x) (cb : CircularBuffer F) :
    0 ≤ rolling_std M cb := by
  rw [rolling_std_eq_sum]
  split_ifs
  · exact le_refl _
  · exact hsqrt _

/-- The heat written by `update_portfolio_risk` is `min 1 (10 * rolling_std)`, or the
old heat below 10 returns. -/
theorem update_portfolio_risk_heat (M : Libm F) (m : RiskManager F) (r : F) :
    (update_portfolio_risk M m r).portfolio_heat =
      if cb_size (cb_push m.returns_buffer r) < 10 then m.portfolio_heat
      else min 1 (10 * rolling_std M (cb_push m.returns_buffer r)) := by
  by_cases h : cb_size (cb_push m.returns_buffer r) < 10
  · rw [if_pos h]
    unfold update_portfolio_risk
    simp only []
    rw [if_pos h]
  · rw [if_neg h, (update_portfolio_risk_full M m r (not_lt.mp h)).2,
      mul_comm (rolling_std M _) 10]
    by_cases h1 : 10 * rolling_std M (cb_push m.returns_buffer r) > 1
    · rw [if_pos h1, min_eq_left (le_of_lt h1)]
    · rw [if_neg h1, min_eq_right (not_lt.mp h1)]

theorem risk_manager_run_heat (M : Libm F) (hsqrt : ∀ x : F, 0 ≤ M.sqrt x)
    (calls : List (RiskCall F)) (pv : F) (m : RiskManager F)
    (h0 : 0 ≤ m.portfolio_heat) (h1 : m.portfolio_heat ≤ 1) :
    0 ≤ (risk_manager_run M pv m calls).2.portfolio_heat ∧
    (risk_manager_run M pv m calls).2.portfolio_heat ≤ 1 := by
  induction calls generalizing pv m with
  | nil => exact ⟨h0, h1⟩
  | cons c cs ih =>
    unfold risk_manager_run at ih ⊢
    rw [List.foldl_cons]
    cases c with
    | portfolio_risk r =>
      have e0 : 0 ≤ (update_portfolio_risk M m r).portfolio_heat := by
        rw [update_portfolio_risk_heat]
        split_ifs
        · exact h0
        · exact le_min zero_le_one
            (mul_nonneg (by norm_num) (rolling_std_nonneg M hsqrt _))
      have e1 : (update_portfolio_risk M m r).portfolio_heat ≤ 1 := by
        rw [update_portfolio_risk_heat]
        split_ifs
        · exact h1
        · exact min_le_left _ _
      exact ih pv (update_portfolio_risk M m r) e0 e1
    | volatility_estimate r =>
      exact ih (update_volatility_estimate M pv m r).1 (update_volatility_estimate M pv m r).2
        (by rw [update_volatility_estimate_heat]; exact h0)
        (by rw [update_volatility_estimate_heat]; exact h1)

/-- A run of `update_volatility_estimate` calls leaves the heat as it was. -/
theorem volatility_run_heat (M : Libm F) (rs : List F) (pv : F) (m : RiskManager F) :
    (risk_manager_run M pv m (rs.map RiskCall.volatility_estimate)).2.portfolio_heat
      = m.portfolio_heat := by
  induction rs generalizing pv m with
  | nil => rfl
  | cons r rs ih =>
    unfold risk_manager_run at ih ⊢
    rw [List.map_cons, List.foldl_cons]
    exact (ih (update_volatility_estimate M pv m r).1
      (update_volatility_estimate M pv m r).2).trans (update_volatility_estimate_heat M pv m r)

/-- C38, evaluated on the code: on the manager of `create_risk_manager 20 0.15`, after ten
calls of `update_volatility_estimate` with the returns 1, 0, 0, 0, 0, 0, 0, 0, 0, 0,
ten returns are buffered, `portfolio_heat` is still 0, and
`min 1 (10 * rolling_std returns)` is positive. -/
theorem portfolio_heat_stale_after_volatility_updates :
    10 ≤ cb_size (risk_manager_run (⟨Real.sqrt, Real.log⟩ : Libm ℝ) 0
      (create_risk_manager 20 (15 / 100))
      (([1, 0, 0, 0, 0, 0, 0, 0, 0, 0] : List ℝ).map RiskCall.volatility_estimate)).2.returns_buffer ∧
    (risk_manager_run (⟨Real.sqrt, Real.log⟩ : Libm ℝ) 0 (create_risk_manager 20 (15 / 100))
      (([1, 0, 0, 0, 0, 0, 0, 0, 0, 0] : List ℝ).map
        RiskCall.volatility_estimate)).2.portfolio_heat = 0 ∧
    0 < min 1 (10 * rolling_std (⟨Real.sqrt, Real.log⟩ : Libm ℝ)
      (risk_manager_run (⟨Real.sqrt, Real.log⟩ : Libm ℝ) 0 (create_risk_manager 20 (15 / 100))
        (([1, 0, 0, 0, 0, 0, 0, 0, 0, 0] : List ℝ).map
          RiskCall.volatility_estimate)).2.returns_buffer) := by
  have hbuf : (risk_manager_run (⟨Real.sqrt, Real.log⟩ : Libm ℝ) 0
      (create_risk_manager 20 (15 / 100))
      (([1, 0, 0, 0, 0, 0, 0, 0, 0, 0] : List ℝ).map RiskCall.volatility_estimate)).2.returns_buffer
      = cb_pushes 20 ([1, 0, 0, 0, 0, 0, 0, 0, 0, 0] : List ℝ) := by
    rw [risk_manager_run_returns_buffer]
    rfl
  have hsize : cb_size (cb_pushes 20 ([1, 0, 0, 0, 0, 0, 0, 0, 0, 0] : List ℝ)) = 10 := by
    have h := (cb_pushes_small (20 : Int) ([1, 0, 0, 0, 0, 0, 0, 0, 0, 0] : List ℝ)
      (by norm_num) (by norm_num)).1
    simpa using h
  have hstd : 0 < rolling_std (⟨Real.sqrt, Real.log⟩ : Libm ℝ)
      (cb_pushes 20 ([1, 0, 0, 0, 0, 0, 0, 0, 0, 0] : List ℝ)) := by
    rw [rolling_std_eq_sum, hsize, if_neg (by norm_num)]
    apply Real.sqrt_pos.mpr
    apply div_pos _ (by norm_num)
    have h01 : cb_get (cb_pushes 20 ([1, 0, 0, 0, 0, 0, 0, 0, 0, 0] : List ℝ)) ((0 : Nat) : Int)
        ≠ cb_get (cb_pushes 20 ([1, 0, 0, 0, 0, 0, 0, 0, 0, 0] : List ℝ)) ((1 : Nat) : Int) := by
      obtain ⟨-, hget⟩ := cb_pushes_small (20 : Int) ([1, 0, 0, 0, 0, 0, 0, 0, 0, 0] : List ℝ)
        (by norm_num) (by norm_num)
      rw [hget 0 (by norm_num), hget 1 (by norm_num)]
      norm_num
    exact sum_sq_dev_pos (fun i => cb_get (cb_pushes 20
      ([1, 0, 0, 0, 0, 0, 0, 0, 0, 0] : List ℝ)) (i : Int)) _ _ 0 1 (by norm_num) (by norm_num) h01
  refine ⟨by rw [hbuf, hsize], ?_, ?_⟩
  · rw [volatility_run_heat]
    rfl
  · rw [hbuf]
    exact lt_min zero_lt_one (mul_pos (by norm_num) hstd)

/-- C38 (amended): for a libm whose `sqrt` is never negative, a manager made by
`create_risk_manager` and any sequence of `update_portfolio_risk` and
`update_volatility_estimate` calls (any initial value of the static `prev_vol`),
`portfolio_heat` lies in `[0, 1]`; and right after a further `update_portfolio_risk`
call that leaves at least 10 returns buffered it equals
`min 1 (10 * rolling_std returns)`. -/
theorem portfolio_heat_in_unit_interval (M : Libm F) (hsqrt : ∀ x : F, 0 ≤ M.sqrt x)
    (prev_vol : F) (returns_window : Int) (target_vol : F) (calls : List (RiskCall F)) :
    0 ≤ (risk_manager_run M prev_vol (create_risk_manager returns_window target_vol)
      calls).2.portfolio_heat ∧
    (risk_manager_run M prev_vol (create_risk_manager returns_window target_vol)
      calls).2.portfolio_heat ≤ 1 ∧
    ∀ trade_return : F,
      10 ≤ cb_size (update_portfolio_risk M
        (risk_manager_run M prev_vol (create_risk_manager returns_window target_vol) calls).2
        trade_return).returns_buffer →
      (update_portfolio_risk M
        (risk_manager_run M prev_vol (create_risk_manager returns_window target_vol) calls).2
        trade_return).portfolio_heat =
        min 1 (10 * rolling_std M (update_portfolio_risk M
          (risk_manager_run M prev_vol (create_risk_manager returns_window target_vol) calls).2
          trade_return).returns_buffer) := by
  obtain ⟨h0, h1⟩ := risk_manager_run_heat M hsqrt calls prev_vol
    (create_risk_manager returns_window target_vol) (le_refl _) zero_le_one
  refine ⟨h0, h1, ?_⟩
  intro r hr
  rw [update_portfolio_risk_returns_buffer] at hr ⊢
  rw [update_portfolio_risk_heat, if_neg (not_lt.mpr hr)]

theorem portfolio_heat_in_unit_interval_witness :
    0 ≤ (risk_manager_run (⟨Real.sqrt, Real.log⟩ : Libm ℝ) 0 (create_risk_manager 20 (15 / 100))
      [RiskCall.portfolio_risk 1, RiskCall.volatility_estimate 2]).2.portfolio_heat ∧
    (risk_manager_run (⟨Real.sqrt, Real.log⟩ : Libm ℝ) 0 (create_risk_manager 20 (15 / 100))
      [RiskCall.portfolio_risk 1, RiskCall.volatility_estimate 2]).2.portfolio_heat ≤ 1 :=
  ⟨(portfolio_heat_in_unit_interval (⟨Real.sqrt, Real.log⟩ : Libm ℝ) Real.sqrt_nonneg 0 20
      (15 / 100) [RiskCall.portfolio_risk 1, RiskCall.volatility_estimate 2]).1,
   (portfolio_heat_in_unit_interval (⟨Real.sqrt, Real.log⟩ : Libm ℝ) Real.sqrt_nonneg 0 20
      (15 / 100) [RiskCall.portfolio_risk 1, RiskCall.volatility_estimate 2]).2.1⟩

/-! ### The cost veto of the enhanced signal -/

/-- The cost step reads only the flag and the cost parameters of the tracker. -/
theorem enhanced_cost_step_eq (M : Libm F) (t : PairTracker F)
    (z position_size bid1 ask1 bid2 ask2 : F) (trade_signal : Int) :
    enhanced_cost_step M t z position_size bid1 ask1 bid2 ask2 trade_signal =
      if t.use_transaction_costs = true then
        (calculate_pnl_with_costs M (|z| * (3 / 10) * position_size)
            { t.transaction_costs with
              bid_ask_spread_asset1 := ask1 - bid1
              bid_ask_spread_asset2 := ask2 - bid2 } position_size,
          (if (calculate_pnl_with_costs M (|z| * (3 / 10) * position_size)
              { t.transaction_costs with
                bid_ask_spread_asset1 := ask1 - bid1
                bid_ask_spread_asset2 := ask2 - bid2 } position_size).is_profitable = false
            then 0 else trade_signal),
          { t.transaction_costs with
            bid_ask_spread_asset1 := ask1 - bid1
            bid_ask_spread_asset2 := ask2 - bid2 })
      else (PnLAnalysis.zero, trade_signal, t.transaction_costs) := rfl

/-- One enhanced tick on a tracker that has its hedge-ratio and volatility buffers:
the static position is what the state machine returns on the reported z-score and
thresholds, and the PnL analysis, the signal and the stored cost parameters are
those of the cost step at the reported z-score and position size. -/
theorem generate_enhanced_pairs_signal_veto (avx : Bool) (M : Libm F)
    (attention_zscore : CircularBuffer F → AttentionLayer F → F)
    (st : SignalStatics F) (tracker : PairTracker F)
    (price1 price2 bid1 ask1 bid2 ask2 : F) (timestamp_micro : Int)
    (hb v1 v2 : CircularBuffer F) (hhb : tracker.hedge_ratio_buffer = some hb)
    (hv1 : tracker.volatility1_buffer = some v1) (hv2 : tracker.volatility2_buffer = some v2) :
    ∃ r : SignalStatics F × PairTracker F × PairSignal F,
      generate_enhanced_pairs_signal avx M attention_zscore st tracker price1 price2
        bid1 ask1 bid2 ask2 timestamp_micro = some r ∧
      r.1.current_position =
        (mean_reversion_signal st.current_position r.2.2.z_score
          r.2.2.dynamic_threshold_entry r.2.2.dynamic_threshold_exit).1 ∧
      r.2.2.pnl_analysis =
        (enhanced_cost_step M tracker r.2.2.z_score r.2.2.position_size bid1 ask1 bid2 ask2
          (mean_reversion_signal st.current_position r.2.2.z_score
            r.2.2.dynamic_threshold_entry r.2.2.dynamic_threshold_exit).2).1 ∧
      r.2.2.signal =
        (enhanced_cost_step M tracker r.2.2.z_score r.2.2.position_size bid1 ask1 bid2 ask2
          (mean_reversion_signal st.current_position r.2.2.z_score
            r.2.2.dynamic_threshold_entry r.2.2.dynamic_threshold_exit).2).2.1 ∧
      r.2.1.transaction_costs =
        (enhanced_cost_step M tracker r.2.2.z_score r.2.2.position_size bid1 ask1 bid2 ask2
          (mean_reversion_signal st.current_position r.2.2.z_score
            r.2.2.dynamic_threshold_entry r.2.2.dynamic_threshold_exit).2).2.2 ∧
      r.2.2.position_size =
        (enhanced_sizing_step M st.prev_vol
          { tracker with regime_detector := r.2.1.regime_detector,
                         spread_buffer := r.2.1.spread_buffer }
          r.2.2.spread r.2.2.z_score).1 := by
  unfold generate_enhanced_pairs_signal
  simp only []
  rw [enhanced_hedge_ratio_step_eq M _ hb]
  swap
  · exact hhb
  simp only []
  rw [enhanced_volatility_step_eq M _ price1 price2 v1 v2]
  rotate_left
  · exact hv1
  · exact hv2
  simp only []
  by_cases hsz : cb_size (cb_push tracker.price_buffer1 price1) ≥ 2
  · rw [if_pos hsz]
    simp only []
    rw [enhanced_vol_factor_eq M _ _ _ rfl rfl]
    simp only []
    exact ⟨_, rfl, rfl, rfl, rfl, rfl, rfl⟩
  · rw [if_neg hsz]
    simp only []
    rw [enhanced_vol_factor_eq M _ _ _ rfl rfl]
    simp only []
    exact ⟨_, rfl, rfl, rfl, rfl, rfl, rfl⟩

/-- C31: on a tracker that has its hedge-ratio and volatility buffers and has
transaction-cost accounting enabled, `generate_enhanced_pairs_signal` returns a
result whose position size is the one returned by the sizing step, whose PnL
analysis is `calculate_pnl_with_costs` at the theoretical PnL
`|z| * 0.3 * position_size`, the tracker's cost parameters with the two quoted
spreads `ask - bid`, and that position size; it is profitable exactly when the net
PnL is positive; when the net PnL is `≤ 0` the signal field is 0 whatever the state
machine returned, and otherwise it is the code the state machine returned. -/
theorem cost_veto_forces_flat (avx : Bool) (M : Libm F)
    (attention_zscore : CircularBuffer F → AttentionLayer F → F)
    (st : SignalStatics F) (tracker : PairTracker F)
    (price1 price2 bid1 ask1 bid2 ask2 : F) (timestamp_micro : Int)
    (hb v1 v2 : CircularBuffer F) (hhb : tracker.hedge_ratio_buffer = some hb)
    (hv1 : tracker.volatility1_buffer = some v1) (hv2 : tracker.volatility2_buffer = some v2)
    (hcost : tracker.use_transaction_costs = true) :
    ∃ r : SignalStatics F × PairTracker F × PairSignal F,
      generate_enhanced_pairs_signal avx M attention_zscore st tracker price1 price2
        bid1 ask1 bid2 ask2 timestamp_micro = some r ∧
      r.2.2.position_size =
        (enhanced_sizing_step M st.prev_vol
          { tracker with regime_detector := r.2.1.regime_detector,
                         spread_buffer := r.2.1.spread_buffer }
          r.2.2.spread r.2.2.z_score).1 ∧
      r.2.2.pnl_analysis =
        calculate_pnl_with_costs M (|r.2.2.z_score| * (3 / 10) * r.2.2.position_size)
          { tracker.transaction_costs with
            bid_ask_spread_asset1 := ask1 - bid1
            bid_ask_spread_asset2 := ask2 - bid2 } r.2.2.position_size ∧
      (r.2.2.pnl_analysis.is_profitable = true ↔ 0 < r.2.2.pnl_analysis.net_pnl_after_costs) ∧
      (r.2.2.pnl_analysis.net_pnl_after_costs ≤ 0 → r.2.2.signal = 0) ∧
      (0 < r.2.2.pnl_analysis.net_pnl_after_costs →
        r.2.2.signal = (mean_reversion_signal st.current_position r.2.2.z_score
          r.2.2.dynamic_threshold_entry r.2.2.dynamic_threshold_exit).2) := by
  obtain ⟨r, hr, -, hpnl, hsig, -, hps⟩ := generate_enhanced_pairs_signal_veto avx M
    attention_zscore st tracker price1 price2 bid1 ask1 bid2 ask2 timestamp_micro hb v1 v2
    hhb hv1 hv2
  rw [enhanced_cost_step_eq, if_pos hcost] at hpnl hsig
  simp only [] at hpnl hsig
  have hprof : r.2.2.pnl_analysis.is_profitable = true ↔
      0 < r.2.2.pnl_analysis.net_pnl_after_costs := by
    rw [hpnl]
    unfold calculate_pnl_with_costs
    simp only [decide_eq_true_eq, gt_iff_lt]
  refine ⟨r, hr, hps, hpnl, hprof, ?_, ?_⟩
  · intro hle
    have hf : r.2.2.pnl_analysis.is_profitable = false := by
      cases h : r.2.2.pnl_analysis.is_profitable
      · rfl
      · exact absurd (hprof.mp h) (not_lt.mpr hle)
    rw [hsig, ← hpnl, if_pos hf]
  · intro hpos
    have ht : r.2.2.pnl_analysis.is_profitable = true := hprof.mpr hpos
    rw [hsig, ← hpnl, if_neg (by rw [ht]; exact Bool.noConfusion)]

theorem cost_veto_forces_flat_witness :
    ∃ r : SignalStatics ℝ × PairTracker ℝ × PairSignal ℝ,
      generate_enhanced_pairs_signal false (⟨Real.sqrt, Real.log⟩ : Libm ℝ) (fun _ _ => 0)
        ⟨0, ⟨0, 0⟩, 0⟩ (create_enhanced_pair_tracker 50 true none none) 100 99 99 101 98 100 0
        = some r ∧
      (r.2.2.pnl_analysis.net_pnl_after_costs ≤ 0 → r.2.2.signal = 0) := by
  obtain ⟨r, hr, -, -, -, h, -⟩ := cost_veto_forces_flat false
    (⟨Real.sqrt, Real.log⟩ : Libm ℝ) (fun _ _ => 0) ⟨0, ⟨0, 0⟩, 0⟩
    (create_enhanced_pair_tracker 50 true none none) 100 99 99 101 98 100 0
    (create_circular_buffer 50) (create_circular_buffer 50) (create_circular_buffer 50)
    rfl rfl rfl rfl
  exact ⟨r, hr, h⟩

/-! ### A tracker with the cost check only -/

theorem simd_cb_rolling_mean_scalar (avx : Bool) (cb : CircularBuffer F) :
    simd_cb_rolling_mean avx cb = rolling_mean cb := by
  unfold simd_cb_rolling_mean
  simp only []
  split_ifs with h0
  · rw [rolling_mean_eq_sum, if_pos h0]
  · exact simd_rolling_mean_cb avx cb

theorem simd_cb_rolling_std_scalar (avx : Bool) (M : Libm F) (cb : CircularBuffer F) :
    simd_cb_rolling_std avx M cb = rolling_std M cb := by
  unfold simd_cb_rolling_std
  simp only []
  rw [rolling_std_eq_sum, simd_rolling_std_eq_sum, simd_rolling_mean_cb]
  split_ifs with h1
  · rfl
  · congr 2
    exact Finset.sum_congr rfl (fun i hi => by
      rw [cb_to_array_getD cb _ i (Finset.mem_range.mp hi)])

theorem enhanced_regime_step_none (M : Libm F) (st : RegimeStatics F) (t : PairTracker F)
    (price1 price2 : F) (h : t.regime_detector = none) :
    enhanced_regime_step M st t price1 price2 = (st, none) := by
  unfold enhanced_regime_step
  rw [h]

theorem enhanced_attention_step_none (attention_zscore : CircularBuffer F → AttentionLayer F → F)
    (t : PairTracker F) (z : F) (h : t.temporal_attention = none) :
    enhanced_attention_step attention_zscore t z = (z, z) := by
  unfold enhanced_attention_step
  rw [h]

theorem enhanced_sizing_step_none (M : Libm F) (prev_vol : F) (t : PairTracker F)
    (current_spread z : F) (h : t.risk_manager = none) :
    enhanced_sizing_step M prev_vol t current_spread z = (10000, prev_vol, none) := by
  unfold enhanced_sizing_step
  rw [h]

/-- Without a regime detector, with volatility factor 1 and at most 10 buffered
spreads the thresholds are the base values 2 and 1/2. -/
theorem update_dynamic_thresholds_base (M : Libm F) (t : PairTracker F)
    (hrd : t.regime_detector = none) (hs : cb_size t.spread_buffer ≤ 10) :
    (update_dynamic_thresholds M t 1).dynamic_entry_threshold = 2 ∧
    (update_dynamic_thresholds M t 1).dynamic_exit_threshold = 1 / 2 := by
  obtain ⟨he, hx⟩ := update_dynamic_thresholds_eq M t 1
  rw [he, hx, hrd, if_neg (not_lt.mpr hs)]
  simp only [mul_one]
  constructor
  · exact max_eq_right (by norm_num)
  · exact max_eq_right (by norm_num)

/-- One enhanced tick on a tracker without attention layer, regime detector and risk
manager and with dynamic hedging off: the result, field by field. -/
theorem generate_enhanced_pairs_signal_plain (avx : Bool) (M : Libm F)
    (attention_zscore : CircularBuffer F → AttentionLayer F → F)
    (st : SignalStatics F) (t : PairTracker F)
    (price1 price2 bid1 ask1 bid2 ask2 : F) (timestamp_micro : Int)
    (hb v1 v2 : CircularBuffer F) (hhb : t.hedge_ratio_buffer = some hb)
    (hv1 : t.volatility1_buffer = some v1) (hv2 : t.volatility2_buffer = some v2)
    (hatt : t.temporal_attention = none) (hrm : t.risk_manager = none)
    (hrd : t.regime_detector = none) (hdh : t.use_dynamic_hedging = false) :
    ∃ r : SignalStatics F × PairTracker F × PairSignal F,
      generate_enhanced_pairs_signal avx M attention_zscore st t price1 price2
        bid1 ask1 bid2 ask2 timestamp_micro = some r ∧
      r.2.1.price_buffer1 = cb_push t.price_buffer1 price1 ∧
      r.2.1.price_buffer2 = cb_push t.price_buffer2 price2 ∧
      r.2.1.spread_buffer = cb_push t.spread_buffer (price1 - 1 * price2) ∧
      r.2.1.hedge_ratio_buffer = some hb ∧
      r.2.1.volatility1_buffer = some
        (if cb_size (cb_push t.price_buffer1 price1) ≥ 2 then
          cb_push v1
            (M.log (price1 / cb_get (cb_push t.price_buffer1 price1)
                (cb_size (cb_push t.price_buffer1 price1) - 2)) *
              M.log (price1 / cb_get (cb_push t.price_buffer1 price1)
                (cb_size (cb_push t.price_buffer1 price1) - 2)))
        else v1) ∧
      (∃ v2n : CircularBuffer F, r.2.1.volatility2_buffer = some v2n) ∧
      r.2.1.temporal_attention = none ∧ r.2.1.risk_manager = none ∧
      r.2.1.regime_detector = none ∧ r.2.1.use_dynamic_hedging = false ∧
      r.2.1.use_transaction_costs = t.use_transaction_costs ∧
      r.2.2.spread = price1 - 1 * price2 ∧
      r.2.2.z_score = calculate_z_score (price1 - 1 * price2)
        (rolling_mean (cb_push t.spread_buffer (price1 - 1 * price2)))
        (rolling_std M (cb_push t.spread_buffer (price1 - 1 * price2))) ∧
      r.2.2.position_size = 10000 ∧
      (cb_size (if cb_size (cb_push t.price_buffer1 price1) ≥ 2 then
          cb_push v1
            (M.log (price1 / cb_get (cb_push t.price_buffer1 price1)
                (cb_size (cb_push t.price_buffer1 price1) - 2)) *
              M.log (price1 / cb_get (cb_push t.price_buffer1 price1)
                (cb_size (cb_push t.price_buffer1 price1) - 2)))
        else v1) ≤ 5 →
        cb_size (cb_push t.spread_buffer (price1 - 1 * price2)) ≤ 10 →
        r.2.2.dynamic_threshold_entry = 2 ∧ r.2.2.dynamic_threshold_exit = 1 / 2) := by
  have hnh : ¬ (t.use_dynamic_hedging = true ∧ cb_size (cb_push t.price_buffer1 price1) ≥ 20) := by
    rw [hdh]
    simp
  unfold generate_enhanced_pairs_signal
  simp only []
  rw [enhanced_hedge_ratio_step_eq M _ hb]
  swap
  · exact hhb
  rw [if_neg hnh]
  simp only []
  rw [enhanced_volatility_step_eq M _ price1 price2 v1 v2]
  rotate_left
  · exact hv1
  · exact hv2
  simp only []
  rw [enhanced_regime_step_none M _ _ _ _]
  swap
  · exact hrd
  simp only []
  by_cases hsz : cb_size (cb_push t.price_buffer1 price1) ≥ 2
  · simp only [if_pos hsz]
    rw [enhanced_vol_factor_eq M _ _ _ rfl rfl]
    simp only []
    rw [enhanced_attention_step_none attention_zscore _ _]
    swap
    · exact hatt
    simp only []
    rw [enhanced_sizing_step_none M _ _ _ _]
    swap
    · exact hrm
    simp only []
    rw [simd_cb_rolling_mean_scalar, simd_cb_rolling_std_scalar]
    refine ⟨_, rfl, rfl, rfl, rfl, rfl, rfl, ⟨_, rfl⟩, hatt, rfl, rfl, hdh, rfl, rfl, rfl, rfl, ?_⟩
    intro h5 h10
    simp only []
    rw [if_neg (not_lt.mpr h5)]
    exact update_dynamic_thresholds_base M _ rfl h10
  · simp only [if_neg hsz]
    rw [enhanced_vol_factor_eq M _ _ _ rfl rfl]
    simp only []
    rw [enhanced_attention_step_none attention_zscore _ _]
    swap
    · exact hatt
    simp only []
    rw [enhanced_sizing_step_none M _ _ _ _]
    swap
    · exact hrm
    simp only []
    rw [simd_cb_rolling_mean_scalar, simd_cb_rolling_std_scalar]
    refine ⟨_, rfl, rfl, rfl, rfl, rfl, rfl, ⟨_, rfl⟩, hatt, rfl, rfl, hdh, rfl, rfl, rfl, rfl, ?_⟩
    intro h5 h10
    simp only []
    rw [if_neg (not_lt.mpr h5)]
    exact update_dynamic_thresholds_base M _ rfl h10

/-! ### The cost veto and the held position -/

/-- One enhanced tick on a tracker that has its hedge-ratio and volatility buffers,
field by field in terms of the steps of the function. -/
theorem generate_enhanced_pairs_signal_steps (avx : Bool) (M : Libm F)
    (attention_zscore : CircularBuffer F → AttentionLayer F → F)
    (st : SignalStatics F) (t : PairTracker F)
    (price1 price2 bid1 ask1 bid2 ask2 : F) (timestamp_micro : Int)
    (hb v1 v2 : CircularBuffer F) (hhb : t.hedge_ratio_buffer = some hb)
    (hv1 : t.volatility1_buffer = some v1) (hv2 : t.volatility2_buffer = some v2) :
    ∃ r : SignalStatics F × PairTracker F × PairSignal F,
      generate_enhanced_pairs_signal avx M attention_zscore st t price1 price2
        bid1 ask1 bid2 ask2 timestamp_micro = some r ∧
      r.2.1.price_buffer1 = cb_push t.price_buffer1 price1 ∧
      (∃ hbn : CircularBuffer F, r.2.1.hedge_ratio_buffer = some hbn) ∧
      r.2.1.volatility1_buffer = some
        (if cb_size (cb_push t.price_buffer1 price1) ≥ 2 then
          cb_push v1
            (M.log (price1 / cb_get (cb_push t.price_buffer1 price1)
                (cb_size (cb_push t.price_buffer1 price1) - 2)) *
              M.log (price1 / cb_get (cb_push t.price_buffer1 price1)
                (cb_size (cb_push t.price_buffer1 price1) - 2)))
        else v1) ∧
      (∃ v2n : CircularBuffer F, r.2.1.volatility2_buffer = some v2n) ∧
      r.2.1.regime_detector =
        (enhanced_regime_step M st.regime { t with correlation := r.2.1.correlation }
          price1 price2).2 ∧
      r.2.1.risk_manager =
        (enhanced_sizing_step M st.prev_vol
          { t with regime_detector := r.2.1.regime_detector,
                   spread_buffer := r.2.1.spread_buffer }
          r.2.2.spread r.2.2.z_score).2.2 ∧
      r.2.2.z_score =
        (enhanced_attention_step attention_zscore
          { t with spread_buffer := r.2.1.spread_buffer }
          (calculate_z_score r.2.2.spread (rolling_mean r.2.1.spread_buffer)
            (rolling_std M r.2.1.spread_buffer))).1 ∧
      (∀ vf : F,
        enhanced_vol_factor M
          { t with volatility1_buffer := r.2.1.volatility1_buffer,
                   volatility2_buffer := r.2.1.volatility2_buffer } = some vf →
        r.2.2.dynamic_threshold_entry =
          (update_dynamic_thresholds M
            { t with regime_detector := r.2.1.regime_detector,
                     spread_buffer := r.2.1.spread_buffer } vf).dynamic_entry_threshold ∧
        r.2.2.dynamic_threshold_exit =
          (update_dynamic_thresholds M
            { t with regime_detector := r.2.1.regime_detector,
                     spread_buffer := r.2.1.spread_buffer } vf).dynamic_exit_threshold) ∧
      r.2.1.use_transaction_costs = t.use_transaction_costs := by
  unfold generate_enhanced_pairs_signal
  simp only []
  rw [enhanced_hedge_ratio_step_eq M _ hb]
  swap
  · exact hhb
  simp only []
  rw [enhanced_volatility_step_eq M _ price1 price2 v1 v2]
  rotate_left
  · exact hv1
  · exact hv2
  simp only []
  rw [simd_cb_rolling_mean_scalar, simd_cb_rolling_std_scalar]
  by_cases hsz : cb_size (cb_push t.price_buffer1 price1) ≥ 2
  · simp only [if_pos hsz]
    rw [enhanced_vol_factor_eq M _ _ _ rfl rfl]
    simp only []
    refine ⟨_, rfl, rfl, ?_, rfl, ⟨_, rfl⟩, rfl, rfl, rfl, ?_, rfl⟩
    · by_cases hh : t.use_dynamic_hedging = true ∧ cb_size (cb_push t.price_buffer1 price1) ≥ 20
      · rw [if_pos hh]
        exact ⟨_, rfl⟩
      · rw [if_neg hh]
        exact ⟨_, rfl⟩
    · intro vf hvf
      simp only [] at hvf
      rw [enhanced_vol_factor_eq M _ _ _ rfl rfl] at hvf
      cases hvf
      exact ⟨rfl, rfl⟩
  · simp only [if_neg hsz]
    rw [enhanced_vol_factor_eq M _ _ _ rfl rfl]
    simp only []
    refine ⟨_, rfl, rfl, ?_, rfl, ⟨_, rfl⟩, rfl, rfl, rfl, ?_, rfl⟩
    · by_cases hh : t.use_dynamic_hedging = true ∧ cb_size (cb_push t.price_buffer1 price1) ≥ 20
      · rw [if_pos hh]
        exact ⟨_, rfl⟩
      · rw [if_neg hh]
        exact ⟨_, rfl⟩
    · intro vf hvf
      simp only [] at hvf
      rw [enhanced_vol_factor_eq M _ _ _ rfl rfl] at hvf
      cases hvf
      exact ⟨rfl, rfl⟩

theorem cb_push_size_le (cb : CircularBuffer F) (v : F) :
    cb_size cb ≤ cb_size (cb_push cb v) ∧ cb_size (cb_push cb v) ≤ cb_size cb + 1 := by
  unfold cb_size
  rw [cb_push_size]
  split_ifs <;> omega

/-- With fewer than 9 volatilities buffered, the regime step only pushes: the regime
is unchanged and at most one volatility is added. -/
theorem enhanced_regime_step_warmup (M : Libm F) (s : RegimeStatics F) (t : PairTracker F)
    (p1 p2 : F) (d : RegimeDetector F) (hd : t.regime_detector = some d)
    (h : cb_size d.volatility_buffer < 9) :
    ∃ dn : RegimeDetector F, (enhanced_regime_step M s t p1 p2).2 = some dn ∧
      dn.current_regime = d.current_regime ∧
      cb_size dn.volatility_buffer ≤ cb_size d.volatility_buffer + 1 := by
  have key : ∀ c : F, (update_regime M s d p1 p2 c).2.current_regime = d.current_regime ∧
      cb_size (update_regime M s d p1 p2 c).2.volatility_buffer
        ≤ cb_size d.volatility_buffer + 1 := by
    intro c
    have hb : cb_size (regime_push_buffers M s d p1 p2 c).volatility_buffer
        ≤ cb_size d.volatility_buffer + 1 := by
      unfold regime_push_buffers
      simp only []
      split_ifs
      · exact (cb_push_size_le _ _).2
      · omega
    rw [update_regime_eq, if_pos (by omega)]
    exact ⟨rfl, hb⟩
  unfold enhanced_regime_step
  rw [hd]
  simp only []
  split_ifs
  · exact ⟨_, rfl, (key _).1, (key _).2⟩
  · exact ⟨d, rfl, rfl, by omega⟩

/-- With fewer than 10 spreads buffered the attention blend is skipped. -/
theorem enhanced_attention_step_short (attention_zscore : CircularBuffer F → AttentionLayer F → F)
    (t : PairTracker F) (z : F) (h : cb_size t.spread_buffer < 10) :
    enhanced_attention_step attention_zscore t z = (z, z) := by
  unfold enhanced_attention_step
  cases t.temporal_attention with
  | none => rfl
  | some a =>
    simp only []
    rw [if_neg (by rintro ⟨-, h10⟩; omega)]

/-- For a positive account size the sizing writes only `volatility_scalar` and
`position_size`. -/
theorem calculate_volatility_target_size_frame (m : RiskManager F) (s a : F) (ha : 0 < a) :
    ∃ vs ps : F, (calculate_volatility_target_size m s a).1 =
      { m with volatility_scalar := vs, position_size := ps } := by
  unfold calculate_volatility_target_size
  rw [if_neg (not_le.mpr ha)]
  exact ⟨_, _, rfl⟩

/-- The size returned for a manager whose current volatility is its target 0.15, with
no heat, on an account of 1,000,000: 20,000 times the strength factor, positive. -/
theorem calculate_volatility_target_size_warm (m : RiskManager F) (s : F)
    (htv : m.target_volatility = 15 / 100) (hcv : m.current_volatility = 15 / 100)
    (hh : m.portfolio_heat = 0) (hr : m.risk_per_trade = 2 / 100)
    (hl : m.max_position_limit = 1000000) :
    0 < (calculate_volatility_target_size m s 1000000).2 := by
  unfold calculate_volatility_target_size
  rw [if_neg (by norm_num)]
  simp only [htv, hcv, hh, hr, hl]
  have h1 : ((15 : F) / 100 > 0) := by norm_num
  rw [if_pos h1]
  have h2 : ((15 : F) / 100) / (15 / 100) = 1 := by norm_num
  rw [h2]
  have h3 : ¬ ((0 : F) > 1 / 2) := by norm_num
  have h4 : ¬ ((1 : F) > 5) := by norm_num
  have h5 : ¬ ((1 : F) < 1 / 10) := by norm_num
  rw [if_neg h3, if_neg h4, if_neg h5]
  split_ifs <;> linarith

/-- The sizing step in regime 0: the manager keeps its target and the size is that of
`calculate_volatility_target_size` at `|z|` on an account of 1,000,000. -/
theorem enhanced_sizing_step_warm (M : Libm F) (pv : F) (t : PairTracker F) (cs z : F)
    (m : RiskManager F) (d : RegimeDetector F) (hm : t.risk_manager = some m)
    (hd : t.regime_detector = some d) (hd0 : d.current_regime = 0) :
    enhanced_sizing_step M pv t cs z =
      if cb_size t.spread_buffer > 1 then
        ((calculate_volatility_target_size m |z| 1000000).2,
          (update_volatility_estimate M pv (calculate_volatility_target_size m |z| 1000000).1
            ((cs - cb_get t.spread_buffer (cb_size t.spread_buffer - 2)) /
              (calculate_volatility_target_size m |z| 1000000).2)).1,
          some (update_volatility_estimate M pv
            (calculate_volatility_target_size m |z| 1000000).1
            ((cs - cb_get t.spread_buffer (cb_size t.spread_buffer - 2)) /
              (calculate_volatility_target_size m |z| 1000000).2)).2)
      else ((calculate_volatility_target_size m |z| 1000000).2, pv,
        some (calculate_volatility_target_size m |z| 1000000).1) := by
  have e : calculate_regime_adjusted_target_vol m d.current_regime = m.target_volatility := by
    unfold calculate_regime_adjusted_target_vol
    simp only [hd0, if_true]
  unfold enhanced_sizing_step
  simp only [hm, hd, e]

/-- The sizing step while the manager holds fewer than four squared returns: the
manager keeps its volatilities, heat and limits, and gains at most one sample. -/
theorem enhanced_sizing_step_warm_manager (M : Libm F) (pv : F) (t : PairTracker F) (cs z : F)
    (m : RiskManager F) (d : RegimeDetector F) (hm : t.risk_manager = some m)
    (hd : t.regime_detector = some d) (hd0 : d.current_regime = 0)
    (hsz : cb_size m.volatility_buffer < 4) :
    ∃ mn : RiskManager F, (enhanced_sizing_step M pv t cs z).2.2 = some mn ∧
      mn.target_volatility = m.target_volatility ∧
      mn.current_volatility = m.current_volatility ∧
      mn.portfolio_heat = m.portfolio_heat ∧
      mn.risk_per_trade = m.risk_per_trade ∧
      mn.max_position_limit = m.max_position_limit ∧
      cb_size mn.volatility_buffer ≤
        (if cb_size t.spread_buffer > 1 then cb_size m.volatility_buffer + 1
          else cb_size m.volatility_buffer) := by
  obtain ⟨vs, ps, hfr⟩ := calculate_volatility_target_size_frame m |z| 1000000 (by norm_num)
  rw [enhanced_sizing_step_warm M pv t cs z m d hm hd hd0]
  by_cases hs : cb_size t.spread_buffer > 1
  · simp only [if_pos hs]
    have hlt : ∀ x : F, cb_size (cb_push
        (calculate_volatility_target_size m |z| 1000000).1.volatility_buffer (x * x)) < 5 := by
      intro x
      rw [hfr]
      have := (cb_push_size_le m.volatility_buffer (x * x)).2
      show cb_size (cb_push m.volatility_buffer (x * x)) < 5
      omega
    rw [update_volatility_estimate_small M pv _ _ (hlt _)]
    refine ⟨_, rfl, ?_, ?_, ?_, ?_, ?_, ?_⟩
    · rw [hfr]
    · rw [hfr]
    · rw [hfr]
    · rw [hfr]
    · rw [hfr]
    · show cb_size (cb_push (calculate_volatility_target_size m |z| 1000000).1.volatility_buffer
        _) ≤ _
      rw [hfr]
      exact (cb_push_size_le m.volatility_buffer _).2
  · simp only [if_neg hs]
    refine ⟨_, rfl, ?_, ?_, ?_, ?_, ?_, ?_⟩
    · rw [hfr]
    · rw [hfr]
    · rw [hfr]
    · rw [hfr]
    · rw [hfr]
    · rw [hfr]

/-! ### The warm-up ticks and the vetoed entry -/

theorem mean_reversion_signal_flat_zero (e x : F) (he : 0 < e) :
    mean_reversion_signal 0 (0 : F) e x = (0, 0) := by
  unfold mean_reversion_signal
  rw [if_pos rfl, if_neg (not_lt.mpr (le_of_lt he)), if_neg (by linarith)]

theorem update_dynamic_thresholds_entry_pos (M : Libm F) (t : PairTracker F) (v : F) :
    0 < (update_dynamic_thresholds M t v).dynamic_entry_threshold := by
  rw [(update_dynamic_thresholds_eq M t v).1]
  exact lt_of_lt_of_le (by norm_num) (le_max_left _ _)

/-- A tick with both prices 1 during the warm-up: the position stays Flat and the
warm-up state advances by one tick. -/
theorem flat_warmup_tick (avx : Bool) (M : Libm F)
    (attention_zscore : CircularBuffer F → AttentionLayer F → F)
    (k : Nat) (hk : k ≤ 4) (st : SignalStatics F) (t : PairTracker F)
    (bid1 ask1 bid2 ask2 : F) (timestamp_micro : Int) (h : flat_warmup k st t) :
    ∃ r : SignalStatics F × PairTracker F × PairSignal F,
      generate_enhanced_pairs_signal avx M attention_zscore st t 1 1
        bid1 ask1 bid2 ask2 timestamp_micro = some r ∧
      flat_warmup (k + 1) r.1 r.2.1 := by
  obtain ⟨hpos, hp1, hsb, ⟨hb, hhb⟩, ⟨v1, hv1, hv1s⟩, ⟨v2, hv2⟩, ⟨d, hd, hd0, hds⟩,
    ⟨m, hm, htv, hcv, hh, hrp, hl, hms⟩, hcost, hi1, hi2, hf, hc, hs⟩ := h
  obtain ⟨r, hr, a1, ⟨hbn, a2⟩, a3, ⟨v2n, a4⟩, a5, a6, a7, a8, a9⟩ :=
    generate_enhanced_pairs_signal_steps avx M attention_zscore st t 1 1 bid1 ask1 bid2 ask2
      timestamp_micro hb v1 v2 hhb hv1 hv2
  obtain ⟨r2, hr2, b1, b2, -, b4⟩ :=
    generate_enhanced_pairs_signal_spread avx M attention_zscore st t 1 1 bid1 ask1 bid2 ask2
      timestamp_micro hb v1 v2 hhb hv1 hv2
  obtain rfl : r2 = r := Option.some.inj (hr2.symm.trans hr)
  obtain ⟨r3, hr3, c1, -, -, c4, -⟩ :=
    generate_enhanced_pairs_signal_veto avx M attention_zscore st t 1 1 bid1 ask1 bid2 ask2
      timestamp_micro hb v1 v2 hhb hv1 hv2
  obtain rfl : r3 = r2 := Option.some.inj (hr3.symm.trans hr)
  -- sizes
  have hpsz : cb_size (cb_push t.price_buffer1 1) = ((k + 1 : Nat) : Int) := by
    rw [hp1, ← cb_pushes_snoc, ← List.replicate_succ',
      (cb_pushes_replicate 20 (by norm_num) (1 : F) (k + 1)).1]
    omega
  have hspread : r3.2.2.spread = 0 := by
    rw [b2, b1, if_neg (by rintro ⟨-, h20⟩; omega)]
    norm_num
  have hsbn : r3.2.1.spread_buffer = cb_pushes 20 (List.replicate (k + 1) 0) := by
    rw [b4, hspread, hsb, ← cb_pushes_snoc, ← List.replicate_succ']
  have hsbsz : cb_size r3.2.1.spread_buffer = ((k + 1 : Nat) : Int) := by
    rw [hsbn, (cb_pushes_replicate 20 (by norm_num) (0 : F) (k + 1)).1]
    omega
  have hz : r3.2.2.z_score = 0 := by
    have hatt := enhanced_attention_step_short attention_zscore
      { t with spread_buffer := r3.2.1.spread_buffer }
      (calculate_z_score r3.2.2.spread (rolling_mean r3.2.1.spread_buffer)
        (rolling_std M r3.2.1.spread_buffer))
      (show cb_size r3.2.1.spread_buffer < 10 by omega)
    rw [a7, hatt, hspread, b4, hspread, hsb]
    exact z_score_zero_window M 20 k (by norm_num) (by omega)
  -- thresholds
  obtain ⟨vf, hvf⟩ : ∃ vf : F, enhanced_vol_factor M
      { t with volatility1_buffer := r3.2.1.volatility1_buffer,
               volatility2_buffer := r3.2.1.volatility2_buffer } = some vf :=
    ⟨_, enhanced_vol_factor_eq M _ _ v2n a3 a4⟩
  have hentry : 0 < r3.2.2.dynamic_threshold_entry := by
    rw [(a8 vf hvf).1]
    exact update_dynamic_thresholds_entry_pos M _ vf
  have hposn : r3.1.current_position = 0 := by
    rw [c1, hpos, hz, mean_reversion_signal_flat_zero _ _ hentry]
  -- regime detector
  obtain ⟨dn, hdn, hdn0, hdns⟩ := enhanced_regime_step_warmup M st.regime
    { t with correlation := r3.2.1.correlation } 1 1 d hd (by omega)
  have hrd : r3.2.1.regime_detector = some dn := a5.trans hdn
  -- risk manager
  obtain ⟨mn, hmn, e1, e2, e3, e4, e5, e6⟩ := enhanced_sizing_step_warm_manager M st.prev_vol
    { t with regime_detector := r3.2.1.regime_detector,
             spread_buffer := r3.2.1.spread_buffer }
    r3.2.2.spread r3.2.2.z_score m dn hm hrd (hdn0.trans hd0) (by omega)
  have hrm : r3.2.1.risk_manager = some mn := a6.trans hmn
  have hmns : cb_size mn.volatility_buffer ≤ ((k + 1 - 1 : Nat) : Int) := by
    have e6b : cb_size mn.volatility_buffer ≤
        (if cb_size r3.2.1.spread_buffer > 1 then cb_size m.volatility_buffer + 1
          else cb_size m.volatility_buffer) := e6
    rw [hsbsz] at e6b
    split_ifs at e6b <;> omega
  -- costs
  have hcs : r3.2.1.transaction_costs =
      { t.transaction_costs with
        bid_ask_spread_asset1 := ask1 - bid1
        bid_ask_spread_asset2 := ask2 - bid2 } := by
    rw [c4, enhanced_cost_step_eq, if_pos hcost]
  refine ⟨r3, hr, hposn, ?_, hsbn, ⟨hbn, a2⟩, ⟨_, a3, ?_⟩, ⟨v2n, a4⟩,
    ⟨dn, hrd, hdn0.trans hd0, by omega⟩,
    ⟨mn, hrm, e1.trans htv, e2.trans hcv, e3.trans hh, e4.trans hrp, e5.trans hl, hmns⟩,
    a9.trans hcost, ?_, ?_, ?_, ?_, ?_⟩
  · rw [a1, hp1, ← cb_pushes_snoc, ← List.replicate_succ']
  · rw [hpsz]
    have := (cb_push_size_le v1
      (M.log (1 / cb_get (cb_push t.price_buffer1 1) (((k + 1 : Nat) : Int) - 2)) *
        M.log (1 / cb_get (cb_push t.price_buffer1 1) (((k + 1 : Nat) : Int) - 2)))).2
    split_ifs <;> omega
  · rw [hcs]
    exact hi1
  · rw [hcs]
    exact hi2
  · rw [hcs]
    exact hf
  · rw [hcs]
    exact hc
  · rw [hcs]
    exact hs

theorem z_score_jump6_lt (M : Libm F)
    (hsqrt : ∀ x : F, 0 < x → 0 < M.sqrt x ∧ M.sqrt x * M.sqrt x = x) (L : F) (hL : 0 < L) :
    calculate_z_score L (rolling_mean (cb_pushes 20 [0, 0, 0, 0, 0, L]))
      (rolling_std M (cb_pushes 20 [0, 0, 0, 0, 0, L])) < 10 / 3 := by
  have hr : List.range 6 = [0, 1, 2, 3, 4, 5] := rfl
  have hm : rolling_mean (cb_pushes 20 [0, 0, 0, 0, 0, L]) = L / 6 := by
    rw [rolling_mean_pushes 20 _ (by norm_num) (by norm_num)]
    simp [hr]
  have hs : rolling_std M (cb_pushes 20 [0, 0, 0, 0, 0, L]) = M.sqrt (L * L / 6) := by
    rw [rolling_std_pushes M 20 _ (by norm_num) (by norm_num), hm]
    simp only [List.length_cons, List.length_nil, hr, List.foldl_cons, List.foldl_nil,
      List.getD_cons_zero, List.getD_cons_succ]
    norm_num
    congr 1
    ring
  obtain ⟨hpos, hsq⟩ := hsqrt (L * L / 6) (by positivity)
  rw [hm, hs]
  unfold calculate_z_score
  rw [if_neg (ne_of_gt hpos), div_lt_iff₀ hpos]
  by_contra hcon
  have hle : M.sqrt (L * L / 6) ≤ L / 4 := by
    have := not_lt.mp hcon
    linarith
  have hsq2 : M.sqrt (L * L / 6) * M.sqrt (L * L / 6) ≤ L / 4 * (L / 4) :=
    mul_self_le_mul_self (le_of_lt hpos) hle
  linarith [mul_pos hL hL]

/-- In regime 0, with volatility factor 1 and at most 10 buffered spreads the
thresholds are the base values 2 and 1/2. -/
theorem update_dynamic_thresholds_normal (M : Libm F) (t : PairTracker F)
    (d : RegimeDetector F) (hrd : t.regime_detector = some d) (hd0 : d.current_regime = 0)
    (hs : cb_size t.spread_buffer ≤ 10) :
    (update_dynamic_thresholds M t 1).dynamic_entry_threshold = 2 ∧
    (update_dynamic_thresholds M t 1).dynamic_exit_threshold = 1 / 2 := by
  obtain ⟨he, hx⟩ := update_dynamic_thresholds_eq M t 1
  rw [he, hx, hrd, if_neg (not_lt.mpr hs)]
  simp only [hd0, if_true, mul_one]
  constructor
  · exact max_eq_right (by norm_num)
  · exact max_eq_right (by norm_num)

theorem mean_reversion_signal_flat_short (z e x : F) (hz : e < z) :
    mean_reversion_signal 0 z e x = (-1, -1) := by
  unfold mean_reversion_signal
  rw [if_pos rfl, if_pos hz]

/-- What the state machine does from Short: the exit rule. -/
theorem mean_reversion_signal_short (z e x : F) :
    mean_reversion_signal (-1) z e x = if z < x then (0, 0) else (-1, -1) := by
  unfold mean_reversion_signal
  rw [if_neg (by decide), if_neg (by decide), if_pos rfl]

/-- The tick (2, 1) with a bid-ask spread of 1 on the first asset after five warm-up
ticks: the z-score exceeds the entry threshold 2, the state machine opens Short and
stores -1, the trade is not profitable after costs and the signal returned is 0. -/
theorem flat_warmup_veto (avx : Bool) (M : Libm F)
    (attention_zscore : CircularBuffer F → AttentionLayer F → F)
    (hsqrt : ∀ x : F, 0 < x → 0 < M.sqrt x ∧ M.sqrt x * M.sqrt x = x)
    (st : SignalStatics F) (t : PairTracker F) (timestamp_micro : Int)
    (h : flat_warmup 5 st t) :
    ∃ r : SignalStatics F × PairTracker F × PairSignal F,
      generate_enhanced_pairs_signal avx M attention_zscore st t 2 1 1 2 1 1 timestamp_micro
        = some r ∧
      2 < r.2.2.z_score ∧
      r.2.2.dynamic_threshold_entry = 2 ∧ r.2.2.dynamic_threshold_exit = 1 / 2 ∧
      mean_reversion_signal st.current_position r.2.2.z_score r.2.2.dynamic_threshold_entry
        r.2.2.dynamic_threshold_exit = (-1, -1) ∧
      r.1.current_position = -1 ∧
      r.2.2.pnl_analysis.net_pnl_after_costs < 0 ∧
      r.2.2.pnl_analysis.is_profitable = false ∧
      r.2.2.signal = 0 ∧
      r.2.1.use_transaction_costs = true ∧
      (∃ hb v1 v2 : CircularBuffer F, r.2.1.hedge_ratio_buffer = some hb ∧
        r.2.1.volatility1_buffer = some v1 ∧ r.2.1.volatility2_buffer = some v2) := by
  obtain ⟨hpos, hp1, hsb, ⟨hb, hhb⟩, ⟨v1, hv1, hv1s⟩, ⟨v2, hv2⟩, ⟨d, hd, hd0, hds⟩,
    ⟨m, hm, htv, hcv, hh, hrp, hl, hms⟩, hcost, hi1, hi2, hf, hc, hs⟩ := h
  obtain ⟨r, hr, a1, ⟨hbn, a2⟩, a3, ⟨v2n, a4⟩, a5, a6, a7, a8, a9⟩ :=
    generate_enhanced_pairs_signal_steps avx M attention_zscore st t 2 1 1 2 1 1
      timestamp_micro hb v1 v2 hhb hv1 hv2
  obtain ⟨r2, hr2, b1, b2, -, b4⟩ :=
    generate_enhanced_pairs_signal_spread avx M attention_zscore st t 2 1 1 2 1 1
      timestamp_micro hb v1 v2 hhb hv1 hv2
  obtain rfl : r2 = r := Option.some.inj (hr2.symm.trans hr)
  obtain ⟨r3, hr3, c1, c2, c3, -, c5⟩ :=
    generate_enhanced_pairs_signal_veto avx M attention_zscore st t 2 1 1 2 1 1
      timestamp_micro hb v1 v2 hhb hv1 hv2
  obtain rfl : r3 = r2 := Option.some.inj (hr3.symm.trans hr)
  have hpsz : cb_size (cb_push t.price_buffer1 2) = 6 := by
    have h6 : cb_size (cb_pushes 20 (List.replicate 5 (1 : F) ++ [2])) = 6 :=
      (cb_pushes_small 20 _ (by norm_num) (by simp)).1
    rw [hp1, ← cb_pushes_snoc, h6]
  have hspread : r3.2.2.spread = 1 := by
    rw [b2, b1, if_neg (by rintro ⟨-, h20⟩; omega)]
    norm_num
  have hsbn : r3.2.1.spread_buffer = cb_pushes 20 [0, 0, 0, 0, 0, 1] := by
    rw [b4, hspread, hsb, ← cb_pushes_snoc]
    rfl
  have hsbsz : cb_size r3.2.1.spread_buffer = 6 := by
    rw [hsbn]
    exact (cb_pushes_small 20 _ (by norm_num) (by simp)).1
  have hzeq : r3.2.2.z_score = calculate_z_score 1
      (rolling_mean (cb_pushes 20 [0, 0, 0, 0, 0, 1]))
      (rolling_std M (cb_pushes 20 [0, 0, 0, 0, 0, 1])) := by
    have hatt := enhanced_attention_step_short attention_zscore
      { t with spread_buffer := r3.2.1.spread_buffer }
      (calculate_z_score r3.2.2.spread (rolling_mean r3.2.1.spread_buffer)
        (rolling_std M r3.2.1.spread_buffer))
      (show cb_size r3.2.1.spread_buffer < 10 by omega)
    rw [a7, hatt, hspread, hsbn]
  have hz2 : 2 < r3.2.2.z_score := by
    rw [hzeq]
    exact z_score_jump6 M hsqrt 1 one_pos
  have hz3 : r3.2.2.z_score < 10 / 3 := by
    rw [hzeq]
    exact z_score_jump6_lt M hsqrt 1 one_pos
  -- regime detector
  obtain ⟨dn, hdn, hdn0, -⟩ := enhanced_regime_step_warmup M st.regime
    { t with correlation := r3.2.1.correlation } 2 1 d hd (by omega)
  have hrd : r3.2.1.regime_detector = some dn := a5.trans hdn
  -- thresholds
  have hv1n : cb_size (if cb_size (cb_push t.price_buffer1 2) ≥ 2 then
      cb_push v1
        (M.log (2 / cb_get (cb_push t.price_buffer1 2)
            (cb_size (cb_push t.price_buffer1 2) - 2)) *
          M.log (2 / cb_get (cb_push t.price_buffer1 2)
            (cb_size (cb_push t.price_buffer1 2) - 2)))
      else v1) ≤ 5 := by
    have := (cb_push_size_le v1
      (M.log (2 / cb_get (cb_push t.price_buffer1 2)
          (cb_size (cb_push t.price_buffer1 2) - 2)) *
        M.log (2 / cb_get (cb_push t.price_buffer1 2)
          (cb_size (cb_push t.price_buffer1 2) - 2)))).2
    split_ifs <;> omega
  have hvf : enhanced_vol_factor M
      { t with volatility1_buffer := r3.2.1.volatility1_buffer,
               volatility2_buffer := r3.2.1.volatility2_buffer } = some 1 := by
    have hvfe := enhanced_vol_factor_eq M
      { t with volatility1_buffer := r3.2.1.volatility1_buffer,
               volatility2_buffer := r3.2.1.volatility2_buffer } _ v2n a3 a4
    rw [hvfe, if_neg (not_lt.mpr hv1n)]
  obtain ⟨hen, hex⟩ := update_dynamic_thresholds_normal M
    { t with regime_detector := r3.2.1.regime_detector,
             spread_buffer := r3.2.1.spread_buffer } dn hrd (hdn0.trans hd0)
    (show cb_size r3.2.1.spread_buffer ≤ 10 by omega)
  have hentry : r3.2.2.dynamic_threshold_entry = 2 := (a8 1 hvf).1.trans hen
  have hexit : r3.2.2.dynamic_threshold_exit = 1 / 2 := (a8 1 hvf).2.trans hex
  have hmr : mean_reversion_signal st.current_position r3.2.2.z_score
      r3.2.2.dynamic_threshold_entry r3.2.2.dynamic_threshold_exit = (-1, -1) := by
    rw [hpos, hentry]
    exact mean_reversion_signal_flat_short _ _ _ hz2
  -- position size
  have hP : 0 < r3.2.2.position_size := by
    have hsw := enhanced_sizing_step_warm M st.prev_vol
      { t with regime_detector := r3.2.1.regime_detector,
               spread_buffer := r3.2.1.spread_buffer }
      r3.2.2.spread r3.2.2.z_score m dn hm hrd (hdn0.trans hd0)
    have := calculate_volatility_target_size_warm m |r3.2.2.z_score| htv hcv hh hrp hl
    rw [c5, hsw]
    split_ifs <;> exact this
  obtain ⟨hsP, -⟩ := hsqrt _ hP
  -- costs
  have hpnl : r3.2.2.pnl_analysis =
      calculate_pnl_with_costs M (|r3.2.2.z_score| * (3 / 10) * r3.2.2.position_size)
        { t.transaction_costs with
          bid_ask_spread_asset1 := 2 - 1
          bid_ask_spread_asset2 := 1 - 1 } r3.2.2.position_size := by
    rw [c2, enhanced_cost_step_eq, if_pos hcost]
  have hnet : r3.2.2.pnl_analysis.net_pnl_after_costs < 0 := by
    rw [hpnl]
    unfold calculate_pnl_with_costs
    simp only []
    rw [abs_of_pos (by linarith : (0 : F) < r3.2.2.z_score)]
    have q1 := mul_nonneg hi1 (le_of_lt hsP)
    have q2 := mul_nonneg hi2 (le_of_lt hsP)
    have q3 := mul_nonneg hf (le_of_lt hP)
    have q4 := mul_nonneg hc (le_of_lt hP)
    have q5 := mul_nonneg hs (le_of_lt hP)
    have q6 : 0 < (10 / 3 - r3.2.2.z_score) * r3.2.2.position_size :=
      mul_pos (by linarith) hP
    linarith
  have hprof : r3.2.2.pnl_analysis.is_profitable = false := by
    have hd : r3.2.2.pnl_analysis.is_profitable =
        decide (r3.2.2.pnl_analysis.net_pnl_after_costs > 0) := by
      rw [hpnl]
      rfl
    rw [hd, decide_eq_false_iff_not]
    exact not_lt.mpr (le_of_lt hnet)
  have hsig : r3.2.2.signal = 0 := by
    rw [c3, enhanced_cost_step_eq, if_pos hcost]
    simp only []
    rw [← hpnl, if_pos hprof]
  refine ⟨r3, hr, hz2, hentry, hexit, hmr, ?_, hnet, hprof, hsig, a9.trans hcost,
    hbn, _, v2n, a2, a3, a4⟩
  rw [c1, hmr]

/-! ### The run up to the vetoed entry -/

theorem generate_enhanced_pairs_signal_run_cons (avx : Bool) (M : Libm F)
    (attention_zscore : CircularBuffer F → AttentionLayer F → F)
    (st : SignalStatics F) (t : PairTracker F) (tk : F × F × F × F × F × F × Int)
    (ticks : List (F × F × F × F × F × F × Int))
    (r : SignalStatics F × PairTracker F × PairSignal F)
    (h : generate_enhanced_pairs_signal avx M attention_zscore st t tk.1 tk.2.1
      tk.2.2.1 tk.2.2.2.1 tk.2.2.2.2.1 tk.2.2.2.2.2.1 tk.2.2.2.2.2.2 = some r) :
    generate_enhanced_pairs_signal_run avx M attention_zscore st t (tk :: ticks) =
      generate_enhanced_pairs_signal_run avx M attention_zscore r.1 r.2.1 ticks := by
  unfold generate_enhanced_pairs_signal_run
  rw [List.foldl_cons]
  simp only [h]

/-- The warm-up state after `n` more ticks with both prices 1. -/
theorem flat_warmup_run (avx : Bool) (M : Libm F)
    (attention_zscore : CircularBuffer F → AttentionLayer F → F) (n : Nat) :
    ∀ (k : Nat) (st : SignalStatics F) (t : PairTracker F), k + n ≤ 5 → flat_warmup k st t →
      ∃ (sn : SignalStatics F) (tn : PairTracker F),
        generate_enhanced_pairs_signal_run avx M attention_zscore st t
          (List.replicate n ((1 : F), (1 : F), (1 : F), (1 : F), (1 : F), (1 : F), (0 : Int)))
          = some (sn, tn) ∧
        flat_warmup (k + n) sn tn := by
  induction n with
  | zero =>
    intro k st t _ h
    exact ⟨st, t, rfl, h⟩
  | succ n ih =>
    intro k st t hk h
    obtain ⟨r, hr, hw⟩ := flat_warmup_tick avx M attention_zscore k (by omega) st t 1 1 1 1 0 h
    obtain ⟨sn, tn, hrun, hwn⟩ := ih (k + 1) r.1 r.2.1 (by omega) hw
    refine ⟨sn, tn, ?_, ?_⟩
    · rw [List.replicate_succ, generate_enhanced_pairs_signal_run_cons avx M attention_zscore
        st t _ _ r hr]
      exact hrun
    · have e : k + (n + 1) = k + 1 + n := by omega
      rw [e]
      exact hwn

/-- The all-features tracker of window 20 with the statics at their initial values is
in the warm-up state before any tick. -/
theorem flat_warmup_initial (attention_layer : Option (AttentionLayer F))
    (attention_output : Option (AttentionOutput F)) :
    flat_warmup 0 (⟨0, ⟨0, 0⟩, 0⟩ : SignalStatics F)
      (create_enhanced_pair_tracker 20 true attention_layer attention_output) := by
  refine ⟨rfl, rfl, rfl, ⟨_, rfl⟩, ⟨_, rfl, ?_⟩, ⟨_, rfl⟩, ⟨_, rfl, rfl, ?_⟩,
    ⟨_, rfl, rfl, rfl, rfl, rfl, rfl, ?_⟩, rfl, ?_, ?_, ?_, ?_, ?_⟩
  · show (0 : Int) ≤ _
    norm_num
  · show (0 : Int) ≤ _
    norm_num
  · show (0 : Int) ≤ _
    norm_num
  · show (0 : F) ≤ 5 / 10000
    norm_num
  · show (0 : F) ≤ 5 / 10000
    norm_num
  · show (0 : F) ≤ 1 / 1000
    norm_num
  · show (0 : F) ≤ 5 / 10000
    norm_num
  · show (0 : F) ≤ 2 / 10000
    norm_num

/-- C32: the cost veto does not reset the state machine.  On the all-features tracker
of `create_enhanced_pair_tracker 20 true` (any attention layer and scorer, either
build), with the real `sqrt` and `log` and the statics at their initial values:
five ticks with both prices 1 leave the held position Flat; the next tick
`(2, 1)` with quotes 1/2 on the first asset and 1/1 on the second makes the state
machine open Short (it returns -1 and the held position becomes -1), but the trade
is not profitable after costs (net PnL below 0), so the signal returned is 0.  For
every following tick the new held position is the one `mean_reversion_signal`
computes from Short, that is 0 if the z-score is below the exit threshold and -1
otherwise (the exit rule, not the entry rule from Flat), and when that tick is
profitable the signal returned is the same value. -/
theorem cost_veto_keeps_position (avx : Bool)
    (attention_zscore : CircularBuffer ℝ → AttentionLayer ℝ → ℝ)
    (attention_layer : Option (AttentionLayer ℝ))
    (attention_output : Option (AttentionOutput ℝ)) :
    ∃ (st : SignalStatics ℝ) (t : PairTracker ℝ)
        (r : SignalStatics ℝ × PairTracker ℝ × PairSignal ℝ),
      generate_enhanced_pairs_signal_run avx (⟨Real.sqrt, Real.log⟩ : Libm ℝ) attention_zscore
        ⟨0, ⟨0, 0⟩, 0⟩ (create_enhanced_pair_tracker 20 true attention_layer attention_output)
        [(1, 1, 1, 1, 1, 1, 0), (1, 1, 1, 1, 1, 1, 0), (1, 1, 1, 1, 1, 1, 0),
          (1, 1, 1, 1, 1, 1, 0), (1, 1, 1, 1, 1, 1, 0)] = some (st, t) ∧
      st.current_position = 0 ∧
      generate_enhanced_pairs_signal avx (⟨Real.sqrt, Real.log⟩ : Libm ℝ) attention_zscore
        st t 2 1 1 2 1 1 0 = some r ∧
      mean_reversion_signal st.current_position r.2.2.z_score r.2.2.dynamic_threshold_entry
        r.2.2.dynamic_threshold_exit = (-1, -1) ∧
      r.1.current_position = -1 ∧
      r.2.2.pnl_analysis.net_pnl_after_costs < 0 ∧
      r.2.2.pnl_analysis.is_profitable = false ∧
      r.2.2.signal = 0 ∧
      ∀ (price1 price2 bid1 ask1 bid2 ask2 : ℝ) (timestamp_micro : Int),
        ∃ rn : SignalStatics ℝ × PairTracker ℝ × PairSignal ℝ,
          generate_enhanced_pairs_signal avx (⟨Real.sqrt, Real.log⟩ : Libm ℝ) attention_zscore
            r.1 r.2.1 price1 price2 bid1 ask1 bid2 ask2 timestamp_micro = some rn ∧
          rn.1.current_position =
            (mean_reversion_signal (-1) rn.2.2.z_score rn.2.2.dynamic_threshold_entry
              rn.2.2.dynamic_threshold_exit).1 ∧
          rn.1.current_position =
            (if rn.2.2.z_score < rn.2.2.dynamic_threshold_exit then 0 else -1) ∧
          (rn.2.2.pnl_analysis.is_profitable = true →
            rn.2.2.signal =
              (if rn.2.2.z_score < rn.2.2.dynamic_threshold_exit then 0 else -1)) := by
  obtain ⟨st, t, hrun, hw⟩ := flat_warmup_run avx (⟨Real.sqrt, Real.log⟩ : Libm ℝ)
    attention_zscore 5 0 ⟨0, ⟨0, 0⟩, 0⟩
    (create_enhanced_pair_tracker 20 true attention_layer attention_output) (by norm_num)
    (flat_warmup_initial attention_layer attention_output)
  obtain ⟨r, hr, -, -, -, hmr, hpos, hnet, hprof, hsig, hcost, hb, v1, v2, hhb, hv1, hv2⟩ :=
    flat_warmup_veto avx (⟨Real.sqrt, Real.log⟩ : Libm ℝ) attention_zscore
      (fun x hx => ⟨Real.sqrt_pos.mpr hx, Real.mul_self_sqrt (le_of_lt hx)⟩) st t 0 hw
  refine ⟨st, t, r, hrun, hw.1, hr, hmr, hpos, hnet, hprof, hsig, ?_⟩
  intro price1 price2 bid1 ask1 bid2 ask2 timestamp_micro
  obtain ⟨rn, hrn, c1, c2, c3, -⟩ := generate_enhanced_pairs_signal_veto avx
    (⟨Real.sqrt, Real.log⟩ : Libm ℝ) attention_zscore r.1 r.2.1 price1 price2 bid1 ask1 bid2 ask2
    timestamp_micro hb v1 v2 hhb hv1 hv2
  rw [hpos] at c1 c2 c3
  rw [enhanced_cost_step_eq, if_pos hcost] at c2 c3
  simp only [] at c2 c3
  refine ⟨rn, hrn, c1, ?_, ?_⟩
  · rw [c1, mean_reversion_signal_short]
    split_ifs <;> rfl
  · intro hp
    rw [c3, ← c2, if_neg (by rw [hp]; exact Bool.noConfusion), mean_reversion_signal_short]
    split_ifs <;> rfl

/-! ### The drawdown loop above the initial peak -/

theorem ite_gt_eq_max (a b : F) : (if a > b then a else b) = max b a := by
  by_cases h : a > b
  · rw [if_pos h, max_eq_right (le_of_lt h)]
  · rw [if_neg h, max_eq_left (not_lt.mp h)]

theorem foldl_max_range_succ (f : Nat → F) (a : F) (k : Nat) :
    ((List.range (k + 1)).map f).foldl max a = max (((List.range k).map f).foldl max a) (f k) := by
  rw [List.range_succ, List.map_append, List.foldl_append]
  rfl

theorem foldl_range_succ_step {β : Type} (g : β → Nat → β) (b : β) (n : Nat) :
    (List.range (n + 1)).foldl g b = g ((List.range n).foldl g b) n := by
  rw [List.range_succ, List.foldl_append]
  rfl

/-- A loop whose step keeps the peak to date, the largest drawdown and the running
sum, started at the peak -99999 on a history whose first return is at least -99999:
after `k + 1` returns the accumulators are those of the specification. -/
theorem drawdown_fold_spec (rs : List F) (h0 : -99999 ≤ rs.getD 0 0)
    (g : F × F × F → Nat → F × F × F)
    (hg : ∀ (acc : F × F × F) (i : Nat), g acc i =
      (max acc.1 (acc.2.2 + rs.getD i 0),
        max acc.2.1 (max acc.1 (acc.2.2 + rs.getD i 0) - (acc.2.2 + rs.getD i 0)),
        acc.2.2 + rs.getD i 0))
    (k : Nat) (hk : k < rs.length) :
    (List.range (k + 1)).foldl g (-99999, 0, 0) =
      (((List.range (k + 1)).map (fun (j : Nat) => (rs.take (j + 1)).sum)).foldl max
          (rs.take (0 + 1)).sum,
        ((List.range (k + 1)).map (fun (i : Nat) =>
            ((List.range (i + 1)).map (fun (j : Nat) => (rs.take (j + 1)).sum)).foldl max
              (rs.take (0 + 1)).sum - (rs.take (i + 1)).sum)).foldl max
          (((List.range (0 + 1)).map (fun (j : Nat) => (rs.take (j + 1)).sum)).foldl max
              (rs.take (0 + 1)).sum - (rs.take (0 + 1)).sum),
        (rs.take (k + 1)).sum) := by
  have hpos : 0 < rs.length := by omega
  have hc0 : (rs.take (0 + 1)).sum = rs.getD 0 0 := by
    rw [List.sum_take_succ rs 0 hpos, List.getD_eq_getElem rs 0 hpos]
    simp
  induction k with
  | zero =>
    have hr1 : List.range (0 + 1) = [0] := rfl
    have hr2 : List.range 1 = [0] := rfl
    have hm : max (-99999) (rs.getD 0 0) = rs.getD 0 0 := max_eq_right h0
    rw [hr1]
    simp only [List.map_cons, List.map_nil, List.foldl_cons, List.foldl_nil, hc0, hg,
      zero_add, max_self, sub_self, hr2, hm]
  | succ k ih =>
    have ihk := ih (by omega)
    have hsum : (rs.take (k + 1 + 1)).sum = (rs.take (k + 1)).sum + rs.getD (k + 1) 0 := by
      rw [List.sum_take_succ rs (k + 1) hk, List.getD_eq_getElem rs 0 hk]
    rw [foldl_range_succ_step g _ (k + 1), ihk, hg]
    rw [← hsum]
    rw [foldl_max_range_succ (fun (i : Nat) =>
        ((List.range (i + 1)).map (fun (j : Nat) => (rs.take (j + 1)).sum)).foldl max
          (rs.take (0 + 1)).sum - (rs.take (i + 1)).sum) _ (k + 1)]
    simp only []
    rw [foldl_max_range_succ (fun (j : Nat) => (rs.take (j + 1)).sum) _ (k + 1)]

/-- When the oldest buffered return is at least -99999, the loop of
`update_portfolio_risk` computes the maximum drawdown of the buffered history as
the specification defines it. -/
theorem drawdown_loop_eq_spec (cb : CircularBuffer F) (n : Nat) (hn : 1 ≤ n)
    (h0 : -99999 ≤ cb_get cb 0) :
    (drawdown_loop cb (List.range n)).2.1 =
      max_drawdown_spec ((List.range n).map (fun (i : Nat) => cb_get cb (i : Int))) := by
  obtain ⟨k, rfl⟩ : ∃ k : Nat, n = k + 1 := ⟨n - 1, by omega⟩
  have hget : ∀ i : Nat, i < k + 1 →
      ((List.range (k + 1)).map (fun (i : Nat) => cb_get cb (i : Int))).getD i 0
        = cb_get cb (i : Int) := by
    intro i hi
    rw [List.getD_eq_getElem _ 0 (by simpa using hi)]
    simp
  have hloop : drawdown_loop cb (List.range (k + 1)) =
      (List.range (k + 1)).foldl
        (fun (acc : F × F × F) (i : Nat) =>
          (max acc.1 (acc.2.2 +
              ((List.range (k + 1)).map (fun (i : Nat) => cb_get cb (i : Int))).getD i 0),
            max acc.2.1 (max acc.1 (acc.2.2 +
              ((List.range (k + 1)).map (fun (i : Nat) => cb_get cb (i : Int))).getD i 0)
              - (acc.2.2 +
                ((List.range (k + 1)).map (fun (i : Nat) => cb_get cb (i : Int))).getD i 0)),
            acc.2.2 +
              ((List.range (k + 1)).map (fun (i : Nat) => cb_get cb (i : Int))).getD i 0))
        (-99999, 0, 0) := by
    unfold drawdown_loop
    refine foldl_range_congr _ _ (k + 1) (fun b i hi => ?_) _
    simp only []
    rw [hget i hi, ite_gt_eq_max, ite_gt_eq_max]
  rw [hloop, drawdown_fold_spec _ (by rw [hget 0 (by omega)]; exact h0) _ (fun _ _ => rfl) k
    (by simp)]
  unfold max_drawdown_spec
  simp only [List.length_map, List.length_range]

/-- `update_portfolio_risk` with at least 10 returns buffered, the oldest of them at
least -99999: `max_drawdown` is the maximum drawdown of the buffered history as the
specification defines it. -/
theorem update_portfolio_risk_max_drawdown (M : Libm F) (m : RiskManager F) (r : F)
    (h10 : 10 ≤ cb_size (cb_push m.returns_buffer r))
    (h0 : -99999 ≤ cb_get (cb_push m.returns_buffer r) 0) :
    (update_portfolio_risk M m r).max_drawdown =
      max_drawdown_spec ((List.range (cb_size (cb_push m.returns_buffer r)).toNat).map
        (fun (i : Nat) => cb_get (cb_push m.returns_buffer r) (i : Int))) := by
  rw [(update_portfolio_risk_full M m r h10).1]
  exact drawdown_loop_eq_spec _ _ (by omega) h0

/-! ### The functions in `double` arithmetic: without rounding they are the functions above -/

theorem rolling_mean_double_exact (M : Libm F) (cb : CircularBuffer F) :
    rolling_mean_double (DoubleOps.exact M) cb = rolling_mean cb := rfl

theorem rolling_std_double_exact (M : Libm F) (cb : CircularBuffer F) :
    rolling_std_double (DoubleOps.exact M) cb = rolling_std M cb := rfl

theorem calculate_z_score_double_exact (M : Libm F) (value mean std : F) :
    calculate_z_score_double (DoubleOps.exact M) value mean std
      = calculate_z_score value mean std := rfl

theorem calculate_correlation_double_exact (M : Libm F) (cb1 cb2 : CircularBuffer F) :
    calculate_correlation_double (DoubleOps.exact M) cb1 cb2 = calculate_correlation M cb1 cb2 :=
  rfl

theorem linear_regression_slope_double_exact (M : Libm F) (y x : CircularBuffer F) :
    linear_regression_slope_double (DoubleOps.exact M) y x = linear_regression_slope y x := rfl

theorem engle_granger_test_double_exact (M : Libm F) (y x : CircularBuffer F) :
    engle_granger_test_double (DoubleOps.exact M) y x = engle_granger_test M y x := rfl

theorem simd_cb_rolling_mean_double_exact (avx : Bool) (M : Libm F) (cb : CircularBuffer F) :
    simd_cb_rolling_mean_double avx (DoubleOps.exact M) cb = simd_cb_rolling_mean avx cb := rfl

theorem simd_cb_rolling_std_double_exact (avx : Bool) (M : Libm F) (cb : CircularBuffer F) :
    simd_cb_rolling_std_double avx (DoubleOps.exact M) cb = simd_cb_rolling_std avx M cb := rfl

theorem simd_cb_correlation_double_exact (avx : Bool) (M : Libm F) (cb1 cb2 : CircularBuffer F) :
    simd_cb_correlation_double avx (DoubleOps.exact M) cb1 cb2
      = simd_cb_correlation avx M cb1 cb2 := rfl

theorem johansen_discriminant_double_exact (M : Libm F) (price1 price2 : CircularBuffer F) :
    johansen_discriminant_double (DoubleOps.exact M) price1 price2
      = ((johansen_cov M price1 price2).1, (johansen_cov M price1 price2).2.1,
          (johansen_cov M price1 price2).2.2,
          (johansen_cov M price1 price2).1 * (johansen_cov M price1 price2).2.2
            - (johansen_cov M price1 price2).2.1 * (johansen_cov M price1 price2).2.1,
          (johansen_cov M price1 price2).1 + (johansen_cov M price1 price2).2.2,
          ((johansen_cov M price1 price2).1 + (johansen_cov M price1 price2).2.2)
              * ((johansen_cov M price1 price2).1 + (johansen_cov M price1 price2).2.2)
            - 4 * ((johansen_cov M price1 price2).1 * (johansen_cov M price1 price2).2.2
              - (johansen_cov M price1 price2).2.1 * (johansen_cov M price1 price2).2.1)) :=
  rfl

/-- Where `johansen_test_double` without rounding returns a number, it is the value
of `johansen_test`. -/
theorem johansen_test_double_exact (M : Libm F) (price1 price2 : CircularBuffer F) (v : F)
    (h : johansen_test_double (DoubleOps.exact M) price1 price2 = some v) :
    v = johansen_test M price1 price2 := by
  unfold johansen_test_double at h
  unfold johansen_test
  simp only [] at h ⊢
  split_ifs at h ⊢ with hg hd ha
  · exact (Option.some.inj h).symm
  · exact (Option.some.inj h).symm

/-! ### Evaluations in binary64 arithmetic -/

/-- C13, evaluated on the code in binary64 arithmetic.  The `double` nearest to 0.1 is
pushed twenty times into a fresh window of capacity 20: the twenty rounded
additions and the division give a `rolling_mean` of `0.10000000000000002`, one
unit in the last place above the value pushed; `rolling_std` is about `1.4e-17`
and not 0, the guard `std == 0.0` of `calculate_z_score` does not fire, and the
z-score of the value pushed is about `-0.97`, not 0.  With 100.0, the scenario of
the specification, every partial sum is exact and mean, deviation and z-score are
100, 0 and 0. -/
theorem constant_window_double_rounding :
    round64 (1 / 10) = 3602879701896397 / 36028797018963968 ∧
    rolling_mean_double binary64 (cb_pushes 20 (List.replicate 20 (round64 (1 / 10))))
      = 7205759403792795 / 72057594037927936 ∧
    rolling_mean_double binary64 (cb_pushes 20 (List.replicate 20 (round64 (1 / 10))))
      ≠ round64 (1 / 10) ∧
    rolling_std_double binary64 (cb_pushes 20 (List.replicate 20 (round64 (1 / 10))))
      = 4620595724140895 / 324518553658426726783156020576256 ∧
    calculate_z_score_double binary64 (round64 (1 / 10))
      (rolling_mean_double binary64 (cb_pushes 20 (List.replicate 20 (round64 (1 / 10)))))
      (rolling_std_double binary64 (cb_pushes 20 (List.replicate 20 (round64 (1 / 10)))))
      = -8779131875867703 / 9007199254740992 ∧
    calculate_z_score_double binary64 (round64 (1 / 10))
      (rolling_mean_double binary64 (cb_pushes 20 (List.replicate 20 (round64 (1 / 10)))))
      (rolling_std_double binary64 (cb_pushes 20 (List.replicate 20 (round64 (1 / 10)))))
      < -97 / 100 ∧
    rolling_mean_double binary64 (cb_pushes 20 (List.replicate 20 100)) = 100 ∧
    rolling_std_double binary64 (cb_pushes 20 (List.replicate 20 100)) = 0 ∧
    calculate_z_score_double binary64 100
      (rolling_mean_double binary64 (cb_pushes 20 (List.replicate 20 100)))
      (rolling_std_double binary64 (cb_pushes 20 (List.replicate 20 100))) = 0 := by
  decide!

/-- C20, evaluated on the code in binary64 arithmetic.  Two windows of twenty equal
elements each (the `double`s nearest to 100.1 and to 95.3) have zero variance, but
each rounded mean differs from the element, the two sums of squared deviations
are not 0, the guard `denominator == 0.0` does not fire and
`calculate_correlation` returns 1, not 0; so it does for a window of twenty times
0.1 against itself.  With the elements 100 and 95, whose partial sums are exact, it
returns 0. -/
theorem constant_windows_correlation_double :
    calculate_correlation_double binary64
      (cb_pushes 20 (List.replicate 20 (round64 (1001 / 10))))
      (cb_pushes 20 (List.replicate 20 (round64 (953 / 10)))) = 1 ∧
    calculate_correlation_double binary64
      (cb_pushes 20 (List.replicate 20 (round64 (1 / 10))))
      (cb_pushes 20 (List.replicate 20 (round64 (1 / 10)))) = 1 ∧
    calculate_correlation_double binary64
      (cb_pushes 20 (List.replicate 20 100)) (cb_pushes 20 (List.replicate 20 95)) = 0 := by
  decide!

/-- C24, evaluated on the code in binary64 arithmetic, AVX2 build.  On the two
windows of twenty times 100.1 and twenty times 95.3 (zero variance) the scalar and
the vectorised path differ: the four lane sums of `simd_rolling_mean` round to a
total whose twentieth is the element itself, the one running sum of `rolling_mean`
rounds to the mean `100.09999999999997`; `simd_cb_rolling_std` is 0 and
`rolling_std` is about `2.9e-14`; `simd_cb_correlation` returns 0 and
`calculate_correlation` returns 1.
Without AVX2 the loops of the two paths are the same and `simd_cb_correlation`
returns 1 as well. -/
theorem simd_differs_from_scalar_double :
    simd_cb_rolling_mean_double true binary64
      (cb_pushes 20 (List.replicate 20 (round64 (1001 / 10)))) = round64 (1001 / 10) ∧
    rolling_mean_double binary64 (cb_pushes 20 (List.replicate 20 (round64 (1001 / 10))))
      = 1760977823046041 / 17592186044416 ∧
    rolling_mean_double binary64 (cb_pushes 20 (List.replicate 20 (round64 (1001 / 10))))
      ≠ simd_cb_rolling_mean_double true binary64
          (cb_pushes 20 (List.replicate 20 (round64 (1001 / 10)))) ∧
    simd_cb_rolling_std_double true binary64
      (cb_pushes 20 (List.replicate 20 (round64 (1001 / 10)))) = 0 ∧
    rolling_std_double binary64 (cb_pushes 20 (List.replicate 20 (round64 (1001 / 10))))
      = 4620595724140895 / 158456325028528675187087900672 ∧
    simd_cb_correlation_double true binary64
      (cb_pushes 20 (List.replicate 20 (round64 (1001 / 10))))
      (cb_pushes 20 (List.replicate 20 (round64 (953 / 10)))) = 0 ∧
    calculate_correlation_double binary64
      (cb_pushes 20 (List.replicate 20 (round64 (1001 / 10))))
      (cb_pushes 20 (List.replicate 20 (round64 (953 / 10)))) = 1 ∧
    simd_cb_correlation_double false binary64
      (cb_pushes 20 (List.replicate 20 (round64 (1001 / 10))))
      (cb_pushes 20 (List.replicate 20 (round64 (953 / 10)))) = 1 := by
  decide!

/-- C26, evaluated on the code in binary64 arithmetic.  On the windows
`x = 1, 2, ..., 10` and `y = 1.0, 1.7, 2.4, ..., 7.3` (the `double`s nearest to
`0.7 x + 0.3`) the residuals are rounding errors of the order `1e-16`, their
computed mean is not 0, their computed deviation is positive, and
`engle_granger_test` returns about `-4.125`; `test_cointegration` rejects the null
hypothesis with it at the critical value `-3.34`.  On a scattered window,
`y = 1.1, 2.3, 2.9, 4.2, 5.1, 5.8, 7.2, 8.1, 8.8, 10.3`, whose residual deviation is
about 0.2, the statistic is about `5.6e-15`, small but not 0. -/
theorem engle_granger_double_rejects :
    engle_granger_test_double binary64
      (cb_pushes 10 ([1, 17 / 10, 24 / 10, 31 / 10, 38 / 10, 45 / 10, 52 / 10, 59 / 10, 66 / 10,
        73 / 10].map round64))
      (cb_pushes 10 [1, 2, 3, 4, 5, 6, 7, 8, 9, 10])
      = -4644337115725825 / 1125899906842624 ∧
    test_cointegration
      (engle_granger_test_double binary64
        (cb_pushes 10 ([1, 17 / 10, 24 / 10, 31 / 10, 38 / 10, 45 / 10, 52 / 10, 59 / 10,
          66 / 10, 73 / 10].map round64))
        (cb_pushes 10 [1, 2, 3, 4, 5, 6, 7, 8, 9, 10]))
      (round64 (-334 / 100)) = true ∧
    engle_granger_test_double binary64
      (cb_pushes 10 ([11 / 10, 23 / 10, 29 / 10, 42 / 10, 51 / 10, 58 / 10, 72 / 10, 81 / 10,
        88 / 10, 103 / 10].map round64))
      (cb_pushes 10 [1, 2, 3, 4, 5, 6, 7, 8, 9, 10])
      = 7159804450386491 / 1267650600228229401496703205376 := by
  decide!

/-- C39, evaluated on the code in binary64 arithmetic.  On the collinear windows
`1, 2, 4` and `3, 6, 12` `calculate_correlation` returns `1 + 2 ^ (-52)`, the
`double` next above 1: the quotient of the rounded cross sum by the rounded root is
returned as it is. -/
theorem correlation_double_exceeds_one :
    calculate_correlation_double binary64 (cb_pushes 5 [1, 2, 4]) (cb_pushes 5 [3, 6, 12])
      = 4503599627370497 / 4503599627370496 ∧
    1 < calculate_correlation_double binary64 (cb_pushes 5 [1, 2, 4]) (cb_pushes 5 [3, 6, 12]) := by
  decide!

/-- C40, evaluated on the code in binary64 arithmetic.  The two windows hold 21
prices each, the cycle 10, 11, 12.1, 11 and the same cycle three steps ahead, all
positive.  The covariance entries that `johansen_test` computes are positive on
the diagonal and 0 off it, and the rounded discriminant
`trace * trace - 4 * det` is `-2 ^ (-64)`, below 0: its `sqrt` is NaN and
`johansen_test` returns NaN, not a number that is `≥ 0`.  With 37 prices of the
same two cycles, a length at which `generate_enhanced_pairs_signal` calls
`johansen_test` (it does from 30 prices on), the discriminant is negative and
the result NaN as well. -/
theorem johansen_double_negative_discriminant :
    johansen_discriminant_double binary64
      (cb_pushes 21 ((List.range 21).map (fun (i : Nat) =>
        round64 (([10, 11, 121 / 10, 11] : List ℚ).getD (i % 4) 0))))
      (cb_pushes 21 ((List.range 21).map (fun (i : Nat) =>
        round64 (([10, 11, 121 / 10, 11] : List ℚ).getD ((i + 3) % 4) 0))))
      = (5512196824773681 / 576460752303423488, 0, 344512301548355 / 36028797018963968,
          1686668240355185 / 18446744073709551616, 344512301548355 / 18014398509481984,
          -1 / 18446744073709551616) ∧
    johansen_test_double binary64
      (cb_pushes 21 ((List.range 21).map (fun (i : Nat) =>
        round64 (([10, 11, 121 / 10, 11] : List ℚ).getD (i % 4) 0))))
      (cb_pushes 21 ((List.range 21).map (fun (i : Nat) =>
        round64 (([10, 11, 121 / 10, 11] : List ℚ).getD ((i + 3) % 4) 0)))) = none ∧
    (johansen_discriminant_double binary64
      (cb_pushes 37 ((List.range 37).map (fun (i : Nat) =>
        round64 (([10, 11, 121 / 10, 11] : List ℚ).getD (i % 4) 0))))
      (cb_pushes 37 ((List.range 37).map (fun (i : Nat) =>
        round64 (([10, 11, 121 / 10, 11] : List ℚ).getD ((i + 3) % 4) 0))))).2.2.2.2.2 < 0 ∧
    johansen_test_double binary64
      (cb_pushes 37 ((List.range 37).map (fun (i : Nat) =>
        round64 (([10, 11, 121 / 10, 11] : List ℚ).getD (i % 4) 0))))
      (cb_pushes 37 ((List.range 37).map (fun (i : Nat) =>
        round64 (([10, 11, 121 / 10, 11] : List ℚ).getD ((i + 3) % 4) 0)))) = none := by
  decide!

/-! ### The spread of the enhanced orchestrator against its siblings -/

/-- C28, evaluated on the code: the first tick, with prices (2, 1), on the tracker
that `create_enhanced_pair_tracker(50, true)` returns (for either build, every
attention scorer, every attention layer and cache, and whatever value the field
`last_update_micro`, which the constructor does not set, holds), with the statics
at their initial values.  Dynamic hedging is enabled and one price is buffered,
fewer than 20: the hedge ratio is 1 and the spread reported and pushed is
`2 - 1 * 1 = 1`, not `log 2 - log 1`; `generate_pairs_signal` reports
`log 2 - log 1` for the same tick. -/
theorem enhanced_spread_differs_from_sibling (avx : Bool)
    (attention_zscore : CircularBuffer ℝ → AttentionLayer ℝ → ℝ)
    (attention_layer : Option (AttentionLayer ℝ))
    (attention_output : Option (AttentionOutput ℝ)) (last_update_micro : Int) :
    ∃ r : SignalStatics ℝ × PairTracker ℝ × PairSignal ℝ,
      generate_enhanced_pairs_signal avx (⟨Real.sqrt, Real.log⟩ : Libm ℝ) attention_zscore
        ⟨0, ⟨0, 0⟩, 0⟩
        { (create_enhanced_pair_tracker 50 true attention_layer attention_output :
            PairTracker ℝ) with last_update_micro := last_update_micro }
        2 1 2 2 1 1 0 = some r ∧
      r.2.2.hedge_ratio = 1 ∧ r.2.2.spread = 1 ∧
      r.2.1.spread_buffer = cb_push (create_circular_buffer 50) 1 ∧
      r.2.2.spread ≠ Real.log 2 - Real.log 1 ∧
      (generate_pairs_signal (⟨Real.sqrt, Real.log⟩ : Libm ℝ) 0 (create_pair_tracker 50)
        2 1).2.2.spread = Real.log 2 - Real.log 1 := by
  obtain ⟨r, hr, h1, h2, -, h4⟩ := generate_enhanced_pairs_signal_spread avx
    (⟨Real.sqrt, Real.log⟩ : Libm ℝ) attention_zscore ⟨0, ⟨0, 0⟩, 0⟩
    { (create_enhanced_pair_tracker 50 true attention_layer attention_output :
        PairTracker ℝ) with last_update_micro := last_update_micro }
    2 1 2 2 1 1 0
    (create_circular_buffer 50) (create_circular_buffer 50) (create_circular_buffer 50)
    rfl rfl rfl
  have hsz : ¬ (({ (create_enhanced_pair_tracker 50 true attention_layer attention_output :
        PairTracker ℝ) with last_update_micro := last_update_micro } :
          PairTracker ℝ).use_dynamic_hedging = true ∧
      cb_size (cb_push ({ (create_enhanced_pair_tracker 50 true attention_layer
        attention_output : PairTracker ℝ) with last_update_micro := last_update_micro } :
          PairTracker ℝ).price_buffer1 2) ≥ 20) := by
    intro h
    have h20 := h.2
    simp [create_enhanced_pair_tracker, create_pair_tracker, create_circular_buffer, cb_push,
      cb_size] at h20
  rw [if_neg hsz] at h1
  have hs : r.2.2.spread = 1 := by
    rw [h2, h1]
    norm_num
  refine ⟨r, hr, h1, hs, ?_, ?_, rfl⟩
  · rw [h4, hs]
    rfl
  · rw [hs, Real.log_one, sub_zero]
    have := Real.log_two_lt_d9
    intro h
    rw [← h] at this
    norm_num at this

/-! ### The Engle-Granger statistic without rounding -/

/-- C26 (amended): in exact arithmetic, that is with the rounding of
`engle_granger_test_double` removed, the residual window has mean 0 for
equal-size windows with at least 10 samples whatever the slope is, and the
statistic is 0 on every input.  With the rounding of binary64 the statistic is
the rounding error of that mean over the computed deviation, which the
evaluation above finds to be about `-4.125` on a window pair. -/
theorem engle_granger_zero_without_rounding (M : Libm F) (y x : CircularBuffer F) :
    (∀ beta : F, cb_size x = cb_size y → 10 ≤ cb_size x →
      rolling_mean_double (DoubleOps.exact M) (engle_granger_residuals y x beta) = 0) ∧
    engle_granger_test_double (DoubleOps.exact M) y x = 0 :=
  ⟨(engle_granger_statistic_is_zero M y x).1, (engle_granger_statistic_is_zero M y x).2.1⟩

/-! ### The rounding of binary64: relative error at most `2 ^ (-53)` -/

theorem log2_fuel_spec (fuel : Nat) : ∀ n : Nat, n < 2 ^ fuel →
    (1 ≤ n → 2 ^ log2_fuel fuel n ≤ n) ∧ n < 2 ^ (log2_fuel fuel n + 1) := by
  induction fuel with
  | zero =>
    intro n hn
    have h0 : n = 0 := by simpa using hn
    subst h0
    simp [log2_fuel]
  | succ fuel ih =>
    intro n hn
    rw [log2_fuel]
    split_ifs with h2
    · constructor
      · intro h1
        simpa using h1
      · simpa using h2
    · have hhalf : n / 2 < 2 ^ fuel := by
        rw [pow_succ] at hn
        omega
      obtain ⟨hl, hu⟩ := ih (n / 2) hhalf
      have hl := hl (by omega)
      constructor
      · intro _
        rw [pow_succ]
        omega
      · rw [pow_succ]
        omega

theorem ilog2_spec (n : Nat) (hn : 1 ≤ n) : 2 ^ ilog2 n ≤ n ∧ n < 2 ^ (ilog2 n + 1) :=
  ⟨(log2_fuel_spec n n (Nat.lt_two_pow n)).1 hn, (log2_fuel_spec n n (Nat.lt_two_pow n)).2⟩

theorem pow2_eq_zpow (k : Int) : pow2 k = (2 : ℚ) ^ k := by
  unfold pow2
  split_ifs with h
  · have hk : k = ((k.toNat : Nat) : Int) := (Int.toNat_of_nonneg h).symm
    conv_rhs => rw [hk]
    rw [zpow_natCast]
    push_cast
    rfl
  · have hk : k = -(((-k).toNat : Nat) : Int) := by
      rw [Int.toNat_of_nonneg (by omega)]
      ring
    conv_rhs => rw [hk]
    rw [zpow_neg, zpow_natCast]
    push_cast
    rw [one_div]

theorem pow2_pos (k : Int) : 0 < pow2 k := by
  rw [pow2_eq_zpow]
  positivity

theorem rat_abs_eq (x : ℚ) : |x| = (x.num.natAbs : ℚ) / (x.den : ℚ) := by
  conv_lhs => rw [← Rat.num_div_den x]
  rw [abs_div, Nat.abs_cast, Nat.cast_natAbs, Int.cast_abs]

/-- The exponent of `binade` is not above the binary exponent: `2 ^ e ≤ |x|`. -/
theorem binade_le (x : ℚ) (hx : x ≠ 0) : (2 : ℚ) ^ binade x ≤ |x| := by
  unfold binade
  simp only []
  split_ifs with h
  · rwa [pow2_eq_zpow] at h
  · have hnum : 1 ≤ x.num.natAbs := by
      have : x.num ≠ 0 := Rat.num_ne_zero.mpr hx
      omega
    obtain ⟨ha, -⟩ := ilog2_spec x.num.natAbs hnum
    obtain ⟨-, hb⟩ := ilog2_spec x.den x.den_pos
    rw [rat_abs_eq, le_div_iff₀ (by exact_mod_cast x.den_pos)]
    have haq : ((2 : ℚ) ^ ilog2 x.num.natAbs) ≤ (x.num.natAbs : ℚ) := by exact_mod_cast ha
    have hbq : (x.den : ℚ) ≤ (2 : ℚ) ^ (ilog2 x.den + 1) := by exact_mod_cast hb.le
    have he : (2 : ℚ) ^ ((ilog2 x.num.natAbs : Int) - (ilog2 x.den : Int) - 1)
        = (2 : ℚ) ^ ilog2 x.num.natAbs / (2 : ℚ) ^ (ilog2 x.den + 1) := by
      rw [show ((ilog2 x.num.natAbs : Int) - (ilog2 x.den : Int) - 1)
        = (ilog2 x.num.natAbs : Int) - ((ilog2 x.den + 1 : Nat) : Int) by push_cast; ring]
      rw [zpow_sub₀ (by norm_num), zpow_natCast, zpow_natCast]
    rw [he, div_mul_eq_mul_div, div_le_iff₀ (by positivity)]
    calc (2 : ℚ) ^ ilog2 x.num.natAbs * (x.den : ℚ)
        ≤ (2 : ℚ) ^ ilog2 x.num.natAbs * (2 : ℚ) ^ (ilog2 x.den + 1) :=
          mul_le_mul_of_nonneg_left hbq (by positivity)
      _ ≤ (x.num.natAbs : ℚ) * (2 : ℚ) ^ (ilog2 x.den + 1) :=
          mul_le_mul_of_nonneg_right haq (by positivity)

theorem round_half_even_error (y : ℚ) : |((round_half_even y : Int) : ℚ) - y| ≤ 1 / 2 := by
  unfold round_half_even
  simp only []
  have h1 := Int.floor_le y
  have h2 := Int.lt_floor_add_one y
  split_ifs with ha hb hc
  · rw [abs_le]
    constructor <;> linarith
  · rw [abs_le]
    push_cast
    constructor <;> linarith
  · rw [abs_le]
    constructor <;> linarith
  · rw [abs_le]
    push_cast
    constructor <;> linarith

/-- The rounding of binary64 has relative error at most `2 ^ (-53)`. -/
theorem round64_error (x : ℚ) : |round64 x - x| ≤ (1 / 2 ^ 53) * |x| := by
  unfold round64
  split_ifs with h0
  · rw [h0]
    simp
  · have hs := pow2_pos (52 - binade x)
    have hb := binade_le x h0
    have he := round_half_even_error (x * pow2 (52 - binade x))
    have hsplit : ((round_half_even (x * pow2 (52 - binade x)) : Int) : ℚ) / pow2 (52 - binade x) - x
        = (((round_half_even (x * pow2 (52 - binade x)) : Int) : ℚ) - x * pow2 (52 - binade x))
          / pow2 (52 - binade x) := by
      field_simp
      ring
    rw [hsplit, abs_div, abs_of_pos hs, div_le_iff₀ hs]
    have hp : pow2 (52 - binade x) * (2 : ℚ) ^ binade x = 2 ^ 52 := by
      rw [pow2_eq_zpow, ← zpow_add₀ (by norm_num)]
      norm_num
    calc |((round_half_even (x * pow2 (52 - binade x)) : Int) : ℚ) - x * pow2 (52 - binade x)|
        ≤ 1 / 2 := he
      _ = (1 / 2 ^ 53) * (2 : ℚ) ^ binade x * pow2 (52 - binade x) := by
          rw [mul_assoc, mul_comm ((2 : ℚ) ^ binade x), hp]
          norm_num
      _ ≤ (1 / 2 ^ 53) * |x| * pow2 (52 - binade x) := by
          apply mul_le_mul_of_nonneg_right _ hs.le
          exact mul_le_mul_of_nonneg_left hb (by positivity)

/-- With `binade_le`: the exponent of `binade` is the binary exponent,
`2 ^ e ≤ |x| < 2 ^ (e + 1)`. -/
theorem binade_lt (x : ℚ) (hx : x ≠ 0) : |x| < (2 : ℚ) ^ (binade x + 1) := by
  unfold binade
  simp only []
  split_ifs with h
  · have hnum : 1 ≤ x.num.natAbs := by
      have : x.num ≠ 0 := Rat.num_ne_zero.mpr hx
      omega
    obtain ⟨-, ha⟩ := ilog2_spec x.num.natAbs hnum
    obtain ⟨hb, -⟩ := ilog2_spec x.den x.den_pos
    rw [rat_abs_eq, div_lt_iff₀ (by exact_mod_cast x.den_pos)]
    have haq : (x.num.natAbs : ℚ) < (2 : ℚ) ^ (ilog2 x.num.natAbs + 1) := by exact_mod_cast ha
    have hbq : (2 : ℚ) ^ ilog2 x.den ≤ (x.den : ℚ) := by exact_mod_cast hb
    have he : (2 : ℚ) ^ ((ilog2 x.num.natAbs : Int) - (ilog2 x.den : Int) + 1)
        = (2 : ℚ) ^ (ilog2 x.num.natAbs + 1) / (2 : ℚ) ^ ilog2 x.den := by
      rw [show ((ilog2 x.num.natAbs : Int) - (ilog2 x.den : Int) + 1)
        = ((ilog2 x.num.natAbs + 1 : Nat) : Int) - ((ilog2 x.den : Nat) : Int) by push_cast; ring]
      rw [zpow_sub₀ (by norm_num), zpow_natCast, zpow_natCast]
    rw [he, div_mul_eq_mul_div, lt_div_iff₀ (by positivity)]
    calc (x.num.natAbs : ℚ) * (2 : ℚ) ^ ilog2 x.den
        < (2 : ℚ) ^ (ilog2 x.num.natAbs + 1) * (2 : ℚ) ^ ilog2 x.den :=
          mul_lt_mul_of_pos_right haq (by positivity)
      _ ≤ (2 : ℚ) ^ (ilog2 x.num.natAbs + 1) * (x.den : ℚ) :=
          mul_le_mul_of_nonneg_left hbq (by positivity)
  · rw [pow2_eq_zpow] at h
    rw [sub_add_cancel]
    exact not_le.mp h

/-- The value of `round64` is an integer multiple of `2 ^ (e - 52)`, `e` the binary
exponent of the argument, at distance at most `2 ^ (e - 53)` from it. -/
theorem round64_grid (x : ℚ) (hx : x ≠ 0) :
    round64 x = ((round_half_even (x * pow2 (52 - binade x)) : Int) : ℚ)
        * (2 : ℚ) ^ (binade x - 52) ∧
      |round64 x - x| ≤ (2 : ℚ) ^ (binade x - 53) := by
  have hs := pow2_pos (52 - binade x)
  have he := round_half_even_error (x * pow2 (52 - binade x))
  have hinv : (2 : ℚ) ^ (binade x - 52) = 1 / pow2 (52 - binade x) := by
    rw [pow2_eq_zpow, one_div, ← zpow_neg]
    congr 1
    ring
  have hval : round64 x = ((round_half_even (x * pow2 (52 - binade x)) : Int) : ℚ)
      * (2 : ℚ) ^ (binade x - 52) := by
    rw [round64, if_neg hx, hinv, mul_one_div]
  refine ⟨hval, ?_⟩
  have hsplit : round64 x - x
      = (((round_half_even (x * pow2 (52 - binade x)) : Int) : ℚ) - x * pow2 (52 - binade x))
        * (2 : ℚ) ^ (binade x - 52) := by
    rw [hval, hinv]
    field_simp
    ring
  have h53 : (2 : ℚ) ^ (binade x - 53) = 1 / 2 * (2 : ℚ) ^ (binade x - 52) := by
    rw [show binade x - 53 = (binade x - 52) + (-1) by ring, zpow_add₀ (by norm_num)]
    norm_num
    ring
  rw [hsplit, abs_mul, abs_of_pos (by positivity : (0 : ℚ) < 2 ^ (binade x - 52)), h53]
  exact mul_le_mul_of_nonneg_right he (by positivity)

/-! ### The square root of binary64 -/

theorem isqrt_bits_spec (n : Nat) : ∀ b r : Nat, r * r ≤ n →
    n < (r + 2 ^ (b + 1)) * (r + 2 ^ (b + 1)) →
    isqrt_bits n b r * isqrt_bits n b r ≤ n ∧
      n < (isqrt_bits n b r + 1) * (isqrt_bits n b r + 1) := by
  intro b
  induction b with
  | zero =>
    intro r h1 h2
    rw [isqrt_bits]
    split_ifs with h
    · exact ⟨h, by simpa [add_assoc] using h2⟩
    · exact ⟨h1, not_le.mp h⟩
  | succ b ih =>
    intro r h1 h2
    rw [isqrt_bits]
    split_ifs with h
    · apply ih _ h
      have he : r + 2 ^ (b + 1) + 2 ^ (b + 1) = r + 2 ^ (b + 1 + 1) := by
        rw [pow_succ 2 (b + 1)]
        omega
      rw [he]
      exact h2
    · exact ih _ h1 (not_le.mp h)

/-- `isqrt n` is the integer square root of `n`. -/
theorem isqrt_spec (n : Nat) : isqrt n * isqrt n ≤ n ∧ n < (isqrt n + 1) * (isqrt n + 1) := by
  unfold isqrt
  apply isqrt_bits_spec n _ 0 (by simp)
  rw [zero_add, ← pow_add]
  rcases Nat.eq_zero_or_pos n with h | h
  · rw [h]
    positivity
  · obtain ⟨-, hu⟩ := ilog2_spec n h
    refine lt_of_lt_of_le hu (Nat.pow_le_pow_right (by norm_num) ?_)
    omega

/-- The square root of binary64 is non-negative and has relative error at most
`2 ^ (-53)`: `(1 - u) ^ 2 * x ≤ sqrt64 x * sqrt64 x ≤ (1 + u) ^ 2 * x`. -/
theorem sqrt64_spec (x : ℚ) (hx : 0 ≤ x) :
    0 ≤ sqrt64 x ∧ (1 - 1 / 2 ^ 53) ^ 2 * x ≤ sqrt64 x * sqrt64 x ∧
      sqrt64 x * sqrt64 x ≤ (1 + 1 / 2 ^ 53) ^ 2 * x := by
  unfold sqrt64
  split_ifs with h0
  · have : x = 0 := le_antisymm h0 hx
    rw [this]
    norm_num
  · simp only []
    have hxpos : 0 < x := lt_of_not_ge h0
    have hb := binade_le x (ne_of_gt hxpos)
    rw [abs_of_pos hxpos] at hb
    set j : Int := 53 - binade x / 2 with hj
    set y : ℚ := x * pow2 (2 * j) with hy
    set t : Nat := isqrt (Int.floor y).toNat with ht
    have hpj := pow2_pos j
    have hp2 : pow2 (2 * j) = pow2 j * pow2 j := by
      rw [pow2_eq_zpow, pow2_eq_zpow, two_mul, zpow_add₀ (by norm_num)]
    -- y is at least 2 ^ 106
    have hy106 : (2 : ℚ) ^ (106 : Nat) ≤ y := by
      have h1 : (2 : ℚ) ^ (106 : Int) ≤ (2 : ℚ) ^ (binade x + 2 * j) :=
        zpow_le_zpow_right₀ (by norm_num) (by omega)
      rw [zpow_add₀ (by norm_num)] at h1
      rw [hy, pow2_eq_zpow]
      calc (2 : ℚ) ^ (106 : Nat) = (2 : ℚ) ^ (106 : Int) := by norm_cast
        _ ≤ (2 : ℚ) ^ binade x * (2 : ℚ) ^ (2 * j) := h1
        _ ≤ x * (2 : ℚ) ^ (2 * j) := mul_le_mul_of_nonneg_right hb (by positivity)
    have hy0 : 0 ≤ y := le_trans (by positivity) hy106
    have hfl0 : 0 ≤ Int.floor y := Int.floor_nonneg.mpr hy0
    have hNcast : (((Int.floor y).toNat : Nat) : ℚ) = ((Int.floor y : Int) : ℚ) := by
      rw [← Int.cast_natCast, Int.toNat_of_nonneg hfl0]
    have hNle : (((Int.floor y).toNat : Nat) : ℚ) ≤ y := by
      rw [hNcast]
      exact Int.floor_le y
    have hNlt : y < (((Int.floor y).toNat : Nat) : ℚ) + 1 := by
      rw [hNcast]
      exact Int.lt_floor_add_one y
    have hN106 : 2 ^ 106 ≤ (Int.floor y).toNat := by
      have hc : (((2 ^ 106 : Nat) : Int) : ℚ) = (2 : ℚ) ^ (106 : Nat) := by norm_cast
      have : ((2 ^ 106 : Nat) : Int) ≤ Int.floor y := by
        rw [Int.le_floor, hc]
        exact hy106
      exact (Int.le_toNat hfl0).mpr this
    obtain ⟨hlo, hhi⟩ := isqrt_spec (Int.floor y).toNat
    rw [← ht] at hlo hhi
    have ht53 : 2 ^ 53 ≤ t := by
      by_contra hc
      have hc1 : t + 1 ≤ 2 ^ 53 := by omega
      have := Nat.mul_le_mul hc1 hc1
      have h106 : (2 : Nat) ^ 53 * 2 ^ 53 = 2 ^ 106 := by norm_num
      omega
    have ht53q : (2 : ℚ) ^ 53 ≤ (t : ℚ) := by exact_mod_cast ht53
    have ht0 : (0 : ℚ) ≤ (t : ℚ) := Nat.cast_nonneg t
    have hyt : y < ((t : ℚ) + 1) * ((t : ℚ) + 1) := by
      have : (((Int.floor y).toNat : Nat) : ℚ) + 1 ≤ ((t : ℚ) + 1) * ((t : ℚ) + 1) := by
        have h := Nat.succ_le_of_lt hhi
        exact_mod_cast h
      linarith
    have hty : (t : ℚ) * (t : ℚ) ≤ y := by
      have : (t : ℚ) * (t : ℚ) ≤ (((Int.floor y).toNat : Nat) : ℚ) := by exact_mod_cast hlo
      linarith
    have hu1 : (0 : ℚ) ≤ 1 - 1 / 2 ^ 53 := by norm_num
    have hule : (1 - 1 / 2 ^ 53 : ℚ) ≤ 1 := by norm_num
    have hone : (1 : ℚ) ≤ 1 / 2 ^ 53 * (t : ℚ) := by
      rw [one_div, inv_mul_eq_div, le_div_iff₀ (by positivity)]
      linarith
    have hy_up : y ≤ (1 + 1 / 2 ^ 53 : ℚ) ^ 2 * y := by
      have h1 : (1 : ℚ) ≤ (1 + 1 / 2 ^ 53 : ℚ) ^ 2 := one_le_pow₀ (by norm_num)
      calc y = 1 * y := (one_mul y).symm
        _ ≤ _ := mul_le_mul_of_nonneg_right h1 hy0
    -- the three values of the significand, from below
    have key_up : (1 - 1 / 2 ^ 53 : ℚ) ^ 2 * y ≤ ((t : ℚ) + 1) * ((t : ℚ) + 1) := by
      have h1 : (1 - 1 / 2 ^ 53 : ℚ) ^ 2 ≤ 1 := pow_le_one₀ hu1 hule
      calc (1 - 1 / 2 ^ 53 : ℚ) ^ 2 * y ≤ 1 * y := mul_le_mul_of_nonneg_right h1 hy0
        _ = y := one_mul y
        _ ≤ _ := hyt.le
    have key_even : (1 - 1 / 2 ^ 53 : ℚ) ^ 2 * y ≤ (t : ℚ) * (t : ℚ) := by
      have h1 : (1 - 1 / 2 ^ 53 : ℚ) * ((t : ℚ) + 1) ≤ (t : ℚ) := by
        have : (1 : ℚ) ≤ 1 / 2 ^ 53 * ((t : ℚ) + 1) := by linarith
        linarith
      have h2 : 0 ≤ (1 - 1 / 2 ^ 53 : ℚ) * ((t : ℚ) + 1) := by positivity
      calc (1 - 1 / 2 ^ 53 : ℚ) ^ 2 * y
          ≤ (1 - 1 / 2 ^ 53 : ℚ) ^ 2 * (((t : ℚ) + 1) * ((t : ℚ) + 1)) :=
            mul_le_mul_of_nonneg_left hyt.le (by positivity)
        _ = ((1 - 1 / 2 ^ 53 : ℚ) * ((t : ℚ) + 1)) * ((1 - 1 / 2 ^ 53 : ℚ) * ((t : ℚ) + 1)) := by
            ring
        _ ≤ (t : ℚ) * (t : ℚ) := mul_le_mul h1 h1 h2 ht0
    have key_down : ((t * t : Nat) : ℚ) = y →
        (1 - 1 / 2 ^ 53 : ℚ) ^ 2 * y ≤ ((t : ℚ) - 1) * ((t : ℚ) - 1) := by
      intro hsq
      have h1 : (1 - 1 / 2 ^ 53 : ℚ) * (t : ℚ) ≤ (t : ℚ) - 1 := by linarith
      have h2 : 0 ≤ (1 - 1 / 2 ^ 53 : ℚ) * (t : ℚ) := by positivity
      rw [← hsq]
      push_cast
      calc (1 - 1 / 2 ^ 53 : ℚ) ^ 2 * ((t : ℚ) * (t : ℚ))
          = ((1 - 1 / 2 ^ 53 : ℚ) * (t : ℚ)) * ((1 - 1 / 2 ^ 53 : ℚ) * (t : ℚ)) := by ring
        _ ≤ ((t : ℚ) - 1) * ((t : ℚ) - 1) := mul_le_mul h1 h1 h2 (by linarith)
    -- and from above
    have top_even : (t : ℚ) * (t : ℚ) ≤ (1 + 1 / 2 ^ 53 : ℚ) ^ 2 * y := le_trans hty hy_up
    have top_up : ((t : ℚ) + 1) * ((t : ℚ) + 1) ≤ (1 + 1 / 2 ^ 53 : ℚ) ^ 2 * y := by
      have h1 : (t : ℚ) + 1 ≤ (1 + 1 / 2 ^ 53 : ℚ) * (t : ℚ) := by linarith
      calc ((t : ℚ) + 1) * ((t : ℚ) + 1)
          ≤ ((1 + 1 / 2 ^ 53 : ℚ) * (t : ℚ)) * ((1 + 1 / 2 ^ 53 : ℚ) * (t : ℚ)) :=
            mul_le_mul h1 h1 (by positivity) (by positivity)
        _ = (1 + 1 / 2 ^ 53 : ℚ) ^ 2 * ((t : ℚ) * (t : ℚ)) := by ring
        _ ≤ _ := mul_le_mul_of_nonneg_left hty (by positivity)
    have top_down : ((t : ℚ) - 1) * ((t : ℚ) - 1) ≤ (1 + 1 / 2 ^ 53 : ℚ) ^ 2 * y := by
      have h1 : ((t : ℚ) - 1) * ((t : ℚ) - 1) ≤ (t : ℚ) * (t : ℚ) :=
        mul_le_mul (by linarith) (by linarith) (by linarith) ht0
      exact le_trans h1 top_even
    -- reduce the goal to the significand
    have reduce : ∀ m : Nat, (1 - 1 / 2 ^ 53 : ℚ) ^ 2 * y ≤ (m : ℚ) * (m : ℚ) →
        (m : ℚ) * (m : ℚ) ≤ (1 + 1 / 2 ^ 53 : ℚ) ^ 2 * y →
        0 ≤ (m : ℚ) / pow2 j ∧
          (1 - 1 / 2 ^ 53 : ℚ) ^ 2 * x ≤ (m : ℚ) / pow2 j * ((m : ℚ) / pow2 j) ∧
          (m : ℚ) / pow2 j * ((m : ℚ) / pow2 j) ≤ (1 + 1 / 2 ^ 53 : ℚ) ^ 2 * x := by
      intro m hm hm2
      refine ⟨by positivity, ?_, ?_⟩
      · rw [div_mul_div_comm, le_div_iff₀ (mul_pos hpj hpj), ← hp2, mul_assoc]
        exact hm
      · rw [div_mul_div_comm, div_le_iff₀ (mul_pos hpj hpj), ← hp2, mul_assoc]
        exact hm2
    have ht1 : 1 ≤ t := le_trans (by norm_num) ht53
    split_ifs with he hsq h4
    · exact reduce _ key_even top_even
    · apply reduce
      · push_cast
        exact key_up
      · push_cast
        exact top_up
    · apply reduce
      · rw [Nat.cast_sub ht1]
        push_cast
        exact key_down hsq
      · rw [Nat.cast_sub ht1]
        push_cast
        exact top_down
    · apply reduce
      · push_cast
        exact key_up
      · push_cast
        exact top_up

/-! ### The correlation in rounded arithmetic -/

theorem round_abs_le (D : DoubleOps F) (u : F)
    (hround : ∀ x : F, |D.round x - x| ≤ u * |x|) (x : F) :
    |D.round x| ≤ (1 + u) * |x| := by
  have h := hround x
  have h2 : |D.round x| ≤ |D.round x - x| + |x| := by
    have := abs_add (D.round x - x) x
    rwa [sub_add_cancel] at this
  linarith

theorem round_ge (D : DoubleOps F) (u : F)
    (hround : ∀ x : F, |D.round x - x| ≤ u * |x|) (x : F) (hx : 0 ≤ x) :
    (1 - u) * x ≤ D.round x := by
  have h := hround x
  rw [abs_of_nonneg hx] at h
  have := (abs_le.mp h).1
  linarith

theorem correlation_sums_double_bounds (D : DoubleOps F) (u : F) (hu0 : 0 ≤ u) (hu1 : u ≤ 1)
    (hround : ∀ x : F, |D.round x - x| ≤ u * |x|) (cb1 cb2 : CircularBuffer F)
    (mean1 mean2 : F) (k : Nat) :
    |(correlation_sums_double D cb1 cb2 mean1 mean2 (List.range k)).1|
      ≤ (1 + u) ^ (k + 1) * ∑ i in Finset.range k,
          |D.round (cb_get cb1 (i : Int) - mean1) * D.round (cb_get cb2 (i : Int) - mean2)| ∧
    (1 - u) ^ (k + 1) * ∑ i in Finset.range k,
        D.round (cb_get cb1 (i : Int) - mean1) * D.round (cb_get cb1 (i : Int) - mean1)
      ≤ (correlation_sums_double D cb1 cb2 mean1 mean2 (List.range k)).2.1 ∧
    (1 - u) ^ (k + 1) * ∑ i in Finset.range k,
        D.round (cb_get cb2 (i : Int) - mean2) * D.round (cb_get cb2 (i : Int) - mean2)
      ≤ (correlation_sums_double D cb1 cb2 mean1 mean2 (List.range k)).2.2 := by
  have h1u : 0 ≤ 1 - u := by linarith
  have h1u1 : 1 - u ≤ 1 := by linarith
  have hu' : 1 ≤ 1 + u := by linarith
  -- one rounded accumulation of a square
  have sq_step : ∀ (S B b : F) (m : Nat), 0 ≤ B → (1 - u) ^ (m + 1) * B ≤ S →
      (1 - u) ^ (m + 1 + 1) * (B + b * b) ≤ D.round (S + D.round (b * b)) := by
    intro S B b m hB hS
    have hbb : 0 ≤ b * b := mul_self_nonneg b
    have hq := round_ge D u hround (b * b) hbb
    have hS0 : 0 ≤ S := le_trans (mul_nonneg (pow_nonneg h1u _) hB) hS
    have hq0 : 0 ≤ D.round (b * b) := le_trans (mul_nonneg h1u hbb) hq
    have hr := round_ge D u hround (S + D.round (b * b)) (add_nonneg hS0 hq0)
    have hp : (1 - u) ^ (m + 1 + 1) ≤ (1 - u) * (1 - u) := by
      rw [pow_succ, pow_succ]
      have : (1 - u) ^ m ≤ 1 := pow_le_one₀ h1u h1u1
      calc (1 - u) ^ m * (1 - u) * (1 - u) ≤ 1 * (1 - u) * (1 - u) := by
            apply mul_le_mul_of_nonneg_right _ h1u
            exact mul_le_mul_of_nonneg_right this h1u
        _ = (1 - u) * (1 - u) := by ring
    calc (1 - u) ^ (m + 1 + 1) * (B + b * b)
        = (1 - u) * ((1 - u) ^ (m + 1) * B) + (1 - u) ^ (m + 1 + 1) * (b * b) := by ring
      _ ≤ (1 - u) * S + (1 - u) * (1 - u) * (b * b) :=
          add_le_add (mul_le_mul_of_nonneg_left hS h1u) (mul_le_mul_of_nonneg_right hp hbb)
      _ ≤ (1 - u) * S + (1 - u) * D.round (b * b) := by
          rw [mul_assoc]
          exact add_le_add le_rfl (mul_le_mul_of_nonneg_left hq h1u)
      _ = (1 - u) * (S + D.round (b * b)) := by ring
      _ ≤ _ := hr
  induction k with
  | zero =>
    simp [correlation_sums_double]
  | succ k ih =>
    obtain ⟨ihN, ih1, ih2⟩ := ih
    have hstep : correlation_sums_double D cb1 cb2 mean1 mean2 (List.range (k + 1)) =
        (D.round ((correlation_sums_double D cb1 cb2 mean1 mean2 (List.range k)).1
            + D.round (D.round (cb_get cb1 (k : Int) - mean1)
                * D.round (cb_get cb2 (k : Int) - mean2))),
         D.round ((correlation_sums_double D cb1 cb2 mean1 mean2 (List.range k)).2.1
            + D.round (D.round (cb_get cb1 (k : Int) - mean1)
                * D.round (cb_get cb1 (k : Int) - mean1))),
         D.round ((correlation_sums_double D cb1 cb2 mean1 mean2 (List.range k)).2.2
            + D.round (D.round (cb_get cb2 (k : Int) - mean2)
                * D.round (cb_get cb2 (k : Int) - mean2)))) := by
      unfold correlation_sums_double
      rw [List.range_succ, List.foldl_append]
      rfl
    rw [hstep]
    simp only [Finset.sum_range_succ]
    refine ⟨?_, ?_, ?_⟩
    · set N := (correlation_sums_double D cb1 cb2 mean1 mean2 (List.range k)).1
      set a := D.round (cb_get cb1 (k : Int) - mean1) * D.round (cb_get cb2 (k : Int) - mean2)
      set A := ∑ i in Finset.range k,
          |D.round (cb_get cb1 (i : Int) - mean1) * D.round (cb_get cb2 (i : Int) - mean2)|
      have hA : 0 ≤ A := Finset.sum_nonneg (fun i _ => abs_nonneg _)
      have hp := round_abs_le D u hround a
      have hs := round_abs_le D u hround (N + D.round a)
      have htri : |N + D.round a| ≤ |N| + |D.round a| := abs_add _ _
      have hpow : (1 + u) * (1 + u) ≤ (1 + u) ^ (k + 1 + 1) := by
        rw [pow_succ, pow_succ]
        have : 1 ≤ (1 + u) ^ k := one_le_pow₀ hu'
        calc (1 + u) * (1 + u) = 1 * (1 + u) * (1 + u) := by ring
          _ ≤ (1 + u) ^ k * (1 + u) * (1 + u) := by
            apply mul_le_mul_of_nonneg_right _ (by linarith)
            exact mul_le_mul_of_nonneg_right this (by linarith)
      have hpos : 0 ≤ 1 + u := by linarith
      calc |D.round (N + D.round a)| ≤ (1 + u) * |N + D.round a| := hs
        _ ≤ (1 + u) * (|N| + |D.round a|) := mul_le_mul_of_nonneg_left htri hpos
        _ ≤ (1 + u) * ((1 + u) ^ (k + 1) * A + (1 + u) * |a|) :=
            mul_le_mul_of_nonneg_left (add_le_add ihN hp) hpos
        _ = (1 + u) ^ (k + 1 + 1) * A + (1 + u) * (1 + u) * |a| := by ring
        _ ≤ (1 + u) ^ (k + 1 + 1) * A + (1 + u) ^ (k + 1 + 1) * |a| :=
            add_le_add le_rfl (mul_le_mul_of_nonneg_right hpow (abs_nonneg a))
        _ = (1 + u) ^ (k + 1 + 1) * (A + |a|) := by ring
    · exact sq_step _ _ _ k (Finset.sum_nonneg (fun i _ => mul_self_nonneg _)) ih1
    · exact sq_step _ _ _ k (Finset.sum_nonneg (fun i _ => mul_self_nonneg _)) ih2

/-- The Cauchy-Schwarz inequality for the sum of the absolute cross products. -/
theorem sum_abs_cross_sq_le (f g : Nat → F) (n : Nat) :
    (∑ i in Finset.range n, |f i * g i|) ^ 2
      ≤ (∑ i in Finset.range n, f i * f i) * (∑ i in Finset.range n, g i * g i) := by
  have h := Finset.sum_mul_sq_le_sq_mul_sq (Finset.range n) (fun i => |f i|) (fun i => |g i|)
  simp only [sq_abs] at h
  simp only [abs_mul]
  calc (∑ i in Finset.range n, |f i| * |g i|) ^ 2
      ≤ (∑ i in Finset.range n, f i ^ 2) * (∑ i in Finset.range n, g i ^ 2) := h
    _ = _ := by simp only [sq]

/-- The algebra of the bound: from the bounds of the three rounded sums, of the
rounded product, of the rounded root and of the rounded quotient. -/
theorem rounded_quotient_bound (u N S1 S2 A B C P den r : F) (n : Nat)
    (hu0 : 0 ≤ u) (hu1 : u ≤ 1)
    (hN : |N| ≤ (1 + u) ^ (n + 1) * A) (hAB : A ^ 2 ≤ B * C)
    (hB : 0 ≤ B) (hC : 0 ≤ C)
    (hS1 : (1 - u) ^ (n + 1) * B ≤ S1) (hS2 : (1 - u) ^ (n + 1) * C ≤ S2)
    (hP : (1 - u) * (S1 * S2) ≤ P) (hden0 : 0 < den) (hden : (1 - u) ^ 2 * P ≤ den * den)
    (hr : |r| ≤ (1 + u) * |N / den|) :
    (1 - u) ^ (2 * n + 5) * r ^ 2 ≤ (1 + u) ^ (2 * n + 4) := by
  have h1u : 0 ≤ 1 - u := by linarith
  have hpos : 0 ≤ 1 + u := by linarith
  have hK : 0 ≤ B * C := mul_nonneg hB hC
  rcases hK.lt_or_eq with hKpos | hK0
  · -- r ^ 2 * den ^ 2 ≤ (1 + u) ^ (2 n + 4) * (B * C)
    have hrd : r ^ 2 * (den * den) ≤ (1 + u) ^ (2 * n + 4) * (B * C) := by
      have h1 : |r| * den ≤ (1 + u) * |N| := by
        rw [abs_div, abs_of_pos hden0] at hr
        calc |r| * den ≤ (1 + u) * (|N| / den) * den := mul_le_mul_of_nonneg_right hr hden0.le
          _ = (1 + u) * |N| := by field_simp
      have h2 : |r| * den ≤ (1 + u) * ((1 + u) ^ (n + 1) * A) :=
        le_trans h1 (mul_le_mul_of_nonneg_left hN hpos)
      have h3 : (|r| * den) ^ 2 ≤ ((1 + u) * ((1 + u) ^ (n + 1) * A)) ^ 2 :=
        pow_le_pow_left₀ (mul_nonneg (abs_nonneg r) hden0.le) h2 2
      calc r ^ 2 * (den * den) = (|r| * den) ^ 2 := by rw [mul_pow, sq_abs, sq den]
        _ ≤ ((1 + u) * ((1 + u) ^ (n + 1) * A)) ^ 2 := h3
        _ = (1 + u) ^ (2 * n + 4) * A ^ 2 := by ring
        _ ≤ (1 + u) ^ (2 * n + 4) * (B * C) :=
            mul_le_mul_of_nonneg_left hAB (pow_nonneg hpos _)
    have hdd : (1 - u) ^ (2 * n + 5) * (B * C) ≤ den * den := by
      have hS1' : 0 ≤ (1 - u) ^ (n + 1) * B := mul_nonneg (pow_nonneg h1u _) hB
      have hS2' : 0 ≤ (1 - u) ^ (n + 1) * C := mul_nonneg (pow_nonneg h1u _) hC
      have hSS : (1 - u) ^ (n + 1) * B * ((1 - u) ^ (n + 1) * C) ≤ S1 * S2 :=
        mul_le_mul hS1 hS2 hS2' (le_trans hS1' hS1)
      calc (1 - u) ^ (2 * n + 5) * (B * C)
          = (1 - u) ^ 2 * ((1 - u) * ((1 - u) ^ (n + 1) * B * ((1 - u) ^ (n + 1) * C))) := by
            ring
        _ ≤ (1 - u) ^ 2 * ((1 - u) * (S1 * S2)) :=
            mul_le_mul_of_nonneg_left (mul_le_mul_of_nonneg_left hSS h1u) (pow_nonneg h1u _)
        _ ≤ (1 - u) ^ 2 * P := mul_le_mul_of_nonneg_left hP (pow_nonneg h1u _)
        _ ≤ den * den := hden
    have hfin : (1 - u) ^ (2 * n + 5) * r ^ 2 * (B * C) ≤ (1 + u) ^ (2 * n + 4) * (B * C) := by
      calc (1 - u) ^ (2 * n + 5) * r ^ 2 * (B * C)
          = r ^ 2 * ((1 - u) ^ (2 * n + 5) * (B * C)) := by ring
        _ ≤ r ^ 2 * (den * den) := mul_le_mul_of_nonneg_left hdd (sq_nonneg r)
        _ ≤ _ := hrd
    exact le_of_mul_le_mul_right hfin hKpos
  · have hA0 : A = 0 := by
      have hsq : A ^ 2 ≤ 0 := by rw [hK0]; exact hAB
      have : A ^ 2 = 0 := le_antisymm hsq (sq_nonneg A)
      exact pow_eq_zero_iff (two_ne_zero) |>.mp this
    rw [hA0, mul_zero] at hN
    have hN0 : N = 0 := abs_eq_zero.mp (le_antisymm hN (abs_nonneg N))
    rw [hN0, zero_div, abs_zero, mul_zero] at hr
    have hr0 : r = 0 := abs_eq_zero.mp (le_antisymm hr (abs_nonneg r))
    rw [hr0]
    simp only [ne_eq, OfNat.ofNat_ne_zero, not_false_eq_true, zero_pow, mul_zero]
    exact pow_nonneg hpos _

/-- From the bound on the square to a linear bound: if
`(1 - u) ^ m * r ^ 2 ≤ (1 + u) ^ k` with `k ≤ m` and `m * u ≤ 1 / 2`, then
`|r| ≤ 1 + 2 * m * u`. -/
theorem linear_bound_of_sq_bound (u r : F) (m k : Nat) (hkm : k ≤ m) (hu0 : 0 ≤ u) (hu1 : u ≤ 1)
    (hm : (m : F) * u ≤ 1 / 2) (h : (1 - u) ^ m * r ^ 2 ≤ (1 + u) ^ k) :
    |r| ≤ 1 + 2 * (m : F) * u := by
  have h1u : 0 ≤ 1 - u := by linarith
  have hu' : 1 ≤ 1 + u := by linarith
  have hmu0 : 0 ≤ (m : F) * u := mul_nonneg (Nat.cast_nonneg m) hu0
  have hbern : 1 - (m : F) * u ≤ (1 - u) ^ m := by
    have := one_add_mul_le_pow (show (-2 : F) ≤ -u by linarith) m
    calc 1 - (m : F) * u = 1 + (m : F) * -u := by ring
      _ ≤ (1 + -u) ^ m := this
      _ = (1 - u) ^ m := by rw [← sub_eq_add_neg]
  have hprod : (1 + u) ^ k * (1 - u) ^ m ≤ 1 := by
    have h1 : (1 + u) ^ k ≤ (1 + u) ^ m := pow_le_pow_right₀ hu' hkm
    have h2 : (1 + u) ^ m * (1 - u) ^ m ≤ 1 := by
      rw [← mul_pow]
      apply pow_le_one₀ (mul_nonneg (by linarith) h1u)
      nlinarith
    exact le_trans (mul_le_mul_of_nonneg_right h1 (pow_nonneg h1u _)) h2
  have hsq : ((1 - u) ^ m * |r|) ^ 2 ≤ 1 := by
    calc ((1 - u) ^ m * |r|) ^ 2 = (1 - u) ^ m * r ^ 2 * (1 - u) ^ m := by
          rw [mul_pow, sq_abs]
          ring
      _ ≤ (1 + u) ^ k * (1 - u) ^ m := mul_le_mul_of_nonneg_right h (pow_nonneg h1u _)
      _ ≤ 1 := hprod
  have hle : (1 - u) ^ m * |r| ≤ 1 := by
    have hnn : 0 ≤ (1 - u) ^ m * |r| := mul_nonneg (pow_nonneg h1u _) (abs_nonneg r)
    by_contra hc
    push_neg at hc
    have : 1 < ((1 - u) ^ m * |r|) ^ 2 := by nlinarith
    linarith
  have hle2 : (1 - (m : F) * u) * |r| ≤ 1 :=
    le_trans (mul_le_mul_of_nonneg_right hbern (abs_nonneg r)) hle
  have hr0 : 0 ≤ |r| := abs_nonneg r
  nlinarith [mul_nonneg hmu0 (show (0 : F) ≤ 1 / 2 - (m : F) * u by linarith),
    mul_nonneg hr0 (mul_nonneg hmu0 (show (0 : F) ≤ 1 / 2 - (m : F) * u by linarith))]

/-- C39 (amended): in an arithmetic whose rounding has relative error at most `u`
(`|round x - x| ≤ u * |x|`, with `0 ≤ u ≤ 1`) and whose `sqrt` of a non-negative
number is non-negative with `(1 - u) ^ 2 * x ≤ sqrt x * sqrt x`, the value `r` that
`calculate_correlation` returns for two windows, the first of size `n`, satisfies
`(1 - u) ^ (2 n + 5) * r ^ 2 ≤ (1 + u) ^ (2 n + 4)`, and `|r| ≤ 1 + 2 (2 n + 5) u`
when `(2 n + 5) u ≤ 1 / 2`: it is 0 when the sizes differ or are below 2 (and when
the computed denominator is 0) and otherwise the rounded quotient, bounded by the
Cauchy-Schwarz inequality on the rounded centred series and the rounding errors of
the three sums, the product, the root and the quotient.  Binary64 is such an
arithmetic with `u = 2 ^ (-53)` (`round64_error`, `sqrt64_spec`; overflow and
underflow apart), and exact arithmetic with an exact square root is the case
`u = 0`, where the bound is `|r| ≤ 1`. -/
theorem correlation_double_bounded (D : DoubleOps F) (u : F) (hu0 : 0 ≤ u) (hu1 : u ≤ 1)
    (hround : ∀ x : F, |D.round x - x| ≤ u * |x|)
    (hsqrt : ∀ x : F, 0 ≤ x → 0 ≤ D.sqrt x ∧ (1 - u) ^ 2 * x ≤ D.sqrt x * D.sqrt x)
    (cb1 cb2 : CircularBuffer F) :
    (1 - u) ^ (2 * (cb_size cb1).toNat + 5) * calculate_correlation_double D cb1 cb2 ^ 2
      ≤ (1 + u) ^ (2 * (cb_size cb1).toNat + 4) ∧
    (((2 * (cb_size cb1).toNat + 5 : Nat) : F) * u ≤ 1 / 2 →
      |calculate_correlation_double D cb1 cb2|
        ≤ 1 + 2 * ((2 * (cb_size cb1).toNat + 5 : Nat) : F) * u) ∧
    (cb_size cb1 ≠ cb_size cb2 ∨ cb_size cb1 < 2 →
      calculate_correlation_double D cb1 cb2 = 0) := by
  have hpos : 0 ≤ 1 + u := by linarith
  have h1u : 0 ≤ 1 - u := by linarith
  have hsq : (1 - u) ^ (2 * (cb_size cb1).toNat + 5) * calculate_correlation_double D cb1 cb2 ^ 2
      ≤ (1 + u) ^ (2 * (cb_size cb1).toNat + 4) := by
    unfold calculate_correlation_double
    simp only []
    split_ifs with hg hd
    · simp only [ne_eq, OfNat.ofNat_ne_zero, not_false_eq_true, zero_pow, mul_zero]
      exact pow_nonneg hpos _
    · simp only [ne_eq, OfNat.ofNat_ne_zero, not_false_eq_true, zero_pow, mul_zero]
      exact pow_nonneg hpos _
    · obtain ⟨hN, hS1, hS2⟩ := correlation_sums_double_bounds D u hu0 hu1 hround cb1 cb2
        (rolling_mean_double D cb1) (rolling_mean_double D cb2) (cb_size cb1).toNat
      have hB : 0 ≤ ∑ i in Finset.range (cb_size cb1).toNat,
          D.round (cb_get cb1 (i : Int) - rolling_mean_double D cb1)
            * D.round (cb_get cb1 (i : Int) - rolling_mean_double D cb1) :=
        Finset.sum_nonneg (fun i _ => mul_self_nonneg _)
      have hC : 0 ≤ ∑ i in Finset.range (cb_size cb1).toNat,
          D.round (cb_get cb2 (i : Int) - rolling_mean_double D cb2)
            * D.round (cb_get cb2 (i : Int) - rolling_mean_double D cb2) :=
        Finset.sum_nonneg (fun i _ => mul_self_nonneg _)
      have hS1n := le_trans (mul_nonneg (pow_nonneg h1u _) hB) hS1
      have hS2n := le_trans (mul_nonneg (pow_nonneg h1u _) hC) hS2
      have hP := round_ge D u hround _ (mul_nonneg hS1n hS2n)
      have hPn := le_trans (mul_nonneg h1u (mul_nonneg hS1n hS2n)) hP
      obtain ⟨hden0, hden⟩ := hsqrt _ hPn
      exact rounded_quotient_bound u _ _ _ _ _ _ _ _ _ (cb_size cb1).toNat hu0 hu1 hN
        (sum_abs_cross_sq_le _ _ _) hB hC hS1 hS2 hP
        (lt_of_le_of_ne hden0 (Ne.symm hd)) hden (round_abs_le D u hround _)
  refine ⟨hsq, fun hm => ?_, fun hg => ?_⟩
  · exact linear_bound_of_sq_bound u _ (2 * (cb_size cb1).toNat + 5)
      (2 * (cb_size cb1).toNat + 4) (by omega) hu0 hu1 hm hsq
  · unfold calculate_correlation_double
    simp only []
    rw [if_pos hg]

theorem correlation_double_bounded_witness :
    |calculate_correlation_double binary64 (cb_pushes 5 [1, 2, 4]) (cb_pushes 5 [3, 6, 12])|
      ≤ 1 + 2 * ((2 * 3 + 5 : Nat) : ℚ) * (1 / 2 ^ 53) := by
  have h := (correlation_double_bounded binary64 (1 / 2 ^ 53) (by norm_num) (by norm_num)
    round64_error (fun x hx => ⟨(sqrt64_spec x hx).1, (sqrt64_spec x hx).2.1⟩)
    (cb_pushes 5 [1, 2, 4]) (cb_pushes 5 [3, 6, 12])).2.1
  have hn : (cb_size (cb_pushes 5 ([1, 2, 4] : List ℚ))).toNat = 3 := rfl
  rw [hn] at h
  exact h (by norm_num)

end Sakura
